import Mathlib

/-!
# UZZ step sequencer: a shallow embedding of `src/UZZ.cpp`

The per-sample engine `UZZ::process` and its helpers are translated block by
block.  Conventions of the embedding:

* C++ `int` values are `Int`.  Slot indices, window offsets and table indices
  stay far below `2^31`; the swing parity counter, which is incremented without
  bound, is reduced to 32 bits (`wrapInt32`), and a `float` converted to `int` goes
  through `floatToInt`.  `x & 15` on a two's-complement `int` is `x % 16`
  (Euclidean), C++ `%` is `Int.tmod` (truncating).
* C++ `float` values are rationals (`ℚ`).  On the clock path (the sample-time
  accumulators, the measured period and its quotient by the ratio, the ratio
  table, the virtual oscillator, the phase timeout, the swing delay and its
  timer), in the random index, in the transpose, in the pitch target and in the
  glide filter every operation is rounded to IEEE 754 binary32 by `f32` (round to
  nearest, ties to even, gradual underflow; overflow is not modelled).  The
  constants `0.1f`, `0.6f` and `1.f/3.f` are their binary32 values; `1e-4f`,
  `1e-6f`, `1e-9f` and `0.0005f` are written as the decimals, which compare with
  a binary32 value in the same way (theorems `decimal_constants`,
  `f32_gt_const`, `f32_le_const`, `f32_lt_const`), and `1e-6f` lies below every
  entry of the ratio table.  Doubling (`lastPeriod * 2.f`) is exact in binary32.
  The gate-length and modulation arithmetic is exact.
* A parameter that the source reads through `(int) std::round(getValue())` is
  represented by the integer that read produces.
* The Schmitt triggers of the Rack SDK are represented by their per-sample
  result (`clkEdge`, `rstEdge`), the pseudo-random source by the value drawn.
-/

namespace UZZ

/-! ## Integer and rounding helpers -/

/-- Source `wrap16`: `x & 15`, the low four bits of a two's-complement int. -/
def wrap16 (x : Int) : Int := x % 16

/-- Rack's `clamp(x, a, b)`, which is `max(min(x, b), a)`. -/
def clamp {α : Type} [LinearOrder α] (x a b : α) : α := max (min x b) a

/-- The C library `round` on an exact value: nearest integer, halves away from zero. -/
def roundHalfAway (x : ℚ) : Int :=
  if 0 ≤ x then ⌊x + 1 / 2⌋ else -⌊-x + 1 / 2⌋

/-! ## Single-precision arithmetic -/

/-- The power `2 ^ e` for an integer exponent. -/
def pow2 (e : Int) : ℚ :=
  if 0 ≤ e then ((2 ^ e.toNat : Nat) : ℚ) else 1 / ((2 ^ (-e).toNat : Nat) : ℚ)

/-- Base-2 logarithm of a natural number, rounded down (`fuel` bounds the recursion). -/
def ilog2 : Nat → Nat → Nat
  | 0, _ => 0
  | fuel + 1, n => if 2 ≤ n then ilog2 fuel (n / 2) + 1 else 0

/-- The binade of a non-zero `x`: the exponent `e` with `2 ^ e ≤ |x| < 2 ^ (e + 1)`. -/
def binade (x : ℚ) : Int :=
  let a : Int := (ilog2 x.num.natAbs x.num.natAbs : Int) - (ilog2 x.den x.den : Int)
  if pow2 a ≤ |x| then a else a - 1

/-- Nearest integer, ties to the even one. -/
def roundEven (q : ℚ) : Int :=
  if q - ⌊q⌋ < 1 / 2 then ⌊q⌋
  else if 1 / 2 < q - ⌊q⌋ then ⌊q⌋ + 1
  else if ⌊q⌋ % 2 = 0 then ⌊q⌋ else ⌊q⌋ + 1

/-- Exponent of the spacing of the `float` grid around `x`: 23 below the binade,
and `-149` throughout the subnormal range. -/
def ulpExp (x : ℚ) : Int := max (binade x) (-126) - 23

/-- The value of a real result stored in a C++ `float` (IEEE 754 binary32, round
to nearest, ties to even): 24 significant bits, gradual underflow below
`2 ^ -126`.  Overflow to infinity is not represented: beyond the largest finite
`float` the 24-bit grid is continued. -/
def f32 (x : ℚ) : ℚ :=
  if x = 0 then 0 else (roundEven (x / pow2 (ulpExp x)) : ℚ) * pow2 (ulpExp x)

/-- The C++ conversion `(int) x` of an integral `float` value.  Outside the range
of `int` the conversion is undefined in C++; the value given here is the one the
x86-64 conversion instruction returns, `INT_MIN`. -/
def floatToInt (x : Int) : Int :=
  if -2 ^ 31 ≤ x ∧ x < 2 ^ 31 then x else -2 ^ 31

/-- A C++ `int` result reduced to 32 bits (two's complement): `INT_MAX + 1` is
`INT_MIN`. -/
def wrapInt32 (x : Int) : Int := (x + 2 ^ 31) % 2 ^ 32 - 2 ^ 31

/-! ## Tables and constants -/

/-- Source `RATIO_TABLE[]`, 29 entries from ÷48 to ×48; the divisors are the
`float` quotients `1.f/48.f`, ..., `1.f/1.5f`. -/
def RATIO_TABLE : List ℚ :=
  [f32 (1/48), f32 (1/32), f32 (1/24), f32 (1/16), f32 (1/12), f32 (1/10),
   f32 (1/8), f32 (1/6), f32 (1/5), f32 (1/4), f32 (1/3), f32 (1/(5/2)), f32 (1/2), f32 (1/(3/2)),
   1,
   3/2, 2, 5/2, 3, 4, 5, 6, 8, 10, 12, 16, 24, 32, 48]

/-- Source `NUM_RATIOS`, the number of entries of `RATIO_TABLE`. -/
def NUM_RATIOS : Int := RATIO_TABLE.length

/-- Member `trigLen = 0.010f`; it is never assigned after initialisation. -/
def trigLen : ℚ := 0.010

/-! ## Parameters, inputs, state -/

/-- Parameter values as the engine reads them in one sample.  Enumerated
parameters carry the integer produced by `(int) std::round(getValue())`;
per-step rows are indexed by slot. -/
structure Params where
  /-- Row `STEP_MODE_0 + i`: 0 = Play, 1 = Mute, 2 = Skip. -/
  stepMode : Int → Int
  /-- Row `PITCH_0 + i` (semitones, read as a float). -/
  pitch : Int → ℚ
  /-- Row `OCT_0 + i`. -/
  oct : Int → Int
  /-- Row `DUR_0 + i` (seconds). -/
  dur : Int → ℚ
  /-- Row `M1_0 + i`. -/
  m1 : Int → ℚ
  /-- Row `M2_0 + i`. -/
  m2 : Int → ℚ
  /-- The read of `STEPS_PARAM`. -/
  steps : Int
  /-- The read of `START_PARAM` (1-based). -/
  start : Int
  /-- The read of `DIR_MODE_PARAM`. -/
  dirMode : Int
  /-- The read of `GATE_MODE_PARAM`. -/
  gateMode : Int
  /-- The read of `RATIO_IDX_PARAM`. -/
  ratioIdx : Int
  /-- The value of `SWING_PARAM`. -/
  swing : ℚ
  /-- The value of `SLEW_PARAM`. -/
  slew : ℚ

/-- What one call of `process` receives besides the parameters. -/
structure Inputs where
  /-- The value of `args.sampleTime`. -/
  sampleTime : ℚ
  /-- Result of `inputs[CLK_INPUT].isConnected()`. -/
  clkConnected : Bool
  /-- Result of `clkTrig.process(...)` (only evaluated when the clock is connected). -/
  clkEdge : Bool
  /-- Result of `rstTrig.process(...)`. -/
  rstEdge : Bool
  /-- Transpose voltage: `none` when `XPOSE_INPUT` is disconnected or not finite. -/
  xpose : Option ℚ
  /-- The value `random::uniform()` returns if navigation draws one. -/
  uniform : ℚ
  /-- The value of `1 - exp(-sampleTime / tau)` as computed by the math library. -/
  expAlpha : ℚ
  /-- The value of `sqrt(min(expAlpha, 1))` as computed by the math library. -/
  sqrtAlpha : ℚ

/-- The member variables of `struct UZZ` that `process` reads or writes.
A `dsp::PulseGenerator` is represented by its `remaining` time. -/
structure State where
  step : Int
  gatePulse : ℚ
  eocPulse : ℚ
  stepGateTrig : Int → ℚ
  timeSinceClk : ℚ
  lastPeriod : ℚ
  playCurrentOnNextTick : Bool
  resetPending : Bool
  resetTargetStep : Int
  eocOnReset : Bool
  virtTimer : ℚ
  virtPeriod : ℚ
  clockWasConnected : Bool
  havePhase : Bool
  sinceLastEdge : ℚ
  prevClkConnected : Bool
  pingDir : Int
  drunkDir : Int
  swingPhase : Int
  queuedBaseTicks : Int
  tickPending : Bool
  pendingDelay : ℚ
  pendingTimer : ℚ
  pitchOut : ℚ
  pitchInit : Bool
  sinceLastTick : ℚ
  m1Range : Int
  m2Range : Int

/-! ## Pulse generators (Rack SDK) -/

/-- Modelled from the spec: `dsp::PulseGenerator::trigger` belongs to the Rack
SDK, not to this repository.  Spec §3 GateState: "retriggering while active
extends/replaces the remaining time to the new length". -/
def pulseTrigger (remaining duration : ℚ) : ℚ :=
  if duration > remaining then duration else remaining

/-- Modelled from the spec: `dsp::PulseGenerator::process` (Rack SDK).  Spec §3
GateState: timers "monotonically counting down to zero once triggered"; the
pulse is high while time remains. -/
def pulseProcess (remaining dt : ℚ) : ℚ × Bool :=
  if remaining > 0 then (remaining - dt, true) else (remaining, false)

/-! ## Navigation between steps -/

/-- One iteration's offset update in `findNextPlayable` / `findNeighborPlayable`:
`(rel + 1) % len` forward, `(rel - 1 + len) % len` backward. -/
def relStep (fwd : Bool) (rel len : Int) : Int :=
  if fwd then (rel + 1).tmod len else (rel - 1 + len).tmod len

/-- The `for (tries ...)` loop of `findNextPlayable`: `n` iterations remain,
`rel` is the running offset.  `some cand` is the early `return cand`. -/
def scanPlayable (mode : Int → Int) (start len : Int) (fwd : Bool) : Nat → Int → Option Int
  | 0, _ => none
  | n + 1, rel =>
    let rel1 := relStep fwd rel len
    let cand := wrap16 (start + rel1)
    if mode cand ≠ 2 then some cand else scanPlayable mode start len fwd n rel1

/-- Source `int findNextPlayable(int start, int len, int dir, int currentRel, bool& allSkip)`;
the result pairs the returned slot with the final value of `allSkip`. -/
def findNextPlayable (mode : Int → Int) (start len dir currentRel : Int) : Int × Bool :=
  match scanPlayable mode start len (dir == 0) len.toNat currentRel with
  | some cand => (cand, false)
  | none => (wrap16 (start + relStep (dir == 0) currentRel len), true)

/-- Source `int findNeighborPlayable(int start, int len, int currentRel, int dirSign, bool& allSkip)`. -/
def findNeighborPlayable (mode : Int → Int) (start len currentRel dirSign : Int) : Int × Bool :=
  match scanPlayable mode start len (decide (dirSign > 0)) len.toNat currentRel with
  | some cand => (cand, false)
  | none => (wrap16 (start + relStep (decide (dirSign > 0)) currentRel len), true)

/-- Window offset of a slot: `(step - start + 16) & 15`. -/
def relOf (step start : Int) : Int := wrap16 (step - start + 16)

/-- The `pool` built in the `DIR_RANDOM` branch: the non-Skip slots of the
window, in window order (`k` runs from `k0` for `n` iterations). -/
def randomPool (mode : Int → Int) (start : Int) : Nat → Int → List Int
  | 0, _ => []
  | n + 1, k =>
    let sIdx := wrap16 (start + k)
    if mode sIdx ≠ 2 then sIdx :: randomPool mode start n (k + 1)
    else randomPool mode start n (k + 1)

/-- The `anyPlayable` loop used for `muteGlobal`. -/
def anyPlayable (mode : Int → Int) (start : Int) : Nat → Int → Bool
  | 0, _ => false
  | n + 1, k => if mode (wrap16 (start + k)) ≠ 2 then true else anyPlayable mode start n (k + 1)

/-! ## Modulation ranges -/

/-- Source `UZZRanges::RANGE_DEFS`: `(minV, maxV)` per range selector. -/
def RANGE_DEFS : List (ℚ × ℚ) :=
  [(-10, 10), (-5, 5), (-3, 3), (-2, 2), (-1, 1), (0, 10), (0, 5), (0, 3), (0, 2), (0, 1)]

/-- Source `UZZRanges::MR_COUNT`. -/
def MR_COUNT : Int := 10

/-- Source `UZZRanges::mapMod0_10ToRange(float raw0_10, int r)`. -/
def mapMod0_10ToRange (raw0_10 : ℚ) (r : Int) : ℚ :=
  let d := RANGE_DEFS.getD (clamp r 0 (MR_COUNT - 1)).toNat (0, 0)
  let t := clamp raw0_10 0 10 / 10
  d.1 + (d.2 - d.1) * t

/-! ## Blocks of `process`, in source order -/

/-- Lines 533-542: clock-cable timers and the anti-bounce timer; each `+=` stores
the sum in a `float`. -/
def tickTimers (s : State) (I : Inputs) : State :=
  let s1 : State :=
    if I.clkConnected then
      { s with timeSinceClk := f32 (s.timeSinceClk + I.sampleTime),
               sinceLastEdge := f32 (s.sinceLastEdge + I.sampleTime) }
    else { s with timeSinceClk := 0 }
  { s1 with sinceLastTick := f32 (s1.sinceLastTick + I.sampleTime) }

/-- Line 579: `steps = clamp(read, 1, 16)`. -/
def windowSteps (P : Params) : Int := clamp P.steps 1 16

/-- Line 580: `start = clamp(read - 1, 0, 15)`. -/
def windowStart (P : Params) : Int := clamp (P.start - 1) 0 15

/-- Lines 582-583: fold the current step back into the window. -/
def foldStep (step start steps : Int) : Int :=
  let rel := relOf step start
  if rel ≥ steps then wrap16 (start + rel.tmod steps) else step

/-- Lines 587-607: the body executed when `rstTrig.process` reports an edge. -/
def resetBlock (s : State) (start : Int) : State :=
  { s with
    resetPending := true
    resetTargetStep := start
    playCurrentOnNextTick := true
    gatePulse := 0
    eocPulse := if s.eocOnReset then pulseTrigger 0 trigLen else 0
    stepGateTrig := fun _ => 0
    pingDir := 0
    drunkDir := 1
    swingPhase := 0
    queuedBaseTicks := 0
    tickPending := false
    pendingDelay := 0
    pendingTimer := 0
    virtTimer := 0 }

/-- Lines 612-619: transpose in semitones, `clamp((int) std::round(v * 12.f), -48, 48)`:
the product is a `float`, and it is converted to `int` before the clamp. -/
def xposeSemis (I : Inputs) : Int :=
  match I.xpose with
  | none => 0
  | some v => clamp (floatToInt (roundHalfAway (f32 (v * 12)))) (-48) 48

/-- Lines 621-623: the pitch target before glide,
`((semis + (float)xposeSemis) / 12.f) + (float)octIv`, each operation a `float`. -/
def pitchTarget (P : Params) (I : Inputs) (step : Int) : ℚ :=
  f32 (f32 (f32 (P.pitch step + (xposeSemis I : ℚ)) / 12) + (P.oct step : ℚ))

/-- Lines 644-652 and 890-900: the glide filter,
`pitchOut += (pitchV - pitchOut) * alpha` in `float` arithmetic; `alpha` is the
smoothing coefficient of the path taken (`expAlpha` without clock, `sqrtAlpha`
with). -/
def slew (s : State) (P : Params) (pitchV alpha : ℚ) : State :=
  if P.slew ≤ 1e-6 then { s with pitchOut := pitchV, pitchInit := true }
  else
    let p0 := if !s.pitchInit then pitchV else s.pitchOut
    { s with pitchOut := f32 (p0 + f32 (f32 (pitchV - p0) * alpha)), pitchInit := true }

/-- Source `hardStop(int steps)`, state part (its outputs are all 0 V). -/
def hardStop (s : State) : State :=
  { s with
    gatePulse := 0
    eocPulse := 0
    stepGateTrig := fun _ => 0
    virtTimer := 0
    lastPeriod := 0
    havePhase := false
    sinceLastEdge := 0
    clockWasConnected := false }

/-- Lines 664-686: the body executed on a detected clock edge; the quotient
`lastPeriod / ratio` is stored in a `float`. -/
def clockEdge (s : State) (ratio : ℚ) : State :=
  let s1 : State := { s with lastPeriod := s.timeSinceClk, timeSinceClk := 0, sinceLastEdge := 0 }
  let s2 : State :=
    if s1.lastPeriod > 1e-4 then { s1 with virtPeriod := f32 (s1.lastPeriod / max ratio 1e-6) }
    else s1
  let isIntMultiplier : Bool :=
    decide (ratio ≥ 1) && decide (|ratio - (roundHalfAway ratio : ℚ)| < 1e-4)
  let s3 : State :=
    if ratio ≥ 1 then
      let s21 : State := { s2 with virtTimer := 0 }
      if isIntMultiplier then { s21 with queuedBaseTicks := s21.queuedBaseTicks + 1 } else s21
    else s2
  { s3 with clockWasConnected := true, havePhase := true }

/-- Lines 689-696: loss of phase after a timeout without edges; the lower bound
of the clamp is the `float` constant `0.1f`. -/
def phaseTimeout (s : State) : State :=
  let timeout : ℚ := if s.lastPeriod > 1e-4 then clamp (s.lastPeriod * 2) (f32 0.1) 1.0 else 0.5
  if s.havePhase ∧ s.sinceLastEdge > timeout then { s with havePhase := false, virtTimer := 0 }
  else s

/-- Lines 701-704: `while (virtTimer >= virtPeriod) { virtTimer -= virtPeriod; queuedBaseTicks++; }`
with a bound on the number of iterations; each `-=` stores the difference in a
`float`. -/
def oscLoop : Nat → ℚ → ℚ → Int → ℚ × Int
  | 0, vt, _, q => (vt, q)
  | n + 1, vt, vp, q => if vt ≥ vp then oscLoop n (f32 (vt - vp)) vp (q + 1) else (vt, q)

/-- Lines 699-705: the virtual oscillator.  The loop is given twice the exact
quotient `⌊virtTimer / virtPeriod⌋` plus two iterations: as long as the quotient
is below `2 ^ 23` every rounded subtraction takes off at least half a period, so
the condition becomes false within that bound. -/
def virtualOscillator (s : State) (dt : ℚ) : State :=
  if s.havePhase ∧ s.virtPeriod > 0 then
    let vt := f32 (s.virtTimer + dt)
    let r := oscLoop (2 * ⌊vt / s.virtPeriod⌋.toNat + 2) vt s.virtPeriod s.queuedBaseTicks
    { s with virtTimer := r.1, queuedBaseTicks := r.2 }
  else s

/-- Lines 724-727: the swing delay designed for the tick taken from the queue;
`0.6f` and `1.f/3.f` are `float` constants and both products are `float`s. -/
def swingDelay (s : State) (P : Params) : ℚ :=
  let swingAmt := clamp P.swing 0 (f32 0.6)
  let sw := f32 (f32 (1 / 3) * swingAmt)
  let isOdd : Bool := s.swingPhase % 2 == 1
  if isOdd then f32 (sw * s.virtPeriod) else 0

/-- Lines 707-719: a tick deferred by swing fires once its delay has elapsed;
the Boolean is `clockNow`. -/
def pendingTick (s : State) (dt : ℚ) : State × Bool :=
  if s.tickPending then
    let s01 : State := { s with pendingTimer := f32 (s.pendingTimer + dt) }
    if s01.pendingTimer ≥ s01.pendingDelay then
      ({ s01 with tickPending := false, pendingTimer := 0,
                  swingPhase := wrapInt32 (s01.swingPhase + 1), sinceLastTick := 0 }, true)
    else (s01, false)
  else (s, false)

/-- Lines 722-745: take one base tick from the queue: fire it, discard it
(anti-bounce) or defer it (swing); `r` is the state and `clockNow` so far. -/
def serviceQueue (r : State × Bool) (P : Params) : State × Bool :=
  if !r.1.tickPending && !r.2 && decide (r.1.queuedBaseTicks > 0) then
    let s2 : State := { r.1 with pendingDelay := swingDelay r.1 P }
    if s2.pendingDelay ≤ 1e-9 then
      if s2.sinceLastTick < 0.0005 then
        ({ s2 with queuedBaseTicks := s2.queuedBaseTicks - 1 }, r.2)
      else
        ({ s2 with queuedBaseTicks := s2.queuedBaseTicks - 1,
                   swingPhase := wrapInt32 (s2.swingPhase + 1), sinceLastTick := 0 }, true)
    else
      ({ s2 with tickPending := true, pendingTimer := 0,
                 queuedBaseTicks := s2.queuedBaseTicks - 1 }, r.2)
  else r

/-- Lines 707-745: the swing scheduler; the Boolean is `clockNow`. -/
def swingScheduler (s : State) (P : Params) (dt : ℚ) : State × Bool :=
  serviceQueue (pendingTick s dt) P

/-- What the direction logic of lines 755-807 hands to the rest of the tick. -/
structure NavResult where
  nextStep : Int
  wrapped : Bool
  allSkip : Bool
  pingDir : Int
  drunkDir : Int

/-- Lines 756-807: the direction logic of a normal (non-replay) tick.
`u` is the value of `random::uniform()` for the modes that draw one; in Random
mode the index is `(int) std::floor(u * pool.size())` with a `float` product. -/
def navigate (s : State) (mode : Int → Int) (start steps modeDir : Int) (u : ℚ) : NavResult :=
  let relBefore := relOf s.step start
  if modeDir = 0 ∨ modeDir = 1 then
    let dir : Int := if modeDir = 0 then 0 else 1
    let r := findNextPlayable mode start steps dir relBefore
    let relAfter := relOf r.1 start
    { nextStep := r.1
      wrapped := if dir = 0 then decide (relAfter < relBefore) else decide (relAfter > relBefore)
      allSkip := r.2
      pingDir := s.pingDir
      drunkDir := s.drunkDir }
  else if modeDir = 2 then
    let dir := s.pingDir
    let r1 := findNextPlayable mode start steps dir relBefore
    let relAfter1 := relOf r1.1 start
    let wouldWrap : Bool :=
      if dir = 0 then decide (relAfter1 < relBefore) else decide (relAfter1 > relBefore)
    if !r1.2 && !wouldWrap then
      { nextStep := r1.1, wrapped := false, allSkip := false,
        pingDir := s.pingDir, drunkDir := s.drunkDir }
    else
      let pingDir := 1 - s.pingDir
      let r2 := findNextPlayable mode start steps pingDir relBefore
      { nextStep := r2.1, wrapped := true, allSkip := false,
        pingDir := pingDir, drunkDir := s.drunkDir }
  else if modeDir = 3 then
    let pool := randomPool mode start steps.toNat 0
    let nextStep : Int :=
      if !pool.isEmpty then
        let idx : Int :=
          clamp (floatToInt ⌊f32 (u * (pool.length : ℚ))⌋) 0 ((pool.length : Int) - 1)
        pool.getD idx.toNat 0
      else (findNextPlayable mode start steps 0 relBefore).1
    { nextStep := nextStep, wrapped := false, allSkip := false,
      pingDir := s.pingDir, drunkDir := s.drunkDir }
  else
    let drunkDir : Int := if u < 0.5 then -1 else 1
    let rA := findNeighborPlayable mode start steps relBefore drunkDir
    let nextStep : Int :=
      if !rA.2 then rA.1 else (findNeighborPlayable mode start steps relBefore (-drunkDir)).1
    let relAfter := relOf nextStep start
    { nextStep := nextStep
      wrapped := (relBefore == 0 && relAfter == steps - 1) || (relBefore == steps - 1 && relAfter == 0)
      allSkip := false
      pingDir := s.pingDir
      drunkDir := drunkDir }

/-- Lines 835-852: the length handed to `gatePulse.trigger` and `stepGateTrig[k].trigger`. -/
def gateLength (gateMode : Int) (dur ratio virtPeriod sampleTime : ℚ) : ℚ :=
  let userDur := clamp dur 0.001 10.0
  let gLen := if gateMode = 0 then userDur else trigLen
  if gateMode = 0 ∧ ratio > 1 ∧ virtPeriod > 0 then
    let maxDuty := virtPeriod * 0.90
    let gLen1 := if gLen > maxDuty then maxDuty else gLen
    let minOff := max 0.001 (2 * sampleTime)
    let maxLen := virtPeriod - minOff
    if gLen1 > maxLen then max trigLen maxLen else gLen1
  else gLen

/-- What a step-advance did to the pulse generators (observation only):
`wrapped` is the condition of `eocPulse.trigger(trigLen)` on line 817, `fired`
holds `(k, gLen)` when lines 855-856 triggered the aggregate pulse and the
per-step pulse `k`; `none` means line 859 reset the aggregate pulse. -/
structure TickTrace where
  wrapped : Bool
  fired : Option (Int × ℚ)
  deriving DecidableEq

/-- Lines 755-814: the direction logic, or on the first tick after a reset
the replay of the current step. -/
def tickNav (s : State) (P : Params) (I : Inputs) (start steps : Int) : NavResult :=
  if !s.playCurrentOnNextTick then
    navigate s P.stepMode start steps (clamp P.dirMode 0 4) I.uniform
  else
    { nextStep := s.step, wrapped := false, allSkip := P.stepMode s.step == 2,
      pingDir := s.pingDir, drunkDir := s.drunkDir }

/-- Lines 816-817 together with the state written by the direction logic:
`step = nextStep; if (wrapped) eocPulse.trigger(trigLen);`.  The replay flag is
false afterwards on both paths (it was false, or line 813 cleared it). -/
def applyNav (s : State) (nav : NavResult) : State :=
  { s with
    step := nav.nextStep
    pingDir := nav.pingDir
    drunkDir := nav.drunkDir
    playCurrentOnNextTick := false
    eocPulse := if nav.wrapped then pulseTrigger s.eocPulse trigLen else s.eocPulse }

/-- Lines 819-828: `muteGlobal`. -/
def muteGlobal (P : Params) (start steps : Int) (nav : NavResult) : Bool :=
  if clamp P.dirMode 0 4 = 0 ∨ clamp P.dirMode 0 4 = 1 then nav.allSkip
  else !anyPlayable P.stepMode start steps.toNat 0

/-- Lines 830-860: fire the gate of the selected step, or cut the aggregate pulse. -/
def fireGate (s : State) (P : Params) (I : Inputs) (start : Int) (ratio : ℚ) (mute : Bool) :
    State × Option (Int × ℚ) :=
  let mode := P.stepMode s.step
  let k := relOf s.step start
  if !mute && mode == 0 then
    let gLen := gateLength P.gateMode (P.dur s.step) ratio s.virtPeriod I.sampleTime
    ({ s with
       gatePulse := pulseTrigger s.gatePulse gLen
       stepGateTrig := Function.update s.stepGateTrig k (pulseTrigger (s.stepGateTrig k) gLen) },
     some (k, gLen))
  else ({ s with gatePulse := 0 }, none)

/-- Lines 863-865 and 870-872: apply the pending reset request. -/
def applyPendingReset (s : State) : State :=
  { s with step := s.resetTargetStep, playCurrentOnNextTick := true, resetPending := false }

/-- Lines 748-866: the body of `if (clockNow)`. -/
def advance (s : State) (P : Params) (I : Inputs) (start steps : Int) (ratio : ℚ) :
    State × TickTrace :=
  let nav := tickNav s P I start steps
  let s1 := applyNav s nav
  let resetFiresAfterGate := s.resetPending
  let r2 := fireGate s1 P I start ratio (muteGlobal P start steps nav)
  let s3 := if resetFiresAfterGate then applyPendingReset r2.1 else r2.1
  (s3, { wrapped := nav.wrapped, fired := r2.2 })

/-- Voltages written to the module's outputs in one sample. -/
structure Outputs where
  pitch : ℚ
  gate : ℚ
  /-- Channels `0 .. steps-1` of `STEP_GATES_OUTPUT`. -/
  stepGates : List ℚ
  eoc : ℚ
  m1 : ℚ
  m2 : ℚ

/-- One call of `process`: the new state, the outputs, and what happened
(`clockNow`, and the trace of the step-advance when there was one). -/
structure Result where
  state : State
  out : Outputs
  clockNow : Bool
  tick : Option TickTrace

/-- Lines 876-886: advance and sample the pulse generators. -/
def emitPulses (s : State) (steps : Int) (dt : ℚ) : State × ℚ × List ℚ × ℚ :=
  let g := pulseProcess s.gatePulse dt
  let chans := (List.range steps.toNat).map fun ch =>
    if (pulseProcess (s.stepGateTrig (ch : Int)) dt).2 then (10 : ℚ) else 0
  let e := pulseProcess s.eocPulse dt
  ({ s with
     gatePulse := g.1
     stepGateTrig := fun ch =>
       if 0 ≤ ch ∧ ch < steps then (pulseProcess (s.stepGateTrig ch) dt).1 else s.stepGateTrig ch
     eocPulse := e.1 },
   (if g.2 then 10 else 0), chans, (if e.2 then 10 else 0))

/-- The state right after the reset block (lines 533-609): timers, window
fold, reset edge.  The randomize / shift helpers of lines 544-576 only write
parameters; `P` holds the values read after them. -/
def preClock (s : State) (P : Params) (I : Inputs) : State :=
  let s1 := tickTimers s I
  let s2 : State := { s1 with step := foldStep s1.step (windowStart P) (windowSteps P) }
  if I.rstEdge then resetBlock s2 (windowStart P) else s2

/-- Line 660-661: the clock ratio in use. -/
def ratioOf (P : Params) : ℚ :=
  RATIO_TABLE.getD (clamp P.ratioIdx 0 (NUM_RATIOS - 1)).toNat 0

/-- The state right before the swing scheduler (lines 660-705), clock connected. -/
def preSwing (s : State) (P : Params) (I : Inputs) : State :=
  let s3 := preClock s P I
  let s4 := if I.clkEdge then clockEdge s3 (ratioOf P) else s3
  virtualOscillator (phaseTimeout s4) I.sampleTime

/-- Lines 631-657: the path taken while the clock input is disconnected. -/
def noClock (s3 : State) (P : Params) (I : Inputs) : Result :=
  let s4 := if s3.prevClkConnected then hardStop s3 else s3
  let s5 := slew s4 P (pitchTarget P I s3.step) I.expAlpha
  { state := { s5 with prevClkConnected := false }
    out := { pitch := s5.pitchOut, gate := 0,
             stepGates := List.replicate (windowSteps P).toNat 0, eoc := 0,
             m1 := mapMod0_10ToRange (P.m1 s3.step) s3.m1Range,
             m2 := mapMod0_10ToRange (P.m2 s3.step) s3.m2Range }
    clockNow := false
    tick := none }

/-- Lines 747-873: the step-advance when `clockNow`, then the reset request
that no tick consumed. -/
def tickAndReset (sw : State × Bool) (P : Params) (I : Inputs) : State × Option TickTrace :=
  if sw.2 then
    let a := advance sw.1 P I (windowStart P) (windowSteps P) (ratioOf P)
    (a.1, some a.2)
  else if sw.1.resetPending then (applyPendingReset sw.1, none)
  else (sw.1, none)

/-- Lines 659-907: the path taken while the clock input is connected;
`s3` is the state after the reset block. -/
def withClock (s : State) (s3 : State) (P : Params) (I : Inputs) : Result :=
  let sw := swingScheduler (preSwing s P I) P I.sampleTime
  let r9 := tickAndReset sw P I
  let e := emitPulses r9.1 (windowSteps P) I.sampleTime
  let s10 := slew e.1 P (pitchTarget P I s3.step) I.sqrtAlpha
  { state := { s10 with prevClkConnected := true }
    out := { pitch := s10.pitchOut, gate := e.2.1, stepGates := e.2.2.1, eoc := e.2.2.2,
             m1 := mapMod0_10ToRange (P.m1 s3.step) s3.m1Range,
             m2 := mapMod0_10ToRange (P.m2 s3.step) s3.m2Range }
    clockNow := sw.2
    tick := r9.2 }

/-- Source `void process(const ProcessArgs& args)`. -/
def process (s : State) (P : Params) (I : Inputs) : Result :=
  if !I.clkConnected then noClock (preClock s P I) P I
  else withClock s (preClock s P I) P I

/-- Source `void onReset()`; `startRead` is the read of `START_PARAM`.  The
persisted settings (`eocOnReset`, `m1Range`, `m2Range`) are kept. -/
def onReset (s : State) (startRead : Int) : State :=
  let start := clamp (startRead - 1) 0 15
  { s with
    step := start
    gatePulse := 0
    eocPulse := 0
    stepGateTrig := fun _ => 0
    timeSinceClk := 0
    lastPeriod := 0
    virtTimer := 0
    virtPeriod := 0.125
    clockWasConnected := false
    havePhase := false
    sinceLastEdge := 0
    prevClkConnected := false
    pingDir := 0
    drunkDir := 1
    swingPhase := 0
    queuedBaseTicks := 0
    tickPending := false
    pendingDelay := 0
    pendingTimer := 0
    pitchInit := false
    pitchOut := 0
    sinceLastTick := 1e9
    playCurrentOnNextTick := false
    resetPending := false
    resetTargetStep := start }

/-! ## Definitions used to state the properties -/

/-- Offset reached after `t` iterations of the scan that starts at `currentRel`:
`currentRel + t` (forward) or `currentRel - t` (backward), modulo `len`. -/
def scanOffset (fwd : Bool) (currentRel len t : Int) : Int :=
  if fwd then (currentRel + t) % len else (currentRel - t) % len

/-- The reading of a sample-time accumulator `n` samples after it was zero: `n`
single-precision additions of the sample time `dt`. -/
def timerAfter (dt : ℚ) : Nat → ℚ
  | 0 => 0
  | n + 1 => f32 (timerAfter dt n + dt)

/-- The value left by `m` single-precision subtractions of the period `vp` from `x`. -/
def subPeriods (vp : ℚ) : Nat → ℚ → ℚ
  | 0, x => x
  | m + 1, x => subPeriods vp m (f32 (x - vp))

/-- The multiples `m * dt` with `m ≤ M` are binary32 values, so that the sample
times add up without rounding as long as the count stays within `M`. -/
def GridExact (dt : ℚ) (M : Nat) : Prop :=
  ∀ m : Nat, m ≤ M → f32 ((m : ℚ) * dt) = (m : ℚ) * dt

/-- The state after processing a list of samples in order. -/
def run (s : State) : List (Params × Inputs) → State
  | [] => s
  | x :: xs => run (process s x.1 x.2).state xs

/-- No sample of the run has a step-advance (`clockNow` stays false). -/
def silent (s : State) : List (Params × Inputs) → Bool
  | [] => true
  | x :: xs => !(process s x.1 x.2).clockNow && silent (process s x.1 x.2).state xs

/-- The numbers of the samples of a run in which a step-advance fired; `i` is the
number of the first sample. -/
def tickTimes (s : State) (i : Nat) : List (Params × Inputs) → List Nat
  | [] => []
  | x :: xs =>
    if (process s x.1 x.2).clockNow then i :: tickTimes (process s x.1 x.2).state (i + 1) xs
    else tickTimes (process s x.1 x.2).state (i + 1) xs

/-- Samples of the reset scenario between the events: clock connected, no reset
edge, window start 0. -/
def scenarioSample (x : Params × Inputs) : Prop :=
  x.2.clkConnected = true ∧ x.2.rstEdge = false ∧ windowStart x.1 = 0

/-- Agreement on the fields that only the reset block, the step-advance and the
end-of-sample reset application write. -/
def navFrame (a b : State) : Prop :=
  a.step = b.step ∧ a.playCurrentOnNextTick = b.playCurrentOnNextTick ∧
  a.resetPending = b.resetPending ∧ a.resetTargetStep = b.resetTargetStep ∧
  a.eocOnReset = b.eocOnReset ∧ a.pingDir = b.pingDir ∧ a.drunkDir = b.drunkDir ∧
  a.gatePulse = b.gatePulse ∧ a.eocPulse = b.eocPulse ∧ a.stepGateTrig = b.stepGateTrig

/-- Agreement on the clock-measurement fields. -/
def clkFrame (a b : State) : Prop :=
  a.timeSinceClk = b.timeSinceClk ∧ a.lastPeriod = b.lastPeriod ∧ a.virtPeriod = b.virtPeriod

/-- Agreement on the swing-scheduler fields. -/
def swingFrame (a b : State) : Prop :=
  a.swingPhase = b.swingPhase ∧ a.queuedBaseTicks = b.queuedBaseTicks ∧
  a.sinceLastTick = b.sinceLastTick ∧ a.tickPending = b.tickPending

/-- Successive step-advances with constant parameters: the state after `n`
advances and the number of them that wrapped (triggered the end-of-cycle pulse). -/
def advanceN (P : Params) (I : Inputs) (start steps : Int) (ratio : ℚ) :
    Nat → State → State × Nat
  | 0, s => (s, 0)
  | n + 1, s =>
    ((advanceN P I start steps ratio n (advance s P I start steps ratio).1).1,
     (advanceN P I start steps ratio n (advance s P I start steps ratio).1).2
       + (if (advance s P I start steps ratio).2.wrapped then 1 else 0))

/-- The slot at window offset `j` is not Skip. -/
def playableAt (mode : Int → Int) (start : Int) (j : Nat) : Bool :=
  mode (wrap16 (start + (j : Int))) != 2

/-- The number of offsets below `r` that satisfy `p`. -/
def countBelow (p : Nat → Bool) : Nat → Nat
  | 0 => 0
  | r + 1 => countBelow p r + (if p r then 1 else 0)

/-- Navigator states from which a normal Forward traversal continues: no replay,
no reset pending, the current step is a non-Skip slot of the window. -/
def onTrack (P : Params) (start steps : Int) (s : State) : Prop :=
  s.playCurrentOnNextTick = false ∧ s.resetPending = false ∧
  (0 ≤ s.step ∧ s.step ≤ 15) ∧ relOf s.step start < steps ∧
  playableAt P.stepMode start (relOf s.step start).toNat = true

/-! ## Concrete states and inputs -/

/-- The member initialisers of `struct UZZ` (lines 212-269). -/
def powerOn : State :=
  { step := 0, gatePulse := 0, eocPulse := 0, stepGateTrig := fun _ => 0,
    timeSinceClk := 0, lastPeriod := 0, playCurrentOnNextTick := false, resetPending := false,
    resetTargetStep := 0, eocOnReset := false, virtTimer := 0, virtPeriod := 0.125,
    clockWasConnected := false, havePhase := false, sinceLastEdge := 0,
    prevClkConnected := false, pingDir := 0, drunkDir := 1, swingPhase := 0,
    queuedBaseTicks := 0, tickPending := false, pendingDelay := 0, pendingTimer := 0,
    pitchOut := 0, pitchInit := false, sinceLastTick := 1e9, m1Range := 5, m2Range := 5 }

/-- The default values given to `configParam` in the constructor (lines 274-305):
all steps Play, 16 steps from step 1, Forward, Gate mode, ratio ×2, no swing. -/
def defaultParams : Params :=
  { stepMode := fun _ => 0, pitch := fun _ => 0, oct := fun _ => 0, dur := fun _ => 0.100,
    m1 := fun _ => 0, m2 := fun _ => 0, steps := 16, start := 1, dirMode := 0, gateMode := 0,
    ratioIdx := 16, swing := 0, slew := 0 }

/-- A sample of length `dt` with the clock cable connected and no edge on any input. -/
def idleInputs (dt : ℚ) : Inputs :=
  { sampleTime := dt, clkConnected := true, clkEdge := false, rstEdge := false,
    xpose := none, uniform := 0, expAlpha := 0, sqrtAlpha := 0 }

/-- A sample of length `dt` in which a reset edge is detected. -/
def resetInputs (dt : ℚ) : Inputs := { idleInputs dt with rstEdge := true }

/-- A sample of length `dt` in which a clock edge is detected. -/
def edgeInputs (dt : ℚ) : Inputs := { idleInputs dt with clkEdge := true }

/-- The navigator in mid-cycle on step index 7, everything else as at power-on. -/
def atStep7 : State := { powerOn with step := 7 }

/-- Sample number `i` of a steady clock: the cable is connected and an edge is
detected in every sample whose number is `phase` modulo `period`. -/
def clockSample (P : Params) (dt : ℚ) (period phase i : Nat) : Params × Inputs :=
  (P, { idleInputs dt with clkEdge := i % period == phase })

/-- Samples `0 .. n-1` of a steady clock. -/
def clockTrain (P : Params) (dt : ℚ) (period phase n : Nat) : List (Params × Inputs) :=
  (List.range n).map (clockSample P dt period phase)

/-! ## Steady clocks -/

/-- Agreement on the phase fields that the scheduler and the tick leave alone. -/
def phaseFrame (a b : State) : Prop :=
  a.havePhase = b.havePhase ∧ a.virtTimer = b.virtTimer ∧ a.sinceLastEdge = b.sinceLastEdge

/-- The clock is locked: a period `T` has been measured, the oscillator runs at
`vp`, no base tick is queued or deferred and no reset is pending. -/
def Locked (s : State) (T vp : ℚ) : Prop :=
  s.havePhase = true ∧ s.lastPeriod = T ∧ s.virtPeriod = vp ∧ s.queuedBaseTicks = 0 ∧
  s.tickPending = false ∧ s.resetPending = false ∧ s.sinceLastEdge = s.timeSinceClk

/-- Samples `i, i+1, ..., i+n-1` of a steady clock sampled every `dt`, with a
clock edge detected in every sample whose number is a multiple of `period`. -/
def steadyTrain (P : Params) (dt : ℚ) (period : Nat) : Nat → Nat → List (Params × Inputs)
  | _, 0 => []
  | i, n + 1 => clockSample P dt period 0 i :: steadyTrain P dt period (i + 1) n

/-- The number of samples of a run in which a step-advance fired. -/
def tickCount (s : State) : List (Params × Inputs) → Nat
  | [] => 0
  | x :: xs =>
    (if (process s x.1 x.2).clockNow then 1 else 0) + tickCount (process s x.1 x.2).state xs

/-- The value `x` is a whole number of sample times `dt`. -/
def OnGrid (dt x : ℚ) : Prop := x = ((⌊x / dt⌋.toNat : Nat) : ℚ) * dt

/-- Steady state of a divided (free-running) clock after sample number `j`: locked
on period `T` with oscillator period `vp`, the time since the last edge is
`j mod period` samples, the timer is a whole number of samples within one period
and the anti-bounce timer is not behind it by more than a sample. -/
def FreeRun (s : State) (T vp dt : ℚ) (period j : Nat) : Prop :=
  Locked s T vp ∧ s.timeSinceClk = ((j % period : Nat) : ℚ) * dt ∧
  (0 ≤ s.virtTimer ∧ s.virtTimer < vp) ∧ OnGrid dt s.virtTimer ∧
  s.virtTimer - dt ≤ s.sinceLastTick

/-- Steady state of a multiplied clock after sample number `j`: locked, the time
since the last edge is `j mod period` samples, the timer is a whole number of
samples within one period, the anti-bounce timer is not behind it by more than a
sample and is zero right after a wrap. -/
def InPeriod (s : State) (T vp dt : ℚ) (period j : Nat) : Prop :=
  Locked s T vp ∧ s.timeSinceClk = ((j % period : Nat) : ℚ) * dt ∧
  (0 ≤ s.virtTimer ∧ s.virtTimer < vp) ∧ OnGrid dt s.virtTimer ∧
  s.virtTimer - dt ≤ s.sinceLastTick ∧ (s.virtTimer < dt → s.sinceLastTick = 0)

instance (s : State) (T vp : ℚ) : Decidable (Locked s T vp) := by
  unfold Locked; infer_instance

instance (dt x : ℚ) : Decidable (OnGrid dt x) := by
  unfold OnGrid; infer_instance

instance (s : State) (T vp dt : ℚ) (period j : Nat) : Decidable (FreeRun s T vp dt period j) := by
  unfold FreeRun; infer_instance

instance (s : State) (T vp dt : ℚ) (period j : Nat) : Decidable (InPeriod s T vp dt period j) := by
  unfold InPeriod; infer_instance

/-- Random mode on an eight-slot window from slot 0 whose odd slots are Skip. -/
def randomOddSkip : Params :=
  { defaultParams with
    dirMode := 3
    steps := 8
    stepMode := fun i => if i % 2 = 1 then 2 else 0 }

/-- Drunk mode on a four-slot window from slot 0 whose slots 1 and 2 are Skip. -/
def drunkGap : Params :=
  { defaultParams with
    dirMode := 4
    steps := 4
    stepMode := fun i => if i = 1 ∨ i = 2 then 2 else 0 }

/-- The parameter reads as the engine uses them: steps, start, direction mode and
ratio index clamped to their ranges, and the gate mode reduced to the outcome of
the only test made on it (`gateMode == 0`). -/
def clampedParams (P : Params) : Params :=
  { P with
    steps := clamp P.steps 1 16
    start := clamp (P.start - 1) 0 15 + 1
    dirMode := clamp P.dirMode 0 4
    ratioIdx := clamp P.ratioIdx 0 (NUM_RATIOS - 1)
    gateMode := if P.gateMode = 0 then 0 else 1 }

/-- Agreement on the state of the glide filter. -/
def pitchFrame (a b : State) : Prop :=
  a.pitchOut = b.pitchOut ∧ a.pitchInit = b.pitchInit ∧ a.m1Range = b.m1Range ∧
  a.m2Range = b.m2Range

/-- Ratio ×1 with step 7 shorter (50 ms) than the other steps (100 ms). -/
def shortStepSeven : Params :=
  { defaultParams with
    ratioIdx := 14
    dur := fun i => if i = 7 then 0.05 else 0.1 }

/-- The parity counter at the largest `int`, one base tick queued, the last
step-advance a second ago; everything else as at power-on. -/
def parityAtMax : State :=
  { powerOn with
    swingPhase := 2 ^ 31 - 1
    queuedBaseTicks := 1
    sinceLastTick := 1 }

/-- Odd parity and an oscillator period of 1 s; everything else as at power-on. -/
def oddParity : State :=
  { powerOn with
    swingPhase := 1
    virtPeriod := 1 }

/-- Ratio ×2 with the swing knob at its maximum, `0.6f`. -/
def fullSwing : Params :=
  { defaultParams with
    ratioIdx := 16
    swing := f32 0.6 }

/-- Steady state of a slow divided clock after sample number `j`: the recorded
period is `T`, the oscillator period `vp`, the queue is empty, no tick is
deferred and no reset pending, the time since the last edge is the accumulator
reading after `j mod period` samples; while that reading is at most 1 s the
phase is locked and the timer has run for at most one sample more, afterwards
the phase is lost and the timer is zero. -/
def SlowClock (s : State) (T vp dt : ℚ) (period j : Nat) : Prop :=
  s.lastPeriod = T ∧ s.virtPeriod = vp ∧ s.queuedBaseTicks = 0 ∧ s.tickPending = false ∧
  s.resetPending = false ∧ s.sinceLastEdge = s.timeSinceClk ∧
  s.timeSinceClk = timerAfter dt (j % period) ∧
  (s.sinceLastEdge ≤ 1 →
    s.havePhase = true ∧ 0 ≤ s.virtTimer ∧ s.virtTimer ≤ timerAfter dt (j % period + 1)) ∧
  (1 < s.sinceLastEdge → s.havePhase = false ∧ s.virtTimer = 0)

instance (s : State) (T vp dt : ℚ) (period j : Nat) :
    Decidable (SlowClock s T vp dt period j) := by
  unfold SlowClock; infer_instance

/-! ## Single-precision rounding -/

theorem pow2_eq (e : Int) : pow2 e = (2 : ℚ) ^ e := by
  unfold pow2
  split_ifs with h
  · obtain ⟨n, rfl⟩ := Int.eq_ofNat_of_zero_le h
    simp
  · push_neg at h
    obtain ⟨n, hn⟩ := Int.eq_ofNat_of_zero_le (by omega : 0 ≤ -e)
    have he : e = -(n : Int) := by omega
    subst he
    simp

theorem pow2_pos (e : Int) : 0 < pow2 e := by
  rw [pow2_eq]; positivity

theorem pow2_add (a b : Int) : pow2 (a + b) = pow2 a * pow2 b := by
  rw [pow2_eq, pow2_eq, pow2_eq, zpow_add₀ (by norm_num)]

theorem pow2_mono {a b : Int} (h : a ≤ b) : pow2 a ≤ pow2 b := by
  rw [pow2_eq, pow2_eq]
  exact zpow_le_zpow_right₀ (by norm_num) h

theorem pow2_lt {a b : Int} (h : a < b) : pow2 a < pow2 b := by
  rw [pow2_eq, pow2_eq]
  exact zpow_lt_zpow_right₀ (by norm_num) h

theorem ilog2_spec : ∀ (fuel n : Nat), n ≤ fuel → 1 ≤ n →
    2 ^ ilog2 fuel n ≤ n ∧ n < 2 ^ (ilog2 fuel n + 1) := by
  intro fuel
  induction fuel with
  | zero => intro n h1 h2; omega
  | succ f ih =>
    intro n h1 h2
    unfold ilog2
    split_ifs with h
    · obtain ⟨i1, i2⟩ := ih (n / 2) (by omega) (by omega)
      constructor
      · rw [pow_succ]; omega
      · rw [pow_succ]; omega
    · simp; omega

theorem pow2_natCast (k : Nat) : pow2 (k : Int) = ((2 ^ k : Nat) : ℚ) := by
  rw [pow2_eq]; simp

theorem pow2_sub (a b : Int) : pow2 (a - b) = pow2 a / pow2 b := by
  rw [pow2_eq, pow2_eq, pow2_eq, zpow_sub₀ (by norm_num)]

theorem pow2_succ (a : Int) : pow2 (a + 1) = 2 * pow2 a := by
  rw [pow2_add]; rw [show pow2 1 = 2 from by decide!]; ring

theorem abs_eq_natAbs_div (x : ℚ) : |x| = (x.num.natAbs : ℚ) / (x.den : ℚ) := by
  conv_lhs => rw [← Rat.num_div_den x]
  rw [abs_div, Nat.cast_natAbs, Nat.abs_cast]
  simp

/-- The binade brackets the magnitude. -/
theorem binade_spec (x : ℚ) (hx : x ≠ 0) :
    pow2 (binade x) ≤ |x| ∧ |x| < pow2 (binade x + 1) := by
  have hn : 1 ≤ x.num.natAbs := by
    have : x.num ≠ 0 := Rat.num_ne_zero.mpr hx
    omega
  have hd : 1 ≤ x.den := x.den_pos
  obtain ⟨n1, n2⟩ := ilog2_spec x.num.natAbs x.num.natAbs le_rfl hn
  obtain ⟨d1, d2⟩ := ilog2_spec x.den x.den le_rfl hd
  have hdq : (0 : ℚ) < (x.den : ℚ) := by exact_mod_cast hd
  have n1q : ((2 ^ ilog2 x.num.natAbs x.num.natAbs : Nat) : ℚ) ≤ (x.num.natAbs : ℚ) := by
    exact_mod_cast n1
  have n2q : (x.num.natAbs : ℚ) < ((2 ^ (ilog2 x.num.natAbs x.num.natAbs + 1) : Nat) : ℚ) := by
    exact_mod_cast n2
  have d1q : ((2 ^ ilog2 x.den x.den : Nat) : ℚ) ≤ (x.den : ℚ) := by exact_mod_cast d1
  have d2q : (x.den : ℚ) < ((2 ^ (ilog2 x.den x.den + 1) : Nat) : ℚ) := by exact_mod_cast d2
  rw [← pow2_natCast] at n1q n2q d1q d2q
  have hlo : pow2 ((ilog2 x.num.natAbs x.num.natAbs : Int) - (ilog2 x.den x.den : Int) - 1)
      ≤ |x| := by
    rw [abs_eq_natAbs_div, show ((ilog2 x.num.natAbs x.num.natAbs : Int)
      - (ilog2 x.den x.den : Int) - 1) = (ilog2 x.num.natAbs x.num.natAbs : Int)
      - ((ilog2 x.den x.den + 1 : Nat) : Int) from by push_cast; ring, pow2_sub]
    rw [div_le_div_iff₀ (pow2_pos _) hdq]
    have := pow2_pos ((ilog2 x.num.natAbs x.num.natAbs : Nat) : Int)
    nlinarith
  have hhi : |x| < pow2 ((ilog2 x.num.natAbs x.num.natAbs : Int) - (ilog2 x.den x.den : Int)
      + 1) := by
    rw [abs_eq_natAbs_div, show ((ilog2 x.num.natAbs x.num.natAbs : Int)
      - (ilog2 x.den x.den : Int) + 1) = ((ilog2 x.num.natAbs x.num.natAbs + 1 : Nat) : Int)
      - (ilog2 x.den x.den : Int) from by push_cast; ring, pow2_sub]
    rw [div_lt_div_iff₀ hdq (pow2_pos _)]
    have := pow2_pos ((ilog2 x.den x.den : Nat) : Int)
    nlinarith
  unfold binade
  dsimp only
  split_ifs with h
  · exact ⟨h, hhi⟩
  · push_neg at h
    refine ⟨hlo, ?_⟩
    rw [sub_add_cancel]
    exact h

/-- The binade is determined by the bracket. -/
theorem binade_unique (x : ℚ) (e : Int) (h1 : pow2 e ≤ |x|) (h2 : |x| < pow2 (e + 1)) :
    binade x = e := by
  have hx : x ≠ 0 := by
    intro h0
    rw [h0, abs_zero] at h1
    exact absurd h1 (not_le.mpr (pow2_pos e))
  obtain ⟨b1, b2⟩ := binade_spec x hx
  by_contra hne
  rcases lt_or_gt_of_ne hne with h | h
  · have : pow2 (binade x + 1) ≤ pow2 e := pow2_mono (by omega)
    linarith
  · have : pow2 (e + 1) ≤ pow2 (binade x) := pow2_mono (by omega)
    linarith

theorem binade_mono (x y : ℚ) (hx : x ≠ 0) (h : |x| ≤ |y|) : binade x ≤ binade y := by
  have hy : y ≠ 0 := by
    intro h0
    rw [h0, abs_zero] at h
    exact hx (abs_eq_zero.mp (le_antisymm h (abs_nonneg x)))
  obtain ⟨x1, x2⟩ := binade_spec x hx
  obtain ⟨y1, y2⟩ := binade_spec y hy
  by_contra hlt
  push_neg at hlt
  have : pow2 (binade y + 1) ≤ pow2 (binade x) := pow2_mono (by omega)
  linarith

theorem binade_neg (x : ℚ) : binade (-x) = binade x := by
  unfold binade
  simp

theorem roundEven_intCast (n : Int) : roundEven (n : ℚ) = n := by
  unfold roundEven
  simp

theorem roundEven_bounds (q : ℚ) :
    (roundEven q : ℚ) - 1 / 2 ≤ q ∧ q ≤ (roundEven q : ℚ) + 1 / 2 := by
  have h1 := Int.floor_le q
  have h2 := Int.lt_floor_add_one q
  unfold roundEven
  split_ifs with a b c
  · constructor <;> linarith
  · push_cast; constructor <;> linarith
  · push_neg at a b
    constructor <;> linarith
  · push_neg at a b
    push_cast
    constructor <;> linarith

theorem roundEven_floor_le (q : ℚ) : ⌊q⌋ ≤ roundEven q := by
  unfold roundEven
  split_ifs <;> omega

theorem roundEven_le_floor_succ (q : ℚ) : roundEven q ≤ ⌊q⌋ + 1 := by
  unfold roundEven
  split_ifs <;> omega

theorem roundEven_mono {p q : ℚ} (h : p ≤ q) : roundEven p ≤ roundEven q := by
  have hf : ⌊p⌋ ≤ ⌊q⌋ := Int.floor_mono h
  rcases lt_or_eq_of_le hf with hlt | heq
  · calc roundEven p ≤ ⌊p⌋ + 1 := roundEven_le_floor_succ p
      _ ≤ ⌊q⌋ := by omega
      _ ≤ roundEven q := roundEven_floor_le q
  · unfold roundEven
    rw [heq]
    have hfr : p - (⌊q⌋ : ℚ) ≤ q - (⌊q⌋ : ℚ) := by linarith
    split_ifs with a b c d e f g i j <;> first | omega | (exfalso; linarith)

theorem roundEven_neg (q : ℚ) : roundEven (-q) = -roundEven q := by
  by_cases hq : (⌊q⌋ : ℚ) = q
  · rw [← hq, ← Int.cast_neg, roundEven_intCast, roundEven_intCast]
  · have h1 := Int.floor_le q
    have hlt : (⌊q⌋ : ℚ) < q := lt_of_le_of_ne h1 hq
    have h2 := Int.lt_floor_add_one q
    have hfl : ⌊-q⌋ = -⌊q⌋ - 1 := by
      rw [Int.floor_eq_iff]
      push_cast
      constructor <;> linarith
    unfold roundEven
    rw [hfl]
    push_cast
    split_ifs <;> first | omega | (exfalso; linarith)

theorem f32_zero : f32 0 = 0 := by
  unfold f32; simp

theorem f32_of_ne (x : ℚ) (hx : x ≠ 0) :
    f32 x = (roundEven (x / pow2 (ulpExp x)) : ℚ) * pow2 (ulpExp x) := by
  unfold f32; rw [if_neg hx]

theorem ulpExp_neg (x : ℚ) : ulpExp (-x) = ulpExp x := by
  unfold ulpExp; rw [binade_neg]

theorem f32_neg (x : ℚ) : f32 (-x) = -f32 x := by
  by_cases hx : x = 0
  · subst hx; simp [f32_zero]
  · rw [f32_of_ne x hx, f32_of_ne (-x) (neg_ne_zero.mpr hx), ulpExp_neg, neg_div,
      roundEven_neg]
    push_cast
    ring

theorem f32_nonneg {x : ℚ} (hx : 0 ≤ x) : 0 ≤ f32 x := by
  by_cases h0 : x = 0
  · subst h0; rw [f32_zero]
  · rw [f32_of_ne x h0]
    have hq : 0 ≤ x / pow2 (ulpExp x) := div_nonneg hx (pow2_pos _).le
    have : (0 : Int) ≤ roundEven (x / pow2 (ulpExp x)) := by
      have := roundEven_mono hq
      rwa [show (0 : ℚ) = ((0 : Int) : ℚ) from by simp, roundEven_intCast] at this
    exact mul_nonneg (by exact_mod_cast this) (pow2_pos _).le

/-- A rounded positive value does not exceed the top of its binade. -/
theorem f32_le_top {x : ℚ} (hx : 0 < x) : f32 x ≤ pow2 (max (binade x) (-126) + 1) := by
  obtain ⟨-, b2⟩ := binade_spec x hx.ne'
  rw [abs_of_pos hx] at b2
  rw [f32_of_ne x hx.ne']
  have hu := pow2_pos (ulpExp x)
  have htop : pow2 (max (binade x) (-126) + 1) = ((2 ^ 24 : Int) : ℚ) * pow2 (ulpExp x) := by
    unfold ulpExp
    rw [show max (binade x) (-126) + 1 = 24 + (max (binade x) (-126) - 23) from by ring,
      pow2_add]
    congr 1
  have hx2 : x ≤ pow2 (max (binade x) (-126) + 1) :=
    (b2.trans_le (pow2_mono (by omega))).le
  have hq : x / pow2 (ulpExp x) ≤ ((2 ^ 24 : Int) : ℚ) := by
    rw [div_le_iff₀ hu, ← htop]; exact hx2
  have hr := roundEven_mono hq
  rw [roundEven_intCast] at hr
  rw [htop]
  exact mul_le_mul_of_nonneg_right (by exact_mod_cast hr) hu.le

/-- A rounded normal positive value is not below the bottom of its binade. -/
theorem f32_ge_bot {x : ℚ} (hx : 0 < x) (hn : -126 ≤ binade x) : pow2 (binade x) ≤ f32 x := by
  obtain ⟨b1, -⟩ := binade_spec x hx.ne'
  rw [abs_of_pos hx] at b1
  rw [f32_of_ne x hx.ne']
  have hu := pow2_pos (ulpExp x)
  have hue : ulpExp x = binade x - 23 := by unfold ulpExp; rw [max_eq_left hn]
  have hbot : pow2 (binade x) = ((2 ^ 23 : Int) : ℚ) * pow2 (ulpExp x) := by
    rw [hue, show binade x = 23 + (binade x - 23) from by ring, pow2_add]
    rw [show 23 + (binade x - 23) - 23 = binade x - 23 from by ring]
    congr 1
  have hq : ((2 ^ 23 : Int) : ℚ) ≤ x / pow2 (ulpExp x) := by
    rw [le_div_iff₀ hu, ← hbot]; exact b1
  have hr := roundEven_mono hq
  rw [roundEven_intCast] at hr
  rw [hbot]
  exact mul_le_mul_of_nonneg_right (by exact_mod_cast hr) hu.le

theorem f32_mono_pos {x y : ℚ} (hx : 0 < x) (h : x ≤ y) : f32 x ≤ f32 y := by
  have hy : 0 < y := hx.trans_le h
  have hb : binade x ≤ binade y :=
    binade_mono x y hx.ne' (by rw [abs_of_pos hx, abs_of_pos hy]; exact h)
  rcases eq_or_lt_of_le (max_le_max_right (-126) hb) with heq | hlt
  · have hu : ulpExp x = ulpExp y := by unfold ulpExp; rw [heq]
    rw [f32_of_ne x hx.ne', f32_of_ne y hy.ne', hu]
    have hr := roundEven_mono (div_le_div_of_nonneg_right h (pow2_pos (ulpExp y)).le)
    exact mul_le_mul_of_nonneg_right (by exact_mod_cast hr) (pow2_pos _).le
  · have hn : -126 ≤ binade y := by
      by_contra hc
      push_neg at hc
      rw [max_eq_right hc.le] at hlt
      have := le_max_right (binade x) (-126)
      omega
    have hky : max (binade y) (-126) = binade y := max_eq_left hn
    calc f32 x ≤ pow2 (max (binade x) (-126) + 1) := f32_le_top hx
      _ ≤ pow2 (binade y) := pow2_mono (by omega)
      _ ≤ f32 y := f32_ge_bot hy hn

/-- Rounding to single precision is monotone. -/
theorem f32_mono {x y : ℚ} (h : x ≤ y) : f32 x ≤ f32 y := by
  rcases lt_trichotomy 0 x with hx | hx | hx
  · exact f32_mono_pos hx h
  · subst hx; rw [f32_zero]; exact f32_nonneg h
  · rcases le_or_lt 0 y with hy | hy
    · have := f32_nonneg (neg_nonneg.mpr hx.le)
      rw [f32_neg] at this
      linarith [f32_nonneg hy]
    · have := f32_mono_pos (neg_pos.mpr hy) (neg_le_neg h)
      rw [f32_neg, f32_neg] at this
      linarith

/-- Values on the grid are not changed: `m * 2 ^ k` with fewer than 24 significant
bits and `k` not below the subnormal spacing. -/
theorem f32_grid_lt (m k : Int) (hm : |m| < 2 ^ 24) (hk : -149 ≤ k) :
    f32 ((m : ℚ) * pow2 k) = (m : ℚ) * pow2 k := by
  by_cases h0 : m = 0
  · subst h0; simp [f32_zero]
  have hx : (m : ℚ) * pow2 k ≠ 0 := mul_ne_zero (by exact_mod_cast h0) (pow2_pos k).ne'
  obtain ⟨b1, -⟩ := binade_spec _ hx
  have habs : |(m : ℚ) * pow2 k| < pow2 (24 + k) := by
    rw [abs_mul, abs_of_pos (pow2_pos k), pow2_add]
    refine mul_lt_mul_of_pos_right ?_ (pow2_pos k)
    rw [show pow2 24 = ((2 ^ 24 : Int) : ℚ) from by decide!]
    exact_mod_cast hm
  have hE : binade ((m : ℚ) * pow2 k) < 24 + k := by
    by_contra hc
    push_neg at hc
    have := pow2_mono hc
    linarith
  have hue : ulpExp ((m : ℚ) * pow2 k) ≤ k := by
    unfold ulpExp
    have := max_le (show binade ((m : ℚ) * pow2 k) ≤ k + 23 by omega)
      (show (-126 : Int) ≤ k + 23 by omega)
    omega
  obtain ⟨j, hj⟩ := Int.eq_ofNat_of_zero_le (show 0 ≤ k - ulpExp ((m : ℚ) * pow2 k) by omega)
  rw [f32_of_ne _ hx]
  have hk2 : pow2 k = ((2 ^ j : Nat) : ℚ) * pow2 (ulpExp ((m : ℚ) * pow2 k)) := by
    rw [← pow2_natCast, ← pow2_add, ← hj]; congr 1; ring
  have hq : (m : ℚ) * pow2 k / pow2 (ulpExp ((m : ℚ) * pow2 k))
      = ((m * (2 ^ j : Nat) : Int) : ℚ) := by
    rw [div_eq_iff (pow2_pos _).ne']
    conv_lhs => rw [hk2]
    push_cast
    ring
  rw [hq, roundEven_intCast]
  conv_rhs => rw [hk2]
  push_cast
  ring

theorem f32_grid (m k : Int) (hm : |m| ≤ 2 ^ 24) (hk : -149 ≤ k) :
    f32 ((m : ℚ) * pow2 k) = (m : ℚ) * pow2 k := by
  rcases lt_or_eq_of_le hm with hlt | heq
  · exact f32_grid_lt m k hlt hk
  · have h2 : (m : ℚ) * pow2 k = ((m / 2 : Int) : ℚ) * pow2 (k + 1) := by
      have hm2 : m = 2 * (m / 2) := by
        rcases abs_cases m with ⟨h, -⟩ | ⟨h, -⟩ <;> omega
      rw [pow2_succ]
      conv_lhs => rw [hm2]
      push_cast
      ring
    rw [h2]
    refine f32_grid_lt (m / 2) (k + 1) ?_ (by omega)
    rcases abs_cases m with ⟨h, -⟩ | ⟨h, -⟩ <;> rcases abs_cases (m / 2) with ⟨g, -⟩ | ⟨g, -⟩ <;>
      omega

/-- A rounded value is on the grid. -/
theorem f32_on_grid (x : ℚ) :
    ∃ m k : Int, |m| ≤ 2 ^ 24 ∧ -149 ≤ k ∧ f32 x = (m : ℚ) * pow2 k := by
  by_cases hx : x = 0
  · exact ⟨0, 0, by simp, by omega, by subst hx; simp [f32_zero]⟩
  refine ⟨roundEven (x / pow2 (ulpExp x)), ulpExp x, ?_, ?_, f32_of_ne x hx⟩
  · obtain ⟨-, b2⟩ := binade_spec x hx
    have hu := pow2_pos (ulpExp x)
    have htop : pow2 (max (binade x) (-126) + 1) = ((2 ^ 24 : Int) : ℚ) * pow2 (ulpExp x) := by
      unfold ulpExp
      rw [show max (binade x) (-126) + 1 = 24 + (max (binade x) (-126) - 23) from by ring,
        pow2_add]
      congr 1
    have hx2 : |x| ≤ ((2 ^ 24 : Int) : ℚ) * pow2 (ulpExp x) := by
      rw [← htop]; exact (b2.trans_le (pow2_mono (by omega))).le
    obtain ⟨a1, a2⟩ := abs_le.mp hx2
    have q1 : ((-(2 ^ 24) : Int) : ℚ) ≤ x / pow2 (ulpExp x) := by
      rw [le_div_iff₀ hu]; push_cast; push_cast at a1; linarith
    have q2 : x / pow2 (ulpExp x) ≤ ((2 ^ 24 : Int) : ℚ) := by
      rw [div_le_iff₀ hu]; exact a2
    have r1 := roundEven_mono q1
    have r2 := roundEven_mono q2
    rw [roundEven_intCast] at r1 r2
    rw [abs_le]
    exact ⟨r1, r2⟩
  · unfold ulpExp
    have := le_max_right (binade x) (-126)
    omega

/-- Rounding twice is rounding once. -/
theorem f32_idem (x : ℚ) : f32 (f32 x) = f32 x := by
  obtain ⟨m, k, hm, hk, h⟩ := f32_on_grid x
  rw [h]
  exact f32_grid m k hm hk

/-- The rounding error is at most half the spacing of the grid. -/
theorem f32_error (y : ℚ) : |f32 y - y| ≤ pow2 (ulpExp y) / 2 := by
  by_cases hy : y = 0
  · subst hy
    rw [f32_zero, sub_zero, abs_zero]
    exact (div_pos (pow2_pos _) (by norm_num)).le
  · rw [f32_of_ne y hy]
    have hu := pow2_pos (ulpExp y)
    obtain ⟨r1, r2⟩ := roundEven_bounds (y / pow2 (ulpExp y))
    have hy2 : y = y / pow2 (ulpExp y) * pow2 (ulpExp y) := by field_simp
    rw [abs_le]
    constructor
    · nlinarith
    · nlinarith

/-- In the normal range the spacing of the grid is at most `2 ^ -23` of the value. -/
theorem ulp_le_of_normal (y : ℚ) (hy : pow2 (-126) ≤ |y|) :
    pow2 (ulpExp y) ≤ |y| * pow2 (-23) := by
  have hne : y ≠ 0 := by
    intro h0
    rw [h0, abs_zero] at hy
    exact absurd hy (not_le.mpr (pow2_pos _))
  obtain ⟨b1, b2⟩ := binade_spec y hne
  have hE : -126 ≤ binade y := by
    by_contra hc
    push_neg at hc
    have := pow2_mono (show binade y + 1 ≤ -126 by omega)
    linarith
  unfold ulpExp
  rw [max_eq_left hE, show binade y - 23 = binade y + -23 from by ring, pow2_add]
  exact mul_le_mul_of_nonneg_right b1 (pow2_pos _).le

/-- Below the normal range the spacing of the grid is `2 ^ -149`. -/
theorem ulp_of_subnormal (y : ℚ) (hne : y ≠ 0) (hy : |y| < pow2 (-126)) :
    ulpExp y = -149 := by
  obtain ⟨b1, b2⟩ := binade_spec y hne
  have hE : binade y < -126 := by
    by_contra hc
    push_neg at hc
    have := pow2_mono hc
    linarith
  unfold ulpExp
  rw [max_eq_right hE.le]
  rfl

/-- A rounded value below a binary32 value stays below it. -/
theorem f32_le_of_le {x c : ℚ} (h : x ≤ c) (hc : f32 c = c) : f32 x ≤ c := by
  rw [← hc]; exact f32_mono h

/-- A rounded value above a binary32 value stays above it. -/
theorem f32_ge_of_ge {x c : ℚ} (h : c ≤ x) (hc : f32 c = c) : c ≤ f32 x := by
  rw [← hc]; exact f32_mono h

/-- Integers of magnitude up to `2 ^ 24` are binary32 values. -/
theorem f32_intCast (n : Int) (h : |n| ≤ 2 ^ 24) : f32 (n : ℚ) = (n : ℚ) := by
  have := f32_grid n 0 h (by omega)
  rwa [show pow2 0 = 1 from by decide!, mul_one] at this

theorem f32_natCast (n : Nat) (h : n ≤ 2 ^ 24) : f32 (n : ℚ) = (n : ℚ) := by
  have := f32_intCast (n : Int) (by rw [abs_of_nonneg (by omega)]; exact_mod_cast h)
  exact_mod_cast this

/-- Comparing a binary32 value with a decimal constant, or with that constant
rounded to binary32, gives the same result when the constant is not rounded up. -/
theorem f32_gt_const (y c : ℚ) (hy : f32 y = y) (hc : f32 c ≤ c) : y > c ↔ y > f32 c := by
  constructor
  · intro h
    exact lt_of_le_of_lt hc h
  · intro h
    by_contra hn
    have := f32_mono (not_lt.mp hn)
    rw [hy] at this
    exact absurd h (not_lt.mpr this)

theorem f32_le_const (y c : ℚ) (hy : f32 y = y) (hc : f32 c ≤ c) : y ≤ c ↔ y ≤ f32 c := by
  rw [← not_lt, ← not_lt]
  exact not_congr (f32_gt_const y c hy hc)

/-- The same for `<` and a constant that is not rounded down. -/
theorem f32_lt_const (y c : ℚ) (hy : f32 y = y) (hc : c ≤ f32 c) : y < c ↔ y < f32 c := by
  constructor
  · intro h
    exact lt_of_lt_of_le h hc
  · intro h
    by_contra hn
    have := f32_mono (not_lt.mp hn)
    rw [hy] at this
    exact absurd h (not_lt.mpr this)

/-- The decimal constants of the clock path: `1e-4f` and `1e-9f` are rounded down
and `0.0005f` is rounded up, so that the comparisons `> 1e-4f`, `<= 1e-9f` and
`< 0.0005f` of a `float` are the comparisons with the decimal values; `1e-6f` is
below every entry of the ratio table; `0.1f` is above `0.1`. -/
theorem decimal_constants :
    f32 1e-4 ≤ 1e-4 ∧ f32 1e-9 ≤ 1e-9 ∧ (0.0005 : ℚ) ≤ f32 0.0005 ∧ f32 1e-6 ≤ 1e-6 ∧
    f32 1e-6 ≤ 1 / 48 ∧ f32 0.1 = 13421773 / 134217728 ∧ f32 0.5 = 0.5 ∧ f32 1 = 1 := by
  decide!

/-- The error of a rounding: at most a relative `2 ^ (-24)` in the normal range
and `2 ^ (-150)` below it. -/
theorem f32_err (y Y : ℚ) (hY : |y| ≤ Y) : |f32 y - y| ≤ Y / 2 ^ 24 + 1 / 2 ^ 150 := by
  have h126 : pow2 (-126) = 1 / 2 ^ 126 := by decide!
  have h23 : pow2 (-23) = 1 / 2 ^ 23 := by decide!
  have h149 : pow2 (-149) = 1 / 2 ^ 149 := by decide!
  have hY0 : 0 ≤ Y := le_trans (abs_nonneg y) hY
  have h1 := f32_error y
  by_cases h0 : y = 0
  · subst h0
    rw [f32_zero, sub_zero, abs_zero]
    positivity
  · rcases le_or_lt (pow2 (-126)) |y| with hn | hs
    · have h2 := ulp_le_of_normal y hn
      rw [h23] at h2
      have : (0 : ℚ) ≤ 1 / 2 ^ 150 := by positivity
      linarith
    · rw [ulp_of_subnormal y h0 hs, h149] at h1
      have : (0 : ℚ) ≤ Y / 2 ^ 24 := by positivity
      linarith


theorem f32_tenth : f32 0.1 = 13421773 / 134217728 := by
  decide!

/-- The ratio table with the divisor quotients evaluated in binary32. -/
theorem ratio_table_values :
    RATIO_TABLE =
      [11184811 / 536870912, 1 / 32, 11184811 / 268435456, 1 / 16, 11184811 / 134217728,
       13421773 / 134217728, 1 / 8, 11184811 / 67108864, 13421773 / 67108864, 1 / 4,
       11184811 / 33554432, 13421773 / 33554432, 1 / 2, 11184811 / 16777216,
       1, 3 / 2, 2, 5 / 2, 3, 4, 5, 6, 8, 10, 12, 16, 24, 32, 48] := by
  decide!

theorem relStep_scanOffset (fwd : Bool) (cur len t : Int) (hl : 0 < len) :
    relStep fwd (scanOffset fwd cur len t) len = scanOffset fwd cur len (t + 1) := by
  have hne : len ≠ 0 := by omega
  cases fwd
  · simp only [relStep, scanOffset, Bool.false_eq_true, if_false]
    have h0 : 0 ≤ (cur - t) % len := Int.emod_nonneg _ hne
    rw [Int.tmod_eq_emod (by omega) (by omega)]
    rw [show (cur - t) % len - 1 + len = ((cur - t) % len + (-1)) + len by ring,
      Int.add_emod_self, Int.emod_add_emod]
    congr 1; ring
  · simp only [relStep, scanOffset, if_true]
    have h0 : 0 ≤ (cur + t) % len := Int.emod_nonneg _ hne
    rw [Int.tmod_eq_emod (by omega) (by omega), Int.emod_add_emod]
    congr 1; ring

theorem scanOffset_zero (fwd : Bool) (cur len : Int) (hc : 0 ≤ cur) (hcl : cur < len) :
    scanOffset fwd cur len 0 = cur := by
  cases fwd <;> simp [scanOffset, Int.emod_eq_of_lt hc hcl]

theorem scanOffset_range (fwd : Bool) (cur len t : Int) (hl : 0 < len) :
    0 ≤ scanOffset fwd cur len t ∧ scanOffset fwd cur len t < len := by
  have hne : len ≠ 0 := by omega
  cases fwd <;> simp only [scanOffset, Bool.false_eq_true, if_false, if_true] <;>
    exact ⟨Int.emod_nonneg _ hne, Int.emod_lt_of_pos _ hl⟩

theorem scanOffset_len (fwd : Bool) (cur len : Int) (hc : 0 ≤ cur) (hcl : cur < len) :
    scanOffset fwd cur len len = cur := by
  cases fwd
  · simp only [scanOffset, Bool.false_eq_true, if_false]
    rw [show cur - len = cur + (-1) * len by ring, Int.add_mul_emod_self, Int.emod_eq_of_lt hc hcl]
  · simp only [scanOffset, if_true]
    rw [Int.add_emod_self, Int.emod_eq_of_lt hc hcl]

/-- The scan loop, run for `n` iterations from the offset reached after `t0`
iterations: it returns the first non-Skip candidate, or `none` when all `n` are Skip. -/
theorem scanPlayable_spec (mode : Int → Int) (start len : Int) (fwd : Bool) (cur : Int)
    (hl : 0 < len) (n : Nat) : ∀ t0 : Int,
    (∀ c, scanPlayable mode start len fwd n (scanOffset fwd cur len t0) = some c →
      ∃ t : Int, 1 ≤ t ∧ t ≤ n ∧ c = wrap16 (start + scanOffset fwd cur len (t0 + t)) ∧
        mode c ≠ 2 ∧
        ∀ u : Int, 1 ≤ u → u < t → mode (wrap16 (start + scanOffset fwd cur len (t0 + u))) = 2) ∧
    (scanPlayable mode start len fwd n (scanOffset fwd cur len t0) = none →
      ∀ u : Int, 1 ≤ u → u ≤ n → mode (wrap16 (start + scanOffset fwd cur len (t0 + u))) = 2) := by
  induction n with
  | zero =>
    intro t0
    refine ⟨?_, ?_⟩
    · intro c h; exact absurd h (by simp [scanPlayable])
    · intro _ u h1 h2; exfalso; omega
  | succ n ih =>
    intro t0
    simp only [scanPlayable, relStep_scanOffset fwd cur len t0 hl]
    by_cases hm : mode (wrap16 (start + scanOffset fwd cur len (t0 + 1))) ≠ 2
    · rw [if_pos hm]
      refine ⟨?_, ?_⟩
      · intro c hc
        simp only [Option.some.injEq] at hc
        refine ⟨1, le_refl _, by push_cast; omega, hc.symm, hc ▸ hm, ?_⟩
        intro u h1 h2; omega
      · intro h; simp at h
    · rw [if_neg hm]
      have hm2 : mode (wrap16 (start + scanOffset fwd cur len (t0 + 1))) = 2 :=
        not_not.mp hm
      obtain ⟨ih1, ih2⟩ := ih (t0 + 1)
      refine ⟨?_, ?_⟩
      · intro c hc
        obtain ⟨t, ht1, ht2, hc1, hc2, hc3⟩ := ih1 c hc
        refine ⟨t + 1, by omega, by push_cast; omega, ?_, hc2, ?_⟩
        · rw [hc1]; congr 3; ring
        · intro u hu1 hu2
          by_cases hu : u = 1
          · subst hu; exact hm2
          · have := hc3 (u - 1) (by omega) (by omega)
            rw [show t0 + 1 + (u - 1) = t0 + u by ring] at this
            exact this
      · intro hnone u hu1 hu2
        by_cases hu : u = 1
        · subst hu; exact hm2
        · have := ih2 hnone (u - 1) (by omega) (by push_cast at hu2; omega)
          rw [show t0 + 1 + (u - 1) = t0 + u by ring] at this
          exact this

theorem scanOffset_surj (fwd : Bool) (cur len j : Int) (hl : 0 < len)
    (hj : 0 ≤ j) (hjl : j < len) :
    ∃ t : Int, 1 ≤ t ∧ t ≤ len ∧ scanOffset fwd cur len t = j := by
  have hne : len ≠ 0 := by omega
  cases fwd
  · have h0 := Int.emod_nonneg (cur - j) hne
    have h1 := Int.emod_lt_of_pos (cur - j) hl
    have key : (cur - (cur - j) % len) % len = j := by
      have := Int.emod_add_ediv (cur - j) len
      rw [show cur - (cur - j) % len = j + len * ((cur - j) / len) by linarith,
        Int.add_mul_emod_self_left, Int.emod_eq_of_lt hj hjl]
    by_cases hz : (cur - j) % len = 0
    · refine ⟨len, by omega, le_refl _, ?_⟩
      simp only [scanOffset, Bool.false_eq_true, if_false]
      rw [hz] at key
      rw [show cur - len = (cur - 0) + (-1) * len by ring, Int.add_mul_emod_self]
      exact key
    · refine ⟨(cur - j) % len, by omega, by omega, ?_⟩
      simp only [scanOffset, Bool.false_eq_true, if_false]
      exact key
  · have h0 := Int.emod_nonneg (j - cur) hne
    have h1 := Int.emod_lt_of_pos (j - cur) hl
    have key : (cur + (j - cur) % len) % len = j := by
      have := Int.emod_add_ediv (j - cur) len
      rw [show cur + (j - cur) % len = j + len * (-((j - cur) / len)) by linarith,
        Int.add_mul_emod_self_left, Int.emod_eq_of_lt hj hjl]
    by_cases hz : (j - cur) % len = 0
    · refine ⟨len, by omega, le_refl _, ?_⟩
      simp only [scanOffset, if_true]
      rw [hz] at key
      rw [Int.add_emod_self]
      simpa using key
    · refine ⟨(j - cur) % len, by omega, by omega, ?_⟩
      simp only [scanOffset, if_true]
      exact key

theorem relOf_wrap16 (start r : Int)
    (hr : 0 ≤ r) (hr2 : r < 16) : relOf (wrap16 (start + r)) start = r := by
  unfold relOf wrap16; omega

theorem wrap16_range (x : Int) : 0 ≤ wrap16 x ∧ wrap16 x ≤ 15 := by
  unfold wrap16; omega

/-- The scan of `findNextPlayable`, in both directions: the first non-Skip slot met
from `currentRel`, or the neighbouring slot when the whole window is Skip. -/
theorem findNextPlayable_scan (mode : Int → Int) (start len dir currentRel : Int)
    (hs : 0 ≤ start ∧ start ≤ 15) (hl : 1 ≤ len ∧ len ≤ 16)
    (hc : 0 ≤ currentRel ∧ currentRel < len) :
    ((∃ j, 0 ≤ j ∧ j < len ∧ mode (wrap16 (start + j)) ≠ 2) →
      (findNextPlayable mode start len dir currentRel).2 = false ∧
      ∃ t : Int, 1 ≤ t ∧ t ≤ len ∧
        (findNextPlayable mode start len dir currentRel).1
          = wrap16 (start + scanOffset (dir == 0) currentRel len t) ∧
        mode (findNextPlayable mode start len dir currentRel).1 ≠ 2 ∧
        ∀ u : Int, 1 ≤ u → u < t →
          mode (wrap16 (start + scanOffset (dir == 0) currentRel len u)) = 2) ∧
    ((∀ j, 0 ≤ j → j < len → mode (wrap16 (start + j)) = 2) →
      (findNextPlayable mode start len dir currentRel).2 = true ∧
      (findNextPlayable mode start len dir currentRel).1
        = wrap16 (start + scanOffset (dir == 0) currentRel len 1)) ∧
    scanOffset (dir == 0) currentRel len len = currentRel ∧
    (0 ≤ (findNextPlayable mode start len dir currentRel).1 ∧
      (findNextPlayable mode start len dir currentRel).1 ≤ 15 ∧
      0 ≤ relOf (findNextPlayable mode start len dir currentRel).1 start ∧
      relOf (findNextPlayable mode start len dir currentRel).1 start < len) := by
  obtain ⟨hs1, hs2⟩ := hs
  obtain ⟨hl1, hl2⟩ := hl
  obtain ⟨hc1, hc2⟩ := hc
  have hlpos : 0 < len := by omega
  have hnat : ((len.toNat : Nat) : Int) = len := Int.toNat_of_nonneg (by omega)
  have hspec := scanPlayable_spec mode start len (dir == 0) currentRel hlpos len.toNat 0
  rw [scanOffset_zero _ _ _ hc1 hc2] at hspec
  obtain ⟨hsome, hnone⟩ := hspec
  have hstep1 : relStep (dir == 0) currentRel len = scanOffset (dir == 0) currentRel len 1 := by
    have := relStep_scanOffset (dir == 0) currentRel len 0 hlpos
    rw [scanOffset_zero _ _ _ hc1 hc2] at this
    simpa using this
  have hin : ∀ t : Int, 0 ≤ relOf (wrap16 (start + scanOffset (dir == 0) currentRel len t)) start ∧
      relOf (wrap16 (start + scanOffset (dir == 0) currentRel len t)) start < len := by
    intro t
    have hr := scanOffset_range (dir == 0) currentRel len t hlpos
    rw [relOf_wrap16 start _ hr.1 (by omega)]
    exact hr
  cases hscan : scanPlayable mode start len (dir == 0) len.toNat currentRel with
  | none =>
    have hall := hnone hscan
    have hres : findNextPlayable mode start len dir currentRel
        = (wrap16 (start + scanOffset (dir == 0) currentRel len 1), true) := by
      simp only [findNextPlayable, hscan, hstep1]
    rw [hres]
    refine ⟨?_, ?_, scanOffset_len _ _ _ hc1 hc2, (wrap16_range _).1, (wrap16_range _).2, hin 1⟩
    · rintro ⟨j, hj1, hj2, hj3⟩
      obtain ⟨t, ht1, ht2, ht3⟩ := scanOffset_surj (dir == 0) currentRel len j hlpos hj1 hj2
      have := hall t ht1 (by omega)
      rw [zero_add, ht3] at this
      exact absurd this hj3
    · intro _; exact ⟨rfl, rfl⟩
  | some c =>
    obtain ⟨t, ht1, ht2, ht3, ht4, ht5⟩ := hsome c hscan
    have hres : findNextPlayable mode start len dir currentRel = (c, false) := by
      simp only [findNextPlayable, hscan]
    rw [hres]
    rw [zero_add] at ht3
    refine ⟨?_, ?_, scanOffset_len _ _ _ hc1 hc2, ?_, ?_, ?_⟩
    · intro _
      refine ⟨rfl, t, ht1, by omega, ht3, ht4, ?_⟩
      intro u hu1 hu2
      have := ht5 u hu1 hu2
      rwa [zero_add] at this
    · intro hall
      exfalso
      have hr := scanOffset_range (dir == 0) currentRel len t hlpos
      exact ht4 (ht3 ▸ hall _ hr.1 hr.2)
    · rw [ht3]; exact (wrap16_range _).1
    · rw [ht3]; exact (wrap16_range _).2
    · rw [ht3]; exact hin t

/-- C2: `findNextPlayable` returns the first non-Skip slot met when scanning the
window from `currentRel` (offsets `currentRel ± 1, ± 2, ...` modulo `len`, the
last one being `currentRel` itself) with `allSkip = false`; when every slot of
the window is Skip it returns the slot at offset `currentRel ± 1` with
`allSkip = true`.  The result is always a slot index in `0..15` inside the window. -/
theorem findNextPlayable_spec (mode : Int → Int) (start len dir currentRel : Int)
    (hs : 0 ≤ start ∧ start ≤ 15) (hl : 1 ≤ len ∧ len ≤ 16)
    (hc : 0 ≤ currentRel ∧ currentRel < len) :
    ((∃ j, 0 ≤ j ∧ j < len ∧ mode (wrap16 (start + j)) ≠ 2) →
      (findNextPlayable mode start len dir currentRel).2 = false ∧
      ∃ t : Int, 1 ≤ t ∧ t ≤ len ∧
        (findNextPlayable mode start len dir currentRel).1
          = wrap16 (start + scanOffset (dir == 0) currentRel len t) ∧
        mode (findNextPlayable mode start len dir currentRel).1 ≠ 2 ∧
        ∀ u : Int, 1 ≤ u → u < t →
          mode (wrap16 (start + scanOffset (dir == 0) currentRel len u)) = 2) ∧
    ((∀ j, 0 ≤ j → j < len → mode (wrap16 (start + j)) = 2) →
      (findNextPlayable mode start len dir currentRel).2 = true ∧
      (findNextPlayable mode start len dir currentRel).1
        = wrap16 (start + scanOffset (dir == 0) currentRel len 1)) ∧
    scanOffset (dir == 0) currentRel len len = currentRel ∧
    (0 ≤ (findNextPlayable mode start len dir currentRel).1 ∧
      (findNextPlayable mode start len dir currentRel).1 ≤ 15 ∧
      0 ≤ relOf (findNextPlayable mode start len dir currentRel).1 start ∧
      relOf (findNextPlayable mode start len dir currentRel).1 start < len) :=
  findNextPlayable_scan mode start len dir currentRel hs hl hc

theorem scanOffset_fwd_small (cur len t : Int) (h0 : 0 ≤ cur + t) (h1 : cur + t < len) :
    scanOffset true cur len t = cur + t := by
  simp only [scanOffset, if_true]; exact Int.emod_eq_of_lt h0 h1

theorem scanOffset_fwd_wrap (cur len t : Int) (h0 : len ≤ cur + t) (h1 : cur + t < 2 * len) :
    scanOffset true cur len t = cur + t - len := by
  simp only [scanOffset, if_true]
  rw [show cur + t = (cur + t - len) + len by ring, Int.add_emod_self,
    Int.emod_eq_of_lt (by omega) (by omega)]
  ring

/-- Forward lookup in a window that is not all-Skip, in terms of window offsets. -/
theorem findNextPlayable_fwd (mode : Int → Int) (start len rel : Int)
    (hs : 0 ≤ start ∧ start ≤ 15) (hl : 1 ≤ len ∧ len ≤ 16) (hc : 0 ≤ rel ∧ rel < len)
    (hns : ∃ j, 0 ≤ j ∧ j < len ∧ mode (wrap16 (start + j)) ≠ 2) :
    ∃ r1 : Int, 0 ≤ r1 ∧ r1 < len ∧
      findNextPlayable mode start len 0 rel = (wrap16 (start + r1), false) ∧
      mode (wrap16 (start + r1)) ≠ 2 ∧
      ((∃ j, rel < j ∧ j < len ∧ mode (wrap16 (start + j)) ≠ 2) →
        rel < r1 ∧ ∀ j, rel < j → j < r1 → mode (wrap16 (start + j)) = 2) ∧
      ((∀ j, rel < j → j < len → mode (wrap16 (start + j)) = 2) →
        r1 ≤ rel ∧ ∀ j, 0 ≤ j → j < r1 → mode (wrap16 (start + j)) = 2) := by
  obtain ⟨h1, _, _, _⟩ := findNextPlayable_scan mode start len 0 rel hs hl hc
  obtain ⟨hfalse, t, ht1, ht2, hres, hmode, hmin⟩ := h1 hns
  have hd : ((0 : Int) == 0) = true := rfl
  rw [hd] at hres hmin
  obtain ⟨hc1, hc2⟩ := hc
  obtain ⟨hl1, hl2⟩ := hl
  have hpair : findNextPlayable mode start len 0 rel
      = (wrap16 (start + scanOffset true rel len t), false) := by
    rw [← hres, ← hfalse]
  have hr := scanOffset_range true rel len t (by omega)
  refine ⟨scanOffset true rel len t, hr.1, hr.2, hpair, hres ▸ hmode, ?_, ?_⟩
  · rintro ⟨j, hj1, hj2, hj3⟩
    have htj : t ≤ j - rel := by
      by_contra hlt
      have := hmin (j - rel) (by omega) (by omega)
      rw [scanOffset_fwd_small rel len (j - rel) (by omega) (by omega)] at this
      rw [show rel + (j - rel) = j by ring] at this
      exact hj3 this
    rw [scanOffset_fwd_small rel len t (by omega) (by omega)]
    refine ⟨by omega, ?_⟩
    intro i hi1 hi2
    have := hmin (i - rel) (by omega) (by omega)
    rw [scanOffset_fwd_small rel len (i - rel) (by omega) (by omega)] at this
    rwa [show rel + (i - rel) = i by ring] at this
  · intro hall
    have hge : len ≤ rel + t := by
      by_contra hlt
      have hm := hres ▸ hmode
      rw [scanOffset_fwd_small rel len t (by omega) (by omega)] at hm
      exact hm (hall (rel + t) (by omega) (by omega))
    rw [scanOffset_fwd_wrap rel len t hge (by omega)]
    refine ⟨by omega, ?_⟩
    intro i hi1 hi2
    have := hmin (i + len - rel) (by omega) (by omega)
    rw [scanOffset_fwd_wrap rel len (i + len - rel) (by omega) (by omega)] at this
    rwa [show rel + (i + len - rel) - len = i by ring] at this

theorem clamp_dir_zero : clamp (0 : Int) 0 4 = 0 := by decide

theorem fireGate_step (s : State) (P : Params) (I : Inputs) (start : Int) (ratio : ℚ)
    (mute : Bool) : (fireGate s P I start ratio mute).1.step = s.step := by
  unfold fireGate; dsimp only; split_ifs <;> rfl

theorem fireGate_eocPulse (s : State) (P : Params) (I : Inputs) (start : Int) (ratio : ℚ)
    (mute : Bool) : (fireGate s P I start ratio mute).1.eocPulse = s.eocPulse := by
  unfold fireGate; dsimp only; split_ifs <;> rfl

theorem fireGate_muted (s : State) (P : Params) (I : Inputs) (start : Int) (ratio : ℚ) :
    fireGate s P I start ratio true = ({ s with gatePulse := 0 }, none) := by
  simp [fireGate]

theorem fireGate_not_play (s : State) (P : Params) (I : Inputs) (start : Int) (ratio : ℚ)
    (mute : Bool) (h : P.stepMode s.step ≠ 0) :
    fireGate s P I start ratio mute = ({ s with gatePulse := 0 }, none) := by
  simp [fireGate, h]

theorem tickNav_fwd (s : State) (P : Params) (I : Inputs) (start steps : Int)
    (hdir : P.dirMode = 0) (hplay : s.playCurrentOnNextTick = false) :
    tickNav s P I start steps =
      { nextStep := (findNextPlayable P.stepMode start steps 0 (relOf s.step start)).1
        wrapped := decide (relOf (findNextPlayable P.stepMode start steps 0 (relOf s.step start)).1
          start < relOf s.step start)
        allSkip := (findNextPlayable P.stepMode start steps 0 (relOf s.step start)).2
        pingDir := s.pingDir
        drunkDir := s.drunkDir } := by
  simp [tickNav, hplay, hdir, clamp_dir_zero, navigate]

/-- Projections of a normal Forward step-advance without pending reset. -/
theorem advance_fwd (s : State) (P : Params) (I : Inputs) (start steps : Int) (ratio : ℚ)
    (hdir : P.dirMode = 0) (hplay : s.playCurrentOnNextTick = false)
    (hrp : s.resetPending = false) :
    (advance s P I start steps ratio).1.step
        = (findNextPlayable P.stepMode start steps 0 (relOf s.step start)).1 ∧
    (advance s P I start steps ratio).2.wrapped
        = decide (relOf (findNextPlayable P.stepMode start steps 0 (relOf s.step start)).1 start
            < relOf s.step start) ∧
    (advance s P I start steps ratio).1.eocPulse
        = (if (advance s P I start steps ratio).2.wrapped then pulseTrigger s.eocPulse trigLen
           else s.eocPulse) ∧
    ((findNextPlayable P.stepMode start steps 0 (relOf s.step start)).2 = true →
      (advance s P I start steps ratio).2.fired = none) := by
  simp only [advance, hrp, tickNav_fwd s P I start steps hdir hplay, Bool.false_eq_true, if_false,
    fireGate_step, fireGate_eocPulse, applyNav]
  refine ⟨trivial, trivial, trivial, ?_⟩
  intro h
  simp [muteGlobal, hdir, clamp_dir_zero, h, fireGate_muted]

theorem navFrame_refl (a : State) : navFrame a a := by
  simp [navFrame]

theorem navFrame_trans {a b c : State} (h1 : navFrame a b) (h2 : navFrame b c) : navFrame a c := by
  unfold navFrame at *
  obtain ⟨a1, a2, a3, a4, a5, a6, a7, a8, a9, a10⟩ := h1
  obtain ⟨b1, b2, b3, b4, b5, b6, b7, b8, b9, b10⟩ := h2
  exact ⟨a1.trans b1, a2.trans b2, a3.trans b3, a4.trans b4, a5.trans b5, a6.trans b6,
    a7.trans b7, a8.trans b8, a9.trans b9, a10.trans b10⟩

theorem clockEdge_frame (s : State) (ratio : ℚ) : navFrame (clockEdge s ratio) s := by
  unfold clockEdge navFrame; dsimp only; split_ifs <;> simp

theorem phaseTimeout_frame (s : State) : navFrame (phaseTimeout s) s := by
  unfold phaseTimeout navFrame; dsimp only; split_ifs <;> simp

theorem virtualOscillator_frame (s : State) (dt : ℚ) : navFrame (virtualOscillator s dt) s := by
  unfold virtualOscillator navFrame; dsimp only; split_ifs <;> simp

theorem swingScheduler_frame (s : State) (P : Params) (dt : ℚ) :
    navFrame (swingScheduler s P dt).1 s := by
  unfold swingScheduler serviceQueue pendingTick navFrame; dsimp only; split_ifs <;> simp

theorem tickTimers_frame (s : State) (I : Inputs) : navFrame (tickTimers s I) s := by
  unfold tickTimers navFrame; dsimp only; split_ifs <;> simp

theorem fireGate_ctl (s : State) (P : Params) (I : Inputs) (start : Int) (ratio : ℚ)
    (mute : Bool) :
    (fireGate s P I start ratio mute).1.playCurrentOnNextTick = s.playCurrentOnNextTick ∧
    (fireGate s P I start ratio mute).1.resetPending = s.resetPending ∧
    (fireGate s P I start ratio mute).1.resetTargetStep = s.resetTargetStep ∧
    (fireGate s P I start ratio mute).1.eocOnReset = s.eocOnReset ∧
    (fireGate s P I start ratio mute).1.pingDir = s.pingDir ∧
    (fireGate s P I start ratio mute).1.drunkDir = s.drunkDir := by
  unfold fireGate; dsimp only; split_ifs <;> simp

/-- After the tick / reset-application part of a clock-connected sample no
reset request is pending. -/
theorem tickAndReset_resetPending (sw : State × Bool) (P : Params) (I : Inputs) :
    (tickAndReset sw P I).1.resetPending = false := by
  unfold tickAndReset
  by_cases h2 : sw.2 = true
  · rw [if_pos h2]
    dsimp only [advance]
    by_cases hp : sw.1.resetPending = true
    · rw [if_pos hp]; rfl
    · rw [if_neg hp, (fireGate_ctl _ _ _ _ _ _).2.1]
      simpa [applyNav] using hp
  · rw [if_neg h2]
    by_cases hp : sw.1.resetPending = true
    · rw [if_pos hp]; rfl
    · rw [if_neg hp]; simpa using hp

/-- A pending reset request is applied by the tick / reset-application part,
with or without a step-advance. -/
theorem tickAndReset_of_pending (sw : State × Bool) (P : Params) (I : Inputs)
    (hp : sw.1.resetPending = true) :
    (tickAndReset sw P I).1.step = sw.1.resetTargetStep ∧
    (tickAndReset sw P I).1.playCurrentOnNextTick = true := by
  unfold tickAndReset
  by_cases h2 : sw.2 = true
  · rw [if_pos h2]
    dsimp only [advance]
    rw [if_pos hp]
    refine ⟨?_, rfl⟩
    simp only [applyPendingReset, (fireGate_ctl _ _ _ _ _ _).2.2.1]
    rfl
  · rw [if_neg h2, if_pos hp]
    exact ⟨rfl, rfl⟩

/-- Without a step-advance and without pending request the tick part is the identity. -/
theorem tickAndReset_idle (sw : State × Bool) (P : Params) (I : Inputs)
    (h2 : sw.2 = false) (hp : sw.1.resetPending = false) :
    tickAndReset sw P I = (sw.1, none) := by
  unfold tickAndReset; simp [h2, hp]

/-- With a step-advance and without pending request the tick part is `advance`. -/
theorem tickAndReset_tick (sw : State × Bool) (P : Params) (I : Inputs)
    (h2 : sw.2 = true) :
    tickAndReset sw P I =
      ((advance sw.1 P I (windowStart P) (windowSteps P) (ratioOf P)).1,
        some (advance sw.1 P I (windowStart P) (windowSteps P) (ratioOf P)).2) := by
  unfold tickAndReset; simp [h2]

theorem process_connected (s : State) (P : Params) (I : Inputs) (h : I.clkConnected = true) :
    process s P I = withClock s (preClock s P I) P I := by
  simp [process, h]

theorem process_disconnected (s : State) (P : Params) (I : Inputs) (h : I.clkConnected = false) :
    process s P I = noClock (preClock s P I) P I := by
  simp [process, h]

/-- Fields of the final state of a clock-connected sample that the pulse
sampling and the glide filter leave as the tick part produced them. -/
theorem withClock_ctl (s s3 : State) (P : Params) (I : Inputs) :
    (withClock s s3 P I).state.step
      = (tickAndReset (swingScheduler (preSwing s P I) P I.sampleTime) P I).1.step ∧
    (withClock s s3 P I).state.playCurrentOnNextTick
      = (tickAndReset (swingScheduler (preSwing s P I) P I.sampleTime) P I).1.playCurrentOnNextTick ∧
    (withClock s s3 P I).state.resetPending
      = (tickAndReset (swingScheduler (preSwing s P I) P I.sampleTime) P I).1.resetPending ∧
    (withClock s s3 P I).state.resetTargetStep
      = (tickAndReset (swingScheduler (preSwing s P I) P I.sampleTime) P I).1.resetTargetStep ∧
    (withClock s s3 P I).state.eocOnReset
      = (tickAndReset (swingScheduler (preSwing s P I) P I.sampleTime) P I).1.eocOnReset ∧
    (withClock s s3 P I).clockNow = (swingScheduler (preSwing s P I) P I.sampleTime).2 ∧
    (withClock s s3 P I).tick
      = (tickAndReset (swingScheduler (preSwing s P I) P I.sampleTime) P I).2 := by
  unfold withClock emitPulses slew; dsimp only; split_ifs <;> simp

theorem preSwing_frame (s : State) (P : Params) (I : Inputs) :
    navFrame (preSwing s P I) (preClock s P I) := by
  unfold preSwing; dsimp only
  refine navFrame_trans (virtualOscillator_frame _ _) (navFrame_trans (phaseTimeout_frame _) ?_)
  split_ifs
  · exact clockEdge_frame _ _
  · exact navFrame_refl _

theorem preClock_reset (s : State) (P : Params) (I : Inputs) (h : I.rstEdge = true) :
    (preClock s P I).step = foldStep s.step (windowStart P) (windowSteps P) ∧
    (preClock s P I).resetPending = true ∧
    (preClock s P I).resetTargetStep = windowStart P ∧
    (preClock s P I).playCurrentOnNextTick = true ∧
    (preClock s P I).gatePulse = 0 ∧
    (preClock s P I).eocPulse = (if s.eocOnReset then pulseTrigger 0 trigLen else 0) ∧
    (preClock s P I).stepGateTrig = (fun _ => 0) ∧
    (preClock s P I).eocOnReset = s.eocOnReset := by
  have h1 := tickTimers_frame s I
  unfold navFrame at h1
  simp [preClock, h, resetBlock, h1.1, h1.2.2.2.2.1]

theorem preClock_noReset (s : State) (P : Params) (I : Inputs) (h : I.rstEdge = false) :
    (preClock s P I).step = foldStep s.step (windowStart P) (windowSteps P) ∧
    (preClock s P I).resetPending = s.resetPending ∧
    (preClock s P I).resetTargetStep = s.resetTargetStep ∧
    (preClock s P I).playCurrentOnNextTick = s.playCurrentOnNextTick ∧
    (preClock s P I).gatePulse = s.gatePulse ∧
    (preClock s P I).eocPulse = s.eocPulse ∧
    (preClock s P I).stepGateTrig = s.stepGateTrig ∧
    (preClock s P I).eocOnReset = s.eocOnReset ∧
    (preClock s P I).pingDir = s.pingDir ∧
    (preClock s P I).drunkDir = s.drunkDir := by
  have h1 := tickTimers_frame s I
  unfold navFrame at h1
  obtain ⟨a1, a2, a3, a4, a5, a6, a7, a8, a9, a10⟩ := h1
  simp [preClock, h, a1, a2, a3, a4, a5, a6, a7, a8, a9, a10]

/-- One Forward step-advance (no replay, no reset pending), by cases on the
window: a later non-Skip offset exists; none exists but the window is not
all-Skip; the window is all-Skip. -/
theorem forward_advance_step (s : State) (P : Params) (I : Inputs) (start steps : Int)
    (ratio : ℚ) (hs : 0 ≤ start ∧ start ≤ 15) (hl : 1 ≤ steps ∧ steps ≤ 16)
    (hdir : P.dirMode = 0) (hplay : s.playCurrentOnNextTick = false)
    (hrp : s.resetPending = false) (hwin : relOf s.step start < steps) :
    ((∃ j, relOf s.step start < j ∧ j < steps ∧ P.stepMode (wrap16 (start + j)) ≠ 2) →
      ∃ r1 : Int, relOf s.step start < r1 ∧ r1 < steps ∧
        (advance s P I start steps ratio).1.step = wrap16 (start + r1) ∧
        relOf (advance s P I start steps ratio).1.step start = r1 ∧
        P.stepMode (wrap16 (start + r1)) ≠ 2 ∧
        (∀ j, relOf s.step start < j → j < r1 → P.stepMode (wrap16 (start + j)) = 2) ∧
        (advance s P I start steps ratio).2.wrapped = false ∧
        (advance s P I start steps ratio).1.eocPulse = s.eocPulse) ∧
    ((∀ j, relOf s.step start < j → j < steps → P.stepMode (wrap16 (start + j)) = 2) →
      (∃ j, 0 ≤ j ∧ j ≤ relOf s.step start ∧ P.stepMode (wrap16 (start + j)) ≠ 2) →
      ∃ r1 : Int, 0 ≤ r1 ∧ r1 ≤ relOf s.step start ∧
        (advance s P I start steps ratio).1.step = wrap16 (start + r1) ∧
        relOf (advance s P I start steps ratio).1.step start = r1 ∧
        P.stepMode (wrap16 (start + r1)) ≠ 2 ∧
        (∀ j, 0 ≤ j → j < r1 → P.stepMode (wrap16 (start + j)) = 2) ∧
        ((advance s P I start steps ratio).2.wrapped = true ↔ r1 < relOf s.step start) ∧
        ((advance s P I start steps ratio).2.wrapped = true ↔
          ∃ j, 0 ≤ j ∧ j < relOf s.step start ∧ P.stepMode (wrap16 (start + j)) ≠ 2) ∧
        (advance s P I start steps ratio).1.eocPulse
          = (if r1 < relOf s.step start then pulseTrigger s.eocPulse trigLen else s.eocPulse)) ∧
    ((∀ j, 0 ≤ j → j < steps → P.stepMode (wrap16 (start + j)) = 2) →
      (advance s P I start steps ratio).1.step
        = wrap16 (start + (relOf s.step start + 1) % steps) ∧
      ((advance s P I start steps ratio).2.wrapped = true ↔
        (relOf s.step start + 1 = steps ∧ 2 ≤ steps)) ∧
      (advance s P I start steps ratio).2.fired = none) := by
  obtain ⟨hstep, hwr, heoc, hfired⟩ := advance_fwd s P I start steps ratio hdir hplay hrp
  have hrel0 : 0 ≤ relOf s.step start := (wrap16_range _).1
  obtain ⟨hl1, hl2⟩ := hl
  refine ⟨?_, ?_, ?_⟩
  · intro hex
    obtain ⟨j, hj1, hj2, hj3⟩ := hex
    obtain ⟨r1, hr0, hr1, hfind, hmode, hA, _⟩ :=
      findNextPlayable_fwd P.stepMode start steps (relOf s.step start) hs ⟨hl1, hl2⟩
        ⟨hrel0, hwin⟩ ⟨j, by omega, hj2, hj3⟩
    obtain ⟨hlt, hskip⟩ := hA ⟨j, hj1, hj2, hj3⟩
    have hrel1 : relOf (wrap16 (start + r1)) start = r1 := relOf_wrap16 start r1 hr0 (by omega)
    rw [hfind] at hstep hwr
    have hw : (advance s P I start steps ratio).2.wrapped = false := by
      rw [hwr, hrel1]; exact decide_eq_false (by omega)
    refine ⟨r1, hlt, hr1, hstep, by rw [hstep, hrel1], hmode, hskip, hw, ?_⟩
    rw [heoc, hw]; rfl
  · intro hall hex
    obtain ⟨j, hj1, hj2, hj3⟩ := hex
    obtain ⟨r1, hr0, hr1, hfind, hmode, _, hB⟩ :=
      findNextPlayable_fwd P.stepMode start steps (relOf s.step start) hs ⟨hl1, hl2⟩
        ⟨hrel0, hwin⟩ ⟨j, hj1, by omega, hj3⟩
    obtain ⟨hle, hskip⟩ := hB hall
    have hrel1 : relOf (wrap16 (start + r1)) start = r1 := relOf_wrap16 start r1 hr0 (by omega)
    rw [hfind] at hstep hwr
    have hw : (advance s P I start steps ratio).2.wrapped = true ↔ r1 < relOf s.step start := by
      rw [hwr, hrel1]; exact decide_eq_true_iff
    refine ⟨r1, hr0, hle, hstep, by rw [hstep, hrel1], hmode, hskip, hw, ?_, ?_⟩
    · rw [hw]
      constructor
      · intro hlt; exact ⟨r1, hr0, hlt, hmode⟩
      · rintro ⟨i, hi0, hi1, hi2⟩
        by_contra hge
        exact hi2 (hskip i hi0 (by omega))
    · rw [heoc]
      by_cases hlt : r1 < relOf s.step start
      · rw [if_pos hlt, hw.mpr hlt]; rfl
      · rw [if_neg hlt]
        have : (advance s P I start steps ratio).2.wrapped = false := by
          cases hb : (advance s P I start steps ratio).2.wrapped
          · rfl
          · exact absurd (hw.mp hb) hlt
        rw [this]; rfl
  · intro hall
    obtain ⟨_, h2, _, _⟩ := findNextPlayable_scan P.stepMode start steps 0 (relOf s.step start)
      hs ⟨hl1, hl2⟩ ⟨hrel0, hwin⟩
    obtain ⟨htrue, hres⟩ := h2 hall
    have hd : ((0 : Int) == 0) = true := rfl
    rw [hd] at hres
    have hoff : scanOffset true (relOf s.step start) steps 1
        = (relOf s.step start + 1) % steps := by simp [scanOffset]
    rw [hoff] at hres
    have hr := Int.emod_nonneg (relOf s.step start + 1) (show steps ≠ 0 by omega)
    have hr2 := Int.emod_lt_of_pos (relOf s.step start + 1) (show 0 < steps by omega)
    refine ⟨by rw [hstep, hres], ?_, hfired htrue⟩
    rw [hwr, hres, relOf_wrap16 start _ hr (by omega), decide_eq_true_iff]
    by_cases hlast : relOf s.step start + 1 = steps
    · rw [hlast, Int.emod_self]; omega
    · rw [Int.emod_eq_of_lt (by omega) (by omega)]; omega

theorem noClock_ctl (s3 : State) (P : Params) (I : Inputs) :
    (noClock s3 P I).state.step = s3.step ∧
    (noClock s3 P I).state.playCurrentOnNextTick = s3.playCurrentOnNextTick ∧
    (noClock s3 P I).state.resetPending = s3.resetPending ∧
    (noClock s3 P I).state.resetTargetStep = s3.resetTargetStep ∧
    (noClock s3 P I).clockNow = false := by
  unfold noClock hardStop slew; dsimp only; split_ifs <;> simp

theorem swing_ctl (s : State) (P : Params) (I : Inputs) :
    navFrame (swingScheduler (preSwing s P I) P I.sampleTime).1 (preClock s P I) :=
  navFrame_trans (swingScheduler_frame _ _ _) (preSwing_frame _ _ _)

/-- What one sample does to the reset request, with the clock connected and
disconnected. -/
theorem reset_request_samples (s : State) (P : Params) (I : Inputs) :
    (I.clkConnected = true → I.rstEdge = true →
      (process s P I).state.resetPending = false ∧
      (process s P I).state.step = windowStart P ∧
      (process s P I).state.playCurrentOnNextTick = true) ∧
    (I.clkConnected = true → (process s P I).state.resetPending = false) ∧
    (I.clkConnected = true → I.rstEdge = false → s.resetPending = true →
      (process s P I).state.step = s.resetTargetStep ∧
      (process s P I).state.playCurrentOnNextTick = true) ∧
    (I.clkConnected = false → I.rstEdge = true →
      (process s P I).state.resetPending = true ∧
      (process s P I).state.resetTargetStep = windowStart P ∧
      (process s P I).state.playCurrentOnNextTick = true ∧
      (process s P I).state.step = foldStep s.step (windowStart P) (windowSteps P)) ∧
    (I.clkConnected = false → I.rstEdge = false →
      (process s P I).state.resetPending = s.resetPending) := by
  have hsw := swing_ctl s P I
  unfold navFrame at hsw
  obtain ⟨f1, f2, f3, f4, -⟩ := hsw
  refine ⟨?_, ?_, ?_, ?_, ?_⟩
  · intro hc hr
    obtain ⟨c1, c2, c3, -⟩ := withClock_ctl s (preClock s P I) P I
    obtain ⟨p1, p2, p3, -⟩ := preClock_reset s P I hr
    rw [process_connected s P I hc, c1, c2, c3]
    obtain ⟨t1, t2⟩ := tickAndReset_of_pending
      (swingScheduler (preSwing s P I) P I.sampleTime) P I (by rw [f3, p2])
    exact ⟨tickAndReset_resetPending _ _ _, by rw [t1, f4, p3], t2⟩
  · intro hc
    obtain ⟨-, -, c3, -⟩ := withClock_ctl s (preClock s P I) P I
    rw [process_connected s P I hc, c3]
    exact tickAndReset_resetPending _ _ _
  · intro hc hr hp
    obtain ⟨c1, c2, -⟩ := withClock_ctl s (preClock s P I) P I
    obtain ⟨-, p2, p3, -⟩ := preClock_noReset s P I hr
    rw [process_connected s P I hc, c1, c2]
    obtain ⟨t1, t2⟩ := tickAndReset_of_pending
      (swingScheduler (preSwing s P I) P I.sampleTime) P I (by rw [f3, p2, hp])
    exact ⟨by rw [t1, f4, p3], t2⟩
  · intro hc hr
    obtain ⟨n1, n2, n3, n4, -⟩ := noClock_ctl (preClock s P I) P I
    obtain ⟨p1, p2, p3, p4, -⟩ := preClock_reset s P I hr
    rw [process_disconnected s P I hc, n1, n2, n3, n4]
    exact ⟨p2, p3, p4, p1⟩
  · intro hc hr
    obtain ⟨-, -, n3, -⟩ := noClock_ctl (preClock s P I) P I
    obtain ⟨-, p2, -⟩ := preClock_noReset s P I hr
    rw [process_disconnected s P I hc, n3, p2]

/-- C4 (amended): in every clock-connected sample the reset request is consumed:
`resetPending` is false at the end of the sample, and if a reset edge was
detected (or a request was still pending) `currentStep` is the reset target and
the replay flag is armed, with or without a step-advance.  With the clock
disconnected `process` returns before the request is applied: it stays pending
and `currentStep` is only folded. -/
theorem reset_request_lifecycle (s : State) (P : Params) (I : Inputs) :
    (I.clkConnected = true → I.rstEdge = true →
      (process s P I).state.resetPending = false ∧
      (process s P I).state.step = windowStart P ∧
      (process s P I).state.playCurrentOnNextTick = true) ∧
    (I.clkConnected = true → (process s P I).state.resetPending = false) ∧
    (I.clkConnected = true → I.rstEdge = false → s.resetPending = true →
      (process s P I).state.step = s.resetTargetStep ∧
      (process s P I).state.playCurrentOnNextTick = true) ∧
    (I.clkConnected = false → I.rstEdge = true →
      (process s P I).state.resetPending = true ∧
      (process s P I).state.resetTargetStep = windowStart P ∧
      (process s P I).state.playCurrentOnNextTick = true ∧
      (process s P I).state.step = foldStep s.step (windowStart P) (windowSteps P)) ∧
    (I.clkConnected = false → I.rstEdge = false →
      (process s P I).state.resetPending = s.resetPending) :=
  reset_request_samples s P I

theorem foldStep_start (start steps : Int) (hl : 1 ≤ steps) :
    foldStep start start steps = start := by
  have : relOf start start = 0 := by unfold relOf wrap16; omega
  unfold foldStep; dsimp only
  rw [this, if_neg (by omega)]

theorem windowSteps_range (P : Params) : 1 ≤ windowSteps P ∧ windowSteps P ≤ 16 := by
  unfold windowSteps clamp; omega

theorem windowStart_range (P : Params) : 0 ≤ windowStart P ∧ windowStart P ≤ 15 := by
  unfold windowStart clamp; omega

/-- A clock-connected sample without reset edge, pending request or step-advance
only folds the current step. -/
theorem idle_sample (s : State) (P : Params) (I : Inputs) (hc : I.clkConnected = true)
    (hr : I.rstEdge = false) (hp : s.resetPending = false)
    (hq : (process s P I).clockNow = false) :
    (process s P I).state.step = foldStep s.step (windowStart P) (windowSteps P) ∧
    (process s P I).state.playCurrentOnNextTick = s.playCurrentOnNextTick ∧
    (process s P I).state.resetPending = false := by
  have hsw := swing_ctl s P I
  unfold navFrame at hsw
  obtain ⟨f1, f2, f3, -⟩ := hsw
  obtain ⟨c1, c2, c3, -, -, c6, -⟩ := withClock_ctl s (preClock s P I) P I
  obtain ⟨p1, p2, -, p4, -⟩ := preClock_noReset s P I hr
  rw [process_connected s P I hc] at hq ⊢
  rw [c6] at hq
  rw [c1, c2, c3, tickAndReset_idle _ P I hq (by rw [f3, p2, hp])]
  exact ⟨by rw [f1, p1], by rw [f2, p4], by rw [f3, p2, hp]⟩

/-- A clock-connected sample with a step-advance, without reset edge or pending
request: the new state and trace are those of `advance` on a state whose
navigation fields are the folded ones. -/
theorem tick_sample (s : State) (P : Params) (I : Inputs) (hc : I.clkConnected = true)
    (hr : I.rstEdge = false) (hq : (process s P I).clockNow = true) :
    ∃ m : State, m.step = foldStep s.step (windowStart P) (windowSteps P) ∧
      m.playCurrentOnNextTick = s.playCurrentOnNextTick ∧ m.resetPending = s.resetPending ∧
      m.resetTargetStep = s.resetTargetStep ∧
      (process s P I).state.step
        = (advance m P I (windowStart P) (windowSteps P) (ratioOf P)).1.step ∧
      (process s P I).state.playCurrentOnNextTick
        = (advance m P I (windowStart P) (windowSteps P) (ratioOf P)).1.playCurrentOnNextTick ∧
      (process s P I).tick
        = some (advance m P I (windowStart P) (windowSteps P) (ratioOf P)).2 := by
  have hsw := swing_ctl s P I
  unfold navFrame at hsw
  obtain ⟨f1, f2, f3, f4, -⟩ := hsw
  obtain ⟨c1, c2, -, -, -, c6, c7⟩ := withClock_ctl s (preClock s P I) P I
  obtain ⟨p1, p2, p3, p4, -⟩ := preClock_noReset s P I hr
  rw [process_connected s P I hc] at hq ⊢
  rw [c6] at hq
  refine ⟨(swingScheduler (preSwing s P I) P I.sampleTime).1, by rw [f1, p1], by rw [f2, p4],
    by rw [f3, p2], by rw [f4, p3], ?_, ?_, ?_⟩
  · rw [c1, tickAndReset_tick _ P I hq]
  · rw [c2, tickAndReset_tick _ P I hq]
  · rw [c7, tickAndReset_tick _ P I hq]

/-- The replay tick in Forward mode: the current step is kept and its gate fires
exactly when its mode is Play. -/
theorem advance_replay_fwd (s : State) (P : Params) (I : Inputs) (start steps : Int) (ratio : ℚ)
    (hplay : s.playCurrentOnNextTick = true) (hdir : P.dirMode = 0)
    (hrp : s.resetPending = false) :
    (advance s P I start steps ratio).1.step = s.step ∧
    (advance s P I start steps ratio).1.playCurrentOnNextTick = false ∧
    (advance s P I start steps ratio).2.wrapped = false ∧
    (advance s P I start steps ratio).2.fired
      = (if P.stepMode s.step = 0 then
          some (relOf s.step start,
            gateLength P.gateMode (P.dur s.step) ratio s.virtPeriod I.sampleTime)
         else none) := by
  have hnav : tickNav s P I start steps =
      { nextStep := s.step, wrapped := false, allSkip := P.stepMode s.step == 2,
        pingDir := s.pingDir, drunkDir := s.drunkDir } := by
    simp [tickNav, hplay]
  simp only [advance, hnav, hrp, Bool.false_eq_true, if_false, fireGate_step,
    (fireGate_ctl _ _ _ _ _ _).1]
  refine ⟨rfl, rfl, trivial, ?_⟩
  by_cases hm : P.stepMode s.step = 0
  · simp [fireGate, muteGlobal, hdir, clamp_dir_zero, applyNav, hm]
  · simp [fireGate, applyNav, hm]

/-- A silent stretch of the scenario keeps the navigator on step 0 and keeps the
replay flag. -/
theorem silent_run_keeps (idle : List (Params × Inputs)) :
    ∀ s : State, (∀ x ∈ idle, scenarioSample x) → silent s idle = true →
      s.step = 0 → s.resetPending = false →
      (run s idle).step = 0 ∧
      (run s idle).playCurrentOnNextTick = s.playCurrentOnNextTick ∧
      (run s idle).resetPending = false := by
  induction idle with
  | nil => intro s _ _ h0 hp; exact ⟨h0, rfl, hp⟩
  | cons x xs ih =>
    intro s hq hs h0 hp
    have hx := hq x (List.mem_cons_self _ _)
    unfold scenarioSample at hx
    obtain ⟨hc, hr, hst⟩ := hx
    simp only [silent, Bool.and_eq_true, Bool.not_eq_true'] at hs
    obtain ⟨i1, i2, i3⟩ := idle_sample s x.1 x.2 hc hr hp hs.1
    rw [h0, hst] at i1
    have hfold : foldStep 0 0 (windowSteps x.1) = 0 :=
      foldStep_start 0 _ (windowSteps_range x.1).1
    rw [hfold] at i1
    obtain ⟨j1, j2, j3⟩ := ih (process s x.1 x.2).state
      (fun y hy => hq y (List.mem_cons_of_mem _ hy)) hs.2 i1 i3
    exact ⟨j1, by rw [← i2]; exact j2, j3⟩


/-- Pulse fields and pulse outputs of a clock-connected sample in terms of
`emitPulses` applied to the state the tick part produced. -/
theorem withClock_pulses (s s3 : State) (P : Params) (I : Inputs) :
    (withClock s s3 P I).state.gatePulse
      = (emitPulses (tickAndReset (swingScheduler (preSwing s P I) P I.sampleTime) P I).1
          (windowSteps P) I.sampleTime).1.gatePulse ∧
    (withClock s s3 P I).state.eocPulse
      = (emitPulses (tickAndReset (swingScheduler (preSwing s P I) P I.sampleTime) P I).1
          (windowSteps P) I.sampleTime).1.eocPulse ∧
    (withClock s s3 P I).state.stepGateTrig
      = (emitPulses (tickAndReset (swingScheduler (preSwing s P I) P I.sampleTime) P I).1
          (windowSteps P) I.sampleTime).1.stepGateTrig ∧
    (withClock s s3 P I).out.gate
      = (emitPulses (tickAndReset (swingScheduler (preSwing s P I) P I.sampleTime) P I).1
          (windowSteps P) I.sampleTime).2.1 ∧
    (withClock s s3 P I).out.stepGates
      = (emitPulses (tickAndReset (swingScheduler (preSwing s P I) P I.sampleTime) P I).1
          (windowSteps P) I.sampleTime).2.2.1 ∧
    (withClock s s3 P I).out.eoc
      = (emitPulses (tickAndReset (swingScheduler (preSwing s P I) P I.sampleTime) P I).1
          (windowSteps P) I.sampleTime).2.2.2 := by
  unfold withClock slew; dsimp only; split_ifs <;> simp

/-- Sampling pulse generators that are all idle leaves them idle and emits 0 V. -/
theorem emitPulses_idle (s : State) (steps : Int) (dt : ℚ) (hg : s.gatePulse = 0)
    (he : s.eocPulse = 0) (hst : s.stepGateTrig = fun _ => 0) :
    (emitPulses s steps dt).1.gatePulse = 0 ∧ (emitPulses s steps dt).1.eocPulse = 0 ∧
    (∀ i, (emitPulses s steps dt).1.stepGateTrig i = 0) ∧
    (emitPulses s steps dt).2.1 = 0 ∧ (emitPulses s steps dt).2.2.2 = 0 ∧
    (∀ v ∈ (emitPulses s steps dt).2.2.1, v = 0) := by
  simp [emitPulses, pulseProcess, hg, he, hst]

/-- C3 (amended): a reset edge arrives with the clock connected and window start 0
(the navigator is anywhere, for instance on step 7).  (a) At the end of that
sample the navigator is on step 0 with the replay flag armed; if the
end-of-cycle-on-reset option is off and no step-advance fires in that sample,
the aggregate, end-of-cycle and per-step pulses are all cut and their outputs
are 0 V.  (b) The next step-advance (Forward) keeps step 0 and fires its gate
exactly when step 0 is in Play mode.  (c) The step-advance after that moves to
the Forward lookup result from offset 0. -/
theorem reset_scenario (s : State) (P0 : Params) (I0 : Inputs)
    (idle1 : List (Params × Inputs)) (P1 : Params) (I1 : Inputs)
    (idle2 : List (Params × Inputs)) (P2 : Params) (I2 : Inputs)
    (h0 : I0.clkConnected = true ∧ I0.rstEdge = true ∧ windowStart P0 = 0)
    (hq1 : ∀ x ∈ idle1, scenarioSample x)
    (hs1 : silent (process s P0 I0).state idle1 = true)
    (h1 : scenarioSample (P1, I1) ∧ P1.dirMode = 0)
    (ht1 : (process (run (process s P0 I0).state idle1) P1 I1).clockNow = true)
    (hq2 : ∀ x ∈ idle2, scenarioSample x)
    (hs2 : silent (process (run (process s P0 I0).state idle1) P1 I1).state idle2 = true)
    (h2 : scenarioSample (P2, I2) ∧ P2.dirMode = 0)
    (ht2 : (process (run (process (run (process s P0 I0).state idle1) P1 I1).state idle2)
      P2 I2).clockNow = true) :
    ((process s P0 I0).state.step = 0 ∧
      (process s P0 I0).state.playCurrentOnNextTick = true ∧
      (process s P0 I0).state.resetPending = false) ∧
    (s.eocOnReset = false → (process s P0 I0).clockNow = false →
      (process s P0 I0).state.gatePulse = 0 ∧ (process s P0 I0).state.eocPulse = 0 ∧
      (∀ i, (process s P0 I0).state.stepGateTrig i = 0) ∧
      (process s P0 I0).out.gate = 0 ∧ (process s P0 I0).out.eoc = 0 ∧
      (∀ v ∈ (process s P0 I0).out.stepGates, v = 0)) ∧
    ((process (run (process s P0 I0).state idle1) P1 I1).state.step = 0 ∧
      ∃ T : TickTrace, (process (run (process s P0 I0).state idle1) P1 I1).tick = some T ∧
        T.wrapped = false ∧
        (P1.stepMode 0 = 0 → ∃ g, T.fired = some (0, g)) ∧
        (P1.stepMode 0 ≠ 0 → T.fired = none)) ∧
    (process (run (process (run (process s P0 I0).state idle1) P1 I1).state idle2)
        P2 I2).state.step
      = (findNextPlayable P2.stepMode 0 (windowSteps P2) 0 0).1 := by
  obtain ⟨hc0, hr0, hst0⟩ := h0
  obtain ⟨⟨hc1, hr1, hst1⟩, hd1⟩ := h1
  obtain ⟨⟨hc2, hr2, hst2⟩, hd2⟩ := h2
  dsimp only at hc1 hr1 hst1 hc2 hr2 hst2
  obtain ⟨a1, a2, a3⟩ := (reset_request_samples s P0 I0).1 hc0 hr0
  rw [hst0] at a2
  -- silent stretch after the reset
  obtain ⟨b1, b2, b3⟩ := silent_run_keeps idle1 _ hq1 hs1 a2 a1
  rw [a3] at b2
  -- the replay tick
  obtain ⟨m, m1, m2, m3, -, m5, m6, m7⟩ :=
    tick_sample (run (process s P0 I0).state idle1) P1 I1 hc1 hr1 ht1
  rw [b1, hst1, foldStep_start 0 _ (windowSteps_range P1).1] at m1
  rw [b2] at m2
  rw [b3] at m3
  obtain ⟨r1, r2, r3, r4⟩ :=
    advance_replay_fwd m P1 I1 0 (windowSteps P1) (ratioOf P1) m2 hd1 m3
  rw [hst1] at m5 m6 m7
  rw [r1, m1] at m5
  rw [r2] at m6
  have hrp1 : (process (run (process s P0 I0).state idle1) P1 I1).state.resetPending = false :=
    (reset_request_samples _ P1 I1).2.1 hc1
  -- silent stretch after the replay
  obtain ⟨d1, d2, d3⟩ := silent_run_keeps idle2 _ hq2 hs2 m5 hrp1
  rw [m6] at d2
  -- the next tick
  obtain ⟨n, n1, n2, n3, -, n5, -, -⟩ :=
    tick_sample (run (process (run (process s P0 I0).state idle1) P1 I1).state idle2)
      P2 I2 hc2 hr2 ht2
  rw [d1, hst2, foldStep_start 0 _ (windowSteps_range P2).1] at n1
  rw [d2] at n2
  rw [d3] at n3
  rw [hst2] at n5
  have hrel : relOf n.step 0 = 0 := by rw [n1]; decide
  refine ⟨⟨a2, a3, a1⟩, ?_, ⟨m5, _, m7, r3, ?_, ?_⟩, ?_⟩
  · intro he hq
    have hsw := swing_ctl s P0 I0
    unfold navFrame at hsw
    obtain ⟨-, -, f3, -, -, -, -, f8, f9, f10⟩ := hsw
    obtain ⟨-, p2, -, -, p5, p6, p7, -⟩ := preClock_reset s P0 I0 hr0
    obtain ⟨-, -, -, -, -, c6, -⟩ := withClock_ctl s (preClock s P0 I0) P0 I0
    obtain ⟨w1, w2, w3, w4, w5, w6⟩ := withClock_pulses s (preClock s P0 I0) P0 I0
    rw [process_connected s P0 I0 hc0] at hq ⊢
    rw [c6] at hq
    have hta : tickAndReset (swingScheduler (preSwing s P0 I0) P0 I0.sampleTime) P0 I0
        = (applyPendingReset (swingScheduler (preSwing s P0 I0) P0 I0.sampleTime).1, none) := by
      unfold tickAndReset
      rw [if_neg (by rw [hq]; decide), if_pos (by rw [f3, p2])]
    rw [w1, w2, w3, w4, w5, w6, hta]
    rw [he] at p6
    exact emitPulses_idle _ _ _ (by rw [← p5, ← f8]; rfl)
      (by rw [← f9] at p6; exact p6) (by rw [← p7, ← f10]; rfl)
  · intro hm
    rw [r4, m1, if_pos hm]
    exact ⟨_, by rw [show relOf 0 0 = 0 by decide]⟩
  · intro hm
    rw [r4, m1, if_neg hm]
  · rw [n5, (advance_fwd n P2 I2 0 (windowSteps P2) (ratioOf P2) hd2 n2 n3).1, hrel]

theorem applyNav_virtPeriod (s : State) (nav : NavResult) :
    (applyNav s nav).virtPeriod = s.virtPeriod := rfl

/-- Whatever a step-advance fires is the pair of the selected step's window
offset and `gateLength` of its duration, and the step is in Play mode. -/
theorem advance_fired (s : State) (P : Params) (I : Inputs) (start steps : Int) (ratio : ℚ)
    (k : Int) (g : ℚ) (h : (advance s P I start steps ratio).2.fired = some (k, g)) :
    ∃ st : Int, P.stepMode st = 0 ∧ k = relOf st start ∧
      g = gateLength P.gateMode (P.dur st) ratio s.virtPeriod I.sampleTime := by
  simp only [advance, fireGate] at h
  split_ifs at h with hc
  · simp only [Option.some.injEq, Prod.mk.injEq] at h
    simp only [Bool.and_eq_true, beq_iff_eq] at hc
    exact ⟨_, hc.2, h.1.symm, h.2.symm⟩

theorem trigLen_pos : 0 < trigLen := by norm_num [trigLen]

theorem gateLength_pos (gateMode : Int) (dur ratio virtPeriod sampleTime : ℚ) :
    0 < gateLength gateMode dur ratio virtPeriod sampleTime := by
  have ht := trigLen_pos
  have hu : (0 : ℚ) < clamp dur 0.001 10.0 := by
    unfold clamp; exact lt_of_lt_of_le (by norm_num) (le_max_right _ _)
  have h90 : (0 : ℚ) < 0.90 := by norm_num
  unfold gateLength
  dsimp only
  split_ifs
  · exact lt_max_of_lt_left ht
  · rename_i h1 _ _ _; exact mul_pos h1.2.2 h90
  · exact lt_max_of_lt_left ht
  · exact hu
  · exact lt_max_of_lt_left ht
  · rename_i h1 _ _ _; exact mul_pos h1.2.2 h90
  · exact lt_max_of_lt_left ht
  · exact ht
  · exact hu
  · exact ht

/-- The duty clamp of lines 837-852: when a step-advance fires a gate in Gate mode
with ratio > 1 and `virtPeriod > 0`, the fired length is positive; if the period
leaves room for the trigger length (`trigLen ≤ virtPeriod - minOff`,
`minOff = max(1 ms, 2 samples)`), the length is at most `0.9 * virtPeriod` and
at most `virtPeriod - minOff`; otherwise it is either within
`virtPeriod - minOff` or exactly `trigLen`, the floor of line 851, which then
exceeds both bounds. -/
theorem duty_clamp (s : State) (P : Params) (I : Inputs) (start steps : Int) (ratio : ℚ)
    (k : Int) (g : ℚ) (hf : (advance s P I start steps ratio).2.fired = some (k, g))
    (hg : P.gateMode = 0) (hr : ratio > 1) (hvp : s.virtPeriod > 0) :
    0 < g ∧
    (trigLen ≤ s.virtPeriod - max 0.001 (2 * I.sampleTime) →
      g ≤ 0.9 * s.virtPeriod ∧ g ≤ s.virtPeriod - max 0.001 (2 * I.sampleTime)) ∧
    (s.virtPeriod - max 0.001 (2 * I.sampleTime) < trigLen →
      (g ≤ 0.9 * s.virtPeriod ∧ g ≤ s.virtPeriod - max 0.001 (2 * I.sampleTime)) ∨
        g = trigLen) := by
  obtain ⟨st, -, -, hgl⟩ := advance_fired s P I start steps ratio k g hf
  have hpos := gateLength_pos P.gateMode (P.dur st) ratio s.virtPeriod I.sampleTime
  rw [← hgl] at hpos
  refine ⟨hpos, ?_, ?_⟩
  · intro hroom
    rw [hgl]
    unfold gateLength
    dsimp only
    rw [if_pos ⟨hg, hr, hvp⟩]
    simp only [hg, if_true]
    split_ifs with h1 h2 h3
    · rw [max_eq_right hroom]; constructor <;> linarith
    · constructor <;> linarith
    · rw [max_eq_right hroom]; constructor <;> linarith
    · constructor <;> linarith
  · intro hsmall
    rw [hgl]
    unfold gateLength
    dsimp only
    rw [if_pos ⟨hg, hr, hvp⟩]
    simp only [hg, if_true]
    split_ifs with h1 h2 h3
    · right; exact max_eq_left (le_of_lt hsmall)
    · left; constructor <;> linarith
    · right; exact max_eq_left (le_of_lt hsmall)
    · left; constructor <;> linarith

theorem clkFrame_trans {a b c : State} (h1 : clkFrame a b) (h2 : clkFrame b c) : clkFrame a c :=
  ⟨h1.1.trans h2.1, h1.2.1.trans h2.2.1, h1.2.2.trans h2.2.2⟩

theorem phaseTimeout_clk (s : State) : clkFrame (phaseTimeout s) s := by
  unfold phaseTimeout clkFrame; dsimp only; split_ifs <;> simp

theorem virtualOscillator_clk (s : State) (dt : ℚ) : clkFrame (virtualOscillator s dt) s := by
  unfold virtualOscillator clkFrame; dsimp only; split_ifs <;> simp

theorem swingScheduler_clk (s : State) (P : Params) (dt : ℚ) :
    clkFrame (swingScheduler s P dt).1 s := by
  unfold swingScheduler serviceQueue pendingTick clkFrame; dsimp only; split_ifs <;> simp

theorem fireGate_clk (s : State) (P : Params) (I : Inputs) (start : Int) (ratio : ℚ)
    (mute : Bool) : clkFrame (fireGate s P I start ratio mute).1 s := by
  unfold fireGate clkFrame; dsimp only; split_ifs <;> simp

theorem advance_clk (s : State) (P : Params) (I : Inputs) (start steps : Int) (ratio : ℚ) :
    clkFrame (advance s P I start steps ratio).1 s := by
  have h := fireGate_clk (applyNav s (tickNav s P I start steps)) P I start ratio
    (muteGlobal P start steps (tickNav s P I start steps))
  unfold clkFrame at h ⊢
  unfold advance; dsimp only
  split_ifs
  · exact ⟨h.1, h.2.1, h.2.2⟩
  · exact ⟨h.1, h.2.1, h.2.2⟩

theorem tickAndReset_clk (sw : State × Bool) (P : Params) (I : Inputs) :
    clkFrame (tickAndReset sw P I).1 sw.1 := by
  unfold tickAndReset
  split_ifs
  · exact advance_clk _ _ _ _ _ _
  · exact ⟨rfl, rfl, rfl⟩
  · exact ⟨rfl, rfl, rfl⟩

theorem withClock_clk (s s3 : State) (P : Params) (I : Inputs) :
    clkFrame (withClock s s3 P I).state (preSwing s P I) := by
  have h1 := tickAndReset_clk (swingScheduler (preSwing s P I) P I.sampleTime) P I
  have h2 := swingScheduler_clk (preSwing s P I) P I.sampleTime
  have h3 := clkFrame_trans h1 h2
  unfold clkFrame at h3 ⊢
  unfold withClock emitPulses slew; dsimp only
  split_ifs <;> exact h3

theorem preClock_clk (s : State) (P : Params) (I : Inputs) (hc : I.clkConnected = true) :
    (preClock s P I).timeSinceClk = f32 (s.timeSinceClk + I.sampleTime) ∧
    (preClock s P I).lastPeriod = s.lastPeriod ∧
    (preClock s P I).virtPeriod = s.virtPeriod := by
  unfold preClock tickTimers resetBlock; dsimp only
  split_ifs <;> simp [hc]

/-- Every entry of `RATIO_TABLE` is at least 1/48, for any read of the index. -/
theorem ratioOf_ge (P : Params) : (1 / 48 : ℚ) ≤ ratioOf P := by
  unfold ratioOf
  have h : (clamp P.ratioIdx 0 (NUM_RATIOS - 1)).toNat < 29 := by
    have : NUM_RATIOS = 29 := by decide
    rw [this]; unfold clamp; omega
  generalize (clamp P.ratioIdx 0 (NUM_RATIOS - 1)).toNat = n at h
  rw [ratio_table_values]
  interval_cases n <;> decide!

theorem ratioOf_valid (P : Params) (h0 : 0 ≤ P.ratioIdx) (h1 : P.ratioIdx ≤ 28) :
    ratioOf P = RATIO_TABLE.getD P.ratioIdx.toNat 0 := by
  unfold ratioOf
  have : NUM_RATIOS = 29 := by decide
  rw [this]
  have : clamp P.ratioIdx 0 (29 - 1) = P.ratioIdx := by unfold clamp; omega
  rw [this]

theorem clockEdge_clk (s : State) (ratio : ℚ) (hr : (1 / 48 : ℚ) ≤ ratio) :
    (clockEdge s ratio).timeSinceClk = 0 ∧
    (clockEdge s ratio).lastPeriod = s.timeSinceClk ∧
    (s.timeSinceClk > 1e-4 → (clockEdge s ratio).virtPeriod = f32 (s.timeSinceClk / ratio)) ∧
    (s.timeSinceClk ≤ 1e-4 → (clockEdge s ratio).virtPeriod = s.virtPeriod) := by
  have hmax : max ratio 1e-6 = ratio := max_eq_left (le_trans (by norm_num) hr)
  unfold clockEdge; dsimp only
  refine ⟨?_, ?_, ?_, ?_⟩
  · split_ifs <;> rfl
  · split_ifs <;> rfl
  · intro h; rw [hmax]; split_ifs <;> rfl
  · intro h
    have h2 : ¬ s.timeSinceClk > 1e-4 := not_lt.mpr h
    split_ifs <;> rfl

/-- Clock-measurement fields after a clock-connected sample with an edge. -/
theorem edge_sample_clk (s : State) (P : Params) (I : Inputs) (hc : I.clkConnected = true)
    (he : I.clkEdge = true) :
    (process s P I).state.timeSinceClk = 0 ∧
    (process s P I).state.lastPeriod = f32 (s.timeSinceClk + I.sampleTime) ∧
    (f32 (s.timeSinceClk + I.sampleTime) > 1e-4 →
      (process s P I).state.virtPeriod
        = f32 (f32 (s.timeSinceClk + I.sampleTime) / ratioOf P)) ∧
    (f32 (s.timeSinceClk + I.sampleTime) ≤ 1e-4 →
      (process s P I).state.virtPeriod = s.virtPeriod) := by
  obtain ⟨w1, w2, w3⟩ := withClock_clk s (preClock s P I) P I
  obtain ⟨p1, p2, p3⟩ := preClock_clk s P I hc
  obtain ⟨e1, e2, e3, e4⟩ := clockEdge_clk (preClock s P I) (ratioOf P) (ratioOf_ge P)
  have hpre : clkFrame (preSwing s P I) (clockEdge (preClock s P I) (ratioOf P)) := by
    unfold preSwing; dsimp only
    rw [if_pos he]
    exact clkFrame_trans (virtualOscillator_clk _ _) (phaseTimeout_clk _)
  obtain ⟨q1, q2, q3⟩ := hpre
  rw [process_connected s P I hc, w1, w2, w3, q1, q2, q3, e1, e2, p1]
  rw [p1] at e3 e4
  rw [p3] at e4
  exact ⟨rfl, rfl, e3, e4⟩

/-- Clock-measurement fields after a clock-connected sample without an edge. -/
theorem quiet_sample_clk (s : State) (P : Params) (I : Inputs) (hc : I.clkConnected = true)
    (he : I.clkEdge = false) :
    (process s P I).state.timeSinceClk = f32 (s.timeSinceClk + I.sampleTime) ∧
    (process s P I).state.lastPeriod = s.lastPeriod ∧
    (process s P I).state.virtPeriod = s.virtPeriod := by
  obtain ⟨w1, w2, w3⟩ := withClock_clk s (preClock s P I) P I
  obtain ⟨p1, p2, p3⟩ := preClock_clk s P I hc
  have hpre : clkFrame (preSwing s P I) (preClock s P I) := by
    unfold preSwing; dsimp only
    rw [if_neg (by rw [he]; decide)]
    exact clkFrame_trans (virtualOscillator_clk _ _) (phaseTimeout_clk _)
  obtain ⟨q1, q2, q3⟩ := hpre
  rw [process_connected s P I hc, w1, w2, w3, q1, q2, q3, p1, p2, p3]
  exact ⟨rfl, rfl, rfl⟩

/-- Between two edges of a clock sampled every `dt`, `timeSinceClk` is the
single-precision sum of the sample times. -/
theorem run_timeSinceClk (dt : ℚ) (mid : List (Params × Inputs)) :
    ∀ (s : State) (k : Nat),
      (∀ x ∈ mid, x.2.clkConnected = true ∧ x.2.clkEdge = false ∧ x.2.sampleTime = dt) →
      s.timeSinceClk = timerAfter dt k →
      (run s mid).timeSinceClk = timerAfter dt (k + mid.length) := by
  induction mid with
  | nil => intro s k _ h0; simpa [run] using h0
  | cons x xs ih =>
    intro s k h h0
    obtain ⟨hc, he, hdt⟩ := h x (List.mem_cons_self _ _)
    obtain ⟨q1, -, -⟩ := quiet_sample_clk s x.1 x.2 hc he
    simp only [run, List.length_cons]
    rw [ih _ (k + 1) (fun y hy => h y (List.mem_cons_of_mem _ hy))
      (by rw [q1, hdt, h0]; rfl)]
    congr 1
    omega

/-- While the multiples of the sample time are binary32 values, the accumulator
counts the samples exactly. -/
theorem timerAfter_exact (dt : ℚ) (M : Nat) (hx : GridExact dt M) :
    ∀ n : Nat, n ≤ M → timerAfter dt n = (n : ℚ) * dt := by
  intro n
  induction n with
  | zero => intro _; simp [timerAfter]
  | succ n ih =>
    intro hn
    have h := hx (n + 1) hn
    simp only [timerAfter]
    rw [ih (by omega)]
    rw [show (n : ℚ) * dt + dt = ((n + 1 : Nat) : ℚ) * dt from by push_cast; ring]
    exact h

/-- C8 (amended): on a sample in which a clock edge is detected, with `T` the
measured inter-edge time (`timeSinceClk` including this sample, a
single-precision sum): `lastPeriod = T`; if `T > 1e-4` then `virtPeriod` is the
single-precision quotient `T / ratio`, where for a valid index the ratio is the
`RATIO_TABLE` entry; if `T ≤ 1e-4`, `virtPeriod` is unchanged.  Under a steady
clock (an edge, then `n` samples without edge, then an edge, all with sample
time `dt`) the period measured at the second edge is the single-precision sum of
`n + 1` sample times, `timerAfter dt (n + 1)`, and `virtPeriod` is its quotient by
the ratio; the sum equals `(n + 1) * dt` when the multiples of `dt` up to `n + 1`
are binary32 values. -/
theorem virtPeriod_on_edge (s : State) (P : Params) (I : Inputs)
    (hc : I.clkConnected = true) (he : I.clkEdge = true) :
    (process s P I).state.lastPeriod = f32 (s.timeSinceClk + I.sampleTime) ∧
    (f32 (s.timeSinceClk + I.sampleTime) > 1e-4 →
      (process s P I).state.virtPeriod
        = f32 (f32 (s.timeSinceClk + I.sampleTime) / ratioOf P)) ∧
    (0 ≤ P.ratioIdx → P.ratioIdx ≤ 28 → ratioOf P = RATIO_TABLE.getD P.ratioIdx.toNat 0) ∧
    (f32 (s.timeSinceClk + I.sampleTime) ≤ 1e-4 →
      (process s P I).state.virtPeriod = s.virtPeriod) ∧
    (∀ (mid : List (Params × Inputs)) (P1 : Params) (I1 : Inputs),
      (∀ x ∈ mid, x.2.clkConnected = true ∧ x.2.clkEdge = false ∧
        x.2.sampleTime = I.sampleTime) →
      I1.clkConnected = true → I1.clkEdge = true → I1.sampleTime = I.sampleTime →
      timerAfter I.sampleTime (mid.length + 1) > 1e-4 →
      (process (run (process s P I).state mid) P1 I1).state.lastPeriod
        = timerAfter I.sampleTime (mid.length + 1) ∧
      (process (run (process s P I).state mid) P1 I1).state.virtPeriod
        = f32 (timerAfter I.sampleTime (mid.length + 1) / ratioOf P1)) ∧
    (∀ n M : Nat, GridExact I.sampleTime M → n ≤ M →
      timerAfter I.sampleTime n = (n : ℚ) * I.sampleTime) := by
  obtain ⟨e1, e2, e3, e4⟩ := edge_sample_clk s P I hc he
  refine ⟨e2, e3, ratioOf_valid P, e4, ?_, fun n M hx hn => timerAfter_exact _ M hx n hn⟩
  intro mid P1 I1 hmid hc1 he1 hdt hT
  have hrun := run_timeSinceClk I.sampleTime mid (process s P I).state 0 hmid (by rw [e1]; rfl)
  obtain ⟨-, f2, f3, -⟩ := edge_sample_clk (run (process s P I).state mid) P1 I1 hc1 he1
  rw [hrun, hdt, Nat.zero_add] at f2 f3
  exact ⟨f2, f3 hT⟩

theorem fireGate_swing (s : State) (P : Params) (I : Inputs) (start : Int) (ratio : ℚ)
    (mute : Bool) : swingFrame (fireGate s P I start ratio mute).1 s := by
  unfold fireGate swingFrame; dsimp only; split_ifs <;> simp

theorem tickAndReset_swing (sw : State × Bool) (P : Params) (I : Inputs) :
    swingFrame (tickAndReset sw P I).1 sw.1 := by
  unfold tickAndReset
  split_ifs
  · have h := fireGate_swing (applyNav sw.1 (tickNav sw.1 P I (windowStart P) (windowSteps P)))
      P I (windowStart P) (ratioOf P)
      (muteGlobal P (windowStart P) (windowSteps P)
        (tickNav sw.1 P I (windowStart P) (windowSteps P)))
    unfold swingFrame at h ⊢
    unfold advance; dsimp only
    split_ifs <;> exact h
  · exact ⟨rfl, rfl, rfl, rfl⟩
  · exact ⟨rfl, rfl, rfl, rfl⟩

theorem withClock_swing (s s3 : State) (P : Params) (I : Inputs) :
    swingFrame (withClock s s3 P I).state
      (swingScheduler (preSwing s P I) P I.sampleTime).1 := by
  have h1 := tickAndReset_swing (swingScheduler (preSwing s P I) P I.sampleTime) P I
  unfold swingFrame at h1 ⊢
  unfold withClock emitPulses slew; dsimp only
  split_ifs <;> exact h1

theorem pendingTick_idle (m : State) (dt : ℚ) (hp : m.tickPending = false) :
    pendingTick m dt = (m, false) := by
  unfold pendingTick; rw [if_neg (by rw [hp]; decide)]

/-- The discard branch of the scheduler (lines 731-733). -/
theorem swingScheduler_discard (m : State) (P : Params) (dt : ℚ)
    (hp : m.tickPending = false) (hq : m.queuedBaseTicks > 0)
    (hd : swingDelay m P ≤ 1e-9) (hb : m.sinceLastTick < 0.0005) :
    (swingScheduler m P dt).2 = false ∧
    (swingScheduler m P dt).1.queuedBaseTicks = m.queuedBaseTicks - 1 ∧
    (swingScheduler m P dt).1.swingPhase = m.swingPhase ∧
    (swingScheduler m P dt).1.sinceLastTick = m.sinceLastTick := by
  unfold swingScheduler
  rw [pendingTick_idle m dt hp]
  unfold serviceQueue
  dsimp only
  rw [if_pos (by simp [hp, hq]), if_pos hd, if_pos hb]
  exact ⟨rfl, rfl, rfl, rfl⟩

theorem pendingTick_fired (m : State) (dt : ℚ) (h : (pendingTick m dt).2 = true) :
    (pendingTick m dt).1.sinceLastTick = 0 := by
  unfold pendingTick at h ⊢
  dsimp only at h ⊢
  split_ifs at h ⊢
  rfl

theorem serviceQueue_fired (r : State × Bool) (P : Params)
    (hr : r.2 = true → r.1.sinceLastTick = 0) (h : (serviceQueue r P).2 = true) :
    (serviceQueue r P).1.sinceLastTick = 0 := by
  unfold serviceQueue at h ⊢
  dsimp only at h ⊢
  split_ifs at h ⊢
  · exact hr h
  · rfl
  · exact hr h
  · exact hr h

/-- Whenever the scheduler reports a step-advance it has zeroed the anti-bounce timer. -/
theorem swingScheduler_fired (m : State) (P : Params) (dt : ℚ)
    (h : (swingScheduler m P dt).2 = true) : (swingScheduler m P dt).1.sinceLastTick = 0 :=
  serviceQueue_fired _ P (pendingTick_fired m dt) h

theorem tickTimers_swing (s : State) (I : Inputs) :
    (tickTimers s I).sinceLastTick = f32 (s.sinceLastTick + I.sampleTime) ∧
    (tickTimers s I).swingPhase = s.swingPhase := by
  unfold tickTimers; dsimp only; split_ifs <;> exact ⟨rfl, rfl⟩

theorem preClock_swing (s : State) (P : Params) (I : Inputs) :
    (preClock s P I).sinceLastTick = f32 (s.sinceLastTick + I.sampleTime) ∧
    (I.rstEdge = false → (preClock s P I).swingPhase = s.swingPhase) := by
  obtain ⟨t1, t2⟩ := tickTimers_swing s I
  unfold preClock resetBlock; dsimp only
  constructor
  · split_ifs <;> exact t1
  · intro h; rw [if_neg (by rw [h]; decide)]; exact t2

theorem clockEdge_swing (s : State) (ratio : ℚ) :
    (clockEdge s ratio).sinceLastTick = s.sinceLastTick ∧
    (clockEdge s ratio).swingPhase = s.swingPhase := by
  unfold clockEdge; dsimp only; split_ifs <;> exact ⟨rfl, rfl⟩

theorem phaseTimeout_swing (s : State) :
    (phaseTimeout s).sinceLastTick = s.sinceLastTick ∧
    (phaseTimeout s).swingPhase = s.swingPhase := by
  unfold phaseTimeout; dsimp only; split_ifs <;> exact ⟨rfl, rfl⟩

theorem virtualOscillator_swing (s : State) (dt : ℚ) :
    (virtualOscillator s dt).sinceLastTick = s.sinceLastTick ∧
    (virtualOscillator s dt).swingPhase = s.swingPhase := by
  unfold virtualOscillator; dsimp only; split_ifs <;> exact ⟨rfl, rfl⟩

theorem preSwing_swing (s : State) (P : Params) (I : Inputs) :
    (preSwing s P I).sinceLastTick = f32 (s.sinceLastTick + I.sampleTime) ∧
    (I.rstEdge = false → (preSwing s P I).swingPhase = s.swingPhase) := by
  obtain ⟨p1, p2⟩ := preClock_swing s P I
  unfold preSwing; dsimp only
  rw [(virtualOscillator_swing _ _).1, (virtualOscillator_swing _ _).2,
    (phaseTimeout_swing _).1, (phaseTimeout_swing _).2]
  split_ifs
  · rw [(clockEdge_swing _ _).1, (clockEdge_swing _ _).2]; exact ⟨p1, p2⟩
  · exact ⟨p1, p2⟩

/-- C9: with the clock connected, when the scheduler services a queued base tick
(no tick deferred, queue not empty) whose swing delay is zero (at most 1e-9)
while less than 0.5 ms have passed since the last fired step-advance (the
anti-bounce timer `sinceLastTick`, incremented in single precision at the start
of the sample, reads less than 0.0005), the tick is taken from the queue without
firing: the scheduler changes nothing but the queue count (and the delay scratch
variable), there is no step-advance in that sample, the swing parity counter
keeps its value and, reset aside, `currentStep` is only folded.  After any fired
step-advance the timer restarts from zero, so a zero-delay tick serviced in the
next sample, less than 0.5 ms later (a sample time that is a binary32 value
below 0.5 ms), is discarded: of the two ticks exactly one fires. -/
theorem anti_bounce (s : State) (P : Params) (I : Inputs) (hc : I.clkConnected = true) :
    ((preSwing s P I).tickPending = false → (preSwing s P I).queuedBaseTicks > 0 →
      swingDelay (preSwing s P I) P ≤ 1e-9 →
      f32 (s.sinceLastTick + I.sampleTime) < 0.0005 →
      swingScheduler (preSwing s P I) P I.sampleTime
        = ({ preSwing s P I with
             pendingDelay := swingDelay (preSwing s P I) P
             queuedBaseTicks := (preSwing s P I).queuedBaseTicks - 1 }, false) ∧
      (process s P I).clockNow = false ∧ (process s P I).tick = none ∧
      (process s P I).state.queuedBaseTicks = (preSwing s P I).queuedBaseTicks - 1 ∧
      (process s P I).state.swingPhase = (preSwing s P I).swingPhase ∧
      (I.rstEdge = false → (process s P I).state.swingPhase = s.swingPhase) ∧
      (I.rstEdge = false → s.resetPending = false →
        (process s P I).state.step = foldStep s.step (windowStart P) (windowSteps P))) ∧
    ((process s P I).clockNow = true →
      (process s P I).state.sinceLastTick = 0 ∧
      ∀ (P1 : Params) (I1 : Inputs), I1.clkConnected = true →
        f32 I1.sampleTime = I1.sampleTime → I1.sampleTime < 0.0005 →
        (preSwing (process s P I).state P1 I1).tickPending = false →
        (preSwing (process s P I).state P1 I1).queuedBaseTicks > 0 →
        swingDelay (preSwing (process s P I).state P1 I1) P1 ≤ 1e-9 →
        (process (process s P I).state P1 I1).clockNow = false ∧
        (process (process s P I).state P1 I1).tick = none) := by
  have part1 : ∀ (s : State) (P : Params) (I : Inputs), I.clkConnected = true →
      (preSwing s P I).tickPending = false → (preSwing s P I).queuedBaseTicks > 0 →
      swingDelay (preSwing s P I) P ≤ 1e-9 →
      f32 (s.sinceLastTick + I.sampleTime) < 0.0005 →
      (process s P I).clockNow = false ∧ (process s P I).tick = none ∧
      (process s P I).state.queuedBaseTicks = (preSwing s P I).queuedBaseTicks - 1 ∧
      (process s P I).state.swingPhase = (preSwing s P I).swingPhase := by
    intro s P I hc hp hq hd hb
    obtain ⟨m1, -⟩ := preSwing_swing s P I
    obtain ⟨d1, d2, d3, -⟩ :=
      swingScheduler_discard (preSwing s P I) P I.sampleTime hp hq hd (by rw [m1]; exact hb)
    obtain ⟨-, -, -, -, -, c6, c7⟩ := withClock_ctl s (preClock s P I) P I
    obtain ⟨w1, w2, -, -⟩ := withClock_swing s (preClock s P I) P I
    rw [process_connected s P I hc, c6, c7, w1, w2, d1, d2, d3]
    refine ⟨rfl, ?_, rfl, rfl⟩
    unfold tickAndReset
    rw [if_neg (by rw [d1]; decide)]
    split_ifs <;> rfl
  refine ⟨?_, ?_⟩
  · intro hp hq hd hb
    obtain ⟨a1, a2, a3, a4⟩ := part1 s P I hc hp hq hd hb
    refine ⟨?_, a1, a2, a3, a4, ?_, ?_⟩
    · unfold swingScheduler
      rw [pendingTick_idle _ _ hp]
      unfold serviceQueue
      dsimp only
      rw [if_pos (by simp [hp, hq]), if_pos hd,
        if_pos (by rw [(preSwing_swing s P I).1]; exact hb)]
    · intro hr; rw [a4, (preSwing_swing s P I).2 hr]
    · intro hr hrp
      exact (idle_sample s P I hc hr hrp a1).1
  · intro ht
    obtain ⟨-, -, -, -, -, c6, -⟩ := withClock_ctl s (preClock s P I) P I
    obtain ⟨-, -, w3, -⟩ := withClock_swing s (preClock s P I) P I
    have hz : (process s P I).state.sinceLastTick = 0 := by
      rw [process_connected s P I hc] at ht ⊢
      rw [c6] at ht
      rw [w3]
      exact swingScheduler_fired _ _ _ ht
    refine ⟨hz, ?_⟩
    intro P1 I1 hc1 hfl hdt hp hq hd
    obtain ⟨a1, a2, -, -⟩ := part1 (process s P I).state P1 I1 hc1 hp hq hd
      (by rw [hz, zero_add, hfl]; exact hdt)
    exact ⟨a1, a2⟩

theorem findNeighborPlayable_eq (mode : Int → Int) (start len rel sign : Int) :
    findNeighborPlayable mode start len rel sign
      = findNextPlayable mode start len (if sign > 0 then 0 else 1) rel := by
  unfold findNeighborPlayable findNextPlayable
  by_cases h : sign > 0
  · simp [h]
  · simp [h]

/-- In an all-Skip window every lookup reports `allSkip` and returns the
neighbouring offset. -/
theorem findNextPlayable_allSkip (mode : Int → Int) (start len dir rel : Int)
    (hs : 0 ≤ start ∧ start ≤ 15) (hl : 1 ≤ len ∧ len ≤ 16) (hc : 0 ≤ rel ∧ rel < len)
    (hall : ∀ j, 0 ≤ j → j < len → mode (wrap16 (start + j)) = 2) :
    findNextPlayable mode start len dir rel
      = (wrap16 (start + scanOffset (dir == 0) rel len 1), true) := by
  obtain ⟨-, h2, -, -⟩ := findNextPlayable_scan mode start len dir rel hs hl hc
  obtain ⟨a, b⟩ := h2 hall
  rw [← a, ← b]

theorem anyPlayable_allSkip (mode : Int → Int) (start : Int) (n : Nat) :
    ∀ k : Int, (∀ j, k ≤ j → j < k + n → mode (wrap16 (start + j)) = 2) →
      anyPlayable mode start n k = false := by
  induction n with
  | zero => intro k _; rfl
  | succ n ih =>
    intro k h
    unfold anyPlayable
    rw [if_neg (by rw [h k (le_refl _) (by push_cast; omega)]; decide)]
    exact ih (k + 1) (fun j h1 h2 => h j (by omega) (by push_cast; omega))

theorem randomPool_allSkip (mode : Int → Int) (start : Int) (n : Nat) :
    ∀ k : Int, (∀ j, k ≤ j → j < k + n → mode (wrap16 (start + j)) = 2) →
      randomPool mode start n k = [] := by
  induction n with
  | zero => intro k _; rfl
  | succ n ih =>
    intro k h
    unfold randomPool
    dsimp only
    rw [if_neg (by rw [h k (le_refl _) (by push_cast; omega)]; decide)]
    exact ih (k + 1) (fun j h1 h2 => h j (by omega) (by push_cast; omega))

theorem bool_cases_or (f : Bool → Int) (b : Bool) : f b = f false ∨ f b = f true := by
  cases b <;> simp

theorem clamp_dir_cases (d : Int) :
    clamp d 0 4 = 0 ∨ clamp d 0 4 = 1 ∨ clamp d 0 4 = 2 ∨ clamp d 0 4 = 3 ∨ clamp d 0 4 = 4 := by
  unfold clamp; omega

/-- In an all-Skip window the direction logic of every mode lands on a
neighbouring offset. -/
theorem navigate_allSkip (s : State) (mode : Int → Int) (start steps md : Int) (u : ℚ)
    (hs : 0 ≤ start ∧ start ≤ 15) (hl : 1 ≤ steps ∧ steps ≤ 16)
    (hwin : relOf s.step start < steps)
    (hmd : md = 0 ∨ md = 1 ∨ md = 2 ∨ md = 3 ∨ md = 4)
    (hall : ∀ j, 0 ≤ j → j < steps → mode (wrap16 (start + j)) = 2) :
    ∃ b : Bool, (navigate s mode start steps md u).nextStep
      = wrap16 (start + scanOffset b (relOf s.step start) steps 1) := by
  have hrel0 : 0 ≤ relOf s.step start := (wrap16_range _).1
  have hf := fun dir => findNextPlayable_allSkip mode start steps dir (relOf s.step start)
    hs hl ⟨hrel0, hwin⟩ hall
  have hpool : randomPool mode start steps.toNat 0 = [] :=
    randomPool_allSkip mode start steps.toNat 0 (fun j h1 h2 => hall j h1 (by
      have := Int.toNat_of_nonneg (show 0 ≤ steps by omega); omega))
  unfold navigate
  rcases hmd with h | h | h | h | h
  · subst h; simp [hf]
  · subst h; simp [hf]
  · subst h; simp [hf]
    exact bool_cases_or (fun b => wrap16 (start + scanOffset b (relOf s.step start) steps 1)) _
  · subst h; simp [hf, hpool]
  · subst h; simp [hf, findNeighborPlayable_eq]
    exact bool_cases_or (fun b => wrap16 (start + scanOffset b (relOf s.step start) steps 1)) _

theorem fireGate_pulses_cut (s : State) (P : Params) (I : Inputs) (start : Int) (ratio : ℚ)
    (mute : Bool) (h : P.stepMode s.step ≠ 0) :
    (fireGate s P I start ratio mute).2 = none ∧
    (fireGate s P I start ratio mute).1.gatePulse = 0 ∧
    (fireGate s P I start ratio mute).1.stepGateTrig = s.stepGateTrig := by
  rw [fireGate_not_play s P I start ratio mute h]
  exact ⟨rfl, rfl, rfl⟩

theorem wrap16_relOf (step start : Int) (h0 : 0 ≤ step) (h1 : step ≤ 15) : wrap16 (start + relOf step start) = step := by
  unfold relOf wrap16; omega

/-- C10 (amended): in a window whose slots are all Skip, a step-advance in any
direction mode triggers neither the aggregate nor a per-step pulse (the
aggregate pulse is cut).  A normal step-advance (no replay, no reset pending)
moves the navigator to the offset before or after the current one modulo the
window length, so `currentStep` changes exactly when the window has at least
two slots; a replay tick keeps `currentStep`. -/
theorem all_skip_window (s : State) (P : Params) (I : Inputs) (start steps : Int) (ratio : ℚ)
    (hs : 0 ≤ start ∧ start ≤ 15) (hl : 1 ≤ steps ∧ steps ≤ 16)
    (hstep : 0 ≤ s.step ∧ s.step ≤ 15) (hwin : relOf s.step start < steps)
    (hall : ∀ j, 0 ≤ j → j < steps → P.stepMode (wrap16 (start + j)) = 2) :
    ((advance s P I start steps ratio).2.fired = none ∧
      (advance s P I start steps ratio).1.gatePulse = 0 ∧
      (advance s P I start steps ratio).1.stepGateTrig = s.stepGateTrig) ∧
    (s.playCurrentOnNextTick = false → s.resetPending = false →
      (relOf (advance s P I start steps ratio).1.step start = (relOf s.step start + 1) % steps ∨
        relOf (advance s P I start steps ratio).1.step start
          = (relOf s.step start - 1) % steps) ∧
      ((advance s P I start steps ratio).1.step ≠ s.step ↔ 2 ≤ steps)) ∧
    (s.playCurrentOnNextTick = true → s.resetPending = false →
      (advance s P I start steps ratio).1.step = s.step) := by
  have hrel0 : 0 ≤ relOf s.step start := (wrap16_range _).1
  have hcur : wrap16 (start + relOf s.step start) = s.step :=
    wrap16_relOf s.step start hstep.1 hstep.2
  -- the selected step always lies in the window, hence is Skip
  have hnext : ∃ r : Int, 0 ≤ r ∧ r < steps ∧
      (tickNav s P I start steps).nextStep = wrap16 (start + r) ∧
      (s.playCurrentOnNextTick = false →
        r = (relOf s.step start + 1) % steps ∨ r = (relOf s.step start - 1) % steps) ∧
      (s.playCurrentOnNextTick = true → r = relOf s.step start) := by
    by_cases hp : s.playCurrentOnNextTick = true
    · refine ⟨relOf s.step start, hrel0, hwin, ?_, fun h => ?_, fun _ => rfl⟩
      · simp [tickNav, hp, hcur]
      · rw [hp] at h; exact absurd h (by decide)
    · have hp2 : s.playCurrentOnNextTick = false := by simpa using hp
      obtain ⟨b, hb⟩ := navigate_allSkip s P.stepMode start steps (clamp P.dirMode 0 4)
        I.uniform hs hl hwin (clamp_dir_cases _) hall
      have hr := scanOffset_range b (relOf s.step start) steps 1 (by omega)
      refine ⟨scanOffset b (relOf s.step start) steps 1, hr.1, hr.2, ?_, fun _ => ?_, fun h => ?_⟩
      · simp [tickNav, hp2, hb]
      · cases b
        · right; simp [scanOffset]
        · left; simp [scanOffset]
      · rw [hp2] at h; exact absurd h (by decide)
  obtain ⟨r, hr0, hr1, hnx, hmove, hstay⟩ := hnext
  have hskip : P.stepMode (applyNav s (tickNav s P I start steps)).step ≠ 0 := by
    show P.stepMode (tickNav s P I start steps).nextStep ≠ 0
    rw [hnx, hall r hr0 hr1]; decide
  obtain ⟨g1, g2, g3⟩ := fireGate_pulses_cut (applyNav s (tickNav s P I start steps)) P I start
    ratio (muteGlobal P start steps (tickNav s P I start steps)) hskip
  have hstepEq : s.resetPending = false →
      (advance s P I start steps ratio).1.step = wrap16 (start + r) := by
    intro hrp
    simp only [advance, hrp, Bool.false_eq_true, if_false, fireGate_step]
    exact hnx
  refine ⟨⟨?_, ?_, ?_⟩, ?_, ?_⟩
  · simp only [advance]; exact g1
  · simp only [advance]
    split_ifs
    · exact g2
    · exact g2
  · simp only [advance]
    split_ifs
    · exact g3
    · exact g3
  · intro hp hrp
    have hrel : relOf (wrap16 (start + r)) start = r := relOf_wrap16 start r hr0 (by omega)
    rw [hstepEq hrp, hrel]
    refine ⟨hmove hp, ?_⟩
    have hne : wrap16 (start + r) ≠ s.step ↔ r ≠ relOf s.step start := by
      constructor
      · intro h1 h2; rw [h2, hcur] at h1; exact h1 rfl
      · intro h1 h2; rw [← h2, hrel] at h1; exact h1 rfl
    rw [hne]
    rcases hmove hp with h | h
    · by_cases hlast : relOf s.step start + 1 = steps
      · rw [hlast, Int.emod_self] at h; omega
      · rw [Int.emod_eq_of_lt (by omega) (by omega)] at h; omega
    · by_cases hfirst : relOf s.step start = 0
      · rw [hfirst] at h
        rw [show (0 : Int) - 1 = (steps - 1) + (-1) * steps by ring, Int.add_mul_emod_self,
          Int.emod_eq_of_lt (by omega) (by omega)] at h
        omega
      · rw [Int.emod_eq_of_lt (by omega) (by omega)] at h; omega
  · intro hp hrp
    rw [hstepEq hrp, hstay hp, hcur]

/-- The oscillator loop makes some number `m` of rounded subtractions of the
period, within its bound, and queues `m` base ticks. -/
theorem oscLoop_sub (vp : ℚ) (n : Nat) : ∀ (vt : ℚ) (q : Int),
    ∃ m : Nat, m ≤ n ∧ oscLoop n vt vp q = (subPeriods vp m vt, q + (m : Int)) := by
  induction n with
  | zero => intro vt q; exact ⟨0, le_rfl, by simp [oscLoop, subPeriods]⟩
  | succ n ih =>
    intro vt q
    unfold oscLoop
    split_ifs with h
    · obtain ⟨m, hm, he⟩ := ih (f32 (vt - vp)) (q + 1)
      refine ⟨m + 1, by omega, ?_⟩
      rw [he]
      simp only [subPeriods]
      exact Prod.ext rfl (by dsimp only; push_cast; ring)
    · exact ⟨0, by omega, by simp [subPeriods]⟩

/-- The loop does nothing while the timer is below the period. -/
theorem oscLoop_none (n : Nat) (vt vp : ℚ) (q : Int) (h : vt < vp) :
    oscLoop n vt vp q = (vt, q) := by
  cases n with
  | zero => rfl
  | succ n => unfold oscLoop; rw [if_neg (not_le.mpr h)]

/-- One wrap: the timer has reached the period and the rounded difference is
below it. -/
theorem oscLoop_once (n : Nat) (vt vp : ℚ) (q : Int) (h1 : vp ≤ vt)
    (h2 : f32 (vt - vp) < vp) : oscLoop (n + 1) vt vp q = (f32 (vt - vp), q + 1) := by
  unfold oscLoop
  rw [if_pos h1, oscLoop_none n _ vp _ h2]

/-- A rounded subtraction of the period takes off at least half a period, as
long as the timer is at most `2 ^ 23` periods. -/
theorem f32_sub_period (x vp : ℚ) (hvp : pow2 (-149) ≤ vp) (h1 : vp ≤ x)
    (h2 : x ≤ pow2 23 * vp) : f32 (x - vp) ≤ x - vp / 2 := by
  have hvp0 : 0 < vp := lt_of_lt_of_le (pow2_pos _) hvp
  have hy : 0 ≤ x - vp := by linarith
  by_cases h0 : x - vp = 0
  · rw [h0, f32_zero]; linarith
  have herr := f32_error (x - vp)
  have hle : pow2 (ulpExp (x - vp)) / 2 ≤ vp / 2 := by
    rcases le_or_lt (pow2 (-126)) |x - vp| with hn | hs
    · have h3 := ulp_le_of_normal (x - vp) hn
      rw [abs_of_nonneg hy] at h3
      have h4 : (x - vp) * pow2 (-23) ≤ pow2 23 * vp * pow2 (-23) :=
        mul_le_mul_of_nonneg_right (by linarith) (pow2_pos _).le
      have h5 : pow2 23 * vp * pow2 (-23) = vp := by
        rw [mul_comm (pow2 23) vp, mul_assoc, ← pow2_add]
        rw [show pow2 (23 + -23) = 1 from by decide!, mul_one]
      linarith
    · rw [ulp_of_subnormal (x - vp) h0 hs]
      linarith
  have := (abs_le.mp herr).2
  linarith

/-- The loop bound used by `virtualOscillator` is enough: for a timer of at most
`2 ^ 23` periods the loop leaves the timer below the period (its exit
condition), and a timer that was not negative stays so. -/
theorem oscLoop_exit (vp : ℚ) (hvp : pow2 (-149) ≤ vp) (n : Nat) :
    ∀ (vt : ℚ) (q : Int), vt ≤ pow2 23 * vp → vt < vp + (n : ℚ) * (vp / 2) →
      (oscLoop n vt vp q).1 < vp ∧ (0 ≤ vt → 0 ≤ (oscLoop n vt vp q).1) := by
  have hvp0 : 0 < vp := lt_of_lt_of_le (pow2_pos _) hvp
  induction n with
  | zero =>
    intro vt q _ h
    simp only [oscLoop]
    exact ⟨by simpa using h, fun h0 => h0⟩
  | succ n ih =>
    intro vt q hb h
    unfold oscLoop
    split_ifs with hge
    · have hs := f32_sub_period vt vp hvp hge hb
      obtain ⟨i1, i2⟩ := ih (f32 (vt - vp)) (q + 1) (by linarith)
        (by push_cast at h; linarith)
      exact ⟨i1, fun _ => i2 (f32_nonneg (by linarith))⟩
    · exact ⟨not_le.mp hge, fun h0 => h0⟩

/-- The bound `2 * ⌊vt / vp⌋ + 2` passed to the loop satisfies the hypothesis of
`oscLoop_exit`. -/
theorem oscLoop_bound (vt vp : ℚ) (hvp : 0 < vp) :
    vt < vp + ((2 * ⌊vt / vp⌋.toNat + 2 : Nat) : ℚ) * (vp / 2) := by
  have h1 := Int.lt_floor_add_one (vt / vp)
  have h2 : (⌊vt / vp⌋ : ℚ) ≤ (⌊vt / vp⌋.toNat : ℚ) := by
    have := Int.self_le_toNat ⌊vt / vp⌋
    exact_mod_cast this
  have h3 : vt < ((⌊vt / vp⌋ : ℚ) + 1) * vp := by
    calc vt = vt / vp * vp := by field_simp
      _ < ((⌊vt / vp⌋ : ℚ) + 1) * vp := mul_lt_mul_of_pos_right h1 hvp
  push_cast
  nlinarith

theorem countBelow_mono (p : Nat → Bool) (a : Nat) : ∀ b, a ≤ b → countBelow p a ≤ countBelow p b := by
  intro b hab
  induction b with
  | zero => have : a = 0 := by omega
            subst this; exact le_refl _
  | succ b ih =>
    by_cases h : a = b + 1
    · subst h; exact le_refl _
    · have := ih (by omega)
      simp only [countBelow]; omega

theorem countBelow_skip (p : Nat → Bool) (a : Nat) :
    ∀ b, a ≤ b → (∀ j, a ≤ j → j < b → p j = false) → countBelow p b = countBelow p a := by
  intro b hab
  induction b with
  | zero => intro _; have : a = 0 := by omega
            subst this; rfl
  | succ b ih =>
    intro h
    by_cases hb : a = b + 1
    · subst hb; rfl
    · have h1 := ih (by omega) (fun j h1 h2 => h j h1 (by omega))
      simp only [countBelow, h b (by omega) (by omega), Bool.false_eq_true, if_false]
      omega

theorem countBelow_succ (p : Nat → Bool) (r : Nat) (h : p r = true) :
    countBelow p (r + 1) = countBelow p r + 1 := by
  simp [countBelow, h]

theorem countBelow_inj (p : Nat → Bool) (a b : Nat) (ha : p a = true) (hb : p b = true)
    (h : countBelow p a = countBelow p b) : a = b := by
  by_contra hne
  rcases Nat.lt_or_gt_of_ne hne with hlt | hgt
  · have := countBelow_mono p (a + 1) b (by omega)
    rw [countBelow_succ p a ha] at this; omega
  · have := countBelow_mono p (b + 1) a (by omega)
    rw [countBelow_succ p b hb] at this; omega

theorem advance_flags (s : State) (P : Params) (I : Inputs) (start steps : Int) (ratio : ℚ)
    (hrp : s.resetPending = false) :
    (advance s P I start steps ratio).1.playCurrentOnNextTick = false ∧
    (advance s P I start steps ratio).1.resetPending = false := by
  simp only [advance, hrp, Bool.false_eq_true, if_false, (fireGate_ctl _ _ _ _ _ _).1,
    (fireGate_ctl _ _ _ _ _ _).2.1]
  exact ⟨rfl, hrp⟩

theorem playableAt_iff (mode : Int → Int) (start : Int) (j : Nat) :
    playableAt mode start j = true ↔ mode (wrap16 (start + (j : Int))) ≠ 2 := by
  simp [playableAt]

theorem playableAt_false_iff (mode : Int → Int) (start : Int) (j : Nat) :
    playableAt mode start j = false ↔ mode (wrap16 (start + (j : Int))) = 2 := by
  simp [playableAt]

/-- One Forward step-advance on a non-Skip slot in a window with at least two
non-Skip slots: the rank of the current offset among the non-Skip offsets
goes up by one, or from the last rank back to 0 with a wrap. -/
theorem forward_step_rank (s : State) (P : Params) (I : Inputs) (start steps : Int) (ratio : ℚ)
    (hs : 0 ≤ start ∧ start ≤ 15) (hl : 1 ≤ steps ∧ steps ≤ 16) (hdir : P.dirMode = 0)
    (ht : onTrack P start steps s)
    (hc : 2 ≤ countBelow (playableAt P.stepMode start) steps.toNat) :
    onTrack P start steps (advance s P I start steps ratio).1 ∧
    countBelow (playableAt P.stepMode start) (relOf (advance s P I start steps ratio).1.step start).toNat
        + countBelow (playableAt P.stepMode start) steps.toNat
          * (if (advance s P I start steps ratio).2.wrapped then 1 else 0)
      = countBelow (playableAt P.stepMode start) (relOf s.step start).toNat + 1 := by
  obtain ⟨hplay, hrp, hstep, hwin, hcur⟩ := ht
  obtain ⟨hA, hB, -⟩ := forward_advance_step s P I start steps ratio hs hl hdir hplay hrp hwin
  obtain ⟨f1, f2⟩ := advance_flags s P I start steps ratio hrp
  have hrel0 : 0 ≤ relOf s.step start := (wrap16_range _).1
  have hR : ((relOf s.step start).toNat : Int) = relOf s.step start := Int.toNat_of_nonneg hrel0
  have hS : ((steps.toNat : Nat) : Int) = steps := Int.toNat_of_nonneg (by omega)
  have hcur2 : P.stepMode (wrap16 (start + relOf s.step start)) ≠ 2 := by
    have := (playableAt_iff P.stepMode start _).mp hcur
    rwa [hR] at this
  have hsucc := countBelow_succ (playableAt P.stepMode start) _ hcur
  by_cases hex : ∃ j, relOf s.step start < j ∧ j < steps ∧ P.stepMode (wrap16 (start + j)) ≠ 2
  · obtain ⟨r1, h1, h2, h3, h4, h5, h6, h7, -⟩ := hA hex
    have hr1 : ((r1.toNat : Nat) : Int) = r1 := Int.toNat_of_nonneg (by omega)
    have hrun : countBelow (playableAt P.stepMode start) r1.toNat
        = countBelow (playableAt P.stepMode start) ((relOf s.step start).toNat + 1) := by
      apply countBelow_skip _ _ _ (by omega)
      intro j hj1 hj2
      rw [playableAt_false_iff]
      exact h6 j (by omega) (by omega)
    refine ⟨⟨f1, f2, ?_, ?_, ?_⟩, ?_⟩
    · rw [h3]; exact wrap16_range _
    · rw [h4]; exact h2
    · rw [h4, playableAt_iff, hr1]; exact h5
    · rw [h4, h7, hrun, hsucc]; simp
  · have hall : ∀ j, relOf s.step start < j → j < steps → P.stepMode (wrap16 (start + j)) = 2 := by
      intro j hj1 hj2
      by_contra hne
      exact hex ⟨j, hj1, hj2, hne⟩
    obtain ⟨r1, h1, h2, h3, h4, h5, h6, h7, -, -⟩ :=
      hB hall ⟨relOf s.step start, hrel0, le_refl _, hcur2⟩
    have hr1 : ((r1.toNat : Nat) : Int) = r1 := Int.toNat_of_nonneg h1
    have hzero : countBelow (playableAt P.stepMode start) r1.toNat = 0 := by
      have := countBelow_skip (playableAt P.stepMode start) 0 r1.toNat (Nat.zero_le _)
        (fun j _ hj2 => by
          rw [playableAt_false_iff]
          exact h6 j (by omega) (by omega))
      rw [this]; rfl
    have htot : countBelow (playableAt P.stepMode start) steps.toNat
        = countBelow (playableAt P.stepMode start) ((relOf s.step start).toNat + 1) := by
      apply countBelow_skip _ _ _ (by omega)
      intro j hj1 hj2
      rw [playableAt_false_iff]
      exact hall j (by omega) (by omega)
    have hlt : r1 < relOf s.step start := by
      by_contra hge
      have heq : r1 = relOf s.step start := by omega
      rw [heq] at hzero
      rw [htot, hsucc, hzero] at hc
      omega
    have hw : (advance s P I start steps ratio).2.wrapped = true := h7.mpr hlt
    refine ⟨⟨f1, f2, ?_, ?_, ?_⟩, ?_⟩
    · rw [h3]; exact wrap16_range _
    · rw [h4]; omega
    · rw [h4, playableAt_iff, hr1]; exact h5
    · rw [h4, hw, hzero, htot, hsucc]; simp

/-- Ranks after `n` successive Forward step-advances. -/
theorem forward_run_rank (P : Params) (I : Inputs) (start steps : Int) (ratio : ℚ)
    (hs : 0 ≤ start ∧ start ≤ 15) (hl : 1 ≤ steps ∧ steps ≤ 16) (hdir : P.dirMode = 0)
    (hc : 2 ≤ countBelow (playableAt P.stepMode start) steps.toNat) (n : Nat) :
    ∀ s : State, onTrack P start steps s →
      onTrack P start steps (advanceN P I start steps ratio n s).1 ∧
      countBelow (playableAt P.stepMode start)
          (relOf (advanceN P I start steps ratio n s).1.step start).toNat
        + countBelow (playableAt P.stepMode start) steps.toNat
          * (advanceN P I start steps ratio n s).2
        = countBelow (playableAt P.stepMode start) (relOf s.step start).toNat + n := by
  induction n with
  | zero => intro s ht; exact ⟨ht, by simp [advanceN]⟩
  | succ n ih =>
    intro s ht
    obtain ⟨t1, e1⟩ := forward_step_rank s P I start steps ratio hs hl hdir ht hc
    obtain ⟨t2, e2⟩ := ih _ t1
    refine ⟨t2, ?_⟩
    simp only [advanceN]
    rw [Nat.mul_add, ← Nat.add_assoc, e2]
    omega

theorem countBelow_lt (p : Nat → Bool) (r n : Nat) (h : p r = true) (hr : r < n) :
    countBelow p r < countBelow p n := by
  have := countBelow_mono p (r + 1) n (by omega)
  rw [countBelow_succ p r h] at this
  omega

/-- Full traversals: in a window with at least two non-Skip slots, `k` times as
many Forward step-advances as there are non-Skip slots bring the navigator back
to the slot it started from and wrap exactly `k` times. -/
theorem forward_full_traversals (s : State) (P : Params) (I : Inputs) (start steps : Int)
    (ratio : ℚ) (hs : 0 ≤ start ∧ start ≤ 15) (hl : 1 ≤ steps ∧ steps ≤ 16)
    (hdir : P.dirMode = 0) (ht : onTrack P start steps s)
    (hc : 2 ≤ countBelow (playableAt P.stepMode start) steps.toNat) (k : Nat) :
    (advanceN P I start steps ratio
      (k * countBelow (playableAt P.stepMode start) steps.toNat) s).1.step = s.step ∧
    (advanceN P I start steps ratio
      (k * countBelow (playableAt P.stepMode start) steps.toNat) s).2 = k := by
  obtain ⟨t, e⟩ := forward_run_rank P I start steps ratio hs hl hdir hc
    (k * countBelow (playableAt P.stepMode start) steps.toNat) s ht
  obtain ⟨-, -, hstep, hwin, hcur⟩ := ht
  obtain ⟨-, -, hstep1, hwin1, hcur1⟩ := t
  have hS : ((steps.toNat : Nat) : Int) = steps := Int.toNat_of_nonneg (by omega)
  have hrel0 : 0 ≤ relOf s.step start := (wrap16_range _).1
  have hrel1 : 0 ≤ relOf (advanceN P I start steps ratio
      (k * countBelow (playableAt P.stepMode start) steps.toNat) s).1.step start :=
    (wrap16_range _).1
  have hlt0 := countBelow_lt (playableAt P.stepMode start) _ steps.toNat hcur (by omega)
  have hlt1 := countBelow_lt (playableAt P.stepMode start) _ steps.toNat hcur1 (by omega)
  have hcpos : 0 < countBelow (playableAt P.stepMode start) steps.toNat := by omega
  have hw : (advanceN P I start steps ratio
      (k * countBelow (playableAt P.stepMode start) steps.toNat) s).2 = k := by
    have h1 := congrArg (fun x => x / countBelow (playableAt P.stepMode start) steps.toNat) e
    simp only at h1
    rw [Nat.add_mul_div_left _ _ hcpos, Nat.add_mul_div_right _ _ hcpos,
      Nat.div_eq_of_lt hlt0, Nat.div_eq_of_lt hlt1] at h1
    omega
  refine ⟨?_, hw⟩
  rw [hw] at e
  conv_rhs at e => rw [Nat.mul_comm]
  have hrk := Nat.add_right_cancel e
  have hpos := countBelow_inj _ _ _ hcur1 hcur hrk
  have hrelEq : relOf (advanceN P I start steps ratio
      (k * countBelow (playableAt P.stepMode start) steps.toNat) s).1.step start
      = relOf s.step start := by omega
  rw [← wrap16_relOf _ start hstep1.1 hstep1.2, hrelEq, wrap16_relOf _ start hstep.1 hstep.2]

/-- A window whose only non-Skip slot is the current one: Forward step-advances
stay on it and never wrap. -/
theorem forward_single_playable (P : Params) (I : Inputs) (start steps : Int) (ratio : ℚ)
    (hs : 0 ≤ start ∧ start ≤ 15) (hl : 1 ≤ steps ∧ steps ≤ 16) (hdir : P.dirMode = 0)
    (hc : countBelow (playableAt P.stepMode start) steps.toNat = 1) (n : Nat) :
    ∀ s : State, onTrack P start steps s →
      (advanceN P I start steps ratio n s).1.step = s.step ∧
      (advanceN P I start steps ratio n s).2 = 0 := by
  induction n with
  | zero => intro s _; exact ⟨rfl, rfl⟩
  | succ n ih =>
    intro s ht
    obtain ⟨hplay, hrp, hstep, hwin, hcur⟩ := ht
    obtain ⟨-, hB, -⟩ :=
      forward_advance_step s P I start steps ratio hs hl hdir hplay hrp hwin
    obtain ⟨f1, f2⟩ := advance_flags s P I start steps ratio hrp
    have hrel0 : 0 ≤ relOf s.step start := (wrap16_range _).1
    have hR : ((relOf s.step start).toNat : Int) = relOf s.step start :=
      Int.toNat_of_nonneg hrel0
    have hS : ((steps.toNat : Nat) : Int) = steps := Int.toNat_of_nonneg (by omega)
    have hcur2 : P.stepMode (wrap16 (start + relOf s.step start)) ≠ 2 := by
      have := (playableAt_iff P.stepMode start _).mp hcur
      rwa [hR] at this
    -- no other offset of the window is non-Skip
    have honly : ∀ j : Nat, j < steps.toNat → playableAt P.stepMode start j = true →
        j = (relOf s.step start).toNat := by
      intro j hj hp
      by_contra hne
      rcases Nat.lt_or_gt_of_ne hne with hlt | hgt
      · have h1 := countBelow_lt _ j (relOf s.step start).toNat hp hlt
        have h2 := countBelow_lt _ (relOf s.step start).toNat steps.toNat hcur (by omega)
        omega
      · have h1 := countBelow_lt _ (relOf s.step start).toNat j hcur hgt
        have h2 := countBelow_lt _ j steps.toNat hp hj
        omega
    have hall : ∀ j, relOf s.step start < j → j < steps →
        P.stepMode (wrap16 (start + j)) = 2 := by
      intro j hj1 hj2
      by_contra hne
      have hj : ((j.toNat : Nat) : Int) = j := Int.toNat_of_nonneg (by omega)
      have := honly j.toNat (by omega) (by rw [playableAt_iff, hj]; exact hne)
      omega
    obtain ⟨r1, h1, h2, h3, h4, h5, h6, h7, -, -⟩ :=
      hB hall ⟨relOf s.step start, hrel0, le_refl _, hcur2⟩
    have hr1 : ((r1.toNat : Nat) : Int) = r1 := Int.toNat_of_nonneg h1
    have hsame : r1 = relOf s.step start := by
      have := honly r1.toNat (by omega) (by rw [playableAt_iff, hr1]; exact h5)
      omega
    have hstepEq : (advance s P I start steps ratio).1.step = s.step := by
      rw [h3, hsame, wrap16_relOf _ start hstep.1 hstep.2]
    have hw : (advance s P I start steps ratio).2.wrapped = false := by
      cases hb : (advance s P I start steps ratio).2.wrapped
      · rfl
      · have := h7.mp hb; omega
    have ht1 : onTrack P start steps (advance s P I start steps ratio).1 :=
      ⟨f1, f2, by rw [hstepEq]; exact hstep, by rw [hstepEq]; exact hwin,
        by rw [hstepEq]; exact hcur⟩
    obtain ⟨i1, i2⟩ := ih _ ht1
    simp only [advanceN]
    rw [i1, i2, hw, hstepEq]
    exact ⟨rfl, rfl⟩

/-- C1 (amended): for every window and every assignment of step modes, a Forward
step-advance (no replay, no reset pending) moves to the first non-Skip offset
after the current one without wrapping; when none is left it returns to the
first non-Skip offset of the window, and the end-of-cycle pulse is triggered
exactly when that offset is smaller than the current one, that is when a
non-Skip slot lies before the current offset; in an all-Skip window it moves to
the next offset and wraps from the last one.  Hence, starting on a non-Skip
slot, with `c` the number of non-Skip slots of the window: if `c ≥ 2`, every
`c` successive advances return to the starting slot and wrap exactly once
(`k * c` advances wrap exactly `k` times); if `c = 1` the advances stay on that
slot and never wrap. -/
theorem forward_traversal (s : State) (P : Params) (I : Inputs) (start steps : Int)
    (ratio : ℚ) (hs : 0 ≤ start ∧ start ≤ 15) (hl : 1 ≤ steps ∧ steps ≤ 16)
    (hdir : P.dirMode = 0) (hplay : s.playCurrentOnNextTick = false)
    (hrp : s.resetPending = false) (hwin : relOf s.step start < steps) :
    (((∃ j, relOf s.step start < j ∧ j < steps ∧ P.stepMode (wrap16 (start + j)) ≠ 2) →
      ∃ r1 : Int, relOf s.step start < r1 ∧ r1 < steps ∧
        (advance s P I start steps ratio).1.step = wrap16 (start + r1) ∧
        relOf (advance s P I start steps ratio).1.step start = r1 ∧
        P.stepMode (wrap16 (start + r1)) ≠ 2 ∧
        (∀ j, relOf s.step start < j → j < r1 → P.stepMode (wrap16 (start + j)) = 2) ∧
        (advance s P I start steps ratio).2.wrapped = false ∧
        (advance s P I start steps ratio).1.eocPulse = s.eocPulse) ∧
    ((∀ j, relOf s.step start < j → j < steps → P.stepMode (wrap16 (start + j)) = 2) →
      (∃ j, 0 ≤ j ∧ j ≤ relOf s.step start ∧ P.stepMode (wrap16 (start + j)) ≠ 2) →
      ∃ r1 : Int, 0 ≤ r1 ∧ r1 ≤ relOf s.step start ∧
        (advance s P I start steps ratio).1.step = wrap16 (start + r1) ∧
        relOf (advance s P I start steps ratio).1.step start = r1 ∧
        P.stepMode (wrap16 (start + r1)) ≠ 2 ∧
        (∀ j, 0 ≤ j → j < r1 → P.stepMode (wrap16 (start + j)) = 2) ∧
        ((advance s P I start steps ratio).2.wrapped = true ↔ r1 < relOf s.step start) ∧
        ((advance s P I start steps ratio).2.wrapped = true ↔
          ∃ j, 0 ≤ j ∧ j < relOf s.step start ∧ P.stepMode (wrap16 (start + j)) ≠ 2) ∧
        (advance s P I start steps ratio).1.eocPulse
          = (if r1 < relOf s.step start then pulseTrigger s.eocPulse trigLen else s.eocPulse)) ∧
    ((∀ j, 0 ≤ j → j < steps → P.stepMode (wrap16 (start + j)) = 2) →
      (advance s P I start steps ratio).1.step
        = wrap16 (start + (relOf s.step start + 1) % steps) ∧
      ((advance s P I start steps ratio).2.wrapped = true ↔
        (relOf s.step start + 1 = steps ∧ 2 ≤ steps)) ∧
      (advance s P I start steps ratio).2.fired = none)) ∧
    ((0 ≤ s.step ∧ s.step ≤ 15) → P.stepMode s.step ≠ 2 →
      (2 ≤ countBelow (playableAt P.stepMode start) steps.toNat →
        ∀ k : Nat,
          (advanceN P I start steps ratio
            (k * countBelow (playableAt P.stepMode start) steps.toNat) s).1.step = s.step ∧
          (advanceN P I start steps ratio
            (k * countBelow (playableAt P.stepMode start) steps.toNat) s).2 = k) ∧
      (countBelow (playableAt P.stepMode start) steps.toNat = 1 →
        ∀ n : Nat,
          (advanceN P I start steps ratio n s).1.step = s.step ∧
          (advanceN P I start steps ratio n s).2 = 0)) := by
  refine ⟨forward_advance_step s P I start steps ratio hs hl hdir hplay hrp hwin, ?_⟩
  intro hstep hcur
  have hrel0 : 0 ≤ relOf s.step start := (wrap16_range _).1
  have ht : onTrack P start steps s := by
    refine ⟨hplay, hrp, hstep, hwin, ?_⟩
    rw [playableAt_iff, Int.toNat_of_nonneg hrel0, wrap16_relOf _ start hstep.1 hstep.2]
    exact hcur
  exact ⟨fun hc k => forward_full_traversals s P I start steps ratio hs hl hdir ht hc k,
    fun hc n => forward_single_playable P I start steps ratio hs hl hdir hc n s ht⟩

theorem swingScheduler_phase (s : State) (P : Params) (dt : ℚ) :
    phaseFrame (swingScheduler s P dt).1 s := by
  unfold swingScheduler serviceQueue pendingTick phaseFrame; dsimp only; split_ifs <;> simp

theorem fireGate_phase (s : State) (P : Params) (I : Inputs) (start : Int) (ratio : ℚ)
    (mute : Bool) : phaseFrame (fireGate s P I start ratio mute).1 s := by
  unfold fireGate phaseFrame; dsimp only; split_ifs <;> simp

theorem tickAndReset_phase (sw : State × Bool) (P : Params) (I : Inputs) :
    phaseFrame (tickAndReset sw P I).1 sw.1 := by
  unfold tickAndReset
  split_ifs
  · have h := fireGate_phase (applyNav sw.1 (tickNav sw.1 P I (windowStart P) (windowSteps P)))
      P I (windowStart P) (ratioOf P)
      (muteGlobal P (windowStart P) (windowSteps P)
        (tickNav sw.1 P I (windowStart P) (windowSteps P)))
    unfold phaseFrame at h ⊢
    unfold advance; dsimp only
    split_ifs <;> exact h
  · exact ⟨rfl, rfl, rfl⟩
  · exact ⟨rfl, rfl, rfl⟩

theorem withClock_phase (s s3 : State) (P : Params) (I : Inputs) :
    phaseFrame (withClock s s3 P I).state (preSwing s P I) := by
  have h1 := tickAndReset_phase (swingScheduler (preSwing s P I) P I.sampleTime) P I
  have h2 := swingScheduler_phase (preSwing s P I) P I.sampleTime
  unfold phaseFrame at h1 h2 ⊢
  have h3 : (tickAndReset (swingScheduler (preSwing s P I) P I.sampleTime) P I).1.havePhase
      = (preSwing s P I).havePhase ∧
      (tickAndReset (swingScheduler (preSwing s P I) P I.sampleTime) P I).1.virtTimer
      = (preSwing s P I).virtTimer ∧
      (tickAndReset (swingScheduler (preSwing s P I) P I.sampleTime) P I).1.sinceLastEdge
      = (preSwing s P I).sinceLastEdge :=
    ⟨h1.1.trans h2.1, h1.2.1.trans h2.2.1, h1.2.2.trans h2.2.2⟩
  unfold withClock emitPulses slew; dsimp only
  split_ifs <;> exact h3

/-- The state before the edge block of a clock-connected sample without reset edge. -/
theorem preClock_quiet (s : State) (P : Params) (I : Inputs) (hc : I.clkConnected = true)
    (hr : I.rstEdge = false) :
    (preClock s P I).havePhase = s.havePhase ∧ (preClock s P I).lastPeriod = s.lastPeriod ∧
    (preClock s P I).virtPeriod = s.virtPeriod ∧ (preClock s P I).virtTimer = s.virtTimer ∧
    (preClock s P I).timeSinceClk = f32 (s.timeSinceClk + I.sampleTime) ∧
    (preClock s P I).sinceLastEdge = f32 (s.sinceLastEdge + I.sampleTime) ∧
    (preClock s P I).sinceLastTick = f32 (s.sinceLastTick + I.sampleTime) ∧
    (preClock s P I).queuedBaseTicks = s.queuedBaseTicks ∧
    (preClock s P I).tickPending = s.tickPending ∧
    (preClock s P I).swingPhase = s.swingPhase := by
  simp [preClock, tickTimers, hc, hr]

/-- No phase timeout while the time since the last edge is within the measured
period, for periods between 0.1 ms and 1 s. -/
theorem phaseTimeout_none (m : State) (hT : m.lastPeriod > 1e-4) (hT1 : m.lastPeriod ≤ 1)
    (hE : m.sinceLastEdge ≤ m.lastPeriod) : phaseTimeout m = m := by
  unfold phaseTimeout
  dsimp only
  rw [if_pos hT]
  have hcl : m.lastPeriod ≤ clamp (m.lastPeriod * 2) (f32 0.1) 1.0 := by
    unfold clamp
    have hpos : (0 : ℚ) < m.lastPeriod := lt_trans (by norm_num) hT
    have h1 : m.lastPeriod ≤ min (m.lastPeriod * 2) 1.0 :=
      le_min (by linarith) (by norm_num; exact hT1)
    exact le_trans h1 (le_max_left _ _)
  rw [if_neg]
  intro h
  exact absurd (lt_of_lt_of_le h.2 (le_trans hE hcl)) (lt_irrefl _)

/-- The oscillator writes the timer and the queue only. -/
theorem virtualOscillator_fields (m : State) (dt : ℚ) :
    (virtualOscillator m dt).havePhase = m.havePhase ∧
    (virtualOscillator m dt).lastPeriod = m.lastPeriod ∧
    (virtualOscillator m dt).virtPeriod = m.virtPeriod ∧
    (virtualOscillator m dt).timeSinceClk = m.timeSinceClk ∧
    (virtualOscillator m dt).sinceLastEdge = m.sinceLastEdge ∧
    (virtualOscillator m dt).sinceLastTick = m.sinceLastTick ∧
    (virtualOscillator m dt).tickPending = m.tickPending := by
  unfold virtualOscillator; dsimp only
  split_ifs <;> exact ⟨rfl, rfl, rfl, rfl, rfl, rfl, rfl⟩

/-- The oscillator of a locked state whose advanced timer stays below the period. -/
theorem virtualOscillator_run (m : State) (dt vp : ℚ)
    (h1 : m.havePhase = true) (h3 : m.virtPeriod = vp) (hvp : 0 < vp)
    (hw : f32 (m.virtTimer + dt) < vp) :
    virtualOscillator m dt = { m with virtTimer := f32 (m.virtTimer + dt) } := by
  unfold virtualOscillator
  dsimp only
  rw [if_pos ⟨h1, by rw [h3]; exact hvp⟩, h3, oscLoop_none _ _ vp _ hw]

/-- The oscillator of a locked state whose advanced timer reaches the period and
falls below it after one subtraction. -/
theorem virtualOscillator_wrap (m : State) (dt vp : ℚ)
    (h1 : m.havePhase = true) (h3 : m.virtPeriod = vp) (hvp : 0 < vp)
    (hw : vp ≤ f32 (m.virtTimer + dt)) (hw2 : f32 (f32 (m.virtTimer + dt) - vp) < vp) :
    virtualOscillator m dt
      = { m with virtTimer := f32 (f32 (m.virtTimer + dt) - vp),
                 queuedBaseTicks := m.queuedBaseTicks + 1 } := by
  unfold virtualOscillator
  dsimp only
  rw [if_pos ⟨h1, by rw [h3]; exact hvp⟩, h3,
    show 2 * ⌊f32 (m.virtTimer + dt) / vp⌋.toNat + 2
      = (2 * ⌊f32 (m.virtTimer + dt) / vp⌋.toNat + 1) + 1 from rfl,
    oscLoop_once _ _ vp _ hw hw2]

theorem swingDelay_zero (m : State) (P : Params) (hsw : P.swing ≤ 0) : swingDelay m P = 0 := by
  unfold swingDelay
  have h6 : (0 : ℚ) ≤ f32 0.6 := f32_nonneg (by norm_num)
  have : clamp P.swing 0 (f32 0.6) = 0 := by
    unfold clamp
    rw [min_eq_left (le_trans hsw h6), max_eq_right hsw]
  dsimp only
  rw [this]
  split_ifs <;> simp [f32_zero]

/-- The scheduler on a state without deferred tick, with zero swing. -/
theorem swingScheduler_zero_swing (m : State) (P : Params) (dt : ℚ)
    (hp : m.tickPending = false) (hsw : P.swing ≤ 0) :
    (m.queuedBaseTicks = 0 → swingScheduler m P dt = (m, false)) ∧
    (m.queuedBaseTicks = 1 → ¬ m.sinceLastTick < 0.0005 →
      (swingScheduler m P dt).2 = true ∧ (swingScheduler m P dt).1.queuedBaseTicks = 0 ∧
      (swingScheduler m P dt).1.sinceLastTick = 0 ∧
      (swingScheduler m P dt).1.tickPending = false) ∧
    (m.queuedBaseTicks = 1 → m.sinceLastTick < 0.0005 →
      (swingScheduler m P dt).2 = false ∧ (swingScheduler m P dt).1.queuedBaseTicks = 0 ∧
      (swingScheduler m P dt).1.sinceLastTick = m.sinceLastTick ∧
      (swingScheduler m P dt).1.tickPending = false) := by
  have hd : swingDelay m P ≤ 1e-9 := by rw [swingDelay_zero m P hsw]; norm_num
  unfold swingScheduler
  rw [pendingTick_idle m dt hp]
  unfold serviceQueue
  dsimp only
  refine ⟨?_, ?_, ?_⟩
  · intro hq
    rw [if_neg (by simp [hp, hq])]
  · intro hq hb
    rw [if_pos (by simp [hp, hq]), if_pos hd, if_neg hb]
    exact ⟨rfl, by simp [hq], rfl, hp⟩
  · intro hq hb
    rw [if_pos (by simp [hp, hq]), if_pos hd, if_pos hb]
    exact ⟨rfl, by simp [hq], rfl, hp⟩

/-- Fields after the edge block for a ratio below 1 (the timer is left alone). -/
theorem clockEdge_divisor (m : State) (ratio : ℚ) (hr : ratio < 1) (hr0 : (1 / 48 : ℚ) ≤ ratio)
    (hT : m.timeSinceClk > 1e-4) :
    (clockEdge m ratio).havePhase = true ∧ (clockEdge m ratio).lastPeriod = m.timeSinceClk ∧
    (clockEdge m ratio).virtPeriod = f32 (m.timeSinceClk / ratio) ∧
    (clockEdge m ratio).virtTimer = m.virtTimer ∧ (clockEdge m ratio).timeSinceClk = 0 ∧
    (clockEdge m ratio).sinceLastEdge = 0 ∧
    (clockEdge m ratio).sinceLastTick = m.sinceLastTick ∧
    (clockEdge m ratio).queuedBaseTicks = m.queuedBaseTicks ∧
    (clockEdge m ratio).tickPending = m.tickPending := by
  have hmax : max ratio 1e-6 = ratio := max_eq_left (le_trans (by norm_num) hr0)
  have hnot : ¬ ratio ≥ 1 := not_le.mpr hr
  unfold clockEdge
  dsimp only
  rw [if_pos hT, if_neg hnot, hmax]
  exact ⟨rfl, rfl, rfl, rfl, rfl, rfl, rfl, rfl, rfl⟩

/-- Fields after the edge block for an integer ratio of at least 1: the timer is
zeroed and one immediate base tick is queued. -/
theorem clockEdge_multiplier (m : State) (ratio : ℚ) (hr : ratio ≥ 1)
    (hint : |ratio - (roundHalfAway ratio : ℚ)| < 1e-4) (hT : m.timeSinceClk > 1e-4) :
    (clockEdge m ratio).havePhase = true ∧ (clockEdge m ratio).lastPeriod = m.timeSinceClk ∧
    (clockEdge m ratio).virtPeriod = f32 (m.timeSinceClk / ratio) ∧
    (clockEdge m ratio).virtTimer = 0 ∧ (clockEdge m ratio).timeSinceClk = 0 ∧
    (clockEdge m ratio).sinceLastEdge = 0 ∧
    (clockEdge m ratio).sinceLastTick = m.sinceLastTick ∧
    (clockEdge m ratio).queuedBaseTicks = m.queuedBaseTicks + 1 ∧
    (clockEdge m ratio).tickPending = m.tickPending := by
  have hmax : max ratio 1e-6 = ratio := max_eq_left (le_trans (by norm_num) hr)
  unfold clockEdge
  dsimp only
  rw [if_pos hT, if_pos hr, if_pos (by simp [hr, hint]), hmax]
  exact ⟨rfl, rfl, rfl, rfl, rfl, rfl, rfl, rfl, rfl⟩

/-- Final state and `clockNow` of a clock-connected sample in terms of the state
before the scheduler and the scheduler's result. -/
theorem withClock_summary (s : State) (P : Params) (I : Inputs) (hc : I.clkConnected = true) :
    (process s P I).clockNow = (swingScheduler (preSwing s P I) P I.sampleTime).2 ∧
    (process s P I).state.havePhase = (preSwing s P I).havePhase ∧
    (process s P I).state.lastPeriod = (preSwing s P I).lastPeriod ∧
    (process s P I).state.virtPeriod = (preSwing s P I).virtPeriod ∧
    (process s P I).state.virtTimer = (preSwing s P I).virtTimer ∧
    (process s P I).state.timeSinceClk = (preSwing s P I).timeSinceClk ∧
    (process s P I).state.sinceLastEdge = (preSwing s P I).sinceLastEdge ∧
    (process s P I).state.queuedBaseTicks
      = (swingScheduler (preSwing s P I) P I.sampleTime).1.queuedBaseTicks ∧
    (process s P I).state.sinceLastTick
      = (swingScheduler (preSwing s P I) P I.sampleTime).1.sinceLastTick ∧
    (process s P I).state.tickPending
      = (swingScheduler (preSwing s P I) P I.sampleTime).1.tickPending ∧
    (process s P I).state.resetPending = false := by
  obtain ⟨-, -, -, -, -, c6, -⟩ := withClock_ctl s (preClock s P I) P I
  obtain ⟨k1, k2, k3⟩ := withClock_clk s (preClock s P I) P I
  obtain ⟨p1, p2, p3⟩ := withClock_phase s (preClock s P I) P I
  obtain ⟨-, w2, w3, w4⟩ := withClock_swing s (preClock s P I) P I
  obtain ⟨-, -, c3, -⟩ := withClock_ctl s (preClock s P I) P I
  rw [process_connected s P I hc]
  exact ⟨c6, p1, k2, k3, p2, k1, p3, w2, w3, w4, by rw [c3]; exact tickAndReset_resetPending _ _ _⟩

/-- The state before the scheduler in a locked sample whose edge block leaves the
timer alone (no edge, or an edge with a ratio below 1 that measures `T` again),
in terms of the rounded sums of the sample. -/
theorem preSwing_locked (s : State) (P : Params) (I : Inputs) (T vp : ℚ)
    (hL : Locked s T vp) (hc : I.clkConnected = true) (hr : I.rstEdge = false)
    (hT : T > 1e-4) (hT1 : T ≤ 1) (hvp : 0 < vp)
    (hedge : (I.clkEdge = false ∧ f32 (s.timeSinceClk + I.sampleTime) ≤ T) ∨
      (I.clkEdge = true ∧ ratioOf P < 1 ∧ f32 (s.timeSinceClk + I.sampleTime) = T ∧
        f32 (T / ratioOf P) = vp)) :
    (preSwing s P I).havePhase = true ∧ (preSwing s P I).lastPeriod = T ∧
    (preSwing s P I).virtPeriod = vp ∧
    (preSwing s P I).timeSinceClk
      = (if I.clkEdge then 0 else f32 (s.timeSinceClk + I.sampleTime)) ∧
    (preSwing s P I).sinceLastEdge = (preSwing s P I).timeSinceClk ∧
    (preSwing s P I).sinceLastTick = f32 (s.sinceLastTick + I.sampleTime) ∧
    (preSwing s P I).tickPending = false ∧
    (f32 (s.virtTimer + I.sampleTime) < vp →
      (preSwing s P I).virtTimer = f32 (s.virtTimer + I.sampleTime) ∧
      (preSwing s P I).queuedBaseTicks = 0) ∧
    (vp ≤ f32 (s.virtTimer + I.sampleTime) →
      f32 (f32 (s.virtTimer + I.sampleTime) - vp) < vp →
      (preSwing s P I).virtTimer = f32 (f32 (s.virtTimer + I.sampleTime) - vp) ∧
      (preSwing s P I).queuedBaseTicks = 1) := by
  obtain ⟨l1, l2, l3, l4, l5, l6, l7⟩ := hL
  obtain ⟨q1, q2, q3, q4, q5, q6, q7, q8, q9, -⟩ := preClock_quiet s P I hc hr
  -- the state after the edge block
  have hm0 : ∃ m0 : State, preSwing s P I = virtualOscillator (phaseTimeout m0) I.sampleTime ∧
      m0.havePhase = true ∧ m0.lastPeriod = T ∧ m0.virtPeriod = vp ∧
      m0.virtTimer = s.virtTimer ∧
      m0.timeSinceClk = (if I.clkEdge then 0 else f32 (s.timeSinceClk + I.sampleTime)) ∧
      m0.sinceLastEdge = m0.timeSinceClk ∧
      m0.sinceLastTick = f32 (s.sinceLastTick + I.sampleTime) ∧
      m0.queuedBaseTicks = 0 ∧ m0.tickPending = false := by
    rcases hedge with ⟨he, _⟩ | ⟨he, hlt, hmeas, hvpe⟩
    · refine ⟨preClock s P I, by simp [preSwing, he], by rw [q1, l1], by rw [q2, l2],
        by rw [q3, l3], q4, by simp [he, q5], by rw [q6, q5, l7], q7, by rw [q8, l4],
        by rw [q9, l5]⟩
    · obtain ⟨e1, e2, e3, e4, e5, e6, e7, e8, e9⟩ :=
        clockEdge_divisor (preClock s P I) (ratioOf P) hlt (ratioOf_ge P)
          (by rw [q5, hmeas]; exact hT)
      refine ⟨clockEdge (preClock s P I) (ratioOf P), by simp [preSwing, he], e1,
        by rw [e2, q5, hmeas], by rw [e3, q5, hmeas, hvpe], by rw [e4, q4],
        by simp [he, e5], by rw [e6, e5], by rw [e7, q7], by rw [e8, q8, l4],
        by rw [e9, q9, l5]⟩
  obtain ⟨m0, hpre, m1, m2, m3, m4, m5, m6, m7, m8, m9⟩ := hm0
  have hE : m0.sinceLastEdge ≤ m0.lastPeriod := by
    rw [m6, m5, m2]
    rcases hedge with ⟨he, hle⟩ | ⟨he, _, _, _⟩
    · simp [he]; exact hle
    · simp [he]; linarith
  rw [hpre, phaseTimeout_none m0 (by rw [m2]; exact hT) (by rw [m2]; exact hT1) hE]
  obtain ⟨v1, v2, v3, v4, v5, v6, v7⟩ := virtualOscillator_fields m0 I.sampleTime
  refine ⟨by rw [v1, m1], by rw [v2, m2], by rw [v3, m3], by rw [v4, m5], by rw [v5, v4, m6],
    by rw [v6, m7], by rw [v7, m9], ?_, ?_⟩
  · intro hw
    rw [virtualOscillator_run m0 I.sampleTime vp m1 m3 hvp (by rw [m4]; exact hw)]
    exact ⟨by simp [m4], by simp [m8]⟩
  · intro hw hw2
    rw [virtualOscillator_wrap m0 I.sampleTime vp m1 m3 hvp (by rw [m4]; exact hw)
      (by rw [m4]; exact hw2)]
    exact ⟨by simp [m4], by simp [m8]⟩

/-- One locked sample whose edge block leaves the timer alone: the clock stays
locked; without a wrap nothing fires, with a wrap the queued tick fires unless
the anti-bounce discards it. -/
theorem locked_sample (s : State) (P : Params) (I : Inputs) (T vp : ℚ)
    (hL : Locked s T vp) (hc : I.clkConnected = true) (hr : I.rstEdge = false)
    (hsw : P.swing ≤ 0) (hT : T > 1e-4) (hT1 : T ≤ 1) (hvp : 0 < vp)
    (hedge : (I.clkEdge = false ∧ f32 (s.timeSinceClk + I.sampleTime) ≤ T) ∨
      (I.clkEdge = true ∧ ratioOf P < 1 ∧ f32 (s.timeSinceClk + I.sampleTime) = T ∧
        f32 (T / ratioOf P) = vp))
    (hone : vp ≤ f32 (s.virtTimer + I.sampleTime) →
      f32 (f32 (s.virtTimer + I.sampleTime) - vp) < vp) :
    Locked (process s P I).state T vp ∧
    (process s P I).state.timeSinceClk
      = (if I.clkEdge then 0 else f32 (s.timeSinceClk + I.sampleTime)) ∧
    (f32 (s.virtTimer + I.sampleTime) < vp →
      (process s P I).clockNow = false ∧
      (process s P I).state.virtTimer = f32 (s.virtTimer + I.sampleTime) ∧
      (process s P I).state.sinceLastTick = f32 (s.sinceLastTick + I.sampleTime)) ∧
    (vp ≤ f32 (s.virtTimer + I.sampleTime) → ¬ f32 (s.sinceLastTick + I.sampleTime) < 0.0005 →
      (process s P I).clockNow = true ∧
      (process s P I).state.virtTimer = f32 (f32 (s.virtTimer + I.sampleTime) - vp) ∧
      (process s P I).state.sinceLastTick = 0) ∧
    (vp ≤ f32 (s.virtTimer + I.sampleTime) → f32 (s.sinceLastTick + I.sampleTime) < 0.0005 →
      (process s P I).clockNow = false ∧
      (process s P I).state.virtTimer = f32 (f32 (s.virtTimer + I.sampleTime) - vp) ∧
      (process s P I).state.sinceLastTick = f32 (s.sinceLastTick + I.sampleTime)) := by
  obtain ⟨m1, m2, m3, m4, m5, m6, m7, m8, m9⟩ :=
    preSwing_locked s P I T vp hL hc hr hT hT1 hvp hedge
  obtain ⟨f1, f2, f3, f4, f5, f6, f7, f8, f9, f10, f11⟩ := withClock_summary s P I hc
  obtain ⟨z0, z1, z2⟩ := swingScheduler_zero_swing (preSwing s P I) P I.sampleTime m7 hsw
  have hq : (swingScheduler (preSwing s P I) P I.sampleTime).1.queuedBaseTicks = 0 ∧
      (swingScheduler (preSwing s P I) P I.sampleTime).1.tickPending = false := by
    by_cases hw : f32 (s.virtTimer + I.sampleTime) < vp
    · rw [z0 (m8 hw).2]; exact ⟨(m8 hw).2, m7⟩
    · have hq1 := (m9 (not_lt.mp hw) (hone (not_lt.mp hw))).2
      by_cases hb : (preSwing s P I).sinceLastTick < 0.0005
      · exact ⟨(z2 hq1 hb).2.1, (z2 hq1 hb).2.2.2⟩
      · exact ⟨(z1 hq1 hb).2.1, (z1 hq1 hb).2.2.2⟩
  refine ⟨⟨by rw [f2, m1], by rw [f3, m2], by rw [f4, m3], by rw [f8]; exact hq.1,
    by rw [f10]; exact hq.2, f11, by rw [f7, f6, m5]⟩, by rw [f6, m4], ?_, ?_, ?_⟩
  · intro hw
    rw [f1, f5, f9, z0 (m8 hw).2]
    exact ⟨rfl, (m8 hw).1, m6⟩
  · intro hw hb
    obtain ⟨y1, -, y3, -⟩ := z1 (m9 hw (hone hw)).2 (by rw [m6]; exact hb)
    rw [f1, f5, f9]
    exact ⟨y1, (m9 hw (hone hw)).1, y3⟩
  · intro hw hb
    obtain ⟨y1, -, y3, -⟩ := z2 (m9 hw (hone hw)).2 (by rw [m6]; exact hb)
    rw [f1, f5, f9]
    exact ⟨y1, (m9 hw (hone hw)).1, by rw [y3, m6]⟩

theorem roundHalfAway_natCast (n : Nat) : roundHalfAway (n : ℚ) = (n : Int) := by
  unfold roundHalfAway
  rw [if_pos (by positivity)]
  rw [Int.floor_eq_iff]
  constructor
  · push_cast; linarith
  · push_cast; linarith

/-- A clock edge with an integer ratio of at least 1, on a state with empty queue
and no deferred tick: the clock locks on the measured period, the timer
restarts, and the immediate tick fires unless the anti-bounce discards it. -/
theorem locked_edge_multiplier (s : State) (P : Params) (I : Inputs) (T vp : ℚ) (rn : Nat)
    (hq0 : s.queuedBaseTicks = 0) (hp0 : s.tickPending = false)
    (hc : I.clkConnected = true) (hr : I.rstEdge = false) (he : I.clkEdge = true)
    (hsw : P.swing ≤ 0) (hrn : 1 ≤ rn) (hratio : ratioOf P = (rn : ℚ))
    (hmeas : f32 (s.timeSinceClk + I.sampleTime) = T) (hT : T > 1e-4) (hT1 : T ≤ 1)
    (hvpe : f32 (T / ratioOf P) = vp) (hvp : 0 < vp)
    (hdv : f32 (0 + I.sampleTime) < vp) :
    Locked (process s P I).state T vp ∧ (process s P I).state.timeSinceClk = 0 ∧
    (process s P I).state.virtTimer = f32 (0 + I.sampleTime) ∧
    (f32 (s.sinceLastTick + I.sampleTime) < 0.0005 →
      (process s P I).clockNow = false ∧
      (process s P I).state.sinceLastTick = f32 (s.sinceLastTick + I.sampleTime)) ∧
    (¬ f32 (s.sinceLastTick + I.sampleTime) < 0.0005 →
      (process s P I).clockNow = true ∧ (process s P I).state.sinceLastTick = 0) := by
  obtain ⟨-, -, -, -, q5, -, q7, q8, q9, -⟩ := preClock_quiet s P I hc hr
  have hr1 : ratioOf P ≥ 1 := by rw [hratio]; exact_mod_cast hrn
  have hint : |ratioOf P - (roundHalfAway (ratioOf P) : ℚ)| < 1e-4 := by
    rw [hratio, roundHalfAway_natCast]; simp; norm_num
  obtain ⟨e1, e2, e3, e4, e5, e6, e7, e8, e9⟩ :=
    clockEdge_multiplier (preClock s P I) (ratioOf P) hr1 hint (by rw [q5, hmeas]; exact hT)
  rw [q5, hmeas] at e2 e3
  rw [hvpe] at e3
  have hpre : preSwing s P I
      = virtualOscillator (phaseTimeout (clockEdge (preClock s P I) (ratioOf P))) I.sampleTime := by
    simp [preSwing, he]
  have hosc := virtualOscillator_run (clockEdge (preClock s P I) (ratioOf P)) I.sampleTime
    vp e1 e3 hvp (by rw [e4]; exact hdv)
  rw [phaseTimeout_none _ (by rw [e2]; exact hT) (by rw [e2]; exact hT1)
    (by rw [e6, e2]; linarith), hosc] at hpre
  obtain ⟨f1, f2, f3, f4, f5, f6, f7, f8, f9, f10, f11⟩ := withClock_summary s P I hc
  rw [hpre] at f1 f2 f3 f4 f5 f6 f7 f8 f9 f10
  have hmq : ({ clockEdge (preClock s P I) (ratioOf P) with
      virtTimer := f32 ((clockEdge (preClock s P I) (ratioOf P)).virtTimer + I.sampleTime) }
        : State).queuedBaseTicks = 1 := by
    show (clockEdge (preClock s P I) (ratioOf P)).queuedBaseTicks = 1
    rw [e8, q8, hq0]; rfl
  obtain ⟨-, z1, z2⟩ := swingScheduler_zero_swing _ P I.sampleTime
    (show ({ clockEdge (preClock s P I) (ratioOf P) with
      virtTimer := f32 ((clockEdge (preClock s P I) (ratioOf P)).virtTimer + I.sampleTime) }
        : State).tickPending = false by
      show (clockEdge (preClock s P I) (ratioOf P)).tickPending = false
      rw [e9, q9, hp0]) hsw
  have hslt : ({ clockEdge (preClock s P I) (ratioOf P) with
      virtTimer := f32 ((clockEdge (preClock s P I) (ratioOf P)).virtTimer + I.sampleTime) }
        : State).sinceLastTick = f32 (s.sinceLastTick + I.sampleTime) := by
    show (clockEdge (preClock s P I) (ratioOf P)).sinceLastTick = _
    rw [e7, q7]
  have hqp : (process s P I).state.queuedBaseTicks = 0 ∧
      (process s P I).state.tickPending = false := by
    by_cases hb : f32 (s.sinceLastTick + I.sampleTime) < 0.0005
    · obtain ⟨-, y2, -, y4⟩ := z2 hmq (by rw [hslt]; exact hb)
      exact ⟨by rw [f8]; exact y2, by rw [f10]; exact y4⟩
    · obtain ⟨-, y2, -, y4⟩ := z1 hmq (by rw [hslt]; exact hb)
      exact ⟨by rw [f8]; exact y2, by rw [f10]; exact y4⟩
  refine ⟨⟨by rw [f2]; exact e1, by rw [f3]; exact e2, by rw [f4]; exact e3, hqp.1, hqp.2, f11,
    by rw [f7, f6]; show (clockEdge (preClock s P I) (ratioOf P)).sinceLastEdge
        = (clockEdge (preClock s P I) (ratioOf P)).timeSinceClk
       rw [e6, e5]⟩, by rw [f6]; exact e5, ?_, ?_, ?_⟩
  · rw [f5]
    show f32 ((clockEdge (preClock s P I) (ratioOf P)).virtTimer + I.sampleTime)
      = f32 (0 + I.sampleTime)
    rw [e4]
  · intro hb
    obtain ⟨y1, -, y3, -⟩ := z2 hmq (by rw [hslt]; exact hb)
    exact ⟨by rw [f1]; exact y1, by rw [f9, y3, hslt]⟩
  · intro hb
    obtain ⟨y1, -, y3, -⟩ := z1 hmq (by rw [hslt]; exact hb)
    exact ⟨by rw [f1]; exact y1, by rw [f9, y3]⟩

theorem succ_mod_cases (j N : Nat) (hN : 0 < N) :
    ((j + 1) % N = 0 ∧ j % N + 1 = N) ∨ ((j + 1) % N = j % N + 1 ∧ j % N + 1 < N) := by
  have h := Nat.mod_lt j hN
  have key : (j + 1) % N = (j % N + 1) % N := (Nat.mod_add_mod j N 1).symm
  by_cases hlast : j % N + 1 = N
  · left; rw [key, hlast, Nat.mod_self]; exact ⟨rfl, rfl⟩
  · right
    have hlt : j % N + 1 < N := by omega
    rw [key, Nat.mod_eq_of_lt hlt]; exact ⟨rfl, hlt⟩

/-- On an exact grid, adding one sample time to a whole number of them is exact. -/
theorem grid_add (dt : ℚ) (M : Nat) (hx : GridExact dt M) (n : Nat) (hn : n + 1 ≤ M) :
    f32 ((n : ℚ) * dt + dt) = ((n + 1 : Nat) : ℚ) * dt := by
  rw [show (n : ℚ) * dt + dt = ((n + 1 : Nat) : ℚ) * dt from by push_cast; ring]
  exact hx (n + 1) hn

theorem onGrid_mul (dt : ℚ) (hdt : 0 < dt) (n : Nat) : OnGrid dt ((n : ℚ) * dt) := by
  unfold OnGrid
  rw [mul_div_cancel_right₀ _ hdt.ne', Int.floor_natCast, Int.toNat_natCast]

theorem onGrid_zero (dt : ℚ) : OnGrid dt 0 := by
  unfold OnGrid
  simp

/-- One sample of a steady clock on an exact grid, seen from a locked state whose
timer is `v` samples into a period of `Q` samples: the rounded sums of the
sample are exact. -/
theorem grid_sample (s : State) (dt vp : ℚ) (M Q : Nat) (hx : GridExact dt M) (hdt : 0 < dt)
    (hQ : vp = (Q : ℚ) * dt) (hQM : Q ≤ M) (ha : 0 ≤ s.virtTimer ∧ s.virtTimer < vp)
    (hg : OnGrid dt s.virtTimer) (hcl : s.virtTimer - dt ≤ s.sinceLastTick) :
    (f32 (s.virtTimer + dt) = s.virtTimer + dt) ∧
    (vp ≤ s.virtTimer + dt → s.virtTimer + dt = vp) ∧
    s.virtTimer ≤ f32 (s.sinceLastTick + dt) ∧
    OnGrid dt (s.virtTimer + dt) := by
  have hv : s.virtTimer = ((⌊s.virtTimer / dt⌋.toNat : Nat) : ℚ) * dt := hg
  generalize ⌊s.virtTimer / dt⌋.toNat = v at hv
  have hvQ : v < Q := by
    have h1 : (v : ℚ) * dt < (Q : ℚ) * dt := by rw [← hv, ← hQ]; exact ha.2
    have h2 := lt_of_mul_lt_mul_right h1 hdt.le
    exact_mod_cast h2
  have hsum : s.virtTimer + dt = ((v + 1 : Nat) : ℚ) * dt := by rw [hv]; push_cast; ring
  refine ⟨?_, ?_, ?_, ?_⟩
  · rw [hv]; rw [grid_add dt M hx v (by omega)]; push_cast; ring
  · intro hge
    rw [hsum, hQ] at hge ⊢
    have h2 := le_of_mul_le_mul_right hge hdt
    have h3 : Q ≤ v + 1 := by exact_mod_cast h2
    have h4 : v + 1 = Q := by omega
    rw [h4]
  · have h1 : s.virtTimer ≤ s.sinceLastTick + dt := by linarith
    have h2 : f32 s.virtTimer = s.virtTimer := by rw [hv]; exact hx v (by omega)
    exact f32_ge_of_ge h1 h2
  · rw [hsum]; exact onGrid_mul dt hdt (v + 1)

/-- One sample of a divided steady clock keeps the free-running steady state; the
timer advances by `dt` minus one period when a step-advance fires. -/
theorem freeRun_step (s : State) (P : Params) (T vp dt : ℚ) (period j M Q : Nat)
    (hx : GridExact dt M) (hNM : period ≤ M) (hQ : vp = (Q : ℚ) * dt) (hQM : Q ≤ M)
    (hN : 0 < period) (hTN : T = (period : ℚ) * dt) (hr : ratioOf P < 1)
    (hvpe : f32 (T / ratioOf P) = vp) (hsw : P.swing ≤ 0) (hT : T > 1e-4) (hT1 : T ≤ 1)
    (hdt : 0 < dt) (hgap : dt + 0.0005 ≤ vp) (hF : FreeRun s T vp dt period j) :
    FreeRun (process s P (clockSample P dt period 0 (j + 1)).2).state T vp dt period (j + 1) ∧
    (process s P (clockSample P dt period 0 (j + 1)).2).state.virtTimer
        + (if (process s P (clockSample P dt period 0 (j + 1)).2).clockNow then vp else 0)
      = s.virtTimer + dt := by
  obtain ⟨hL, htc, ha, hg, hcl⟩ := hF
  obtain ⟨g1, g2, g3, g4⟩ := grid_sample s dt vp M Q hx hdt hQ hQM ha hg hcl
  have hvp : 0 < vp := by linarith
  have hfvp : f32 vp = vp := by rw [hQ]; exact hx Q hQM
  have hI1 : (clockSample P dt period 0 (j + 1)).2.clkConnected = true := rfl
  have hI2 : (clockSample P dt period 0 (j + 1)).2.rstEdge = false := rfl
  have hI3 : (clockSample P dt period 0 (j + 1)).2.sampleTime = dt := rfl
  have hI4 : (clockSample P dt period 0 (j + 1)).2.clkEdge = ((j + 1) % period == 0) := rfl
  have hjN : j % period + 1 ≤ period := Nat.mod_lt j hN
  have htc1 : f32 (s.timeSinceClk + dt) = ((j % period + 1 : Nat) : ℚ) * dt := by
    rw [htc]; exact grid_add dt M hx (j % period) (by omega)
  -- the edge alternative and the new time since the last edge
  have hedge : (((clockSample P dt period 0 (j + 1)).2.clkEdge = false ∧
        f32 (s.timeSinceClk + (clockSample P dt period 0 (j + 1)).2.sampleTime) ≤ T) ∨
      ((clockSample P dt period 0 (j + 1)).2.clkEdge = true ∧ ratioOf P < 1 ∧
        f32 (s.timeSinceClk + (clockSample P dt period 0 (j + 1)).2.sampleTime) = T ∧
        f32 (T / ratioOf P) = vp)) ∧
      (if (clockSample P dt period 0 (j + 1)).2.clkEdge then (0 : ℚ)
        else f32 (s.timeSinceClk + (clockSample P dt period 0 (j + 1)).2.sampleTime))
        = (((j + 1) % period : Nat) : ℚ) * dt := by
    rw [hI3, hI4, htc1]
    rcases succ_mod_cases j period hN with ⟨h0, h1⟩ | ⟨h0, h1⟩
    · refine ⟨Or.inr ⟨by simp [h0], hr, ?_, hvpe⟩, by simp [h0]⟩
      rw [hTN, h1]
    · have hne : ¬ (j + 1) % period = 0 := by omega
      have hle : ((j % period + 1 : Nat) : ℚ) ≤ (period : ℚ) := by exact_mod_cast le_of_lt h1
      refine ⟨Or.inl ⟨by simp [hne], ?_⟩, by simp [hne, h0]⟩
      rw [hTN]; exact mul_le_mul_of_nonneg_right hle hdt.le
  obtain ⟨hedge, hnew⟩ := hedge
  have hone : vp ≤ f32 (s.virtTimer + (clockSample P dt period 0 (j + 1)).2.sampleTime) →
      f32 (f32 (s.virtTimer + (clockSample P dt period 0 (j + 1)).2.sampleTime) - vp) < vp := by
    rw [hI3, g1]
    intro hge
    rw [g2 hge, sub_self, f32_zero]; exact hvp
  obtain ⟨r1, r2, r3, r4, r5⟩ :=
    locked_sample s P (clockSample P dt period 0 (j + 1)).2 T vp hL hI1 hI2 hsw hT hT1 hvp
      hedge hone
  rw [hI3, g1] at r3 r4 r5
  rw [hnew] at r2
  show FreeRun (process s P (clockSample P dt period 0 (j + 1)).2).state T vp dt period (j + 1) ∧ _
  by_cases hw : s.virtTimer + dt < vp
  · obtain ⟨c1, c2, c3⟩ := r3 hw
    refine ⟨⟨r1, r2, by rw [c2]; exact ⟨by linarith [ha.1], hw⟩, by rw [c2]; exact g4,
      by rw [c2, c3]; linarith⟩, ?_⟩
    rw [c1, c2]; simp
  · have hge : vp ≤ s.virtTimer + dt := not_lt.mp hw
    have hb : ¬ f32 (s.sinceLastTick + dt) < 0.0005 := by
      intro h
      have := g2 hge
      linarith
    obtain ⟨c1, c2, c3⟩ := r4 hge hb
    have hz : f32 (s.virtTimer + dt - vp) = 0 := by rw [g2 hge, sub_self, f32_zero]
    rw [hz] at c2
    refine ⟨⟨r1, r2, by rw [c2]; exact ⟨le_rfl, hvp⟩, by rw [c2]; exact onGrid_zero dt,
      by rw [c2, c3]; linarith⟩, ?_⟩
    rw [c1, c2, g2 hge]; simp

/-- A run of a divided steady clock: the steady state is kept and the timer has
advanced by the elapsed time minus one period per step-advance. -/
theorem freeRun_run (P : Params) (T vp dt : ℚ) (period M Q : Nat)
    (hx : GridExact dt M) (hNM : period ≤ M) (hQ : vp = (Q : ℚ) * dt) (hQM : Q ≤ M)
    (hN : 0 < period) (hTN : T = (period : ℚ) * dt) (hr : ratioOf P < 1)
    (hvpe : f32 (T / ratioOf P) = vp) (hsw : P.swing ≤ 0) (hT : T > 1e-4) (hT1 : T ≤ 1)
    (hdt : 0 < dt) (hgap : dt + 0.0005 ≤ vp) (n : Nat) :
    ∀ (s : State) (j : Nat), FreeRun s T vp dt period j →
      FreeRun (run s (steadyTrain P dt period (j + 1) n)) T vp dt period (j + n) ∧
      (run s (steadyTrain P dt period (j + 1) n)).virtTimer
          + (tickCount s (steadyTrain P dt period (j + 1) n) : ℚ) * vp
        = s.virtTimer + (n : ℚ) * dt := by
  induction n with
  | zero => intro s j hF; exact ⟨hF, by simp [run, tickCount, steadyTrain]⟩
  | succ n ih =>
    intro s j hF
    obtain ⟨h1, h2⟩ := freeRun_step s P T vp dt period j M Q hx hNM hQ hQM hN hTN hr hvpe hsw
      hT hT1 hdt hgap hF
    obtain ⟨i1, i2⟩ := ih _ (j + 1) h1
    have hidx : j + 1 + n = j + (n + 1) := by omega
    have hP : (clockSample P dt period 0 (j + 1)).1 = P := rfl
    simp only [steadyTrain, run, tickCount, hP]
    rw [hidx] at i1
    refine ⟨i1, ?_⟩
    push_cast
    by_cases hcn : (process s P (clockSample P dt period 0 (j + 1)).2).clockNow = true
    · rw [hcn] at h2 ⊢
      simp only [if_true] at h2 ⊢
      linarith
    · have hcf : (process s P (clockSample P dt period 0 (j + 1)).2).clockNow = false := by
        simpa using hcn
      rw [hcf] at h2 ⊢
      simp only [Bool.false_eq_true, if_false] at h2 ⊢
      linarith

/-- Divided clock rate: in the free-running steady state, `k` clock periods that
make up a whole number `m` of oscillator periods contain exactly `m`
step-advances. -/
theorem divisor_rate (s : State) (P : Params) (T vp dt : ℚ) (period j M Q : Nat)
    (hx : GridExact dt M) (hNM : period ≤ M) (hQ : vp = (Q : ℚ) * dt) (hQM : Q ≤ M)
    (hN : 0 < period) (hTN : T = (period : ℚ) * dt) (hr : ratioOf P < 1)
    (hvpe : f32 (T / ratioOf P) = vp) (hsw : P.swing ≤ 0) (hT : T > 1e-4) (hT1 : T ≤ 1)
    (hdt : 0 < dt) (hgap : dt + 0.0005 ≤ vp) (hF : FreeRun s T vp dt period j)
    (k m : Nat) (hkm : k * period = m * Q) :
    tickCount s (steadyTrain P dt period (j + 1) (k * period)) = m := by
  obtain ⟨i1, i2⟩ :=
    freeRun_run P T vp dt period M Q hx hNM hQ hQM hN hTN hr hvpe hsw hT hT1 hdt hgap
      (k * period) s j hF
  obtain ⟨-, -, ha1, -, -⟩ := i1
  obtain ⟨-, -, ha0, -, -⟩ := hF
  have hvp : 0 < vp := by linarith
  have hel : ((k * period : Nat) : ℚ) * dt = (m : ℚ) * vp := by
    rw [hkm, hQ]
    push_cast
    ring
  rw [hel] at i2
  -- the two timers differ by less than a period, so the counts agree
  have hdiff : ((tickCount s (steadyTrain P dt period (j + 1) (k * period)) : ℚ) - (m : ℚ)) * vp
      = s.virtTimer - (run s (steadyTrain P dt period (j + 1) (k * period))).virtTimer := by
    linarith
  have hlt : ((tickCount s (steadyTrain P dt period (j + 1) (k * period)) : ℚ) - (m : ℚ)) * vp
      < 1 * vp := by rw [hdiff]; linarith [ha0.2, ha1.1]
  have hgt : (-1 : ℚ) * vp
      < ((tickCount s (steadyTrain P dt period (j + 1) (k * period)) : ℚ) - (m : ℚ)) * vp := by
    rw [hdiff]; linarith [ha0.1, ha1.2]
  have h1 := lt_of_mul_lt_mul_right hlt (le_of_lt hvp)
  have h2 := lt_of_mul_lt_mul_right hgt (le_of_lt hvp)
  have h3 : (tickCount s (steadyTrain P dt period (j + 1) (k * period)) : ℤ) - (m : ℤ) < 1 := by
    exact_mod_cast h1
  have h4 : (-1 : ℤ) < (tickCount s (steadyTrain P dt period (j + 1) (k * period)) : ℤ) - (m : ℤ) := by
    exact_mod_cast h2
  omega

theorem run_append (xs ys : List (Params × Inputs)) :
    ∀ s : State, run s (xs ++ ys) = run (run s xs) ys := by
  induction xs with
  | nil => intro s; rfl
  | cons x xs ih => intro s; exact ih (process s x.1 x.2).state

theorem tickCount_append (xs ys : List (Params × Inputs)) :
    ∀ s : State, tickCount s (xs ++ ys) = tickCount s xs + tickCount (run s xs) ys := by
  induction xs with
  | nil => intro s; simp [tickCount, run]
  | cons x xs ih =>
    intro s
    have h := ih (process s x.1 x.2).state
    show (if (process s x.1 x.2).clockNow = true then 1 else 0)
        + tickCount (process s x.1 x.2).state (xs ++ ys)
      = (if (process s x.1 x.2).clockNow = true then 1 else 0)
        + tickCount (process s x.1 x.2).state xs
        + tickCount (run (process s x.1 x.2).state xs) ys
    rw [h]; omega

theorem steadyTrain_add (P : Params) (dt : ℚ) (period : Nat) (n1 n2 : Nat) :
    ∀ i : Nat, steadyTrain P dt period i (n1 + n2)
      = steadyTrain P dt period i n1 ++ steadyTrain P dt period (i + n1) n2 := by
  induction n1 with
  | zero => intro i; simp [steadyTrain]
  | succ n ih =>
    intro i
    rw [show n + 1 + n2 = (n + n2) + 1 by omega]
    simp only [steadyTrain, List.cons_append]
    rw [ih (i + 1), show i + 1 + n = i + (n + 1) by omega]

/-- One sample between two edges of a multiplied steady clock. -/
theorem inPeriod_step (s : State) (P : Params) (T vp dt : ℚ) (period j M Q : Nat)
    (hx : GridExact dt M) (hNM : period ≤ M) (hQ : vp = (Q : ℚ) * dt) (hQM : Q ≤ M)
    (hN : 0 < period) (hTN : T = (period : ℚ) * dt) (hsw : P.swing ≤ 0) (hT : T > 1e-4)
    (hT1 : T ≤ 1) (hdt : 0 < dt) (hgap : dt + 0.0005 ≤ vp)
    (hF : InPeriod s T vp dt period j) (hnext : j % period + 1 < period) :
    InPeriod (process s P (clockSample P dt period 0 (j + 1)).2).state T vp dt period (j + 1) ∧
    (process s P (clockSample P dt period 0 (j + 1)).2).state.virtTimer
        + (if (process s P (clockSample P dt period 0 (j + 1)).2).clockNow then vp else 0)
      = s.virtTimer + dt := by
  obtain ⟨hL, htc, ha, hg, hcl, hz⟩ := hF
  obtain ⟨g1, g2, g3, g4⟩ := grid_sample s dt vp M Q hx hdt hQ hQM ha hg hcl
  have hvp : 0 < vp := by linarith
  have hI1 : (clockSample P dt period 0 (j + 1)).2.clkConnected = true := rfl
  have hI2 : (clockSample P dt period 0 (j + 1)).2.rstEdge = false := rfl
  have hI3 : (clockSample P dt period 0 (j + 1)).2.sampleTime = dt := rfl
  have hI4 : (clockSample P dt period 0 (j + 1)).2.clkEdge = ((j + 1) % period == 0) := rfl
  have hmod : (j + 1) % period = j % period + 1 := by
    rcases succ_mod_cases j period hN with ⟨_, h1⟩ | ⟨h0, _⟩
    · omega
    · exact h0
  have hne : ¬ (j + 1) % period = 0 := by omega
  have hle : ((j % period + 1 : Nat) : ℚ) ≤ (period : ℚ) := by exact_mod_cast le_of_lt hnext
  have htc1 : f32 (s.timeSinceClk + dt) = ((j % period + 1 : Nat) : ℚ) * dt := by
    rw [htc]; exact grid_add dt M hx (j % period) (by omega)
  have hedge : ((clockSample P dt period 0 (j + 1)).2.clkEdge = false ∧
        f32 (s.timeSinceClk + (clockSample P dt period 0 (j + 1)).2.sampleTime) ≤ T) ∨
      ((clockSample P dt period 0 (j + 1)).2.clkEdge = true ∧ ratioOf P < 1 ∧
        f32 (s.timeSinceClk + (clockSample P dt period 0 (j + 1)).2.sampleTime) = T ∧
        f32 (T / ratioOf P) = vp) := by
    left
    rw [hI3, hI4, htc1]
    refine ⟨by simp [hne], ?_⟩
    rw [hTN]; exact mul_le_mul_of_nonneg_right hle hdt.le
  have hone : vp ≤ f32 (s.virtTimer + (clockSample P dt period 0 (j + 1)).2.sampleTime) →
      f32 (f32 (s.virtTimer + (clockSample P dt period 0 (j + 1)).2.sampleTime) - vp) < vp := by
    rw [hI3, g1]
    intro hge
    rw [g2 hge, sub_self, f32_zero]; exact hvp
  obtain ⟨r1, r2, r3, r4, r5⟩ :=
    locked_sample s P (clockSample P dt period 0 (j + 1)).2 T vp hL hI1 hI2 hsw hT hT1 hvp
      hedge hone
  rw [hI3, g1] at r3 r4 r5
  have hnew : (process s P (clockSample P dt period 0 (j + 1)).2).state.timeSinceClk
      = (((j + 1) % period : Nat) : ℚ) * dt := by
    rw [r2, hI3, hI4, htc1, hmod]; simp [hne]
  show InPeriod (process s P (clockSample P dt period 0 (j + 1)).2).state T vp dt period (j + 1) ∧ _
  by_cases hw : s.virtTimer + dt < vp
  · obtain ⟨c1, c2, c3⟩ := r3 hw
    refine ⟨⟨r1, hnew, by rw [c2]; exact ⟨by linarith [ha.1], hw⟩, by rw [c2]; exact g4,
      by rw [c2, c3]; linarith, ?_⟩, ?_⟩
    · intro hlt; rw [c2] at hlt; linarith [ha.1]
    · rw [c1, c2]; simp
  · have hge : vp ≤ s.virtTimer + dt := not_lt.mp hw
    have hb : ¬ f32 (s.sinceLastTick + dt) < 0.0005 := by
      intro h
      have := g2 hge
      linarith
    obtain ⟨c1, c2, c3⟩ := r4 hge hb
    have hz0 : f32 (s.virtTimer + dt - vp) = 0 := by rw [g2 hge, sub_self, f32_zero]
    rw [hz0] at c2
    refine ⟨⟨r1, hnew, by rw [c2]; exact ⟨le_rfl, hvp⟩, by rw [c2]; exact onGrid_zero dt,
      by rw [c2, c3]; linarith, fun _ => c3⟩, ?_⟩
    rw [c1, c2, g2 hge]; simp

/-- A stretch of samples between two edges of a multiplied steady clock. -/
theorem inPeriod_run (P : Params) (T vp dt : ℚ) (period M Q : Nat)
    (hx : GridExact dt M) (hNM : period ≤ M) (hQ : vp = (Q : ℚ) * dt) (hQM : Q ≤ M)
    (hN : 0 < period) (hTN : T = (period : ℚ) * dt) (hsw : P.swing ≤ 0) (hT : T > 1e-4)
    (hT1 : T ≤ 1) (hdt : 0 < dt) (hgap : dt + 0.0005 ≤ vp) (n : Nat) :
    ∀ (s : State) (j : Nat), InPeriod s T vp dt period j → j % period + n < period →
      InPeriod (run s (steadyTrain P dt period (j + 1) n)) T vp dt period (j + n) ∧
      (j + n) % period = j % period + n ∧
      (run s (steadyTrain P dt period (j + 1) n)).virtTimer
          + (tickCount s (steadyTrain P dt period (j + 1) n) : ℚ) * vp
        = s.virtTimer + (n : ℚ) * dt := by
  induction n with
  | zero => intro s j hF _; exact ⟨hF, rfl, by simp [run, tickCount, steadyTrain]⟩
  | succ n ih =>
    intro s j hF hroom
    obtain ⟨h1, h2⟩ :=
      inPeriod_step s P T vp dt period j M Q hx hNM hQ hQM hN hTN hsw hT hT1 hdt hgap hF
        (by omega)
    have hmod : (j + 1) % period = j % period + 1 := by
      rcases succ_mod_cases j period hN with ⟨_, h1⟩ | ⟨h0, _⟩
      · omega
      · exact h0
    obtain ⟨i1, i2, i3⟩ := ih _ (j + 1) h1 (by omega)
    have hidx : j + 1 + n = j + (n + 1) := by omega
    have hP : (clockSample P dt period 0 (j + 1)).1 = P := rfl
    simp only [steadyTrain, run, tickCount, hP]
    rw [hidx] at i1 i2
    refine ⟨i1, by omega, ?_⟩
    by_cases hcn : (process s P (clockSample P dt period 0 (j + 1)).2).clockNow = true
    · rw [hcn] at h2 ⊢
      simp only [if_true] at h2 ⊢
      push_cast
      linarith
    · have hcf : (process s P (clockSample P dt period 0 (j + 1)).2).clockNow = false := by
        simpa using hcn
      rw [hcf] at h2 ⊢
      simp only [Bool.false_eq_true, if_false] at h2 ⊢
      push_cast
      linarith

/-- A period of a multiplied steady clock, starting right after an edge sample:
the samples before the closing edge contain exactly `rn` step-advances (the
oscillator wraps), and the edge tick of the closing edge sample is discarded by
the anti-bounce, which leaves the clock in the same condition one period on. -/
theorem multiplier_period_core (s : State) (P : Params) (T vp dt : ℚ) (M j rn K Q : Nat)
    (hx : GridExact dt K) (hNM : M + 1 ≤ K) (hQ : vp = (Q : ℚ) * dt) (hQM : Q ≤ K)
    (hTN : T = ((M + 1 : Nat) : ℚ) * dt) (hsw : P.swing ≤ 0) (hT : T > 1e-4)
    (hT1 : T ≤ 1) (hdt : 0 < dt) (hdt5 : dt < 0.0005) (hgap : dt + 0.0005 ≤ vp)
    (hrn : 1 ≤ rn) (hratio : ratioOf P = (rn : ℚ)) (hvpe : T / ratioOf P = vp)
    (hF : InPeriod s T vp dt (M + 1) j) (hj0 : j % (M + 1) = 0) (ha : s.virtTimer = dt) :
    tickCount s (steadyTrain P dt (M + 1) (j + 1) M) = rn ∧
    (process (run s (steadyTrain P dt (M + 1) (j + 1) M)) P
      (clockSample P dt (M + 1) 0 (j + (M + 1))).2).clockNow = false ∧
    InPeriod (process (run s (steadyTrain P dt (M + 1) (j + 1) M)) P
      (clockSample P dt (M + 1) 0 (j + (M + 1))).2).state T vp dt (M + 1) (j + (M + 1)) ∧
    (process (run s (steadyTrain P dt (M + 1) (j + 1) M)) P
      (clockSample P dt (M + 1) 0 (j + (M + 1))).2).state.virtTimer = dt := by
  have hN : 0 < M + 1 := Nat.succ_pos M
  have hvp : 0 < vp := by linarith
  have hdv : dt < vp := by linarith
  have hfvp : f32 vp = vp := by rw [hQ]; exact hx Q hQM
  have hfdt : f32 (0 + dt) = dt := by
    have := hx 1 (by omega)
    simpa using this
  have hr0 : (0 : ℚ) < ratioOf P := lt_of_lt_of_le (by norm_num) (ratioOf_ge P)
  have hTvp : T = (rn : ℚ) * vp := by rw [← hvpe, hratio]; field_simp
  obtain ⟨i1, i2, i3⟩ := inPeriod_run P T vp dt (M + 1) K Q hx hNM hQ hQM hN hTN hsw hT hT1
    hdt hgap M s j hF (by omega)
  obtain ⟨hL1, htc1, ha1, hg1, hcl1, hz1⟩ := i1
  -- after the M samples the timer has just wrapped for the last time
  have hsum : (run s (steadyTrain P dt (M + 1) (j + 1) M)).virtTimer
      + (tickCount s (steadyTrain P dt (M + 1) (j + 1) M) : ℚ) * vp = (rn : ℚ) * vp := by
    rw [i3, ha, ← hTvp, hTN]; push_cast; ring
  have hdiff : ((rn : ℚ) - (tickCount s (steadyTrain P dt (M + 1) (j + 1) M) : ℚ)) * vp
      = (run s (steadyTrain P dt (M + 1) (j + 1) M)).virtTimer := by linarith
  have hlt : ((rn : ℚ) - (tickCount s (steadyTrain P dt (M + 1) (j + 1) M) : ℚ)) * vp < 1 * vp := by
    rw [hdiff]; linarith [ha1.2]
  have hge : (-1 : ℚ) * vp
      < ((rn : ℚ) - (tickCount s (steadyTrain P dt (M + 1) (j + 1) M) : ℚ)) * vp := by
    rw [hdiff]; linarith [ha1.1]
  have h1 := lt_of_mul_lt_mul_right hlt (le_of_lt hvp)
  have h2 := lt_of_mul_lt_mul_right hge (le_of_lt hvp)
  have h3 : (rn : ℤ) - (tickCount s (steadyTrain P dt (M + 1) (j + 1) M) : ℤ) < 1 := by
    exact_mod_cast h1
  have h4 : (-1 : ℤ) < (rn : ℤ) - (tickCount s (steadyTrain P dt (M + 1) (j + 1) M) : ℤ) := by
    exact_mod_cast h2
  have hcnt : tickCount s (steadyTrain P dt (M + 1) (j + 1) M) = rn := by omega
  have hzero : (run s (steadyTrain P dt (M + 1) (j + 1) M)).virtTimer = 0 := by
    rw [← hdiff, hcnt]; simp
  have hc0 : (run s (steadyTrain P dt (M + 1) (j + 1) M)).sinceLastTick = 0 :=
    hz1 (by rw [hzero]; exact hdt)
  -- the closing edge sample
  have hmodN : (j + (M + 1)) % (M + 1) = 0 := by
    rw [Nat.add_mod_right, hj0]
  have hI4 : (clockSample P dt (M + 1) 0 (j + (M + 1))).2.clkEdge = true := by
    show ((j + (M + 1)) % (M + 1) == 0) = true
    rw [hmodN]; rfl
  obtain ⟨l1, l2, l3, l4, l5, l6, l7⟩ := hL1
  have hmeas : f32 ((run s (steadyTrain P dt (M + 1) (j + 1) M)).timeSinceClk
      + (clockSample P dt (M + 1) 0 (j + (M + 1))).2.sampleTime) = T := by
    rw [htc1, i2, hj0, hTN]
    show f32 (((0 + M : Nat) : ℚ) * dt + dt) = ((M + 1 : Nat) : ℚ) * dt
    rw [Nat.zero_add]
    exact grid_add dt K hx M hNM
  obtain ⟨e1, e2, e3, e4, -⟩ := locked_edge_multiplier
    (run s (steadyTrain P dt (M + 1) (j + 1) M)) P (clockSample P dt (M + 1) 0 (j + (M + 1))).2
    T vp rn l4 l5 rfl rfl hI4 hsw hrn hratio hmeas hT hT1 (by rw [hvpe, hfvp]) hvp
    (by show f32 (0 + dt) < vp; rw [hfdt]; exact hdv)
  obtain ⟨e5, e6⟩ := e4 (by
    rw [hc0]
    show f32 ((0 : ℚ) + dt) < 0.0005
    rw [hfdt]; exact hdt5)
  have he3 : (process (run s (steadyTrain P dt (M + 1) (j + 1) M)) P
      (clockSample P dt (M + 1) 0 (j + (M + 1))).2).state.virtTimer = dt := by
    rw [e3]; exact hfdt
  have he6 : (process (run s (steadyTrain P dt (M + 1) (j + 1) M)) P
      (clockSample P dt (M + 1) 0 (j + (M + 1))).2).state.sinceLastTick = dt := by
    rw [e6, hc0]
    exact hfdt
  have hgd : OnGrid dt dt := by
    have := onGrid_mul dt hdt 1
    simpa using this
  refine ⟨hcnt, e5, ⟨e1, by rw [e2, hmodN]; simp, by rw [he3]; exact ⟨le_of_lt hdt, hdv⟩,
    by rw [he3]; exact hgd, by rw [he3, he6]; linarith, fun h => ?_⟩, he3⟩
  rw [he3] at h; exact absurd h (lt_irrefl _)

/-- One whole period of a multiplied steady clock, starting right after an edge
sample: exactly `rn` step-advances. -/
theorem multiplier_period (s : State) (P : Params) (T vp dt : ℚ) (period j rn K Q : Nat)
    (hx : GridExact dt K) (hNM : period ≤ K) (hQ : vp = (Q : ℚ) * dt) (hQM : Q ≤ K)
    (hN : 0 < period) (hTN : T = (period : ℚ) * dt) (hsw : P.swing ≤ 0) (hT : T > 1e-4)
    (hT1 : T ≤ 1) (hdt : 0 < dt) (hdt5 : dt < 0.0005) (hgap : dt + 0.0005 ≤ vp)
    (hrn : 1 ≤ rn) (hratio : ratioOf P = (rn : ℚ)) (hvpe : T / ratioOf P = vp)
    (hF : InPeriod s T vp dt period j) (hj0 : j % period = 0) (ha : s.virtTimer = dt) :
    InPeriod (run s (steadyTrain P dt period (j + 1) period)) T vp dt period (j + period) ∧
    (j + period) % period = 0 ∧
    (run s (steadyTrain P dt period (j + 1) period)).virtTimer = dt ∧
    tickCount s (steadyTrain P dt period (j + 1) period) = rn := by
  obtain ⟨M, rfl⟩ : ∃ M, period = M + 1 := ⟨period - 1, by omega⟩
  obtain ⟨c1, c2, c3, c4⟩ := multiplier_period_core s P T vp dt M j rn K Q hx hNM hQ hQM hTN
    hsw hT hT1 hdt hdt5 hgap hrn hratio hvpe hF hj0 ha
  rw [steadyTrain_add P dt (M + 1) M 1 (j + 1), run_append, tickCount_append]
  have hidx : j + 1 + M = j + (M + 1) := by omega
  rw [hidx]
  have hP : (clockSample P dt (M + 1) 0 (j + (M + 1))).1 = P := rfl
  simp only [steadyTrain, run, tickCount, hP]
  refine ⟨c3, by rw [Nat.add_mod_right, hj0], c4, ?_⟩
  rw [c1, c2]; simp

/-- Multiplied clock rate: `k` whole periods contain `k * rn` step-advances and
leave the clock in the same steady condition. -/
theorem multiplier_periods (P : Params) (T vp dt : ℚ) (period rn K Q : Nat)
    (hx : GridExact dt K) (hNM : period ≤ K) (hQ : vp = (Q : ℚ) * dt) (hQM : Q ≤ K)
    (hN : 0 < period) (hTN : T = (period : ℚ) * dt) (hsw : P.swing ≤ 0) (hT : T > 1e-4)
    (hT1 : T ≤ 1) (hdt : 0 < dt) (hdt5 : dt < 0.0005) (hgap : dt + 0.0005 ≤ vp)
    (hrn : 1 ≤ rn) (hratio : ratioOf P = (rn : ℚ)) (hvpe : T / ratioOf P = vp) (k : Nat) :
    ∀ (s : State) (j : Nat), InPeriod s T vp dt period j → j % period = 0 →
      s.virtTimer = dt →
      InPeriod (run s (steadyTrain P dt period (j + 1) (k * period))) T vp dt period
        (j + k * period) ∧
      tickCount s (steadyTrain P dt period (j + 1) (k * period)) = k * rn := by
  induction k with
  | zero => intro s j hF _ _; simpa [steadyTrain, tickCount, run] using hF
  | succ k ih =>
    intro s j hF hj0 ha
    obtain ⟨p1, p2, p3, p4⟩ := multiplier_period s P T vp dt period j rn K Q hx hNM hQ hQM hN
      hTN hsw hT hT1 hdt hdt5 hgap hrn hratio hvpe hF hj0 ha
    have hsplit : (k + 1) * period = period + k * period := by ring
    rw [hsplit, steadyTrain_add, tickCount_append, run_append, p4]
    obtain ⟨q1, q2⟩ := ih _ (j + period) p1 p2 p3
    rw [show j + 1 + period = j + period + 1 by omega, q2,
      show j + (period + k * period) = j + period + k * period by omega]
    exact ⟨q1, by ring⟩

/-- The table entry of ratio index 19 is 4. -/
theorem ratioOf_x4 (P : Params) (h : P.ratioIdx = 19) : ratioOf P = ((4 : Nat) : ℚ) := by
  unfold ratioOf
  rw [h]
  decide!

/-- Powers of two: the multiples `m / 2 ^ e` with `m ≤ 2 ^ 24` are binary32 values. -/
theorem gridExact_pow2 (e M : Nat) (he : e ≤ 149) (hM : M ≤ 2 ^ 24) :
    GridExact (1 / 2 ^ e) M := by
  intro m hm
  have h := f32_grid (m : Int) (-(e : Int))
    (by rw [abs_of_nonneg (by omega)]; exact_mod_cast le_trans hm hM) (by omega)
  have hp : pow2 (-(e : Int)) = 1 / 2 ^ e := by
    rw [pow2_eq, zpow_neg, zpow_natCast]; simp
  rw [hp] at h
  exact_mod_cast h

/-- C6: ratio ×4 (index 19), swing 0, sample time below 0.5 ms, a clock edge
every `N = 4 * Q` samples with `N * dt = 500 ms`, where the multiples of the
sample time up to `N` are binary32 values, so that the single-precision timers
count the samples without rounding.  Take any state with empty tick queue on
which an edge sample measures the period 500 ms.  Among the first `n` samples
after that edge sample (`n < N`) exactly `(n + 1) / Q` step-advances fire: they
fall in the samples number `Q - 1`, `2 * Q - 1`, `3 * Q - 1` and `4 * Q - 1`
after the edge sample, the last of them right before the next edge; that makes
four in the `N - 1` samples between the two edge samples.  In the next edge
sample itself no step-advance fires: its immediate tick is discarded by the
anti-bounce.  So in steady state no step-advance falls in the sample in which
the clock edge is detected. -/
theorem x4_scenario (s0 : State) (P : Params) (dt : ℚ) (N Q M : Nat)
    (hx : GridExact dt M) (hNM : N ≤ M)
    (hidx : P.ratioIdx = 19) (hsw : P.swing ≤ 0) (hdt : 0 < dt) (hdt5 : dt < 0.0005)
    (hN : (N : ℚ) * dt = 1 / 2) (hQ : N = 4 * Q) (hq : s0.queuedBaseTicks = 0)
    (hp : s0.tickPending = false) (hc : 0 ≤ s0.sinceLastTick)
    (hmeas : f32 (s0.timeSinceClk + dt) = 1 / 2) :
    (∀ n : Nat, n < N →
      tickCount (process s0 P (edgeInputs dt)).state (steadyTrain P dt N 1 n) = (n + 1) / Q) ∧
    tickCount (process s0 P (edgeInputs dt)).state (steadyTrain P dt N 1 (N - 1)) = 4 ∧
    (process (run (process s0 P (edgeInputs dt)).state (steadyTrain P dt N 1 (N - 1))) P
      (edgeInputs dt)).clockNow = false := by
  have hNpos : 0 < N := by
    rcases Nat.eq_zero_or_pos N with h | h
    · rw [h] at hN; norm_num at hN
    · exact h
  have hQpos : 0 < Q := by omega
  have hQdt : (Q : ℚ) * dt = 1 / 8 := by
    have h4 : (N : ℚ) = 4 * (Q : ℚ) := by rw [hQ]; push_cast; ring
    rw [h4] at hN; linarith
  obtain ⟨K, hK⟩ : ∃ K, N = K + 1 := ⟨N - 1, by omega⟩
  subst hK
  have hratio := ratioOf_x4 P hidx
  have hvpe : (1 / 2 : ℚ) / ratioOf P = 1 / 8 := by rw [hratio]; norm_num
  have hfvp : f32 ((1 / 2 : ℚ) / ratioOf P) = 1 / 8 := by rw [hvpe]; decide!
  have hgap : dt + 0.0005 ≤ (1 / 8 : ℚ) := by norm_num; linarith
  have hdv : dt < (1 / 8 : ℚ) := by linarith
  have hfdt : f32 (0 + dt) = dt := by
    have := hx 1 (by omega)
    simpa using this
  obtain ⟨e1, e2, e3, e4, e5⟩ := locked_edge_multiplier s0 P (edgeInputs dt) (1 / 2) (1 / 8) 4
    hq hp rfl rfl rfl hsw (by norm_num) hratio hmeas (by norm_num) (by norm_num) hfvp
    (by norm_num) (by show f32 (0 + dt) < 1 / 8; rw [hfdt]; exact hdv)
  have e3' : (process s0 P (edgeInputs dt)).state.virtTimer = dt := by
    rw [e3]; exact hfdt
  have hcl : 0 ≤ (process s0 P (edgeInputs dt)).state.sinceLastTick := by
    by_cases h : f32 (s0.sinceLastTick + (edgeInputs dt).sampleTime) < 0.0005
    · rw [(e4 h).2]
      show 0 ≤ f32 (s0.sinceLastTick + dt)
      exact f32_nonneg (by linarith)
    · rw [(e5 h).2]
  have hgd : OnGrid dt dt := by
    have := onGrid_mul dt hdt 1
    simpa using this
  have hF : InPeriod (process s0 P (edgeInputs dt)).state (1 / 2) (1 / 8) dt (K + 1) 0 := by
    refine ⟨e1, by rw [e2]; simp, by rw [e3']; exact ⟨le_of_lt hdt, hdv⟩, by rw [e3']; exact hgd,
      by rw [e3']; linarith, fun h => ?_⟩
    rw [e3'] at h; exact absurd h (lt_irrefl _)
  obtain ⟨c1, c2, -, -⟩ := multiplier_period_core (process s0 P (edgeInputs dt)).state P
    (1 / 2) (1 / 8) dt K 0 4 M Q hx hNM hQdt.symm (by omega) (by rw [← hN]) hsw (by norm_num)
    (by norm_num) hdt hdt5 hgap (by norm_num) hratio hvpe hF (Nat.zero_mod _) e3'
  have hI : (clockSample P dt (K + 1) 0 (0 + (K + 1))).2 = edgeInputs dt := by
    show ({ idleInputs dt with clkEdge := (0 + (K + 1)) % (K + 1) == 0 } : Inputs) = _
    rw [Nat.zero_add, Nat.mod_self]; rfl
  rw [hI] at c2
  refine ⟨fun n hn => ?_, c1, c2⟩
  obtain ⟨i1, -, i3⟩ := inPeriod_run P (1 / 2) (1 / 8) dt (K + 1) M Q hx hNM hQdt.symm
    (by omega) (Nat.succ_pos K) (by rw [← hN])
    hsw (by norm_num) (by norm_num) hdt hgap n (process s0 P (edgeInputs dt)).state 0 hF
    (by rw [Nat.zero_mod]; omega)
  obtain ⟨-, -, ha, -, -, -⟩ := i1
  rw [e3', ← hQdt] at i3
  rw [← hQdt] at ha
  have hlo : ((tickCount (process s0 P (edgeInputs dt)).state
      (steadyTrain P dt (K + 1) (0 + 1) n) : ℚ) * (Q : ℚ)) * dt ≤ ((n : ℚ) + 1) * dt := by
    nlinarith [ha.1]
  have hhi : ((n : ℚ) + 1) * dt < (((tickCount (process s0 P (edgeInputs dt)).state
      (steadyTrain P dt (K + 1) (0 + 1) n) : ℚ) + 1) * (Q : ℚ)) * dt := by
    nlinarith [ha.2]
  have hlo2 := le_of_mul_le_mul_right hlo hdt
  have hhi2 := lt_of_mul_lt_mul_right hhi (le_of_lt hdt)
  have hloN : tickCount (process s0 P (edgeInputs dt)).state
      (steadyTrain P dt (K + 1) (0 + 1) n) * Q ≤ n + 1 := by exact_mod_cast hlo2
  have hhiN : n + 1 < (tickCount (process s0 P (edgeInputs dt)).state
      (steadyTrain P dt (K + 1) (0 + 1) n) + 1) * Q := by exact_mod_cast hhi2
  exact (Nat.div_eq_of_lt_le hloN hhiN).symm ▸ rfl

theorem findNextPlayable_spec_witness :
    (0 ≤ (2 : Int) ∧ (2 : Int) ≤ 15) ∧ (1 ≤ (4 : Int) ∧ (4 : Int) ≤ 16) ∧
    (0 ≤ (0 : Int) ∧ (0 : Int) < 4) ∧
    (findNextPlayable (fun i => if i = 3 then 0 else 2) 2 4 0 0).2 = false :=
  ⟨by decide, by decide, by decide,
    ((findNextPlayable_spec (fun i => if i = 3 then 0 else 2) 2 4 0 0
      (by decide) (by decide) (by decide)).1 ⟨1, by decide, by decide, by decide⟩).1⟩

/-- C1 counterexample: window of one slot (start 0, length 1) in Play mode.  Each
Forward step-advance re-selects slot 0, which completes a traversal of the
window, yet neither of two successive advances wraps or triggers the
end-of-cycle pulse. -/
theorem forward_single_slot_never_wraps :
    (advance powerOn { defaultParams with steps := 1 } (idleInputs (1 / 48000)) 0 1 2).1.step = 0 ∧
    (advance powerOn { defaultParams with steps := 1 } (idleInputs (1 / 48000)) 0 1 2).2.wrapped
      = false ∧
    (advance (advance powerOn { defaultParams with steps := 1 } (idleInputs (1 / 48000)) 0 1 2).1
      { defaultParams with steps := 1 } (idleInputs (1 / 48000)) 0 1 2).1.step = 0 ∧
    (advance (advance powerOn { defaultParams with steps := 1 } (idleInputs (1 / 48000)) 0 1 2).1
      { defaultParams with steps := 1 } (idleInputs (1 / 48000)) 0 1 2).2.wrapped = false ∧
    (advance (advance powerOn { defaultParams with steps := 1 } (idleInputs (1 / 48000)) 0 1 2).1
      { defaultParams with steps := 1 } (idleInputs (1 / 48000)) 0 1 2).1.eocPulse = 0 := by
  decide!

/-- Instance of C1 at power-on with default parameters (16 Play steps): sixteen
Forward step-advances return to step 0 and wrap once. -/
theorem forward_traversal_witness :
    (advanceN defaultParams (idleInputs (1 / 48000)) 0 16 2 16 powerOn).1.step = 0 ∧
    (advanceN defaultParams (idleInputs (1 / 48000)) 0 16 2 16 powerOn).2 = 1 :=
  ((forward_traversal powerOn defaultParams (idleInputs (1 / 48000)) 0 16 2
      (by decide) (by decide) rfl rfl rfl (by decide)).2 (by decide) (by decide)).1
    (by decide) 1

/-- C4 counterexample: a reset edge detected while the clock cable is
disconnected leaves the request pending at the end of the sample, and the
navigator stays on step 7 instead of the window start 0. -/
theorem reset_without_clock_stays_pending :
    (process atStep7 defaultParams
      { idleInputs (1 / 48000) with clkConnected := false, rstEdge := true }).state.resetPending
      = true ∧
    (process atStep7 defaultParams
      { idleInputs (1 / 48000) with clkConnected := false, rstEdge := true }).state.step = 7 ∧
    windowStart defaultParams = 0 := by
  decide!

/-- C3 counterexample: (i) with the end-of-cycle-on-reset option set, the reset
sample re-triggers the end-of-cycle pulse and its output is 10 V; (ii) with
default settings, a clock edge detected in the same sample as the reset edge
fires a step-advance that replays step 7: the aggregate gate and the per-step
pulse 7 are triggered, not cut; (iii) with step 0 in Mute mode the step-advance
after the reset selects step 0 without firing its gate. -/
theorem reset_sample_pulses_not_cut :
    (process { atStep7 with eocOnReset := true } defaultParams
      (resetInputs (1 / 1000))).out.eoc = 10 ∧
    ((process atStep7 defaultParams
        { resetInputs (1 / 1000) with clkEdge := true }).out.gate = 10 ∧
      (process atStep7 defaultParams
        { resetInputs (1 / 1000) with clkEdge := true }).tick
        = some { wrapped := false, fired := some (7, 0.010) }) ∧
    ((process (process atStep7 defaultParams
        (resetInputs (1 / 1000))).state
        { defaultParams with stepMode := fun i => if i = 0 then 1 else 0 }
        (edgeInputs (1 / 1000))).state.step = 0 ∧
      (process (process atStep7 defaultParams
        (resetInputs (1 / 1000))).state
        { defaultParams with stepMode := fun i => if i = 0 then 1 else 0 }
        (edgeInputs (1 / 1000))).tick
        = some { wrapped := false, fired := none }) := by
  decide!

theorem reset_scenario_witness :
    (process (run (process (run (process atStep7 defaultParams (resetInputs (1 / 1000))).state
        [(defaultParams, idleInputs (1 / 1000))]) defaultParams (edgeInputs (1 / 1000))).state [])
        defaultParams (edgeInputs (1 / 1000))).state.step
      = (findNextPlayable defaultParams.stepMode 0 (windowSteps defaultParams) 0 0).1 :=
  (reset_scenario atStep7 defaultParams (resetInputs (1 / 1000))
    [(defaultParams, idleInputs (1 / 1000))] defaultParams (edgeInputs (1 / 1000))
    [] defaultParams (edgeInputs (1 / 1000))
    (by decide)
    (by intro x hx; rw [List.mem_singleton] at hx; subst hx; unfold scenarioSample; decide)
    (by decide!)
    (by unfold scenarioSample; decide)
    (by decide!)
    (by intro x hx; exact absurd hx (List.not_mem_nil x))
    (by decide!)
    (by unfold scenarioSample; decide)
    (by decide!)).2.2.2

/-- C5: the duty clamp does not hold for short periods.  Default parameters (Gate
mode, duration 100 ms, ratio ×2) and a virtual period of 8 ms at 48 kHz: the
step-advance fires a gate of 10 ms (the floor of line 851), which exceeds
`0.9 * virtPeriod = 7.2 ms`, the limit `virtPeriod - minOff = 7 ms`, and the
period itself. -/
theorem duty_clamp_floor_exceeds_period :
    (advance { powerOn with virtPeriod := 0.008 } defaultParams (idleInputs (1 / 48000)) 0 16
      (ratioOf defaultParams)).2.fired = some (1, 0.010) ∧
    defaultParams.gateMode = 0 ∧ ratioOf defaultParams > 1 ∧
    ¬ ((0.010 : ℚ) ≤ 0.9 * 0.008) ∧
    ¬ ((0.010 : ℚ) ≤ 0.008 - max 0.001 (2 * (1 / 48000))) ∧
    ¬ ((0.010 : ℚ) ≤ 0.008) := by
  decide!

/-- The duty clamp at default parameters with a virtual period of 500 ms: the
gate of 100 ms is within both bounds. -/
theorem duty_clamp_witness :
    (advance { powerOn with virtPeriod := 0.5 } defaultParams (idleInputs (1 / 48000))
      0 16 2).2.fired = some (1, 0.100) ∧
    (0 : ℚ) < 0.100 ∧ (0.100 : ℚ) ≤ 0.9 * 0.5 ∧
      (0.100 : ℚ) ≤ 0.5 - max 0.001 (2 * (1 / 48000)) := by
  have h := duty_clamp { powerOn with virtPeriod := 0.5 } defaultParams (idleInputs (1 / 48000))
    0 16 2 1 0.100 (by decide!) rfl (by norm_num) (by norm_num [powerOn])
  exact ⟨by decide!, h.1, h.2.1 (by decide!)⟩

/-- C8 counterexample: 48 kHz (sample time the binary32 value of `1/48000`),
ratio ×2, a clock edge every 5 samples.  The period of that clock is 5 sample
times, but at the second edge the engine has measured the single-precision sum
of five sample times, which is larger, and `virtPeriod` is half the measured
value, not half the period. -/
theorem measured_period_is_rounded :
    (run powerOn (clockTrain defaultParams (f32 (1 / 48000)) 5 4 10)).lastPeriod
      = 7158279 / 68719476736 ∧
    5 * f32 (1 / 48000) = 28633115 / 274877906944 ∧
    ratioOf defaultParams = 2 ∧
    (run powerOn (clockTrain defaultParams (f32 (1 / 48000)) 5 4 10)).virtPeriod
      = 7158279 / 137438953472 ∧
    (run powerOn (clockTrain defaultParams (f32 (1 / 48000)) 5 4 10)).virtPeriod
      ≠ 5 * f32 (1 / 48000) / ratioOf defaultParams := by
  decide!

/-- Instance of C8: ratio ×4, sample time 1/1024 s, an edge detected 500 ms after
the previous one: the period measured is 500 ms and `virtPeriod` becomes 125 ms. -/
theorem virtPeriod_on_edge_witness :
    (process { powerOn with timeSinceClk := 1 / 2 - 1 / 1024 }
      { defaultParams with ratioIdx := 19 } (edgeInputs (1 / 1024))).state.lastPeriod = 1 / 2 ∧
    (process { powerOn with timeSinceClk := 1 / 2 - 1 / 1024 }
      { defaultParams with ratioIdx := 19 } (edgeInputs (1 / 1024))).state.virtPeriod = 1 / 8 :=
  ⟨(virtPeriod_on_edge { powerOn with timeSinceClk := 1 / 2 - 1 / 1024 }
      { defaultParams with ratioIdx := 19 } (edgeInputs (1 / 1024)) rfl rfl).1.trans (by decide!),
   ((virtPeriod_on_edge { powerOn with timeSinceClk := 1 / 2 - 1 / 1024 }
      { defaultParams with ratioIdx := 19 } (edgeInputs (1 / 1024)) rfl rfl).2.1
      (by decide!)).trans (by decide!)⟩

theorem anti_bounce_witness :
    (process { powerOn with sinceLastTick := 0, queuedBaseTicks := 1 } defaultParams
      (idleInputs (1 / 48000))).clockNow = false :=
  ((anti_bounce { powerOn with sinceLastTick := 0, queuedBaseTicks := 1 } defaultParams
    (idleInputs (1 / 48000)) rfl).1 (by decide!) (by decide!) (by decide!) (by decide!)).2.1

/-- C10 counterexample: a one-slot window (start 0, length 1) whose slot is Skip.
The Forward step-advance leaves `currentStep` at 0: navigation does not move. -/
theorem all_skip_single_slot_stays :
    (advance powerOn { defaultParams with steps := 1, stepMode := fun _ => 2 }
      (idleInputs (1 / 48000)) 0 1 2).1.step = powerOn.step ∧
    (∀ j : Fin 1, ({ defaultParams with steps := 1, stepMode := fun _ => 2 } : Params).stepMode
      (wrap16 (0 + (j : Int))) = 2) := by
  decide!

theorem all_skip_window_witness :
    (advance powerOn { defaultParams with stepMode := fun _ => 2 }
      (idleInputs (1 / 48000)) 0 16 2).2.fired = none :=
  (all_skip_window powerOn { defaultParams with stepMode := fun _ => 2 }
    (idleInputs (1 / 48000)) 0 16 2 (by decide) (by decide) (by decide) (by decide)
    (fun _ _ _ => rfl)).1.1

/-- Ratio ×4 (index 19), swing 0, sample time 1/16 s, a clock edge every 8
samples (500 ms), the first one 500 ms after the cable is connected so that the
very first measured period is already 500 ms.  The step-advances of the first 24
samples: the edges are detected in samples 7, 15, 23; between two edges five
step-advances occur (for instance 7, 8, 10, 12, 14), the second only one sample
(62.5 ms) after the first. -/
theorem x4_coarse_sample_ticks :
    tickTimes powerOn 0 (clockTrain { defaultParams with ratioIdx := 19 } (1 / 16) 8 7 24)
      = [7, 8, 10, 12, 14, 15, 16, 18, 20, 22, 23] := by
  decide!

/-- The ×4 scenario at a sample rate of 65536 Hz: 32768 samples per clock
period, the state before the edge being the power-on state after 32767 samples
without an edge.  No step-advance in the first 8190 samples after the edge
sample, one by the 8191st, four in the 32767 samples before the next edge sample
and none in it. -/
theorem x4_scenario_witness :
    tickCount (process { powerOn with timeSinceClk := 1 / 2 - 1 / 2 ^ 16 }
        { defaultParams with ratioIdx := 19 } (edgeInputs (1 / 2 ^ 16))).state
      (steadyTrain { defaultParams with ratioIdx := 19 } (1 / 2 ^ 16) 32768 1 8190) = 0 ∧
    tickCount (process { powerOn with timeSinceClk := 1 / 2 - 1 / 2 ^ 16 }
        { defaultParams with ratioIdx := 19 } (edgeInputs (1 / 2 ^ 16))).state
      (steadyTrain { defaultParams with ratioIdx := 19 } (1 / 2 ^ 16) 32768 1 8191) = 1 ∧
    tickCount (process { powerOn with timeSinceClk := 1 / 2 - 1 / 2 ^ 16 }
        { defaultParams with ratioIdx := 19 } (edgeInputs (1 / 2 ^ 16))).state
      (steadyTrain { defaultParams with ratioIdx := 19 } (1 / 2 ^ 16) 32768 1 (32768 - 1)) = 4 ∧
    (process (run (process { powerOn with timeSinceClk := 1 / 2 - 1 / 2 ^ 16 }
        { defaultParams with ratioIdx := 19 } (edgeInputs (1 / 2 ^ 16))).state
      (steadyTrain { defaultParams with ratioIdx := 19 } (1 / 2 ^ 16) 32768 1 (32768 - 1)))
      { defaultParams with ratioIdx := 19 } (edgeInputs (1 / 2 ^ 16))).clockNow = false :=
  have h := x4_scenario { powerOn with timeSinceClk := 1 / 2 - 1 / 2 ^ 16 }
    { defaultParams with ratioIdx := 19 } (1 / 2 ^ 16) 32768 8192 32768
    (gridExact_pow2 16 32768 (by decide) (by decide)) (le_refl _) rfl (by decide!) (by norm_num)
    (by norm_num) (by norm_num) (by decide) rfl rfl (by decide!) (by decide!)
  ⟨h.1 8190 (by decide), h.1 8191 (by decide), h.2.1, h.2.2⟩

/-- A step-advance in terms of its direction logic: the step it selects (unless
a pending reset then moves the navigator to the reset target), the directions it
leaves, the wrap flag and the end-of-cycle pulse. -/
theorem advance_nav (s : State) (P : Params) (I : Inputs) (start steps : Int) (ratio : ℚ) :
    (advance s P I start steps ratio).1.step
      = (if s.resetPending then s.resetTargetStep else (tickNav s P I start steps).nextStep) ∧
    (advance s P I start steps ratio).1.pingDir = (tickNav s P I start steps).pingDir ∧
    (advance s P I start steps ratio).1.drunkDir = (tickNav s P I start steps).drunkDir ∧
    (advance s P I start steps ratio).2.wrapped = (tickNav s P I start steps).wrapped ∧
    (advance s P I start steps ratio).1.eocPulse
      = (if (tickNav s P I start steps).wrapped then pulseTrigger s.eocPulse trigLen
         else s.eocPulse) := by
  obtain ⟨-, -, c3, -, c5, c6⟩ := fireGate_ctl (applyNav s (tickNav s P I start steps)) P I start
    ratio (muteGlobal P start steps (tickNav s P I start steps))
  have c1 := fireGate_step (applyNav s (tickNav s P I start steps)) P I start
    ratio (muteGlobal P start steps (tickNav s P I start steps))
  have c2 := fireGate_eocPulse (applyNav s (tickNav s P I start steps)) P I start
    ratio (muteGlobal P start steps (tickNav s P I start steps))
  unfold advance
  dsimp only
  cases hrp : s.resetPending
  · simp only [Bool.false_eq_true, if_false]
    exact ⟨c1, c5, c6, trivial, c2⟩
  · simp only [if_true, applyPendingReset]
    exact ⟨c3, c5, c6, trivial, c2⟩

theorem clamp_dir_two : clamp (2 : Int) 0 4 = 2 := by decide

theorem clamp_dir_three : clamp (3 : Int) 0 4 = 3 := by decide

theorem clamp_dir_four : clamp (4 : Int) 0 4 = 4 := by decide

/-- The direction logic of a normal Ping-Pong tick. -/
theorem tickNav_pingpong (s : State) (P : Params) (I : Inputs) (start steps : Int)
    (hdir : P.dirMode = 2) (hplay : s.playCurrentOnNextTick = false) :
    tickNav s P I start steps =
      (if (!(findNextPlayable P.stepMode start steps s.pingDir (relOf s.step start)).2 &&
            !(if s.pingDir = 0 then
                decide (relOf (findNextPlayable P.stepMode start steps s.pingDir
                  (relOf s.step start)).1 start < relOf s.step start)
              else
                decide (relOf (findNextPlayable P.stepMode start steps s.pingDir
                  (relOf s.step start)).1 start > relOf s.step start))) = true then
        { nextStep := (findNextPlayable P.stepMode start steps s.pingDir (relOf s.step start)).1
          wrapped := false, allSkip := false, pingDir := s.pingDir, drunkDir := s.drunkDir }
      else
        { nextStep := (findNextPlayable P.stepMode start steps (1 - s.pingDir)
            (relOf s.step start)).1
          wrapped := true, allSkip := false, pingDir := 1 - s.pingDir,
          drunkDir := s.drunkDir }) := by
  simp [tickNav, hplay, hdir, clamp_dir_two, navigate]

/-- C11: a normal Ping-Pong step-advance (no replay, no reset pending).  Let `c1`
be the skip-aware lookup from the current offset in direction `pingDir`.  If
some slot of the window is not Skip and `c1` does not wrap (its offset is not
below the current one going forward, not above it going backward), the advance
selects `c1`, keeps `pingDir` and signals no wrap; otherwise `pingDir` becomes
`1 - pingDir`, the advance selects the lookup from the original offset in the
new direction, and the wrap is signalled (the end-of-cycle pulse is triggered). -/
theorem pingpong_transition (s : State) (P : Params) (I : Inputs) (start steps : Int)
    (ratio : ℚ) (hs : 0 ≤ start ∧ start ≤ 15) (hl : 1 ≤ steps ∧ steps ≤ 16)
    (hwin : relOf s.step start < steps) (hdir : P.dirMode = 2)
    (hplay : s.playCurrentOnNextTick = false) (hrp : s.resetPending = false) :
    (((∃ j, 0 ≤ j ∧ j < steps ∧ P.stepMode (wrap16 (start + j)) ≠ 2) ∧
        (if s.pingDir = 0 then
          relOf s.step start
            ≤ relOf (findNextPlayable P.stepMode start steps s.pingDir (relOf s.step start)).1 start
         else
          relOf (findNextPlayable P.stepMode start steps s.pingDir (relOf s.step start)).1 start
            ≤ relOf s.step start)) →
      (advance s P I start steps ratio).1.step
        = (findNextPlayable P.stepMode start steps s.pingDir (relOf s.step start)).1 ∧
      (advance s P I start steps ratio).1.pingDir = s.pingDir ∧
      (advance s P I start steps ratio).2.wrapped = false ∧
      (advance s P I start steps ratio).1.eocPulse = s.eocPulse) ∧
    (¬ ((∃ j, 0 ≤ j ∧ j < steps ∧ P.stepMode (wrap16 (start + j)) ≠ 2) ∧
        (if s.pingDir = 0 then
          relOf s.step start
            ≤ relOf (findNextPlayable P.stepMode start steps s.pingDir (relOf s.step start)).1 start
         else
          relOf (findNextPlayable P.stepMode start steps s.pingDir (relOf s.step start)).1 start
            ≤ relOf s.step start)) →
      (advance s P I start steps ratio).1.pingDir = 1 - s.pingDir ∧
      (advance s P I start steps ratio).1.step
        = (findNextPlayable P.stepMode start steps (1 - s.pingDir) (relOf s.step start)).1 ∧
      (advance s P I start steps ratio).2.wrapped = true ∧
      (advance s P I start steps ratio).1.eocPulse = pulseTrigger s.eocPulse trigLen) := by
  have hrel0 : 0 ≤ relOf s.step start := (wrap16_range _).1
  obtain ⟨f1, f2, -, -⟩ := findNextPlayable_scan P.stepMode start steps s.pingDir
    (relOf s.step start) hs hl ⟨hrel0, hwin⟩
  obtain ⟨a1, a2, -, a4, a5⟩ := advance_nav s P I start steps ratio
  rw [hrp] at a1
  simp only [Bool.false_eq_true, if_false] at a1
  rw [a1, a2, a4, a5, tickNav_pingpong s P I start steps hdir hplay]
  -- the condition of line 768 in the words of the claim
  have hcond : ((!(findNextPlayable P.stepMode start steps s.pingDir (relOf s.step start)).2 &&
            !(if s.pingDir = 0 then
                decide (relOf (findNextPlayable P.stepMode start steps s.pingDir
                  (relOf s.step start)).1 start < relOf s.step start)
              else
                decide (relOf (findNextPlayable P.stepMode start steps s.pingDir
                  (relOf s.step start)).1 start > relOf s.step start))) = true) ↔
      ((∃ j, 0 ≤ j ∧ j < steps ∧ P.stepMode (wrap16 (start + j)) ≠ 2) ∧
        (if s.pingDir = 0 then
          relOf s.step start
            ≤ relOf (findNextPlayable P.stepMode start steps s.pingDir (relOf s.step start)).1 start
         else
          relOf (findNextPlayable P.stepMode start steps s.pingDir (relOf s.step start)).1 start
            ≤ relOf s.step start)) := by
    have hflag : (findNextPlayable P.stepMode start steps s.pingDir (relOf s.step start)).2 = false
        ↔ ∃ j, 0 ≤ j ∧ j < steps ∧ P.stepMode (wrap16 (start + j)) ≠ 2 := by
      constructor
      · intro h
        by_contra hne
        have hall : ∀ j, 0 ≤ j → j < steps → P.stepMode (wrap16 (start + j)) = 2 := by
          intro j h0 h1
          by_contra hj
          exact hne ⟨j, h0, h1, hj⟩
        have := (f2 hall).1
        rw [h] at this
        exact Bool.noConfusion this
      · intro h
        exact (f1 h).1
    by_cases hp : s.pingDir = 0
    · simp only [hp, if_true, Bool.and_eq_true, Bool.not_eq_true', decide_eq_false_iff_not,
        not_lt]
      rw [hp] at hflag
      rw [hflag]
    · simp only [hp, if_false, Bool.and_eq_true, Bool.not_eq_true', decide_eq_false_iff_not,
        not_lt, gt_iff_lt]
      rw [hflag]
  constructor
  · intro h
    rw [if_pos (hcond.mpr h)]
    exact ⟨rfl, rfl, rfl, by simp⟩
  · intro h
    rw [if_neg (fun hc => h (hcond.mp hc))]
    exact ⟨rfl, rfl, rfl, by simp⟩

/-- The direction logic of a normal Random tick. -/
theorem tickNav_random (s : State) (P : Params) (I : Inputs) (start steps : Int)
    (hdir : P.dirMode = 3) (hplay : s.playCurrentOnNextTick = false) :
    tickNav s P I start steps =
      { nextStep :=
          if (!(randomPool P.stepMode start steps.toNat 0).isEmpty) = true then
            (randomPool P.stepMode start steps.toNat 0).getD
              (clamp (floatToInt
                  ⌊f32 (I.uniform * ((randomPool P.stepMode start steps.toNat 0).length : ℚ))⌋) 0
                (((randomPool P.stepMode start steps.toNat 0).length : Int) - 1)).toNat 0
          else (findNextPlayable P.stepMode start steps 0 (relOf s.step start)).1
        wrapped := false, allSkip := false, pingDir := s.pingDir, drunkDir := s.drunkDir } := by
  simp [tickNav, hplay, hdir, clamp_dir_three, navigate]

/-- The pool of the Random branch is the list of window slots, in window order,
with the Skip slots filtered out. -/
theorem randomPool_eq_filter (mode : Int → Int) (start : Int) (n : Nat) : ∀ k : Int,
    randomPool mode start n k
      = ((List.range n).map (fun i : Nat => wrap16 (start + (k + (i : Int))))).filter
          (fun c => mode c != 2) := by
  induction n with
  | zero => intro k; simp [randomPool]
  | succ n ih =>
    intro k
    rw [List.range_succ_eq_map, List.map_cons, List.map_map]
    have htail : ((fun i : Nat => wrap16 (start + (k + (i : Int)))) ∘ Nat.succ)
        = (fun i : Nat => wrap16 (start + (k + 1 + (i : Int)))) := by
      funext i
      simp only [Function.comp, Nat.succ_eq_add_one, Nat.cast_add, Nat.cast_one]
      congr 2
      ring
    rw [htail, List.filter_cons]
    simp only [randomPool, Nat.cast_zero, add_zero]
    rw [ih (k + 1)]
    by_cases hm : mode (wrap16 (start + k)) = 2
    · simp [hm]
    · simp [hm]

/-- The slots of a window are pairwise distinct. -/
theorem window_slots_nodup (start : Int) (n : Nat) (hn : n ≤ 16) :
    ((List.range n).map (fun i : Nat => wrap16 (start + (0 + (i : Int))))).Nodup := by
  apply List.Nodup.map_on _ (List.nodup_range n)
  intro a ha b hb hab
  rw [List.mem_range] at ha hb
  unfold wrap16 at hab
  omega

theorem randomPool_nodup (mode : Int → Int) (start : Int) (n : Nat) (hn : n ≤ 16) :
    (randomPool mode start n 0).Nodup := by
  rw [randomPool_eq_filter]
  exact (window_slots_nodup start n hn).filter _

/-- Every element of the pool is a non-Skip slot of the window. -/
theorem randomPool_mem (mode : Int → Int) (start : Int) (n : Nat) (c : Int)
    (hc : c ∈ randomPool mode start n 0) :
    mode c ≠ 2 ∧ ∃ k : Int, 0 ≤ k ∧ k < n ∧ c = wrap16 (start + k) := by
  rw [randomPool_eq_filter, List.mem_filter, List.mem_map] at hc
  obtain ⟨⟨i, hi, rfl⟩, hm⟩ := hc
  rw [List.mem_range] at hi
  refine ⟨by simpa using hm, (i : Int), by omega, by exact_mod_cast hi, by simp⟩

/-- A clamp to `0 .. n - 1` is an index of a list of `n ≥ 1` entries. -/
theorem clamp_index_lt (x : Int) (n : Nat) (hn : 1 ≤ n) :
    (clamp x 0 ((n : Int) - 1)).toNat < n := by
  unfold clamp
  have h1 := min_le_right x ((n : Int) - 1)
  have h2 : max (min x ((n : Int) - 1)) 0 ≤ (n : Int) - 1 := max_le h1 (by omega)
  omega

/-- The index drawn by line 786-787 for `0 ≤ u < 1` and a pool of `1 ≤ n ≤ 16`
slots: the single-precision product lies in `[0, n]`, and the index is its floor,
held at `n - 1`. -/
theorem random_index (u : ℚ) (n : Nat) (hn : 1 ≤ n) (hn16 : n ≤ 16) (hu0 : 0 ≤ u)
    (hu1 : u < 1) :
    0 ≤ f32 (u * (n : ℚ)) ∧ f32 (u * (n : ℚ)) ≤ (n : ℚ) ∧
    (clamp (floatToInt ⌊f32 (u * (n : ℚ))⌋) 0 ((n : Int) - 1)).toNat < n ∧
    ((clamp (floatToInt ⌊f32 (u * (n : ℚ))⌋) 0 ((n : Int) - 1)).toNat : Int)
      = min ⌊f32 (u * (n : ℚ))⌋ ((n : Int) - 1) := by
  have hnq : (0 : ℚ) < (n : ℚ) := by exact_mod_cast hn
  have hx0 : 0 ≤ f32 (u * (n : ℚ)) := f32_nonneg (mul_nonneg hu0 (le_of_lt hnq))
  have hx1 : f32 (u * (n : ℚ)) ≤ (n : ℚ) :=
    f32_le_of_le (by nlinarith) (f32_natCast n (by omega))
  have h0 : 0 ≤ ⌊f32 (u * (n : ℚ))⌋ := Int.floor_nonneg.mpr hx0
  have h1 : ⌊f32 (u * (n : ℚ))⌋ ≤ (n : Int) := by
    have := Int.floor_le_floor hx1
    rwa [show ((n : ℚ)) = (((n : Int) : ℚ)) from by push_cast; rfl, Int.floor_intCast] at this
  have hfi : floatToInt ⌊f32 (u * (n : ℚ))⌋ = ⌊f32 (u * (n : ℚ))⌋ := by
    unfold floatToInt
    rw [if_pos ⟨by omega, by omega⟩]
  refine ⟨hx0, hx1, clamp_index_lt _ n hn, ?_⟩
  rw [hfi]
  unfold clamp
  have h2 : 0 ≤ min ⌊f32 (u * (n : ℚ))⌋ ((n : Int) - 1) := le_min h0 (by omega)
  rw [max_eq_left h2]
  exact Int.toNat_of_nonneg h2

/-- A binary32 value times a power of two up to `2 ^ 24` is a binary32 value. -/
theorem f32_mul_two_pow (u : ℚ) (hu : f32 u = u) (j : Nat) :
    f32 (u * ((2 ^ j : Nat) : ℚ)) = u * ((2 ^ j : Nat) : ℚ) := by
  obtain ⟨m, k, hm, hk, h⟩ := f32_on_grid u
  rw [hu] at h
  have hj : ((2 ^ j : Nat) : ℚ) = pow2 (j : Int) := by
    unfold pow2
    rw [if_pos (by omega)]
    simp
  rw [h, hj, mul_assoc, ← pow2_add]
  exact f32_grid m (k + (j : Int)) hm (by omega)

/-- C12 (amended): a normal Random step-advance (no replay, no reset pending) with the
draw `u` in `[0, 1)`.  The pool is the list of the non-Skip slots of the window
in window order, pairwise distinct.  If it has `n ≥ 1` entries, the
single-precision product `f32 (u * n)` lies in `[0, n]` and the advance selects
entry number `min ⌊f32 (u * n)⌋ (n - 1)`: entry `i` exactly when
`i ≤ f32 (u * n)` and either `f32 (u * n) < i + 1` or `i` is the last entry.  For
`i / n ≤ u < (i + 1) / n` that is entry `i`, unless the product rounds up to
`i + 1`, in which case it is the next entry (or the last one).  Whenever the
product is not rounded, as for a binary32 `u` and `n` a power of two, entry `i`
is selected exactly when `i / n ≤ u < (i + 1) / n`.  The selected slot is a
non-Skip slot of the window; if the pool is empty the advance selects the
skip-aware Forward lookup.  No wrap is signalled and the end-of-cycle pulse is
not triggered. -/
theorem random_mode (s : State) (P : Params) (I : Inputs) (start steps : Int) (ratio : ℚ)
    (hl : 1 ≤ steps ∧ steps ≤ 16) (hdir : P.dirMode = 3)
    (hplay : s.playCurrentOnNextTick = false) (hrp : s.resetPending = false)
    (hu0 : 0 ≤ I.uniform) (hu1 : I.uniform < 1) :
    randomPool P.stepMode start steps.toNat 0
      = ((List.range steps.toNat).map (fun k : Nat => wrap16 (start + (k : Int)))).filter
          (fun c => P.stepMode c != 2) ∧
    (randomPool P.stepMode start steps.toNat 0).Nodup ∧
    (1 ≤ (randomPool P.stepMode start steps.toNat 0).length →
      0 ≤ f32 (I.uniform * ((randomPool P.stepMode start steps.toNat 0).length : ℚ)) ∧
      f32 (I.uniform * ((randomPool P.stepMode start steps.toNat 0).length : ℚ))
        ≤ ((randomPool P.stepMode start steps.toNat 0).length : ℚ) ∧
      (advance s P I start steps ratio).1.step
        = (randomPool P.stepMode start steps.toNat 0).getD
            (min ⌊f32 (I.uniform * ((randomPool P.stepMode start steps.toNat 0).length : ℚ))⌋
              (((randomPool P.stepMode start steps.toNat 0).length : Int) - 1)).toNat 0) ∧
    (∀ i : Nat, i < (randomPool P.stepMode start steps.toNat 0).length →
      ((advance s P I start steps ratio).1.step
          = (randomPool P.stepMode start steps.toNat 0).getD i 0 ↔
        ((i : ℚ) ≤ f32 (I.uniform * ((randomPool P.stepMode start steps.toNat 0).length : ℚ)) ∧
          (f32 (I.uniform * ((randomPool P.stepMode start steps.toNat 0).length : ℚ)) < (i : ℚ) + 1
            ∨ i + 1 = (randomPool P.stepMode start steps.toNat 0).length)))) ∧
    (∀ i : Nat, i < (randomPool P.stepMode start steps.toNat 0).length →
      (i : ℚ) / ((randomPool P.stepMode start steps.toNat 0).length : ℚ) ≤ I.uniform →
      I.uniform < ((i : ℚ) + 1) / ((randomPool P.stepMode start steps.toNat 0).length : ℚ) →
      (advance s P I start steps ratio).1.step
          = (randomPool P.stepMode start steps.toNat 0).getD i 0 ∨
        (f32 (I.uniform * ((randomPool P.stepMode start steps.toNat 0).length : ℚ)) = (i : ℚ) + 1 ∧
          (advance s P I start steps ratio).1.step
            = (randomPool P.stepMode start steps.toNat 0).getD
                (min (i + 1) ((randomPool P.stepMode start steps.toNat 0).length - 1)) 0)) ∧
    (f32 (I.uniform * ((randomPool P.stepMode start steps.toNat 0).length : ℚ))
        = I.uniform * ((randomPool P.stepMode start steps.toNat 0).length : ℚ) →
      ∀ i : Nat, i < (randomPool P.stepMode start steps.toNat 0).length →
        ((advance s P I start steps ratio).1.step
            = (randomPool P.stepMode start steps.toNat 0).getD i 0 ↔
          ((i : ℚ) / ((randomPool P.stepMode start steps.toNat 0).length : ℚ) ≤ I.uniform ∧
            I.uniform
              < ((i : ℚ) + 1) / ((randomPool P.stepMode start steps.toNat 0).length : ℚ)))) ∧
    (f32 I.uniform = I.uniform →
      (∃ j : Nat, (randomPool P.stepMode start steps.toNat 0).length = 2 ^ j) →
      f32 (I.uniform * ((randomPool P.stepMode start steps.toNat 0).length : ℚ))
        = I.uniform * ((randomPool P.stepMode start steps.toNat 0).length : ℚ)) ∧
    (1 ≤ (randomPool P.stepMode start steps.toNat 0).length →
      P.stepMode (advance s P I start steps ratio).1.step ≠ 2 ∧
      ∃ k : Int, 0 ≤ k ∧ k < steps ∧ (advance s P I start steps ratio).1.step = wrap16 (start + k)) ∧
    ((randomPool P.stepMode start steps.toNat 0).length = 0 →
      (advance s P I start steps ratio).1.step
        = (findNextPlayable P.stepMode start steps 0 (relOf s.step start)).1) ∧
    (advance s P I start steps ratio).2.wrapped = false ∧
    (advance s P I start steps ratio).1.eocPulse = s.eocPulse := by
  have hn16 : steps.toNat ≤ 16 := by omega
  have hnd := randomPool_nodup P.stepMode start steps.toNat hn16
  have hfil := randomPool_eq_filter P.stepMode start steps.toNat 0
  have hlen16 : (randomPool P.stepMode start steps.toNat 0).length ≤ 16 := by
    rw [hfil]
    refine le_trans (List.length_filter_le _ _) ?_
    simpa using hn16
  obtain ⟨a1, -, -, a4, a5⟩ := advance_nav s P I start steps ratio
  rw [hrp] at a1
  simp only [Bool.false_eq_true, if_false] at a1
  rw [a1, a4, a5, tickNav_random s P I start steps hdir hplay]
  dsimp only
  generalize hpool : randomPool P.stepMode start steps.toNat 0 = pool at *
  have hne : 1 ≤ pool.length → (!pool.isEmpty) = true := by
    intro hn
    cases pool with
    | nil => simp at hn
    | cons a t => rfl
  -- the value selected when the pool is not empty
  have hsel : ∀ hn : 1 ≤ pool.length,
      (if (!pool.isEmpty) = true then
          pool.getD (clamp (floatToInt ⌊f32 (I.uniform * (pool.length : ℚ))⌋) 0
            ((pool.length : Int) - 1)).toNat 0
        else (findNextPlayable P.stepMode start steps 0 (relOf s.step start)).1)
        = pool.getD (min ⌊f32 (I.uniform * (pool.length : ℚ))⌋
            ((pool.length : Int) - 1)).toNat 0 := by
    intro hn
    rw [if_pos (hne hn)]
    obtain ⟨-, -, -, hidx⟩ := random_index I.uniform pool.length hn hlen16 hu0 hu1
    rw [← hidx, Int.toNat_ofNat]
  -- membership of the selected index
  have hsel_eq : ∀ (hn : 1 ≤ pool.length) (i : Nat), i < pool.length →
      (pool.getD (min ⌊f32 (I.uniform * (pool.length : ℚ))⌋
            ((pool.length : Int) - 1)).toNat 0 = pool.getD i 0 ↔
        min ⌊f32 (I.uniform * (pool.length : ℚ))⌋ ((pool.length : Int) - 1) = (i : Int)) := by
    intro hn i hi
    obtain ⟨-, -, hlt, hidx⟩ := random_index I.uniform pool.length hn hlen16 hu0 hu1
    rw [← hidx, Int.toNat_ofNat, List.getD_eq_getElem _ _ hlt, List.getD_eq_getElem _ _ hi,
      hnd.getElem_inj_iff]
    omega
  have hfloor : ∀ (hn : 1 ≤ pool.length),
      0 ≤ ⌊f32 (I.uniform * (pool.length : ℚ))⌋ ∧
      ⌊f32 (I.uniform * (pool.length : ℚ))⌋ ≤ (pool.length : Int) := by
    intro hn
    obtain ⟨hx0, hx1, -, -⟩ := random_index I.uniform pool.length hn hlen16 hu0 hu1
    refine ⟨Int.floor_nonneg.mpr hx0, ?_⟩
    have := Int.floor_le_floor hx1
    rwa [show ((pool.length : ℚ)) = (((pool.length : Int) : ℚ)) from by push_cast; rfl,
      Int.floor_intCast] at this
  have hchar : ∀ i : Nat, i < pool.length →
      ((if (!pool.isEmpty) = true then
          pool.getD (clamp (floatToInt ⌊f32 (I.uniform * (pool.length : ℚ))⌋) 0
            ((pool.length : Int) - 1)).toNat 0
          else (findNextPlayable P.stepMode start steps 0 (relOf s.step start)).1)
          = pool.getD i 0 ↔
        ((i : ℚ) ≤ f32 (I.uniform * (pool.length : ℚ)) ∧
          (f32 (I.uniform * (pool.length : ℚ)) < (i : ℚ) + 1 ∨ i + 1 = pool.length))) := by
    intro i hi
    have hn : 1 ≤ pool.length := by omega
    rw [hsel hn, hsel_eq hn i hi]
    obtain ⟨hf0, hf1⟩ := hfloor hn
    have e1 : (i : ℚ) ≤ f32 (I.uniform * (pool.length : ℚ))
        ↔ (i : Int) ≤ ⌊f32 (I.uniform * (pool.length : ℚ))⌋ := by
      rw [Int.le_floor]; push_cast; rfl
    have e2 : f32 (I.uniform * (pool.length : ℚ)) < (i : ℚ) + 1
        ↔ ⌊f32 (I.uniform * (pool.length : ℚ))⌋ < (i : Int) + 1 := by
      rw [Int.floor_lt]; push_cast; rfl
    rw [e1, e2]
    rcases le_total ⌊f32 (I.uniform * (pool.length : ℚ))⌋ ((pool.length : Int) - 1) with h | h
    · rw [min_eq_left h]; omega
    · rw [min_eq_right h]; omega
  refine ⟨?_, hnd, ?_, hchar, ?_, ?_, ?_, ?_, ?_, rfl, by simp⟩
  · simpa using hfil
  · intro hn
    obtain ⟨hx0, hx1, -, -⟩ := random_index I.uniform pool.length hn hlen16 hu0 hu1
    exact ⟨hx0, hx1, hsel hn⟩
  · intro i hi hlo hhi
    have hn : 1 ≤ pool.length := by omega
    have hnq : (0 : ℚ) < (pool.length : ℚ) := by exact_mod_cast hn
    rw [div_le_iff₀ hnq] at hlo
    rw [lt_div_iff₀ hnq] at hhi
    have hi24 : i ≤ 2 ^ 24 := by omega
    have hge : (i : ℚ) ≤ f32 (I.uniform * (pool.length : ℚ)) :=
      f32_ge_of_ge hlo (f32_natCast i hi24)
    have hle : f32 (I.uniform * (pool.length : ℚ)) ≤ (i : ℚ) + 1 := by
      have := f32_le_of_le (le_of_lt hhi)
        (by have := f32_natCast (i + 1) (by omega); push_cast at this; exact this)
      exact this
    rcases lt_or_eq_of_le hle with hlt | heq
    · left
      exact (hchar i hi).mpr ⟨hge, Or.inl hlt⟩
    · right
      refine ⟨heq, ?_⟩
      rw [hsel hn, heq]
      have hfl : ⌊((i : ℚ) + 1)⌋ = (i : Int) + 1 := by
        rw [show ((i : ℚ) + 1) = (((i : Int) + 1 : Int) : ℚ) from by push_cast; rfl,
          Int.floor_intCast]
      rw [hfl]
      congr 1
      omega
  · intro hex i hi
    have hn : 1 ≤ pool.length := by omega
    have hnq : (0 : ℚ) < (pool.length : ℚ) := by exact_mod_cast hn
    rw [hchar i hi, hex, div_le_iff₀ hnq, lt_div_iff₀ hnq]
    constructor
    · rintro ⟨h1, h2 | h2⟩
      · exact ⟨h1, h2⟩
      · refine ⟨h1, ?_⟩
        have : ((i : ℚ) + 1) = (pool.length : ℚ) := by exact_mod_cast h2
        rw [this]
        nlinarith
    · rintro ⟨h1, h2⟩
      exact ⟨h1, Or.inl h2⟩
  · rintro hu ⟨j, hj⟩
    rw [hj]
    exact f32_mul_two_pow I.uniform hu j
  · intro hn
    rw [hsel hn]
    have hlt : (min ⌊f32 (I.uniform * (pool.length : ℚ))⌋ ((pool.length : Int) - 1)).toNat
        < pool.length := by
      obtain ⟨-, -, hlt, hidx⟩ := random_index I.uniform pool.length hn hlen16 hu0 hu1
      rw [← hidx, Int.toNat_ofNat]
      exact hlt
    rw [List.getD_eq_getElem _ _ hlt]
    obtain ⟨m1, k, k0, k1, k2⟩ := randomPool_mem P.stepMode start steps.toNat _
      (by rw [hpool]; exact List.getElem_mem hlt)
    exact ⟨m1, k, k0, by omega, k2⟩
  · intro hn
    have hnil : pool = [] := List.length_eq_zero.mp hn
    rw [hnil]
    simp

/-- The direction logic of a normal Drunk tick. -/
theorem tickNav_drunk (s : State) (P : Params) (I : Inputs) (start steps : Int)
    (hdir : P.dirMode = 4) (hplay : s.playCurrentOnNextTick = false) :
    tickNav s P I start steps =
      navigate s P.stepMode start steps 4 I.uniform := by
  simp [tickNav, hplay, hdir, clamp_dir_four]

/-- The wrap flag of a normal Drunk step-advance is a test on the two offsets
alone: it is set exactly when the advance goes from offset 0 to the last offset
of the window or from the last offset to offset 0, whatever the sign drawn. -/
theorem drunk_wrap_endpoints (s : State) (P : Params) (I : Inputs) (start steps : Int)
    (ratio : ℚ) (hdir : P.dirMode = 4) (hplay : s.playCurrentOnNextTick = false)
    (hrp : s.resetPending = false) :
    ((advance s P I start steps ratio).2.wrapped = true ↔
      ((relOf s.step start = 0 ∧ relOf (advance s P I start steps ratio).1.step start = steps - 1) ∨
       (relOf s.step start = steps - 1 ∧
         relOf (advance s P I start steps ratio).1.step start = 0))) ∧
    (advance s P I start steps ratio).1.drunkDir = (if I.uniform < 0.5 then -1 else 1) := by
  obtain ⟨a1, -, a3, a4, -⟩ := advance_nav s P I start steps ratio
  rw [hrp] at a1
  simp only [Bool.false_eq_true, if_false] at a1
  rw [a1, a3, a4, tickNav_drunk s P I start steps hdir hplay]
  simp [navigate]

/-- The step selected by a tick lies inside the window, and is a slot index if
the current step is one. -/
theorem tickNav_window (t : State) (P : Params) (I : Inputs) (start steps : Int)
    (hs : 0 ≤ start ∧ start ≤ 15) (hl : 1 ≤ steps ∧ steps ≤ 16)
    (hwin : relOf t.step start < steps) :
    relOf (tickNav t P I start steps).nextStep start < steps ∧
    ((0 ≤ t.step ∧ t.step ≤ 15) →
      0 ≤ (tickNav t P I start steps).nextStep ∧ (tickNav t P I start steps).nextStep ≤ 15) := by
  have hrel0 : 0 ≤ relOf t.step start := (wrap16_range _).1
  have hf := fun dir => (findNextPlayable_scan P.stepMode start steps dir (relOf t.step start)
    hs hl ⟨hrel0, hwin⟩).2.2.2
  unfold tickNav
  cases hp : t.playCurrentOnNextTick
  · simp only [Bool.not_false, if_true]
    unfold navigate
    rcases clamp_dir_cases P.dirMode with h | h | h | h | h
    · rw [h]; simp only [true_or, if_true]
      exact ⟨(hf 0).2.2.2, fun _ => ⟨(hf 0).1, (hf 0).2.1⟩⟩
    · rw [h]; simp only [one_ne_zero, or_true, if_true, if_false]
      exact ⟨(hf 1).2.2.2, fun _ => ⟨(hf 1).1, (hf 1).2.1⟩⟩
    · rw [h]
      simp only [show ¬ ((2 : Int) = 0 ∨ (2 : Int) = 1) by decide, if_false, if_true]
      split_ifs
      all_goals exact ⟨(hf _).2.2.2, fun _ => ⟨(hf _).1, (hf _).2.1⟩⟩
    · rw [h]
      simp only [show ¬ ((3 : Int) = 0 ∨ (3 : Int) = 1) by decide,
        show ¬ ((3 : Int) = 2) by decide, if_false, if_true]
      by_cases hne : (!(randomPool P.stepMode start steps.toNat 0).isEmpty) = true
      · rw [if_pos hne]
        have hlen : 1 ≤ (randomPool P.stepMode start steps.toNat 0).length := by
          cases hq : randomPool P.stepMode start steps.toNat 0 with
          | nil => rw [hq] at hne; simp at hne
          | cons a l => simp
        have hlt := clamp_index_lt (floatToInt
          ⌊f32 (I.uniform * ((randomPool P.stepMode start steps.toNat 0).length : ℚ))⌋)
          (randomPool P.stepMode start steps.toNat 0).length hlen
        rw [List.getD_eq_getElem _ _ hlt]
        obtain ⟨-, k, k0, k1, k2⟩ := randomPool_mem P.stepMode start steps.toNat _
          (List.getElem_mem hlt)
        rw [k2]
        have hk16 : k < 16 := by omega
        exact ⟨by rw [relOf_wrap16 start k k0 hk16]; omega, fun _ => wrap16_range _⟩
      · rw [if_neg hne]
        exact ⟨(hf 0).2.2.2, fun _ => ⟨(hf 0).1, (hf 0).2.1⟩⟩
    · rw [h]
      simp only [show ¬ ((4 : Int) = 0 ∨ (4 : Int) = 1) by decide,
        show ¬ ((4 : Int) = 2) by decide, show ¬ ((4 : Int) = 3) by decide, if_false,
        findNeighborPlayable_eq]
      split_ifs
      all_goals exact ⟨(hf _).2.2.2, fun _ => ⟨(hf _).1, (hf _).2.1⟩⟩
  · simp only [Bool.not_true, Bool.false_eq_true, if_false]
    exact ⟨hwin, fun h => h⟩

/-- The per-step pulse a step-advance triggers is the one at the window offset
of the step it selected. -/
theorem advance_fired_offset (s : State) (P : Params) (I : Inputs) (start steps : Int)
    (ratio : ℚ) (k : Int) (g : ℚ) (h : (advance s P I start steps ratio).2.fired = some (k, g)) :
    k = relOf (tickNav s P I start steps).nextStep start ∧
    P.stepMode (tickNav s P I start steps).nextStep = 0 := by
  simp only [advance, fireGate] at h
  split_ifs at h with hc
  · simp only [Option.some.injEq, Prod.mk.injEq] at h
    simp only [Bool.and_eq_true, beq_iff_eq] at hc
    exact ⟨h.1.symm, hc.2⟩

/-- The window fold of lines 582-583 on its own. -/
theorem foldStep_window (step start len : Int) (hl : 1 ≤ len ∧ len ≤ 16) :
    relOf (foldStep step start len) start < len ∧
    (relOf step start < len → foldStep step start len = step) ∧
    (len ≤ relOf step start →
      relOf (foldStep step start len) start = relOf step start % len ∧
      foldStep step start len = wrap16 (start + relOf step start % len)) := by
  have hrel0 : 0 ≤ relOf step start := (wrap16_range _).1
  have hrel15 : relOf step start ≤ 15 := (wrap16_range _).2
  have hlpos : (0 : Int) < len := by omega
  have hm0 : 0 ≤ relOf step start % len := Int.emod_nonneg _ (by omega)
  have hm1 : relOf step start % len < len := Int.emod_lt_of_pos _ hlpos
  have htm : (relOf step start).tmod len = relOf step start % len :=
    Int.tmod_eq_emod hrel0 (by omega)
  have hfold : len ≤ relOf step start →
      foldStep step start len = wrap16 (start + relOf step start % len) := by
    intro h
    unfold foldStep
    dsimp only
    rw [if_pos (by omega), htm]
  have hkeep : relOf step start < len → foldStep step start len = step := by
    intro h
    unfold foldStep
    dsimp only
    rw [if_neg (by omega)]
  refine ⟨?_, hkeep, fun h => ⟨?_, hfold h⟩⟩
  · by_cases h : len ≤ relOf step start
    · rw [hfold h, relOf_wrap16 start _ hm0 (by omega)]
      exact hm1
    · rw [hkeep (by omega)]
      omega
  · rw [hfold h, relOf_wrap16 start _ hm0 (by omega)]

/-- The reset block does not move the navigator: after lines 579-609 the current
step is the folded one. -/
theorem preClock_step (s : State) (P : Params) (I : Inputs) :
    (preClock s P I).step = foldStep s.step (windowStart P) (windowSteps P) := by
  cases hr : I.rstEdge
  · exact (preClock_noReset s P I hr).1
  · exact (preClock_reset s P I hr).1

/-- C14: the window fold.  For every start in `0..15` and length in `1..16` the
folded step has an offset below the length; a step whose offset was already
below the length is unchanged, otherwise the new offset is the old one modulo
the length and the step is `(start + new offset) mod 16`.  In `process`, the
step that the pitch and modulation outputs read and that enters the step-advance
is the folded one, so it lies inside the window; the step a tick selects, on
which the gate fires, lies inside the window too, and the per-step pulse it
triggers has a channel number below the length. -/
theorem window_fold (s : State) (P : Params) (I : Inputs) :
    (∀ step start len : Int, 0 ≤ step → step ≤ 15 → 0 ≤ start → start ≤ 15 → 1 ≤ len →
      len ≤ 16 →
      relOf (foldStep step start len) start < len ∧
      (relOf step start < len → foldStep step start len = step) ∧
      (len ≤ relOf step start →
        relOf (foldStep step start len) start = relOf step start % len ∧
        foldStep step start len = wrap16 (start + relOf step start % len))) ∧
    (preClock s P I).step = foldStep s.step (windowStart P) (windowSteps P) ∧
    relOf (preClock s P I).step (windowStart P) < windowSteps P ∧
    (process s P I).out.m1
      = mapMod0_10ToRange (P.m1 (preClock s P I).step) (preClock s P I).m1Range ∧
    (process s P I).out.m2
      = mapMod0_10ToRange (P.m2 (preClock s P I).step) (preClock s P I).m2Range ∧
    (P.slew ≤ 1e-6 → (process s P I).out.pitch = pitchTarget P I (preClock s P I).step) ∧
    (swingScheduler (preSwing s P I) P I.sampleTime).1.step = (preClock s P I).step ∧
    (∀ t : State, relOf t.step (windowStart P) < windowSteps P →
      relOf (tickNav t P I (windowStart P) (windowSteps P)).nextStep (windowStart P)
        < windowSteps P ∧
      ∀ (k : Int) (g : ℚ),
        (advance t P I (windowStart P) (windowSteps P) (ratioOf P)).2.fired = some (k, g) →
        0 ≤ k ∧ k < windowSteps P ∧
        k = relOf (tickNav t P I (windowStart P) (windowSteps P)).nextStep (windowStart P)) := by
  have hs := windowStart_range P
  have hl := windowSteps_range P
  refine ⟨fun step start len _ _ _ _ h2 h3 => foldStep_window step start len ⟨h2, h3⟩,
    preClock_step s P I, ?_, ?_, ?_, ?_, (swing_ctl s P I).1, ?_⟩
  · rw [preClock_step]
    exact (foldStep_window s.step _ _ hl).1
  · unfold process
    split_ifs <;> rfl
  · unfold process
    split_ifs <;> rfl
  · intro hsl
    unfold process
    split_ifs
    · simp [noClock, slew, hsl]
    · simp [withClock, slew, hsl]
  · intro t ht
    obtain ⟨w1, -⟩ := tickNav_window t P I (windowStart P) (windowSteps P) hs hl ht
    refine ⟨w1, fun k g hk => ?_⟩
    obtain ⟨e1, -⟩ := advance_fired_offset t P I (windowStart P) (windowSteps P) (ratioOf P)
      k g hk
    rw [e1]
    exact ⟨(wrap16_range _).1, w1, rfl⟩

/-- The pulse generators and the clock lock after the no-clock path: `hardStop`
clears them on the first sample without clock, afterwards they are left alone. -/
theorem noClock_fields (s3 : State) (P : Params) (I : Inputs) :
    (noClock s3 P I).state.gatePulse = (if s3.prevClkConnected then 0 else s3.gatePulse) ∧
    (noClock s3 P I).state.eocPulse = (if s3.prevClkConnected then 0 else s3.eocPulse) ∧
    (noClock s3 P I).state.stepGateTrig
      = (if s3.prevClkConnected then (fun _ => 0) else s3.stepGateTrig) ∧
    (noClock s3 P I).state.lastPeriod = (if s3.prevClkConnected then 0 else s3.lastPeriod) ∧
    (noClock s3 P I).state.virtTimer = (if s3.prevClkConnected then 0 else s3.virtTimer) ∧
    (noClock s3 P I).state.sinceLastEdge
      = (if s3.prevClkConnected then 0 else s3.sinceLastEdge) ∧
    (noClock s3 P I).state.havePhase
      = (if s3.prevClkConnected then false else s3.havePhase) ∧
    (noClock s3 P I).state.pingDir = s3.pingDir ∧
    (noClock s3 P I).state.drunkDir = s3.drunkDir ∧
    (noClock s3 P I).state.prevClkConnected = false := by
  unfold noClock hardStop slew
  dsimp only
  split_ifs <;> simp

/-- Sampling the pulse generators when the aggregate and per-step pulses are idle. -/
theorem emitPulses_gates_idle (s : State) (steps : Int) (dt : ℚ) (hg : s.gatePulse = 0)
    (hst : s.stepGateTrig = fun _ => 0) :
    (emitPulses s steps dt).1.gatePulse = 0 ∧
    (∀ i, (emitPulses s steps dt).1.stepGateTrig i = 0) ∧
    (emitPulses s steps dt).2.1 = 0 ∧
    (∀ v ∈ (emitPulses s steps dt).2.2.1, v = 0) ∧
    (s.eocPulse = 0 → (emitPulses s steps dt).1.eocPulse = 0 ∧ (emitPulses s steps dt).2.2.2 = 0) := by
  refine ⟨?_, ?_, ?_, ?_, ?_⟩
  · simp [emitPulses, pulseProcess, hg]
  · simp [emitPulses, pulseProcess, hst]
  · simp [emitPulses, pulseProcess, hg]
  · simp [emitPulses, pulseProcess, hst]
  · intro he
    simp [emitPulses, pulseProcess, he]

/-- The pulse generators at the end of a sample with a reset edge and no
step-advance: the aggregate and per-step pulses are idle, and so is the
end-of-cycle pulse unless the end-of-cycle-on-reset option re-triggered it. -/
theorem reset_sample_pulses (s : State) (P : Params) (I : Inputs) (hr : I.rstEdge = true)
    (hq : (process s P I).clockNow = false) :
    (process s P I).state.gatePulse = 0 ∧
    (∀ i, (process s P I).state.stepGateTrig i = 0) ∧
    (process s P I).out.gate = 0 ∧
    (∀ v ∈ (process s P I).out.stepGates, v = 0) ∧
    (s.eocOnReset = false → (process s P I).state.eocPulse = 0 ∧ (process s P I).out.eoc = 0) := by
  obtain ⟨-, p2, -, -, p5, p6, p7, -⟩ := preClock_reset s P I hr
  cases hc : I.clkConnected
  · rw [process_disconnected s P I hc]
    obtain ⟨n1, n2, n3, -⟩ := noClock_fields (preClock s P I) P I
    rw [n1, n2, n3]
    refine ⟨by split_ifs <;> simp [p5], fun i => by split_ifs <;> simp [p7], rfl,
      fun v hv => ?_, fun he => ⟨by split_ifs <;> simp [p6, he], rfl⟩⟩
    exact List.eq_of_mem_replicate hv
  · have hsw := swing_ctl s P I
    unfold navFrame at hsw
    obtain ⟨-, -, f3, -, -, -, -, f8, f9, f10⟩ := hsw
    obtain ⟨-, -, -, -, -, c6, -⟩ := withClock_ctl s (preClock s P I) P I
    obtain ⟨w1, w2, w3, w4, w5, w6⟩ := withClock_pulses s (preClock s P I) P I
    rw [process_connected s P I hc] at hq ⊢
    rw [c6] at hq
    have hta : tickAndReset (swingScheduler (preSwing s P I) P I.sampleTime) P I
        = (applyPendingReset (swingScheduler (preSwing s P I) P I.sampleTime).1, none) := by
      unfold tickAndReset
      rw [if_neg (by rw [hq]; decide), if_pos (by rw [f3, p2])]
    rw [w1, w2, w3, w4, w5, w6, hta]
    obtain ⟨e1, e2, e3, e4, e5⟩ := emitPulses_gates_idle
      (applyPendingReset (swingScheduler (preSwing s P I) P I.sampleTime).1) (windowSteps P)
      I.sampleTime (by rw [← p5, ← f8]; rfl) (by rw [← p7, ← f10]; rfl)
    refine ⟨e1, e2, e3, e4, fun he => e5 ?_⟩
    rw [he] at p6
    rw [← f9] at p6
    exact p6

/-- C15 (amended): a reset edge is detected while the current step already equals
the window start.  After that sample the current step is unchanged and the
replay flag is armed.  If no step-advance fires in that sample, the aggregate
gate pulse and all 16 per-step pulses are inactive and their outputs are 0 V;
the end-of-cycle pulse is inactive as well unless the end-of-cycle-on-reset
option is set. -/
theorem reset_idempotence (s : State) (P : Params) (I : Inputs) (hr : I.rstEdge = true)
    (hst : s.step = windowStart P) :
    (process s P I).state.step = s.step ∧
    (process s P I).state.playCurrentOnNextTick = true ∧
    ((process s P I).clockNow = false →
      (process s P I).state.gatePulse = 0 ∧
      (∀ i, (process s P I).state.stepGateTrig i = 0) ∧
      (process s P I).out.gate = 0 ∧
      (∀ v ∈ (process s P I).out.stepGates, v = 0) ∧
      (s.eocOnReset = false →
        (process s P I).state.eocPulse = 0 ∧ (process s P I).out.eoc = 0)) := by
  obtain ⟨r1, -, -, r4, -⟩ := reset_request_samples s P I
  refine ⟨?_, ?_, fun hq => reset_sample_pulses s P I hr hq⟩
  · cases hc : I.clkConnected
    · rw [(r4 hc hr).2.2.2, hst, foldStep_start _ _ (windowSteps_range P).1]
    · rw [(r1 hc hr).2.1, hst]
  · cases hc : I.clkConnected
    · exact (r4 hc hr).2.2.1
    · exact (r1 hc hr).2.2

/-- C16: the reset-edge block.  It zeroes `virtTimer`, the tick queue, the
deferred tick and its timers, the swing phase, sets `pingDir = 0` and
`drunkDir = 1`, records the window start as reset target (with the request
pending and the replay flag armed), and leaves `lastPeriod`, `virtPeriod`,
`havePhase`, `timeSinceClk` and `sinceLastEdge` as they were.  In `process` the
block runs, on the state after the timers and the fold, exactly in the samples
with a reset edge. -/
theorem reset_edge_frame (s : State) (start : Int) (P : Params) (I : Inputs) :
    ((resetBlock s start).virtTimer = 0 ∧ (resetBlock s start).queuedBaseTicks = 0 ∧
      (resetBlock s start).tickPending = false ∧ (resetBlock s start).pendingDelay = 0 ∧
      (resetBlock s start).pendingTimer = 0 ∧ (resetBlock s start).swingPhase = 0 ∧
      (resetBlock s start).pingDir = 0 ∧ (resetBlock s start).drunkDir = 1 ∧
      (resetBlock s start).resetTargetStep = start ∧ (resetBlock s start).resetPending = true ∧
      (resetBlock s start).playCurrentOnNextTick = true) ∧
    ((resetBlock s start).lastPeriod = s.lastPeriod ∧
      (resetBlock s start).virtPeriod = s.virtPeriod ∧
      (resetBlock s start).havePhase = s.havePhase ∧
      (resetBlock s start).timeSinceClk = s.timeSinceClk ∧
      (resetBlock s start).sinceLastEdge = s.sinceLastEdge) ∧
    (I.rstEdge = true →
      preClock s P I
        = resetBlock { tickTimers s I with
            step := foldStep (tickTimers s I).step (windowStart P) (windowSteps P) }
          (windowStart P)) ∧
    (I.rstEdge = false →
      preClock s P I
        = { tickTimers s I with
            step := foldStep (tickTimers s I).step (windowStart P) (windowSteps P) }) := by
  refine ⟨⟨rfl, rfl, rfl, rfl, rfl, rfl, rfl, rfl, rfl, rfl, rfl⟩, ⟨rfl, rfl, rfl, rfl, rfl⟩,
    fun h => ?_, fun h => ?_⟩
  · unfold preClock; simp [h]
  · unfold preClock; simp [h]

/-- The entries of the ratio table by index: the multipliers start at index 14,
and the integer ones are the indices 14, 16 and 18..28. -/
theorem ratio_table_cases (i : Int) (h0 : 0 ≤ i) (h1 : i ≤ 28) :
    (decide (RATIO_TABLE.getD i.toNat 0 ≥ 1) = decide (14 ≤ i)) ∧
    ((decide (RATIO_TABLE.getD i.toNat 0 ≥ 1) &&
        decide (|RATIO_TABLE.getD i.toNat 0 - (roundHalfAway (RATIO_TABLE.getD i.toNat 0) : ℚ)|
          < 1e-4)) = decide (i = 14 ∨ i = 16 ∨ 18 ≤ i)) ∧
    ((RATIO_TABLE.getD i.toNat 0).isInt = decide (i = 14 ∨ i = 16 ∨ 18 ≤ i)) ∧
    (i = 15 → RATIO_TABLE.getD i.toNat 0 = 3 / 2) ∧
    (i = 17 → RATIO_TABLE.getD i.toNat 0 = 5 / 2) := by
  rw [ratio_table_values]
  interval_cases i <;> decide!

/-- The index that `ratioOf` looks up is within the table. -/
theorem ratio_index_range (P : Params) :
    0 ≤ clamp P.ratioIdx 0 (NUM_RATIOS - 1) ∧ clamp P.ratioIdx 0 (NUM_RATIOS - 1) ≤ 28 := by
  have : NUM_RATIOS = 29 := by decide
  rw [this]; unfold clamp; omega

/-- What the edge block does to the oscillator phase and the tick queue. -/
theorem clockEdge_phase (s : State) (ratio : ℚ) :
    (clockEdge s ratio).virtTimer = (if ratio ≥ 1 then 0 else s.virtTimer) ∧
    (clockEdge s ratio).queuedBaseTicks
      = s.queuedBaseTicks +
          (if (decide (ratio ≥ 1) && decide (|ratio - (roundHalfAway ratio : ℚ)| < 1e-4)) = true
           then 1 else 0) ∧
    (clockEdge s ratio).havePhase = true ∧ (clockEdge s ratio).sinceLastEdge = 0 ∧
    (clockEdge s ratio).lastPeriod = s.timeSinceClk ∧
    (0 < ratio → ratio ≤ 48 → 0 < s.virtPeriod → 0 < (clockEdge s ratio).virtPeriod) := by
  have hvirt : (clockEdge s ratio).virtPeriod
      = (if s.timeSinceClk > 1e-4 then f32 (s.timeSinceClk / max ratio 1e-6)
         else s.virtPeriod) := by
    unfold clockEdge
    dsimp only
    split_ifs <;> rfl
  refine ⟨?_, ?_, ?_, ?_, ?_, ?_⟩
  · unfold clockEdge
    dsimp only
    split_ifs <;> rfl
  · unfold clockEdge
    dsimp only
    by_cases hr : ratio ≥ 1
    · by_cases hi : |ratio - (roundHalfAway ratio : ℚ)| < 1e-4
      · simp only [hr, hi, decide_True, Bool.and_self, if_true]
        split_ifs <;> rfl
      · simp only [hr, hi, decide_True, decide_False, Bool.and_false, Bool.false_eq_true,
          if_true, if_false, add_zero]
        split_ifs <;> rfl
    · simp only [hr, decide_False, Bool.false_and, Bool.false_eq_true, if_false, add_zero]
      split_ifs <;> rfl
  · unfold clockEdge
    rfl
  · unfold clockEdge
    dsimp only
    split_ifs <;> rfl
  · unfold clockEdge
    dsimp only
    split_ifs <;> rfl
  · intro hr hr48 hv
    have hmax : (0 : ℚ) < max ratio 1e-6 := lt_max_of_lt_left hr
    have hmax48 : max ratio 1e-6 ≤ 48 := max_le hr48 (by norm_num)
    rw [hvirt]
    split_ifs with h1
    · have hq : (1 / 2 ^ 20 : ℚ) ≤ s.timeSinceClk / max ratio 1e-6 := by
        rw [le_div_iff₀ hmax]
        nlinarith
      exact lt_of_lt_of_le (by norm_num) (f32_ge_of_ge hq (by decide!))
    · exact hv

/-- Right after an edge the phase timeout cannot strike: the timeout is positive
and the time since the edge is zero. -/
theorem phaseTimeout_after_edge (m : State) (h : m.sinceLastEdge = 0) : phaseTimeout m = m := by
  unfold phaseTimeout
  dsimp only
  have hpos : (0 : ℚ) < (if m.lastPeriod > 1e-4 then clamp (m.lastPeriod * 2) (f32 0.1) 1.0 else 0.5) := by
    split_ifs
    · unfold clamp
      exact lt_of_lt_of_le (by rw [f32_tenth]; norm_num) (le_max_right _ _)
    · norm_num
  rw [if_neg]
  rw [h]
  intro hc
  exact absurd hc.2 (not_lt.mpr (le_of_lt hpos))

/-- Every entry of `RATIO_TABLE` is at most 48, for any read of the index. -/
theorem ratioOf_le (P : Params) : ratioOf P ≤ 48 := by
  unfold ratioOf
  have h : (clamp P.ratioIdx 0 (NUM_RATIOS - 1)).toNat < 29 := by
    have : NUM_RATIOS = 29 := by decide
    rw [this]; unfold clamp; omega
  generalize (clamp P.ratioIdx 0 (NUM_RATIOS - 1)).toNat = n at h
  rw [ratio_table_values]
  interval_cases n <;> decide!

/-- The oscillator block when the phase is locked and the period positive: the
timer becomes the single-precision sum of its value and the sample time, less a
whole number of periods subtracted one at a time in single precision, one base
tick being queued per period subtracted. -/
theorem virtualOscillator_advance (m : State) (dt : ℚ) (hp : m.havePhase = true)
    (hv : 0 < m.virtPeriod) :
    ∃ n : Nat,
      (virtualOscillator m dt).virtTimer = subPeriods m.virtPeriod n (f32 (m.virtTimer + dt)) ∧
      (virtualOscillator m dt).queuedBaseTicks = m.queuedBaseTicks + (n : Int) ∧
      (virtualOscillator m dt).virtPeriod = m.virtPeriod := by
  obtain ⟨n, -, hn⟩ := oscLoop_sub m.virtPeriod
    (2 * ⌊f32 (m.virtTimer + dt) / m.virtPeriod⌋.toNat + 2)
    (f32 (m.virtTimer + dt)) m.queuedBaseTicks
  refine ⟨n, ?_⟩
  unfold virtualOscillator
  rw [if_pos ⟨hp, hv⟩]
  dsimp only
  rw [hn]
  exact ⟨rfl, rfl, rfl⟩

/-- C17: the edge block and the oscillator.  With `idx` the clamped ratio index:
the ratio is at least 1 exactly for `idx ≥ 14`, and it is an integer exactly for
`idx = 14`, `idx = 16` and `idx ≥ 18` (not ×1.5, index 15, nor ×2.5, index 17).
On an edge with ratio at least 1, `virtTimer` is reset to 0 and one base tick is
queued exactly when the ratio is an integer; with ratio below 1 the edge leaves
`virtTimer` and the queue alone.  In a whole sample with an edge (and a positive
oscillator period) the timer at the end of the sample is the single-precision
sum of its value after the edge block and the sample time, less a whole number
`m` of periods (subtracted one at a time, each difference stored in single
precision), the oscillator queueing `m` further base ticks; without a reset edge
in that sample the value before the edge block is the one at the start of the
sample. -/
theorem oscillator_edge (s : State) (P : Params) (I : Inputs) :
    (1 ≤ ratioOf P ↔ 14 ≤ clamp P.ratioIdx 0 (NUM_RATIOS - 1)) ∧
    ((ratioOf P).isInt = true ↔
      (clamp P.ratioIdx 0 (NUM_RATIOS - 1) = 14 ∨ clamp P.ratioIdx 0 (NUM_RATIOS - 1) = 16 ∨
        18 ≤ clamp P.ratioIdx 0 (NUM_RATIOS - 1))) ∧
    (clamp P.ratioIdx 0 (NUM_RATIOS - 1) = 15 → ratioOf P = 3 / 2) ∧
    (clamp P.ratioIdx 0 (NUM_RATIOS - 1) = 17 → ratioOf P = 5 / 2) ∧
    (1 ≤ ratioOf P →
      (clockEdge s (ratioOf P)).virtTimer = 0 ∧
      (clockEdge s (ratioOf P)).queuedBaseTicks
        = s.queuedBaseTicks + (if (ratioOf P).isInt = true then 1 else 0)) ∧
    (ratioOf P < 1 →
      (clockEdge s (ratioOf P)).virtTimer = s.virtTimer ∧
      (clockEdge s (ratioOf P)).queuedBaseTicks = s.queuedBaseTicks) ∧
    (I.clkConnected = true → I.clkEdge = true → 0 < s.virtPeriod →
      ∃ m : Nat,
        (process s P I).state.virtTimer
          = subPeriods (process s P I).state.virtPeriod m
              (f32 ((if 1 ≤ ratioOf P then 0 else (preClock s P I).virtTimer) + I.sampleTime)) ∧
        (preSwing s P I).queuedBaseTicks
          = (preClock s P I).queuedBaseTicks
            + (if 1 ≤ ratioOf P ∧ (ratioOf P).isInt = true then 1 else 0) + (m : Int)) ∧
    (I.rstEdge = false →
      (preClock s P I).virtTimer = s.virtTimer ∧
      (preClock s P I).queuedBaseTicks = s.queuedBaseTicks) := by
  obtain ⟨i0, i1⟩ := ratio_index_range P
  obtain ⟨t1, t2, t3, t4, t5⟩ := ratio_table_cases _ i0 i1
  have hro : ratioOf P = RATIO_TABLE.getD (clamp P.ratioIdx 0 (NUM_RATIOS - 1)).toNat 0 := rfl
  rw [← hro] at t1 t2 t3 t4 t5
  have hge : 1 ≤ ratioOf P ↔ 14 ≤ clamp P.ratioIdx 0 (NUM_RATIOS - 1) := by
    have := congrArg (fun b => b = true) t1
    simpa using this
  have hint : (ratioOf P).isInt = true ↔
      (clamp P.ratioIdx 0 (NUM_RATIOS - 1) = 14 ∨ clamp P.ratioIdx 0 (NUM_RATIOS - 1) = 16 ∨
        18 ≤ clamp P.ratioIdx 0 (NUM_RATIOS - 1)) := by
    rw [t3]; simp
  have hmul : ((decide (ratioOf P ≥ 1) &&
        decide (|ratioOf P - (roundHalfAway (ratioOf P) : ℚ)| < 1e-4)) = true)
      ↔ (ratioOf P).isInt = true := by
    rw [t2, t3]
  obtain ⟨e1, e2, e3, e4, -, e6⟩ := clockEdge_phase s (ratioOf P)
  have hr0 : (0 : ℚ) < ratioOf P := lt_of_lt_of_le (by norm_num) (ratioOf_ge P)
  refine ⟨hge, hint, t4, t5, fun h => ?_, fun h => ?_, fun hc he hv => ?_, fun hr => ?_⟩
  · rw [e1, e2, if_pos h]
    refine ⟨rfl, ?_⟩
    by_cases hi : (ratioOf P).isInt = true
    · rw [if_pos (hmul.mpr hi), if_pos hi]
    · rw [if_neg (fun hc => hi (hmul.mp hc)), if_neg hi]
  · rw [e1, e2, if_neg (not_le.mpr h)]
    refine ⟨rfl, ?_⟩
    have hn : ¬ (ratioOf P).isInt = true := by
      rw [hint]
      have := hge.not.mp (not_le.mpr h)
      omega
    rw [if_neg (fun hc => hn (hmul.mp hc))]
    simp
  · obtain ⟨-, -, -, w3, w4, -⟩ := withClock_summary s P I hc
    rw [w4, w3]
    obtain ⟨f1, f2, f3, f4, -, f6⟩ := clockEdge_phase (preClock s P I) (ratioOf P)
    have hvp : 0 < (preClock s P I).virtPeriod := by
      rw [(preClock_clk s P I hc).2.2]; exact hv
    have hps : preSwing s P I
        = virtualOscillator (clockEdge (preClock s P I) (ratioOf P)) I.sampleTime := by
      unfold preSwing
      dsimp only
      rw [if_pos he, phaseTimeout_after_edge _ f4]
    obtain ⟨n, n1, n2, n3⟩ := virtualOscillator_advance (clockEdge (preClock s P I) (ratioOf P))
      I.sampleTime f3 (f6 hr0 (ratioOf_le P) hvp)
    refine ⟨n, ?_, ?_⟩
    · rw [hps, n1, n3, f1]
    · rw [hps, n2, f2]
      by_cases hi : (ratioOf P).isInt = true
      · have h1 : 1 ≤ ratioOf P := by
          rw [hge]; rcases hint.mp hi with h | h | h <;> omega
        rw [if_pos (hmul.mpr hi), if_pos ⟨h1, hi⟩]
      · rw [if_neg (fun hc => hi (hmul.mp hc)), if_neg (fun hc => hi hc.2)]
  · obtain ⟨-, -, -, q4, -, -, -, q8, -, -⟩ : (preClock s P I).havePhase = s.havePhase ∧
        (preClock s P I).lastPeriod = s.lastPeriod ∧
        (preClock s P I).virtPeriod = s.virtPeriod ∧ (preClock s P I).virtTimer = s.virtTimer ∧
        True ∧ True ∧ True ∧ (preClock s P I).queuedBaseTicks = s.queuedBaseTicks ∧
        True ∧ True := by
      unfold preClock tickTimers
      simp only [hr, Bool.false_eq_true, if_false]
      split_ifs <;> simp
    exact ⟨q4, q8⟩

/-- A property that holds of a state and is kept by every sample holds after any
run of samples. -/
theorem run_induction (J : State → Prop)
    (hstep : ∀ (s : State) (P : Params) (I : Inputs), J s → J (process s P I).state)
    (xs : List (Params × Inputs)) : ∀ s : State, J s → J (run s xs) := by
  induction xs with
  | nil => intro s h; exact h
  | cons x xs ih => intro s h; exact ih _ (hstep s x.1 x.2 h)

/-- After the timeout block, a locked phase means that the time since the last
edge is within the timeout of the recorded period. -/
theorem phaseTimeout_bound (m : State) (h : (phaseTimeout m).havePhase = true) :
    (phaseTimeout m).sinceLastEdge
      ≤ (if (phaseTimeout m).lastPeriod > 1e-4 then clamp ((phaseTimeout m).lastPeriod * 2) (f32 0.1) 1.0
         else 0.5) := by
  unfold phaseTimeout at h ⊢
  dsimp only at h ⊢
  by_cases hc : m.havePhase = true ∧
      m.sinceLastEdge > (if m.lastPeriod > 1e-4 then clamp (m.lastPeriod * 2) (f32 0.1) 1.0 else 0.5)
  · rw [if_pos hc] at h
    exact absurd h (by simp)
  · rw [if_neg hc] at h ⊢
    exact not_lt.mp (fun hlt => hc ⟨h, hlt⟩)

/-- The oscillator block leaves the lock flag, the edge timer and the recorded
period alone. -/
theorem virtualOscillator_lock (m : State) (dt : ℚ) :
    (virtualOscillator m dt).havePhase = m.havePhase ∧
    (virtualOscillator m dt).sinceLastEdge = m.sinceLastEdge ∧
    (virtualOscillator m dt).lastPeriod = m.lastPeriod := by
  unfold virtualOscillator
  split_ifs <;> exact ⟨rfl, rfl, rfl⟩

/-- The timers, the fold and the reset block leave the lock flag and the
connection memory alone. -/
theorem preClock_lock (s : State) (P : Params) (I : Inputs) :
    (preClock s P I).havePhase = s.havePhase ∧
    (preClock s P I).prevClkConnected = s.prevClkConnected ∧
    (preClock s P I).virtPeriod = s.virtPeriod := by
  unfold preClock tickTimers resetBlock
  dsimp only
  split_ifs <;> exact ⟨rfl, rfl, rfl⟩

/-- At the end of a clock-connected sample a locked phase is within its timeout,
whatever the state at the start of the sample. -/
theorem connected_sample_lock (s : State) (P : Params) (I : Inputs)
    (hc : I.clkConnected = true) (h : (process s P I).state.havePhase = true) :
    (process s P I).state.sinceLastEdge
      ≤ (if (process s P I).state.lastPeriod > 1e-4 then
          clamp ((process s P I).state.lastPeriod * 2) (f32 0.1) 1.0
         else 0.5) := by
  obtain ⟨-, w2, w3, -, -, -, w7, -⟩ := withClock_summary s P I hc
  rw [w2] at h
  rw [w3, w7]
  unfold preSwing at h ⊢
  dsimp only at h ⊢
  obtain ⟨v1, v2, v3⟩ := virtualOscillator_lock
    (phaseTimeout (if I.clkEdge = true then clockEdge (preClock s P I) (ratioOf P)
      else preClock s P I)) I.sampleTime
  rw [v1] at h
  rw [v2, v3]
  exact phaseTimeout_bound _ h

/-- The state invariant behind the clock lock: the phase is never locked while
the connection memory says that the clock was disconnected, a locked phase is
within its timeout, and the oscillator period is positive. -/
theorem lock_invariant_step (s : State) (P : Params) (I : Inputs)
    (h : (s.prevClkConnected = false → s.havePhase = false) ∧ 0 < s.virtPeriod) :
    ((process s P I).state.prevClkConnected = false → (process s P I).state.havePhase = false) ∧
    0 < (process s P I).state.virtPeriod ∧
    ((process s P I).state.havePhase = true →
      (process s P I).state.prevClkConnected = true ∧
      (process s P I).state.sinceLastEdge
        ≤ (if (process s P I).state.lastPeriod > 1e-4 then
            clamp ((process s P I).state.lastPeriod * 2) (f32 0.1) 1.0
           else 0.5)) := by
  obtain ⟨h1, h2⟩ := h
  obtain ⟨p1, p2, p3⟩ := preClock_lock s P I
  cases hc : I.clkConnected
  · have hproc := process_disconnected s P I hc
    obtain ⟨-, -, -, -, -, -, n7, -, -, n10⟩ := noClock_fields (preClock s P I) P I
    have hhp : (process s P I).state.havePhase = false := by
      rw [hproc, n7, p2, p1]
      cases hprev : s.prevClkConnected
      · simp only [Bool.false_eq_true, if_false]
        exact h1 hprev
      · simp
    refine ⟨fun _ => hhp, ?_, fun h => ?_⟩
    · rw [hproc]
      have : (noClock (preClock s P I) P I).state.virtPeriod = (preClock s P I).virtPeriod := by
        unfold noClock hardStop slew
        dsimp only
        split_ifs <;> rfl
      rw [this, p3]
      exact h2
    · rw [hhp] at h
      exact Bool.noConfusion h
  · have hproc := process_connected s P I hc
    have hprev : (process s P I).state.prevClkConnected = true := by
      rw [hproc]
      rfl
    refine ⟨fun h => ?_, ?_, fun h => ⟨hprev, connected_sample_lock s P I hc h⟩⟩
    · rw [hprev] at h
      exact Bool.noConfusion h
    · obtain ⟨-, -, -, w4, -⟩ := withClock_summary s P I hc
      rw [w4]
      unfold preSwing
      dsimp only
      rw [(virtualOscillator_clk _ _).2.2, (phaseTimeout_clk _).2.2]
      split_ifs
      · exact (clockEdge_phase (preClock s P I) (ratioOf P)).2.2.2.2.2
          (lt_of_lt_of_le (by norm_num) (ratioOf_ge P)) (ratioOf_le P) (by rw [p3]; exact h2)
      · rw [p3]; exact h2

/-- The invariant of `lock_invariant_step` in every state reachable from `onReset`. -/
theorem lock_invariant (s0 : State) (startRead : Int) (xs : List (Params × Inputs)) :
    ((run (onReset s0 startRead) xs).prevClkConnected = false →
      (run (onReset s0 startRead) xs).havePhase = false) ∧
    0 < (run (onReset s0 startRead) xs).virtPeriod ∧
    ((run (onReset s0 startRead) xs).havePhase = true →
      (run (onReset s0 startRead) xs).prevClkConnected = true ∧
      (run (onReset s0 startRead) xs).sinceLastEdge
        ≤ (if (run (onReset s0 startRead) xs).lastPeriod > 1e-4 then
            clamp ((run (onReset s0 startRead) xs).lastPeriod * 2) (f32 0.1) 1.0
           else 0.5)) := by
  refine run_induction
    (fun t => (t.prevClkConnected = false → t.havePhase = false) ∧ 0 < t.virtPeriod ∧
      (t.havePhase = true → t.prevClkConnected = true ∧
        t.sinceLastEdge
          ≤ (if t.lastPeriod > 1e-4 then clamp (t.lastPeriod * 2) (f32 0.1) 1.0 else 0.5)))
    (fun s P I h => lock_invariant_step s P I ⟨h.1, h.2.1⟩) xs (onReset s0 startRead) ?_
  refine ⟨fun _ => rfl, by norm_num [onReset], fun h => ?_⟩
  exact absurd h (by simp [onReset])

/-- C18 (amended): in every state reachable from `onReset` by `process` samples,
a locked phase (`havePhase`) implies that the clock input was connected in the
last sample and that the time since the last edge does not exceed the phase
timeout: `clamp(2 * lastPeriod, 0.1, 1.0)` seconds if a valid period is recorded
(`lastPeriod > 1e-4`), and 0.5 s otherwise. -/
theorem clock_state_invariant (s0 : State) (startRead : Int) (xs : List (Params × Inputs))
    (h : (run (onReset s0 startRead) xs).havePhase = true) :
    (run (onReset s0 startRead) xs).prevClkConnected = true ∧
    (run (onReset s0 startRead) xs).sinceLastEdge
      ≤ (if (run (onReset s0 startRead) xs).lastPeriod > 1e-4 then
          clamp ((run (onReset s0 startRead) xs).lastPeriod * 2) (f32 0.1) 1.0
         else 0.5) :=
  (lock_invariant s0 startRead xs).2.2 h

/-- The directions a tick leaves stay in their ranges. -/
theorem tickNav_dirs (t : State) (P : Params) (I : Inputs) (start steps : Int)
    (hp : t.pingDir = 0 ∨ t.pingDir = 1) (hd : t.drunkDir = -1 ∨ t.drunkDir = 1) :
    ((tickNav t P I start steps).pingDir = 0 ∨ (tickNav t P I start steps).pingDir = 1) ∧
    ((tickNav t P I start steps).drunkDir = -1 ∨ (tickNav t P I start steps).drunkDir = 1) := by
  unfold tickNav navigate
  dsimp only
  split_ifs <;> refine ⟨?_, ?_⟩ <;> first | exact hp | exact hd | (dsimp only; omega)

/-- The navigator fields at the end of a clock-connected sample are those left by
the step-advance or the reset application. -/
theorem withClock_dirs (s s3 : State) (P : Params) (I : Inputs) :
    (withClock s s3 P I).state.pingDir
      = (tickAndReset (swingScheduler (preSwing s P I) P I.sampleTime) P I).1.pingDir ∧
    (withClock s s3 P I).state.drunkDir
      = (tickAndReset (swingScheduler (preSwing s P I) P I.sampleTime) P I).1.drunkDir := by
  unfold withClock slew; dsimp only; split_ifs <;> simp [emitPulses]

/-- The navigator ranges are kept by the tick / reset-application part of a
sample, provided the current step is inside the window. -/
theorem tickAndReset_ranges (sw : State × Bool) (P : Params) (I : Inputs)
    (hwin : relOf sw.1.step (windowStart P) < windowSteps P)
    (hst : 0 ≤ sw.1.step ∧ sw.1.step ≤ 15)
    (hp : sw.1.pingDir = 0 ∨ sw.1.pingDir = 1)
    (hd : sw.1.drunkDir = -1 ∨ sw.1.drunkDir = 1)
    (hrt : 0 ≤ sw.1.resetTargetStep ∧ sw.1.resetTargetStep ≤ 15) :
    (0 ≤ (tickAndReset sw P I).1.step ∧ (tickAndReset sw P I).1.step ≤ 15) ∧
    ((tickAndReset sw P I).1.pingDir = 0 ∨ (tickAndReset sw P I).1.pingDir = 1) ∧
    ((tickAndReset sw P I).1.drunkDir = -1 ∨ (tickAndReset sw P I).1.drunkDir = 1) ∧
    (tickAndReset sw P I).1.resetTargetStep = sw.1.resetTargetStep := by
  unfold tickAndReset
  by_cases h2 : sw.2 = true
  · rw [if_pos h2]
    dsimp only
    obtain ⟨a1, a2, a3, -, -⟩ := advance_nav sw.1 P I (windowStart P) (windowSteps P) (ratioOf P)
    obtain ⟨-, w2⟩ := tickNav_window sw.1 P I (windowStart P) (windowSteps P)
      (windowStart_range P) (windowSteps_range P) hwin
    obtain ⟨d1, d2⟩ := tickNav_dirs sw.1 P I (windowStart P) (windowSteps P) hp hd
    have hrt' : (advance sw.1 P I (windowStart P) (windowSteps P) (ratioOf P)).1.resetTargetStep
        = sw.1.resetTargetStep := by
      unfold advance
      dsimp only
      split_ifs
      · simp only [applyPendingReset, (fireGate_ctl _ _ _ _ _ _).2.2.1]
        rfl
      · rw [(fireGate_ctl _ _ _ _ _ _).2.2.1]
        rfl
    rw [a1, a2, a3, hrt']
    refine ⟨?_, d1, d2, rfl⟩
    split_ifs
    · exact hrt
    · exact w2 hst
  · rw [if_neg h2]
    split_ifs
    · exact ⟨hrt, hp, hd, rfl⟩
    · exact ⟨hst, hp, hd, rfl⟩

/-- The navigator fields after the timers, the fold and the reset block. -/
theorem preClock_ranges (s : State) (P : Params) (I : Inputs)
    (hst : 0 ≤ s.step ∧ s.step ≤ 15) (hp : s.pingDir = 0 ∨ s.pingDir = 1)
    (hd : s.drunkDir = -1 ∨ s.drunkDir = 1)
    (hrt : 0 ≤ s.resetTargetStep ∧ s.resetTargetStep ≤ 15) :
    (0 ≤ (preClock s P I).step ∧ (preClock s P I).step ≤ 15) ∧
    ((preClock s P I).pingDir = 0 ∨ (preClock s P I).pingDir = 1) ∧
    ((preClock s P I).drunkDir = -1 ∨ (preClock s P I).drunkDir = 1) ∧
    (0 ≤ (preClock s P I).resetTargetStep ∧ (preClock s P I).resetTargetStep ≤ 15) := by
  have hfold : 0 ≤ foldStep s.step (windowStart P) (windowSteps P) ∧
      foldStep s.step (windowStart P) (windowSteps P) ≤ 15 := by
    unfold foldStep
    dsimp only
    split_ifs
    · exact wrap16_range _
    · exact hst
  rw [preClock_step]
  refine ⟨hfold, ?_⟩
  cases hr : I.rstEdge
  · obtain ⟨-, -, q3, -, -, -, -, -, q9, q10⟩ := preClock_noReset s P I hr
    rw [q3, q9, q10]
    exact ⟨hp, hd, hrt⟩
  · obtain ⟨-, -, q3, -⟩ := preClock_reset s P I hr
    rw [q3]
    have hpd : (preClock s P I).pingDir = 0 ∧ (preClock s P I).drunkDir = 1 := by
      unfold preClock
      simp [hr, resetBlock]
    rw [hpd.1, hpd.2]
    exact ⟨Or.inl rfl, Or.inr rfl, windowStart_range P⟩

/-- One sample keeps the navigator ranges. -/
theorem ranges_kept_by_sample (s : State) (P : Params) (I : Inputs)
    (h : (0 ≤ s.step ∧ s.step ≤ 15) ∧ (s.pingDir = 0 ∨ s.pingDir = 1) ∧
      (s.drunkDir = -1 ∨ s.drunkDir = 1) ∧ (0 ≤ s.resetTargetStep ∧ s.resetTargetStep ≤ 15)) :
    (0 ≤ (process s P I).state.step ∧ (process s P I).state.step ≤ 15) ∧
    ((process s P I).state.pingDir = 0 ∨ (process s P I).state.pingDir = 1) ∧
    ((process s P I).state.drunkDir = -1 ∨ (process s P I).state.drunkDir = 1) ∧
    (0 ≤ (process s P I).state.resetTargetStep ∧ (process s P I).state.resetTargetStep ≤ 15) := by
  obtain ⟨hst, hp, hd, hrt⟩ := h
  obtain ⟨k1, k2, k3, k4⟩ := preClock_ranges s P I hst hp hd hrt
  cases hc : I.clkConnected
  · rw [process_disconnected s P I hc]
    obtain ⟨n1, -, -, n4, -⟩ := noClock_ctl (preClock s P I) P I
    obtain ⟨-, -, -, -, -, -, -, n8, n9, -⟩ := noClock_fields (preClock s P I) P I
    rw [n1, n4, n8, n9]
    exact ⟨k1, k2, k3, k4⟩
  · rw [process_connected s P I hc]
    obtain ⟨c1, -, -, c4, -⟩ := withClock_ctl s (preClock s P I) P I
    obtain ⟨c8, c9⟩ := withClock_dirs s (preClock s P I) P I
    have hsw := swing_ctl s P I
    unfold navFrame at hsw
    obtain ⟨f1, -, -, f4, -, f6, f7, -⟩ := hsw
    have hwin : relOf (swingScheduler (preSwing s P I) P I.sampleTime).1.step (windowStart P)
        < windowSteps P := by
      rw [f1, preClock_step]
      exact (foldStep_window s.step _ _ (windowSteps_range P)).1
    obtain ⟨t1, t2, t3, t4⟩ := tickAndReset_ranges
      (swingScheduler (preSwing s P I) P I.sampleTime) P I hwin (by rw [f1]; exact k1)
      (by rw [f6]; exact k2) (by rw [f7]; exact k3) (by rw [f4]; exact k4)
    rw [c1, c4, c8, c9, t4, f4]
    exact ⟨t1, t2, t3, k4⟩

/-- C19: in every state reachable from `onReset` by any sequence of `process`
samples (any parameter values, inputs and random draws) the current step is in
`0..15`, `pingDir` is 0 or 1 and `drunkDir` is -1 or 1 (and the recorded reset
target is a slot index as well). -/
theorem navigator_ranges (s0 : State) (startRead : Int) (xs : List (Params × Inputs)) :
    (0 ≤ (run (onReset s0 startRead) xs).step ∧ (run (onReset s0 startRead) xs).step ≤ 15) ∧
    ((run (onReset s0 startRead) xs).pingDir = 0 ∨ (run (onReset s0 startRead) xs).pingDir = 1) ∧
    ((run (onReset s0 startRead) xs).drunkDir = -1 ∨
      (run (onReset s0 startRead) xs).drunkDir = 1) ∧
    (0 ≤ (run (onReset s0 startRead) xs).resetTargetStep ∧
      (run (onReset s0 startRead) xs).resetTargetStep ≤ 15) := by
  refine run_induction
    (fun t => (0 ≤ t.step ∧ t.step ≤ 15) ∧ (t.pingDir = 0 ∨ t.pingDir = 1) ∧
      (t.drunkDir = -1 ∨ t.drunkDir = 1) ∧ (0 ≤ t.resetTargetStep ∧ t.resetTargetStep ≤ 15))
    (fun s P I h => ranges_kept_by_sample s P I h) xs (onReset s0 startRead) ?_
  have hr : 0 ≤ clamp (startRead - 1) 0 15 ∧ clamp (startRead - 1) 0 15 ≤ 15 := by
    unfold clamp; omega
  exact ⟨hr, Or.inl rfl, Or.inr rfl, hr⟩

/-- C20: a sample with the clock input disconnected.  The gate output, every
emitted per-step channel and the end-of-cycle output are 0 V, no step-advance
occurs, and the current step is only folded into the window.  If the previous
sample had the clock connected (`prevClkConnected`, which every connected sample
sets), all pulse generators are reset and `lastPeriod`, `virtTimer`,
`sinceLastEdge` are 0 and `havePhase` is false after the sample. -/
theorem clock_disconnection (s : State) (P : Params) (I : Inputs)
    (hc : I.clkConnected = false) :
    ((process s P I).out.gate = 0 ∧
      (process s P I).out.stepGates.length = (windowSteps P).toNat ∧
      (∀ v ∈ (process s P I).out.stepGates, v = 0) ∧
      (process s P I).out.eoc = 0) ∧
    ((process s P I).clockNow = false ∧ (process s P I).tick = none) ∧
    (process s P I).state.step = foldStep s.step (windowStart P) (windowSteps P) ∧
    (s.prevClkConnected = true →
      (process s P I).state.gatePulse = 0 ∧ (process s P I).state.eocPulse = 0 ∧
      (∀ i, (process s P I).state.stepGateTrig i = 0) ∧
      (process s P I).state.lastPeriod = 0 ∧ (process s P I).state.virtTimer = 0 ∧
      (process s P I).state.sinceLastEdge = 0 ∧ (process s P I).state.havePhase = false) ∧
    (process s P I).state.prevClkConnected = false ∧
    (∀ (s1 : State) (P1 : Params) (I1 : Inputs), I1.clkConnected = true →
      (process s1 P1 I1).state.prevClkConnected = true) := by
  rw [process_disconnected s P I hc]
  obtain ⟨n1, n2, n3, n4, n5, n6, n7, -, -, n10⟩ := noClock_fields (preClock s P I) P I
  obtain ⟨m1, -⟩ := noClock_ctl (preClock s P I) P I
  obtain ⟨-, p2, -⟩ := preClock_lock s P I
  refine ⟨⟨rfl, ?_, fun v hv => List.eq_of_mem_replicate hv, rfl⟩, ⟨rfl, rfl⟩, ?_, fun hp => ?_,
    n10, fun s1 P1 I1 h1 => ?_⟩
  · simp [noClock]
  · rw [m1, preClock_step]
  · rw [n1, n2, n3, n4, n5, n6, n7, p2, hp]
    simp
  · rw [process_connected s1 P1 I1 h1]
    rfl

/-- A pending reset request always comes with the replay flag: in every state
reachable from `onReset`, and in the state that enters the step-advance of the
next sample.  So a tick without replay never finds a request pending. -/
theorem pending_implies_replay (s0 : State) (startRead : Int) (xs : List (Params × Inputs))
    (P : Params) (I : Inputs) :
    ((run (onReset s0 startRead) xs).resetPending = true →
      (run (onReset s0 startRead) xs).playCurrentOnNextTick = true) ∧
    ((swingScheduler (preSwing (run (onReset s0 startRead) xs) P I) P I.sampleTime).1.resetPending
        = true →
      (swingScheduler (preSwing (run (onReset s0 startRead) xs) P I) P
        I.sampleTime).1.playCurrentOnNextTick = true) := by
  have hstep : ∀ (s : State) (P : Params) (I : Inputs),
      (s.resetPending = true → s.playCurrentOnNextTick = true) →
      ((preClock s P I).resetPending = true → (preClock s P I).playCurrentOnNextTick = true) := by
    intro s P I h
    cases hr : I.rstEdge
    · obtain ⟨-, q2, -, q4, -⟩ := preClock_noReset s P I hr
      rw [q2, q4]; exact h
    · intro _
      exact (preClock_reset s P I hr).2.2.2.1
  have hinv : (run (onReset s0 startRead) xs).resetPending = true →
      (run (onReset s0 startRead) xs).playCurrentOnNextTick = true := by
    refine run_induction
      (fun t => t.resetPending = true → t.playCurrentOnNextTick = true)
      (fun s P I h => ?_) xs (onReset s0 startRead) (fun h => absurd h (by simp [onReset]))
    cases hc : I.clkConnected
    · rw [process_disconnected s P I hc]
      obtain ⟨-, n2, n3, -⟩ := noClock_ctl (preClock s P I) P I
      rw [n2, n3]
      exact hstep s P I h
    · intro hp
      rw [(withClock_summary s P I hc).2.2.2.2.2.2.2.2.2.2] at hp
      exact Bool.noConfusion hp
  refine ⟨hinv, ?_⟩
  have hsw := swing_ctl (run (onReset s0 startRead) xs) P I
  unfold navFrame at hsw
  obtain ⟨-, f2, f3, -⟩ := hsw
  rw [f2, f3]
  exact hstep _ P I hinv

/-- Instance of C11 with 16 Play steps and window start 0: from step 3 going
forward the advance selects step 4 and keeps the direction; from step 15 going
forward the lookup would wrap, so the direction flips, the advance selects the
backward lookup and signals the wrap. -/
theorem pingpong_transition_witness :
    ((advance { powerOn with step := 3 } { defaultParams with dirMode := 2 }
        (idleInputs (1 / 48000)) 0 16 2).1.step
        = (findNextPlayable (fun _ => 0) 0 16 0 (relOf 3 0)).1 ∧
      (advance { powerOn with step := 3 } { defaultParams with dirMode := 2 }
        (idleInputs (1 / 48000)) 0 16 2).1.pingDir = 0 ∧
      (advance { powerOn with step := 3 } { defaultParams with dirMode := 2 }
        (idleInputs (1 / 48000)) 0 16 2).2.wrapped = false ∧
      (advance { powerOn with step := 3 } { defaultParams with dirMode := 2 }
        (idleInputs (1 / 48000)) 0 16 2).1.eocPulse = 0) ∧
    ((advance { powerOn with step := 15 } { defaultParams with dirMode := 2 }
        (idleInputs (1 / 48000)) 0 16 2).1.pingDir = 1 - 0 ∧
      (advance { powerOn with step := 15 } { defaultParams with dirMode := 2 }
        (idleInputs (1 / 48000)) 0 16 2).1.step
        = (findNextPlayable (fun _ => 0) 0 16 (1 - 0) (relOf 15 0)).1 ∧
      (advance { powerOn with step := 15 } { defaultParams with dirMode := 2 }
        (idleInputs (1 / 48000)) 0 16 2).2.wrapped = true ∧
      (advance { powerOn with step := 15 } { defaultParams with dirMode := 2 }
        (idleInputs (1 / 48000)) 0 16 2).1.eocPulse = pulseTrigger 0 trigLen) :=
  ⟨(pingpong_transition { powerOn with step := 3 } { defaultParams with dirMode := 2 }
      (idleInputs (1 / 48000)) 0 16 2 (by decide) (by decide) (by decide) rfl rfl rfl).1
      ⟨⟨0, by decide, by decide, by decide⟩, by decide⟩,
   (pingpong_transition { powerOn with step := 15 } { defaultParams with dirMode := 2 }
      (idleInputs (1 / 48000)) 0 16 2 (by decide) (by decide) (by decide) rfl rfl rfl).2
      (fun h => absurd h.2 (by decide))⟩

/-- C12 counterexample: Random mode on the eleven-slot window from slot 0, every
slot Play, and the draw `u = 13726813 / 2 ^ 24`, a binary32 value with
`8/11 ≤ u < 9/11`.  The product `u * 11` is `9 - 2 ^ (-24)`, which rounds to 9 in
single precision: the advance selects entry number 9 of the pool (slot 9), not
entry number 8. -/
theorem random_product_rounds_up :
    randomPool (fun _ => 0) 0 (11 : Int).toNat 0 = [0, 1, 2, 3, 4, 5, 6, 7, 8, 9, 10] ∧
    f32 (13726813 / 2 ^ 24) = 13726813 / 2 ^ 24 ∧
    (8 : ℚ) / 11 ≤ 13726813 / 2 ^ 24 ∧ (13726813 / 2 ^ 24 : ℚ) < 9 / 11 ∧
    f32 (13726813 / 2 ^ 24 * 11) = 9 ∧
    (advance powerOn { defaultParams with dirMode := 3, steps := 11 }
        { idleInputs (1 / 48000) with uniform := 13726813 / 2 ^ 24 } 0 11 2).1.step = 9 ∧
    (advance powerOn { defaultParams with dirMode := 3, steps := 11 }
        { idleInputs (1 / 48000) with uniform := 13726813 / 2 ^ 24 } 0 11 2).1.step
      ≠ (randomPool (fun _ => 0) 0 (11 : Int).toNat 0).getD 8 0 := by
  decide!

/-- Instance of C12: an eight-slot window from slot 0 whose odd slots are Skip
(pool 0, 2, 4, 6) and the draw 0.625, which lies in `[2/4, 3/4)` and whose
product with 4 is not rounded: the advance selects entry number 2 of the pool. -/
theorem random_mode_witness :
    (advance powerOn randomOddSkip
        { idleInputs (1 / 48000) with uniform := 5 / 8 } 0 8 2).1.step
      = (randomPool randomOddSkip.stepMode 0 (8 : Int).toNat 0).getD 2 0 ∧
    randomPool randomOddSkip.stepMode 0 (8 : Int).toNat 0 = [0, 2, 4, 6] :=
  ⟨((random_mode powerOn randomOddSkip
      { idleInputs (1 / 48000) with uniform := 5 / 8 } 0 8 2 (by decide) rfl rfl rfl
      (by decide!) (by decide!)).2.2.2.2.2.1 (by decide!) 2 (by decide)).mpr
      ⟨by decide!, by decide!⟩,
   by decide⟩

/-- C13: Drunk step-advances that signal a wrap without crossing the window
boundary.  (i) Two-slot window (slots 0 and 1, both Play), navigator on slot 0,
draw 0.75 (sign +1): the advance walks +1 from the first to the second slot,
inside the window, and the wrap is signalled and the end-of-cycle pulse
triggered.  (ii) One-slot window: the advance stays on slot 0 and signals a
wrap.  (iii) Four-slot window whose slots 1 and 2 are Skip, navigator on slot 0,
sign +1: the advance walks +1 over the Skip slots to slot 3 and signals a wrap. -/
theorem drunk_wrap_without_crossing :
    ((advance powerOn { defaultParams with dirMode := 4, steps := 2 }
        { idleInputs (1 / 48000) with uniform := 3 / 4 } 0 2 2).1.step = 1 ∧
      (advance powerOn { defaultParams with dirMode := 4, steps := 2 }
        { idleInputs (1 / 48000) with uniform := 3 / 4 } 0 2 2).1.drunkDir = 1 ∧
      (advance powerOn { defaultParams with dirMode := 4, steps := 2 }
        { idleInputs (1 / 48000) with uniform := 3 / 4 } 0 2 2).2.wrapped = true ∧
      (advance powerOn { defaultParams with dirMode := 4, steps := 2 }
        { idleInputs (1 / 48000) with uniform := 3 / 4 } 0 2 2).1.eocPulse = trigLen) ∧
    ((advance powerOn { defaultParams with dirMode := 4, steps := 1 }
        { idleInputs (1 / 48000) with uniform := 3 / 4 } 0 1 2).1.step = 0 ∧
      (advance powerOn { defaultParams with dirMode := 4, steps := 1 }
        { idleInputs (1 / 48000) with uniform := 3 / 4 } 0 1 2).2.wrapped = true) ∧
    ((advance powerOn drunkGap
        { idleInputs (1 / 48000) with uniform := 3 / 4 } 0 4 2).1.step = 3 ∧
      (advance powerOn drunkGap
        { idleInputs (1 / 48000) with uniform := 3 / 4 } 0 4 2).1.drunkDir = 1 ∧
      (advance powerOn drunkGap
        { idleInputs (1 / 48000) with uniform := 3 / 4 } 0 4 2).2.wrapped = true) := by
  decide!

/-- C15 counterexample: the navigator is on the window start (step 0) and a reset
edge is detected.  (i) With the end-of-cycle-on-reset option set, the
end-of-cycle pulse is active after the sample and its output is 10 V.  (ii) With
default settings and a clock edge detected in the same sample, the step-advance
replays step 0: the aggregate gate pulse and the per-step pulse 0 are active
after the sample. -/
theorem reset_at_start_pulses_active :
    ((process { powerOn with eocOnReset := true } defaultParams
        (resetInputs (1 / 48000))).state.step = 0 ∧
      0 < (process { powerOn with eocOnReset := true } defaultParams
        (resetInputs (1 / 48000))).state.eocPulse ∧
      (process { powerOn with eocOnReset := true } defaultParams
        (resetInputs (1 / 48000))).out.eoc = 10) ∧
    ((process powerOn defaultParams
        { resetInputs (1 / 48000) with clkEdge := true }).clockNow = true ∧
      0 < (process powerOn defaultParams
        { resetInputs (1 / 48000) with clkEdge := true }).state.gatePulse ∧
      0 < (process powerOn defaultParams
        { resetInputs (1 / 48000) with clkEdge := true }).state.stepGateTrig 0 ∧
      (process powerOn defaultParams
        { resetInputs (1 / 48000) with clkEdge := true }).out.gate = 10) := by
  decide!

/-- Instance of C15 at power-on (step 0, window start 0) with default
parameters and a reset edge at 48 kHz. -/
theorem reset_idempotence_witness :
    (process powerOn defaultParams (resetInputs (1 / 48000))).state.step = powerOn.step ∧
    (process powerOn defaultParams (resetInputs (1 / 48000))).state.playCurrentOnNextTick
      = true ∧
    (process powerOn defaultParams (resetInputs (1 / 48000))).state.gatePulse = 0 ∧
    (process powerOn defaultParams (resetInputs (1 / 48000))).state.eocPulse = 0 :=
  have h := reset_idempotence powerOn defaultParams (resetInputs (1 / 48000)) rfl (by decide)
  ⟨h.1, h.2.1, (h.2.2 (by decide!)).1, ((h.2.2 (by decide!)).2.2.2.2 rfl).1⟩

/-- C18 counterexample: after `onReset`, two samples at 48 kHz (sample time the
binary32 value of `1/48000`) with the clock connected and an edge detected in
the second one.  The phase is locked although the recorded period, two sample
times (1/24000 s to single precision), is not a valid one (it is not above
0.1 ms). -/
theorem phase_locked_without_valid_period :
    (run (onReset powerOn 1)
      [(defaultParams, idleInputs (f32 (1 / 48000))),
       (defaultParams, edgeInputs (f32 (1 / 48000)))]).havePhase = true ∧
    (run (onReset powerOn 1)
      [(defaultParams, idleInputs (f32 (1 / 48000))),
       (defaultParams, edgeInputs (f32 (1 / 48000)))]).lastPeriod = 2 * f32 (1 / 48000) ∧
    f32 (1 / 24000) = 2 * f32 (1 / 48000) ∧
    ¬ (run (onReset powerOn 1)
      [(defaultParams, idleInputs (f32 (1 / 48000))),
       (defaultParams, edgeInputs (f32 (1 / 48000)))]).lastPeriod > 1e-4 := by
  decide!

/-- Instance of C18: after `onReset`, a clock edge every 5 samples of 125 ms; at
the end of the tenth sample the phase is locked. -/
theorem clock_state_invariant_witness :
    (run (onReset powerOn 1) (clockTrain defaultParams (1 / 8) 5 4 10)).prevClkConnected
      = true ∧
    (run (onReset powerOn 1) (clockTrain defaultParams (1 / 8) 5 4 10)).sinceLastEdge
      ≤ (if (run (onReset powerOn 1) (clockTrain defaultParams (1 / 8) 5 4 10)).lastPeriod
            > 1e-4 then
          clamp ((run (onReset powerOn 1)
            (clockTrain defaultParams (1 / 8) 5 4 10)).lastPeriod * 2) (f32 0.1) 1.0
         else 0.5) :=
  clock_state_invariant powerOn 1 (clockTrain defaultParams (1 / 8) 5 4 10) (by decide!)

/-- Instance of C20: the clock cable is pulled right after a sample with a clock
edge. -/
theorem clock_disconnection_witness :
    (process (process powerOn defaultParams (edgeInputs (1 / 48000))).state defaultParams
      { idleInputs (1 / 48000) with clkConnected := false }).out.gate = 0 ∧
    (process (process powerOn defaultParams (edgeInputs (1 / 48000))).state defaultParams
      { idleInputs (1 / 48000) with clkConnected := false }).state.gatePulse = 0 ∧
    (process (process powerOn defaultParams (edgeInputs (1 / 48000))).state defaultParams
      { idleInputs (1 / 48000) with clkConnected := false }).state.havePhase = false :=
  have h := clock_disconnection (process powerOn defaultParams (edgeInputs (1 / 48000))).state
    defaultParams { idleInputs (1 / 48000) with clkConnected := false } rfl
  ⟨h.1.1, (h.2.2.2.1 (by decide!)).1, (h.2.2.2.1 (by decide!)).2.2.2.2.2.2⟩

/-- The clamped reads are fixed points of the clamps the engine applies. -/
theorem clampedParams_reads (P : Params) :
    windowSteps (clampedParams P) = windowSteps P ∧
    windowStart (clampedParams P) = windowStart P ∧
    clamp (clampedParams P).dirMode 0 4 = clamp P.dirMode 0 4 ∧
    ratioOf (clampedParams P) = ratioOf P ∧
    (∀ dur ratio virtPeriod sampleTime : ℚ,
      gateLength (clampedParams P).gateMode dur ratio virtPeriod sampleTime
        = gateLength P.gateMode dur ratio virtPeriod sampleTime) := by
  have hn : NUM_RATIOS - 1 = 28 := by decide
  refine ⟨?_, ?_, ?_, ?_, fun dur ratio virtPeriod sampleTime => ?_⟩
  · unfold windowSteps clampedParams clamp; dsimp only; omega
  · unfold windowStart clampedParams clamp; dsimp only; omega
  · unfold clampedParams clamp; dsimp only; omega
  · have : clamp (clampedParams P).ratioIdx 0 (NUM_RATIOS - 1)
        = clamp P.ratioIdx 0 (NUM_RATIOS - 1) := by
      unfold clampedParams; dsimp only; rw [hn]; unfold clamp; omega
    unfold ratioOf
    rw [this]
  · unfold gateLength clampedParams
    dsimp only
    by_cases hg : P.gateMode = 0
    · simp [hg]
    · simp [hg]

theorem preClock_clamped (s : State) (P : Params) (I : Inputs) :
    preClock s (clampedParams P) I = preClock s P I := by
  obtain ⟨h1, h2, -⟩ := clampedParams_reads P
  unfold preClock
  rw [h1, h2]

theorem preSwing_clamped (s : State) (P : Params) (I : Inputs) :
    preSwing s (clampedParams P) I = preSwing s P I := by
  obtain ⟨-, -, -, h4, -⟩ := clampedParams_reads P
  unfold preSwing
  rw [preClock_clamped, h4]

theorem swingScheduler_clamped (m : State) (P : Params) (dt : ℚ) :
    swingScheduler m (clampedParams P) dt = swingScheduler m P dt := rfl

theorem advance_clamped (t : State) (P : Params) (I : Inputs) (start steps : Int) (ratio : ℚ) :
    advance t (clampedParams P) I start steps ratio = advance t P I start steps ratio := by
  obtain ⟨-, -, h3, -, h5⟩ := clampedParams_reads P
  have hnav : tickNav t (clampedParams P) I start steps = tickNav t P I start steps := by
    unfold tickNav
    rw [h3]
    rfl
  have hmute : ∀ nav, muteGlobal (clampedParams P) start steps nav
      = muteGlobal P start steps nav := by
    intro nav
    unfold muteGlobal
    rw [h3]
    rfl
  have hfire : ∀ (u : State) (mute : Bool),
      fireGate u (clampedParams P) I start ratio mute = fireGate u P I start ratio mute := by
    intro u mute
    unfold fireGate
    dsimp only
    rw [h5]
    rfl
  unfold advance
  dsimp only
  rw [hnav, hmute, hfire]

theorem tickAndReset_clamped (sw : State × Bool) (P : Params) (I : Inputs) :
    tickAndReset sw (clampedParams P) I = tickAndReset sw P I := by
  obtain ⟨h1, h2, -, h4, -⟩ := clampedParams_reads P
  unfold tickAndReset
  rw [h1, h2, h4, advance_clamped]

/-- The engine reads the five enumerated parameters only through their clamped
values (the gate mode only through the test `gateMode == 0`): a sample computed
with the raw reads equals the sample computed with the clamped reads. -/
theorem process_clamped (s : State) (P : Params) (I : Inputs) :
    process s (clampedParams P) I = process s P I := by
  obtain ⟨h1, -⟩ := clampedParams_reads P
  unfold process
  rw [preClock_clamped]
  split_ifs
  · unfold noClock
    rw [h1]
    rfl
  · unfold withClock
    dsimp only
    rw [preSwing_clamped, swingScheduler_clamped, tickAndReset_clamped, h1]
    rfl

/-- C21 (amended): the reads of steps, start, direction mode and ratio index are
clamped to `[1, 16]`, `[0, 15]` (after subtracting 1), `[0, 4]` and `[0, 28]`
before use.  The gate-mode read is not clamped: the engine only tests
`gateMode == 0`, so it treats every non-zero read as Trigger; for reads that are
not negative this is the read clamped to `{0, 1}`.  A sample computed with the
raw reads equals the sample computed with the reads so normalised. -/
theorem defensive_clamping (s : State) (P : Params) (I : Inputs) :
    (windowSteps P = clamp P.steps 1 16 ∧ 1 ≤ windowSteps P ∧ windowSteps P ≤ 16) ∧
    (windowStart P = clamp (P.start - 1) 0 15 ∧ 0 ≤ windowStart P ∧ windowStart P ≤ 15) ∧
    (ratioOf P = RATIO_TABLE.getD (clamp P.ratioIdx 0 28).toNat 0) ∧
    (0 ≤ clamp P.dirMode 0 4 ∧ clamp P.dirMode 0 4 ≤ 4) ∧
    process s (clampedParams P) I = process s P I ∧
    ((clampedParams P).steps = clamp P.steps 1 16 ∧
      (clampedParams P).start - 1 = clamp (P.start - 1) 0 15 ∧
      (clampedParams P).dirMode = clamp P.dirMode 0 4 ∧
      (clampedParams P).ratioIdx = clamp P.ratioIdx 0 28 ∧
      (clampedParams P).gateMode = (if P.gateMode = 0 then 0 else 1)) ∧
    (0 ≤ P.gateMode → (clampedParams P).gateMode = clamp P.gateMode 0 1) := by
  have hn : NUM_RATIOS - 1 = 28 := by decide
  refine ⟨⟨rfl, windowSteps_range P⟩, ⟨rfl, windowStart_range P⟩, ?_, ?_, process_clamped s P I,
    ⟨rfl, ?_, rfl, ?_, rfl⟩, fun h => ?_⟩
  · unfold ratioOf; rw [hn]
  · unfold clamp; omega
  · unfold clampedParams; dsimp only; omega
  · unfold clampedParams; dsimp only; rw [hn]
  · unfold clampedParams clamp
    dsimp only
    split_ifs <;> omega

/-- What a step-advance that fires a gate does: the pulse index, the length and
the two pulse generators triggered with that length. -/
theorem advance_fired_length (s : State) (P : Params) (I : Inputs) (start steps : Int)
    (ratio : ℚ) (k : Int) (g : ℚ) (h : (advance s P I start steps ratio).2.fired = some (k, g)) :
    k = relOf (tickNav s P I start steps).nextStep start ∧
    P.stepMode (tickNav s P I start steps).nextStep = 0 ∧
    g = gateLength P.gateMode (P.dur (tickNav s P I start steps).nextStep) ratio s.virtPeriod
          I.sampleTime ∧
    (advance s P I start steps ratio).1.gatePulse = pulseTrigger s.gatePulse g ∧
    (advance s P I start steps ratio).1.stepGateTrig k = pulseTrigger (s.stepGateTrig k) g := by
  have hcond : (!muteGlobal P start steps (tickNav s P I start steps) &&
      P.stepMode (applyNav s (tickNav s P I start steps)).step == 0) = true := by
    by_contra hn
    simp only [advance, fireGate, if_neg hn] at h
    exact Option.noConfusion h
  have hstep : (applyNav s (tickNav s P I start steps)).step
      = (tickNav s P I start steps).nextStep := rfl
  have hvp : (applyNav s (tickNav s P I start steps)).virtPeriod = s.virtPeriod := rfl
  have hgp : (applyNav s (tickNav s P I start steps)).gatePulse = s.gatePulse := rfl
  have hsg : (applyNav s (tickNav s P I start steps)).stepGateTrig = s.stepGateTrig := rfl
  simp only [advance, fireGate, if_pos hcond, Option.some.injEq, Prod.mk.injEq] at h
  obtain ⟨hk, hg⟩ := h
  rw [hstep] at hk
  rw [hstep, hvp] at hg
  have hmode : P.stepMode (tickNav s P I start steps).nextStep = 0 := by
    have := hcond
    simp only [Bool.and_eq_true, beq_iff_eq] at this
    exact this.2
  refine ⟨hk.symm, hmode, hg.symm, ?_, ?_⟩
  · unfold advance
    dsimp only
    unfold fireGate
    dsimp only
    rw [if_pos hcond]
    rw [hstep, hvp, hgp, hg]
    split_ifs <;> rfl
  · unfold advance
    dsimp only
    unfold fireGate
    dsimp only
    rw [if_pos hcond]
    rw [hstep, hvp, hsg, hg, hk]
    split_ifs <;> simp [applyPendingReset]

/-- The gate length when the duty clamp does not apply. -/
theorem gateLength_plain (gateMode : Int) (dur ratio virtPeriod sampleTime : ℚ) :
    (gateMode = 0 → (ratio ≤ 1 ∨ virtPeriod ≤ 0) →
      gateLength gateMode dur ratio virtPeriod sampleTime = clamp dur 0.001 10) ∧
    (gateMode ≠ 0 → gateLength gateMode dur ratio virtPeriod sampleTime = trigLen) := by
  constructor
  · intro hg hr
    unfold gateLength
    dsimp only
    rw [if_neg, if_pos hg]
    · norm_num
    · intro hc
      rcases hr with h | h
      · exact absurd hc.2.1 (not_lt.mpr h)
      · exact absurd hc.2.2 (not_lt.mpr h)
  · intro hg
    unfold gateLength
    dsimp only
    rw [if_neg (fun hc => hg hc.1), if_neg hg]

/-- The scheduler on a state with empty queue and no deferred tick does nothing. -/
theorem swingScheduler_empty (m : State) (P : Params) (dt : ℚ)
    (hp : m.tickPending = false) (hq : m.queuedBaseTicks = 0) :
    swingScheduler m P dt = (m, false) := by
  unfold swingScheduler
  rw [pendingTick_idle m dt hp]
  unfold serviceQueue
  rw [if_neg]
  simp [hq]

/-- Below the largest `int` the increment is the successor. -/
theorem wrapInt32_succ (x : Int) (h0 : -2 ^ 31 ≤ x) (h1 : x < 2 ^ 31 - 1) :
    wrapInt32 (x + 1) = x + 1 := by
  unfold wrapInt32
  omega

/-- What the scheduler does to the parity counter: a fired step-advance
increments it (as a 32-bit `int`), a sample without step-advance leaves it
alone. -/
theorem swingScheduler_parity (m : State) (P : Params) (dt : ℚ) :
    ((swingScheduler m P dt).2 = true →
      (swingScheduler m P dt).1.swingPhase = wrapInt32 (m.swingPhase + 1)) ∧
    ((swingScheduler m P dt).2 = false →
      (swingScheduler m P dt).1.swingPhase = m.swingPhase) := by
  unfold swingScheduler serviceQueue pendingTick
  dsimp only
  split_ifs <;> simp_all

/-- The tick taken from the queue gets the swing delay of the current parity; it
is deferred, with the delay timer at zero, exactly when the delay exceeds 1e-9. -/
theorem swingScheduler_takes (m : State) (P : Params) (dt : ℚ)
    (hp : m.tickPending = false) (hq : m.queuedBaseTicks > 0) :
    (swingScheduler m P dt).1.pendingDelay = swingDelay m P ∧
    (swingScheduler m P dt).1.queuedBaseTicks = m.queuedBaseTicks - 1 ∧
    ((swingScheduler m P dt).1.tickPending = true ↔ ¬ swingDelay m P ≤ 1e-9) ∧
    ((swingScheduler m P dt).1.tickPending = true →
      (swingScheduler m P dt).1.pendingTimer = 0 ∧ (swingScheduler m P dt).2 = false) := by
  unfold swingScheduler
  rw [pendingTick_idle m dt hp]
  unfold serviceQueue
  dsimp only
  rw [if_pos (by simp [hp, hq])]
  split_ifs with h1 h2
  · exact ⟨rfl, rfl, by simp [hp, h1], by simp [hp]⟩
  · exact ⟨rfl, rfl, by simp [hp, h1], by simp [hp]⟩
  · exact ⟨rfl, rfl, by simp [h1], fun _ => ⟨rfl, rfl⟩⟩

/-- A deferred tick: the delay timer advances by the sample time (in single
precision) and the tick fires exactly when the timer has reached the delay;
the queue is not serviced in such a sample. -/
theorem swingScheduler_deferred (m : State) (P : Params) (dt : ℚ)
    (hp : m.tickPending = true) :
    ((swingScheduler m P dt).2 = true ↔ m.pendingDelay ≤ f32 (m.pendingTimer + dt)) ∧
    ((swingScheduler m P dt).2 = true →
      (swingScheduler m P dt).1.tickPending = false ∧
      (swingScheduler m P dt).1.pendingTimer = 0) ∧
    ((swingScheduler m P dt).2 = false →
      (swingScheduler m P dt).1.tickPending = true ∧
      (swingScheduler m P dt).1.pendingTimer = f32 (m.pendingTimer + dt) ∧
      (swingScheduler m P dt).1.pendingDelay = m.pendingDelay) ∧
    (swingScheduler m P dt).1.queuedBaseTicks = m.queuedBaseTicks := by
  unfold swingScheduler pendingTick
  rw [if_pos hp]
  dsimp only
  by_cases h : m.pendingDelay ≤ f32 (m.pendingTimer + dt)
  · rw [if_pos h]
    unfold serviceQueue
    dsimp only
    rw [if_neg (by simp)]
    exact ⟨by simp [h], fun _ => ⟨rfl, rfl⟩, fun hc => absurd hc (by simp), rfl⟩
  · rw [if_neg h]
    unfold serviceQueue
    dsimp only
    rw [if_neg (by simp [hp])]
    exact ⟨by simp [h], fun hc => absurd hc (by simp), fun _ => ⟨hp, rfl, rfl⟩, rfl⟩

theorem virtualOscillator_pending (m : State) (dt : ℚ) :
    (virtualOscillator m dt).tickPending = m.tickPending ∧
    (virtualOscillator m dt).pendingTimer = m.pendingTimer ∧
    (virtualOscillator m dt).pendingDelay = m.pendingDelay := by
  unfold virtualOscillator; dsimp only; split_ifs <;> exact ⟨rfl, rfl, rfl⟩

theorem phaseTimeout_pending (m : State) :
    (phaseTimeout m).tickPending = m.tickPending ∧
    (phaseTimeout m).pendingTimer = m.pendingTimer ∧
    (phaseTimeout m).pendingDelay = m.pendingDelay := by
  unfold phaseTimeout; dsimp only; split_ifs <;> exact ⟨rfl, rfl, rfl⟩

theorem clockEdge_pending (m : State) (ratio : ℚ) :
    (clockEdge m ratio).tickPending = m.tickPending ∧
    (clockEdge m ratio).pendingTimer = m.pendingTimer ∧
    (clockEdge m ratio).pendingDelay = m.pendingDelay := by
  unfold clockEdge; dsimp only; split_ifs <;> exact ⟨rfl, rfl, rfl⟩

theorem preClock_pending (s : State) (P : Params) (I : Inputs) (hr : I.rstEdge = false) :
    (preClock s P I).tickPending = s.tickPending ∧
    (preClock s P I).pendingTimer = s.pendingTimer ∧
    (preClock s P I).pendingDelay = s.pendingDelay := by
  unfold preClock tickTimers
  dsimp only
  rw [if_neg (by rw [hr]; decide)]
  split_ifs <;> exact ⟨rfl, rfl, rfl⟩

/-- The fields of the deferred tick before the scheduler of a sample without
reset edge are those at the start of the sample. -/
theorem preSwing_pending (s : State) (P : Params) (I : Inputs) (hr : I.rstEdge = false) :
    (preSwing s P I).tickPending = s.tickPending ∧
    (preSwing s P I).pendingTimer = s.pendingTimer ∧
    (preSwing s P I).pendingDelay = s.pendingDelay := by
  obtain ⟨p1, p2, p3⟩ := preClock_pending s P I hr
  unfold preSwing; dsimp only
  rw [(virtualOscillator_pending _ _).1, (virtualOscillator_pending _ _).2.1,
    (virtualOscillator_pending _ _).2.2, (phaseTimeout_pending _).1,
    (phaseTimeout_pending _).2.1, (phaseTimeout_pending _).2.2]
  split_ifs
  · rw [(clockEdge_pending _ _).1, (clockEdge_pending _ _).2.1, (clockEdge_pending _ _).2.2]
    exact ⟨p1, p2, p3⟩
  · exact ⟨p1, p2, p3⟩

/-- Nothing after the scheduler touches the deferred tick. -/
theorem withClock_pending (s s3 : State) (P : Params) (I : Inputs) :
    (withClock s s3 P I).state.tickPending
      = (swingScheduler (preSwing s P I) P I.sampleTime).1.tickPending ∧
    (withClock s s3 P I).state.pendingTimer
      = (swingScheduler (preSwing s P I) P I.sampleTime).1.pendingTimer ∧
    (withClock s s3 P I).state.pendingDelay
      = (swingScheduler (preSwing s P I) P I.sampleTime).1.pendingDelay := by
  unfold withClock emitPulses slew tickAndReset advance fireGate applyPendingReset applyNav
  dsimp only
  split_ifs <;> exact ⟨rfl, rfl, rfl⟩

/-- Relative error of a rounding in the normal range: at most `2 ^ (-24)`. -/
theorem f32_rel_abs (y : ℚ) (hy : 1 / 2 ^ 126 ≤ |y|) : |f32 y - y| ≤ |y| / 2 ^ 24 := by
  have h126 : pow2 (-126) = 1 / 2 ^ 126 := by decide!
  have h23 : pow2 (-23) = 1 / 2 ^ 23 := by decide!
  have h1 := f32_error y
  have h2 := ulp_le_of_normal y (by rw [h126]; exact hy)
  rw [h23] at h2
  linarith

theorem f32_rel (y : ℚ) (hy : 1 / 2 ^ 126 ≤ y) :
    y * (1 - 1 / 2 ^ 24) ≤ f32 y ∧ f32 y ≤ y * (1 + 1 / 2 ^ 24) := by
  have hpos : 0 < y := lt_of_lt_of_le (by positivity) hy
  have h1 := f32_rel_abs y (by rw [abs_of_pos hpos]; exact hy)
  rw [abs_of_pos hpos, abs_le] at h1
  constructor
  · linarith [h1.1]
  · linarith [h1.2]

/-- The largest swing factor: `(1.f/3.f) * 0.6f` in single precision, slightly
above 0.2. -/
theorem swing_factor_max : f32 (f32 (1 / 3) * f32 0.6) = 6710887 / 33554432 := by
  decide!

theorem swing_third : f32 (1 / 3) = 11184811 / 33554432 := by
  decide!

/-- The swing factor is between 0 and its largest value. -/
theorem swing_factor_range (P : Params) :
    0 ≤ clamp P.swing 0 (f32 0.6) ∧ clamp P.swing 0 (f32 0.6) ≤ f32 0.6 ∧
    0 ≤ f32 (f32 (1 / 3) * clamp P.swing 0 (f32 0.6)) ∧
    f32 (f32 (1 / 3) * clamp P.swing 0 (f32 0.6)) ≤ 6710887 / 33554432 := by
  have h06 : (0 : ℚ) ≤ f32 0.6 := f32_nonneg (by norm_num)
  have h0 : (0 : ℚ) ≤ clamp P.swing 0 (f32 0.6) := by unfold clamp; exact le_max_right _ _
  have h6 : clamp P.swing 0 (f32 0.6) ≤ f32 0.6 := by
    unfold clamp; exact max_le (min_le_right _ _) h06
  have ht : (0 : ℚ) ≤ f32 (1 / 3) := f32_nonneg (by norm_num)
  refine ⟨h0, h6, f32_nonneg (mul_nonneg ht h0), ?_⟩
  rw [← swing_factor_max]
  exact f32_mono (mul_le_mul_of_nonneg_left h6 ht)

/-- The swing delay against the exact 0.2 of the period. -/
theorem swingDelay_bounds (m : State) (P : Params) (hv : 0 ≤ m.virtPeriod) :
    0 ≤ swingDelay m P ∧ swingDelay m P ≤ f32 (6710887 / 33554432 * m.virtPeriod) := by
  obtain ⟨-, -, s0, s1⟩ := swing_factor_range P
  unfold swingDelay
  dsimp only
  split_ifs
  · exact ⟨f32_nonneg (mul_nonneg s0 hv), f32_mono (mul_le_mul_of_nonneg_right s1 hv)⟩
  · exact ⟨le_refl _, f32_nonneg (mul_nonneg (by norm_num) hv)⟩

/-- The swing delay of an odd tick is within a relative `2 ^ (-22)` of a third of
the clamped swing times the period, when neither is tiny. -/
theorem swingDelay_close (a vp : ℚ) (ha : 1 / 2 ^ 60 ≤ a) (hv : 1 / 2 ^ 60 ≤ vp) :
    |f32 (f32 (f32 (1 / 3) * a) * vp) - a / 3 * vp| ≤ a / 3 * vp / 2 ^ 22 := by
  have ha0 : 0 < a := lt_of_lt_of_le (by positivity) ha
  have hv0 : 0 < vp := lt_of_lt_of_le (by positivity) hv
  rw [swing_third]
  have hx1 : (1 : ℚ) / 2 ^ 126 ≤ 11184811 / 33554432 * a := by
    have : (1 : ℚ) / 2 ^ 126 ≤ 11184811 / 33554432 * (1 / 2 ^ 60) := by norm_num
    exact le_trans this (mul_le_mul_of_nonneg_left ha (by norm_num))
  obtain ⟨l1, u1⟩ := f32_rel (11184811 / 33554432 * a) hx1
  have hsw : (1 : ℚ) / 2 ^ 63 ≤ f32 (11184811 / 33554432 * a) := by
    refine le_trans ?_ l1
    have : (1 : ℚ) / 2 ^ 63 ≤ 11184811 / 33554432 * (1 / 2 ^ 60) * (1 - 1 / 2 ^ 24) := by norm_num
    refine le_trans this ?_
    exact mul_le_mul_of_nonneg_right (mul_le_mul_of_nonneg_left ha (by norm_num)) (by norm_num)
  have hx2 : (1 : ℚ) / 2 ^ 126 ≤ f32 (11184811 / 33554432 * a) * vp := by
    have : (1 : ℚ) / 2 ^ 126 ≤ 1 / 2 ^ 63 * (1 / 2 ^ 60) := by norm_num
    exact le_trans this (mul_le_mul hsw hv (by positivity) (le_trans (by positivity) hsw))
  obtain ⟨l2, u2⟩ := f32_rel (f32 (11184811 / 33554432 * a) * vp) hx2
  have lo : 11184811 / 33554432 * a * (1 - 1 / 2 ^ 24) * vp * (1 - 1 / 2 ^ 24)
      ≤ f32 (f32 (11184811 / 33554432 * a) * vp) :=
    le_trans (mul_le_mul_of_nonneg_right (mul_le_mul_of_nonneg_right l1 (le_of_lt hv0))
      (by norm_num)) l2
  have hi : f32 (f32 (11184811 / 33554432 * a) * vp)
      ≤ 11184811 / 33554432 * a * (1 + 1 / 2 ^ 24) * vp * (1 + 1 / 2 ^ 24) :=
    le_trans u2 (mul_le_mul_of_nonneg_right (mul_le_mul_of_nonneg_right u1 (le_of_lt hv0))
      (by norm_num))
  have hw : 0 < a * vp := mul_pos ha0 hv0
  rw [abs_le]
  constructor
  · have : a / 3 * vp - a / 3 * vp / 2 ^ 22
        ≤ 11184811 / 33554432 * a * (1 - 1 / 2 ^ 24) * vp * (1 - 1 / 2 ^ 24) := by
      have e : 11184811 / 33554432 * a * (1 - 1 / 2 ^ 24) * vp * (1 - 1 / 2 ^ 24)
          - (a / 3 * vp - a / 3 * vp / 2 ^ 22)
          = a * vp * (11184811 / 33554432 * (1 - 1 / 2 ^ 24) * (1 - 1 / 2 ^ 24)
              - (1 / 3 - 1 / 3 / 2 ^ 22)) := by ring
      have c : (0 : ℚ) ≤ 11184811 / 33554432 * (1 - 1 / 2 ^ 24) * (1 - 1 / 2 ^ 24)
              - (1 / 3 - 1 / 3 / 2 ^ 22) := by norm_num
      nlinarith [mul_nonneg (le_of_lt hw) c]
    linarith
  · have : 11184811 / 33554432 * a * (1 + 1 / 2 ^ 24) * vp * (1 + 1 / 2 ^ 24)
        ≤ a / 3 * vp + a / 3 * vp / 2 ^ 22 := by
      have e : a / 3 * vp + a / 3 * vp / 2 ^ 22
          - 11184811 / 33554432 * a * (1 + 1 / 2 ^ 24) * vp * (1 + 1 / 2 ^ 24)
          = a * vp * ((1 / 3 + 1 / 3 / 2 ^ 22)
              - 11184811 / 33554432 * (1 + 1 / 2 ^ 24) * (1 + 1 / 2 ^ 24)) := by ring
      have c : (0 : ℚ) ≤ (1 / 3 + 1 / 3 / 2 ^ 22)
              - 11184811 / 33554432 * (1 + 1 / 2 ^ 24) * (1 + 1 / 2 ^ 24) := by norm_num
      nlinarith [mul_nonneg (le_of_lt hw) c]
    linarith

/-- C23 (amended): the swing delay and the deferred tick.  The delay designed for a
tick taken from the queue is 0 when the parity counter is even and, when it is
odd, the single-precision product `((1.f/3.f) * clamp(swing, 0, 0.6f)) * virtPeriod`.
For `virtPeriod ≥ 0` it lies between 0 and the single-precision product of
`0.2000000179` (the value of `(1.f/3.f) * 0.6f`) and `virtPeriod`, hence is at
most `0.20000003 * virtPeriod` for a period that is not tiny; an odd tick's
delay is within a relative `2 ^ (-22)` of `clamp(swing, 0, 0.6f) / 3 * virtPeriod`.
A tick taken from the queue (no deferred tick waiting, queue not empty) gets
this delay and is deferred, with the delay timer at zero, exactly when the delay
exceeds 1e-9.  A deferred tick fires in the first sample in which the delay
timer, advanced by the sample time in single precision, has reached the delay;
until then it stays deferred and the queue is not serviced.  Every fired
step-advance, immediate or deferred, zeroes the anti-bounce timer and, while the
parity counter is below `2 ^ 31 - 1`, increments it by exactly 1; this also
holds at the end of the sample. -/
theorem swing_delay (s m : State) (P : Params) (I : Inputs) :
    (m.swingPhase % 2 = 0 → swingDelay m P = 0) ∧
    (m.swingPhase % 2 = 1 →
      swingDelay m P = f32 (f32 (f32 (1 / 3) * clamp P.swing 0 (f32 0.6)) * m.virtPeriod)) ∧
    (0 ≤ m.virtPeriod →
      0 ≤ swingDelay m P ∧ swingDelay m P ≤ f32 (6710887 / 33554432 * m.virtPeriod)) ∧
    (1 / 2 ^ 100 ≤ m.virtPeriod → swingDelay m P ≤ 0.20000003 * m.virtPeriod) ∧
    (m.swingPhase % 2 = 1 → 1 / 2 ^ 60 ≤ clamp P.swing 0 (f32 0.6) →
      1 / 2 ^ 60 ≤ m.virtPeriod →
      |swingDelay m P - clamp P.swing 0 (f32 0.6) / 3 * m.virtPeriod|
        ≤ clamp P.swing 0 (f32 0.6) / 3 * m.virtPeriod / 2 ^ 22) ∧
    (m.tickPending = false → m.queuedBaseTicks > 0 →
      (swingScheduler m P I.sampleTime).1.pendingDelay = swingDelay m P ∧
      (swingScheduler m P I.sampleTime).1.queuedBaseTicks = m.queuedBaseTicks - 1 ∧
      ((swingScheduler m P I.sampleTime).1.tickPending = true ↔ ¬ swingDelay m P ≤ 1e-9) ∧
      ((swingScheduler m P I.sampleTime).1.tickPending = true →
        (swingScheduler m P I.sampleTime).1.pendingTimer = 0 ∧
        (swingScheduler m P I.sampleTime).2 = false)) ∧
    (m.tickPending = true →
      ((swingScheduler m P I.sampleTime).2 = true
        ↔ m.pendingDelay ≤ f32 (m.pendingTimer + I.sampleTime)) ∧
      ((swingScheduler m P I.sampleTime).2 = true →
        (swingScheduler m P I.sampleTime).1.tickPending = false ∧
        (swingScheduler m P I.sampleTime).1.pendingTimer = 0) ∧
      ((swingScheduler m P I.sampleTime).2 = false →
        (swingScheduler m P I.sampleTime).1.tickPending = true ∧
        (swingScheduler m P I.sampleTime).1.pendingTimer = f32 (m.pendingTimer + I.sampleTime) ∧
        (swingScheduler m P I.sampleTime).1.pendingDelay = m.pendingDelay) ∧
      (swingScheduler m P I.sampleTime).1.queuedBaseTicks = m.queuedBaseTicks) ∧
    ((swingScheduler m P I.sampleTime).2 = true →
      (-2 ^ 31 ≤ m.swingPhase → m.swingPhase < 2 ^ 31 - 1 →
        (swingScheduler m P I.sampleTime).1.swingPhase = m.swingPhase + 1) ∧
      (swingScheduler m P I.sampleTime).1.sinceLastTick = 0) ∧
    ((process s P I).clockNow = true →
      (-2 ^ 31 ≤ (preSwing s P I).swingPhase → (preSwing s P I).swingPhase < 2 ^ 31 - 1 →
        (process s P I).state.swingPhase = (preSwing s P I).swingPhase + 1) ∧
      (process s P I).state.sinceLastTick = 0 ∧
      (I.rstEdge = false → -2 ^ 31 ≤ s.swingPhase → s.swingPhase < 2 ^ 31 - 1 →
        (process s P I).state.swingPhase = s.swingPhase + 1)) ∧
    (I.clkConnected = true → I.rstEdge = false → s.tickPending = true →
      ((process s P I).clockNow = true
        ↔ s.pendingDelay ≤ f32 (s.pendingTimer + I.sampleTime)) ∧
      ((process s P I).clockNow = true →
        (process s P I).state.tickPending = false ∧ (process s P I).state.pendingTimer = 0) ∧
      ((process s P I).clockNow = false →
        (process s P I).state.tickPending = true ∧
        (process s P I).state.pendingTimer = f32 (s.pendingTimer + I.sampleTime) ∧
        (process s P I).state.pendingDelay = s.pendingDelay)) := by
  obtain ⟨a0, a6, -, -⟩ := swing_factor_range P
  refine ⟨fun h => ?_, fun h => ?_, fun hv => swingDelay_bounds m P hv, fun hv => ?_,
    fun h ha hv => ?_, fun hp hq => swingScheduler_takes m P I.sampleTime hp hq,
    fun hp => swingScheduler_deferred m P I.sampleTime hp, fun hf => ?_, fun hq => ?_,
    fun hc hr hp => ?_⟩
  · unfold swingDelay
    dsimp only
    rw [if_neg]
    simp [h]
  · unfold swingDelay
    dsimp only
    rw [if_pos (by simp [h])]
  · have hv0 : 0 ≤ m.virtPeriod := le_trans (by positivity) hv
    have hx : (1 : ℚ) / 2 ^ 126 ≤ 6710887 / 33554432 * m.virtPeriod := by
      have : (1 : ℚ) / 2 ^ 126 ≤ 6710887 / 33554432 * (1 / 2 ^ 100) := by norm_num
      exact le_trans this (mul_le_mul_of_nonneg_left hv (by norm_num))
    refine le_trans (swingDelay_bounds m P hv0).2 (le_trans (f32_rel _ hx).2 ?_)
    have c : (6710887 / 33554432 : ℚ) * (1 + 1 / 2 ^ 24) ≤ 0.20000003 := by norm_num
    calc 6710887 / 33554432 * m.virtPeriod * (1 + 1 / 2 ^ 24)
        = 6710887 / 33554432 * (1 + 1 / 2 ^ 24) * m.virtPeriod := by ring
      _ ≤ 0.20000003 * m.virtPeriod := mul_le_mul_of_nonneg_right c hv0
  · have hd : swingDelay m P
        = f32 (f32 (f32 (1 / 3) * clamp P.swing 0 (f32 0.6)) * m.virtPeriod) := by
      unfold swingDelay
      dsimp only
      rw [if_pos (by simp [h])]
    rw [hd]
    exact swingDelay_close _ _ ha hv
  · have hp1 := (swingScheduler_parity m P I.sampleTime).1 hf
    refine ⟨fun h0 h1 => ?_, swingScheduler_fired m P I.sampleTime hf⟩
    rw [hp1]; exact wrapInt32_succ m.swingPhase h0 h1
  · cases hc : I.clkConnected
    · rw [process_disconnected s P I hc] at hq
      exact absurd hq (by rw [(noClock_ctl _ P I).2.2.2.2]; decide)
    · rw [process_connected s P I hc] at hq ⊢
      have hsf := withClock_swing s (preClock s P I) P I
      unfold swingFrame at hsf
      obtain ⟨f1, -, f3, -⟩ := hsf
      rw [(withClock_ctl s (preClock s P I) P I).2.2.2.2.2.1] at hq
      rw [f1, f3]
      have hp1 := (swingScheduler_parity (preSwing s P I) P I.sampleTime).1 hq
      refine ⟨fun h0 h1 => ?_, swingScheduler_fired _ P I.sampleTime hq,
        fun hr h0 h1 => ?_⟩
      · rw [hp1]; exact wrapInt32_succ _ h0 h1
      · have he := (preSwing_swing s P I).2 hr
        rw [hp1, he]
        exact wrapInt32_succ s.swingPhase h0 h1
  · rw [process_connected s P I hc]
    obtain ⟨q1, q2, q3⟩ := preSwing_pending s P I hr
    obtain ⟨d1, d2, d3, -⟩ := swingScheduler_deferred (preSwing s P I) P I.sampleTime
      (by rw [q1]; exact hp)
    obtain ⟨e1, e2, e3⟩ := withClock_pending s (preClock s P I) P I
    rw [(withClock_ctl s (preClock s P I) P I).2.2.2.2.2.1, e1, e2, e3]
    rw [q2, q3] at d1 d3
    exact ⟨d1, d2, d3⟩

/-- Every entry of the range table has its minimum below its maximum. -/
theorem range_defs_ordered (i : Int) (h0 : 0 ≤ i) (h1 : i ≤ 9) :
    (RANGE_DEFS.getD i.toNat (0, 0)).1 ≤ (RANGE_DEFS.getD i.toNat (0, 0)).2 := by
  interval_cases i <;> decide!

theorem clamp_le_clamp (x y a b : ℚ) (h : x ≤ y) : clamp x a b ≤ clamp y a b := by
  unfold clamp
  exact max_le_max (min_le_min h le_rfl) le_rfl

theorem pitchFrame_refl (a : State) : pitchFrame a a := ⟨rfl, rfl, rfl, rfl⟩

theorem pitchFrame_trans {a b c : State} (h1 : pitchFrame a b) (h2 : pitchFrame b c) :
    pitchFrame a c :=
  ⟨h1.1.trans h2.1, h1.2.1.trans h2.2.1, h1.2.2.1.trans h2.2.2.1, h1.2.2.2.trans h2.2.2.2⟩

/-- The timers, the fold and the reset block leave the glide filter alone. -/
theorem preClock_pitch (s : State) (P : Params) (I : Inputs) : pitchFrame (preClock s P I) s := by
  unfold preClock tickTimers resetBlock pitchFrame
  dsimp only
  split_ifs <;> exact ⟨rfl, rfl, rfl, rfl⟩

theorem clockEdge_pitch (s : State) (ratio : ℚ) : pitchFrame (clockEdge s ratio) s := by
  unfold clockEdge pitchFrame
  dsimp only
  split_ifs <;> exact ⟨rfl, rfl, rfl, rfl⟩

theorem phaseTimeout_pitch (s : State) : pitchFrame (phaseTimeout s) s := by
  unfold phaseTimeout pitchFrame
  dsimp only
  split_ifs <;> exact ⟨rfl, rfl, rfl, rfl⟩

theorem virtualOscillator_pitch (s : State) (dt : ℚ) :
    pitchFrame (virtualOscillator s dt) s := by
  unfold virtualOscillator pitchFrame
  split_ifs <;> exact ⟨rfl, rfl, rfl, rfl⟩

theorem swingScheduler_pitch (s : State) (P : Params) (dt : ℚ) :
    pitchFrame (swingScheduler s P dt).1 s := by
  unfold swingScheduler serviceQueue pendingTick pitchFrame
  dsimp only
  split_ifs <;> exact ⟨rfl, rfl, rfl, rfl⟩

theorem fireGate_pitch (s : State) (P : Params) (I : Inputs) (start : Int) (ratio : ℚ)
    (mute : Bool) : pitchFrame (fireGate s P I start ratio mute).1 s := by
  unfold fireGate pitchFrame
  dsimp only
  split_ifs <;> exact ⟨rfl, rfl, rfl, rfl⟩

theorem tickAndReset_pitch (sw : State × Bool) (P : Params) (I : Inputs) :
    pitchFrame (tickAndReset sw P I).1 sw.1 := by
  unfold tickAndReset
  split_ifs
  · have h := fireGate_pitch (applyNav sw.1 (tickNav sw.1 P I (windowStart P) (windowSteps P)))
      P I (windowStart P) (ratioOf P)
      (muteGlobal P (windowStart P) (windowSteps P)
        (tickNav sw.1 P I (windowStart P) (windowSteps P)))
    unfold pitchFrame at h ⊢
    unfold advance; dsimp only
    split_ifs <;> exact h
  · exact ⟨rfl, rfl, rfl, rfl⟩
  · exact ⟨rfl, rfl, rfl, rfl⟩

/-- The glide filter state that the slew block of a sample starts from is the one
the sample started with. -/
theorem preSlew_pitch (s : State) (P : Params) (I : Inputs) :
    pitchFrame (tickAndReset (swingScheduler (preSwing s P I) P I.sampleTime) P I).1 s := by
  refine pitchFrame_trans (tickAndReset_pitch _ P I)
    (pitchFrame_trans (swingScheduler_pitch _ P _) ?_)
  unfold preSwing
  dsimp only
  refine pitchFrame_trans (virtualOscillator_pitch _ _)
    (pitchFrame_trans (phaseTimeout_pitch _) ?_)
  split_ifs
  · exact pitchFrame_trans (clockEdge_pitch _ _) (preClock_pitch s P I)
  · exact preClock_pitch s P I

/-- The pitch output of a sample: the glide filter of lines 644-652 / 890-900
applied to the state of the filter at the start of the sample, with the target
of the step held after the fold. -/
theorem process_pitch (s : State) (P : Params) (I : Inputs) :
    (process s P I).out.pitch = (process s P I).state.pitchOut ∧
    (process s P I).state.pitchInit = true ∧
    (process s P I).state.pitchOut
      = (if P.slew ≤ 1e-6 then pitchTarget P I (preClock s P I).step
         else
          f32 ((if s.pitchInit = false then pitchTarget P I (preClock s P I).step
                else s.pitchOut)
            + f32 (f32 (pitchTarget P I (preClock s P I).step
                - (if s.pitchInit = false then pitchTarget P I (preClock s P I).step
                   else s.pitchOut))
              * (if I.clkConnected then I.sqrtAlpha else I.expAlpha)))) := by
  obtain ⟨q1, q2, -, -⟩ := preClock_pitch s P I
  cases hc : I.clkConnected
  · rw [process_disconnected s P I hc]
    unfold noClock hardStop slew
    dsimp only
    rw [q1, q2]
    split_ifs <;> simp_all
  · rw [process_connected s P I hc]
    obtain ⟨r1, r2, -, -⟩ := preSlew_pitch s P I
    unfold withClock slew emitPulses
    dsimp only
    rw [r1, r2]
    split_ifs <;> simp_all

/-- The modulation outputs of a sample are those of the step held after the fold. -/
theorem process_mod (s : State) (P : Params) (I : Inputs) :
    (process s P I).out.m1 = mapMod0_10ToRange (P.m1 (preClock s P I).step) s.m1Range ∧
    (process s P I).out.m2 = mapMod0_10ToRange (P.m2 (preClock s P I).step) s.m2Range := by
  obtain ⟨-, -, q3, q4⟩ := preClock_pitch s P I
  rw [← q3, ← q4]
  unfold process
  split_ifs <;> exact ⟨rfl, rfl⟩

/-- The transpose read: within ±48 semitones. -/
theorem xposeSemis_range (I : Inputs) : -48 ≤ xposeSemis I ∧ xposeSemis I ≤ 48 := by
  unfold xposeSemis
  cases I.xpose with
  | none => simp
  | some v =>
    dsimp only
    unfold clamp
    omega

/-- The C library `round`: an integer nearest to the argument, the one farther
from zero when two are equally near. -/
theorem roundHalfAway_spec (y : ℚ) :
    |(roundHalfAway y : ℚ) - y| ≤ 1 / 2 ∧
    (|(roundHalfAway y : ℚ) - y| = 1 / 2 → |y| < |(roundHalfAway y : ℚ)|) := by
  unfold roundHalfAway
  split_ifs with h
  · have h1 := Int.floor_le (y + 1 / 2)
    have h2 := Int.lt_floor_add_one (y + 1 / 2)
    constructor
    · rw [abs_le]; constructor <;> linarith
    · intro he
      have h3 : (⌊y + 1 / 2⌋ : ℚ) - y = 1 / 2 := by
        rcases (abs_eq (by norm_num : (0 : ℚ) ≤ 1 / 2)).mp he with h3 | h3
        · exact h3
        · linarith
      rw [abs_of_nonneg h, abs_of_nonneg (by linarith)]
      linarith
  · have h0 : y < 0 := not_le.mp h
    have h1 := Int.floor_le (-y + 1 / 2)
    have h2 := Int.lt_floor_add_one (-y + 1 / 2)
    push_cast
    constructor
    · rw [abs_le]; constructor <;> linarith
    · intro he
      have h3 : -(⌊-y + 1 / 2⌋ : ℚ) - y = -(1 / 2) := by
        rcases (abs_eq (by norm_num : (0 : ℚ) ≤ 1 / 2)).mp he with h3 | h3
        · linarith
        · exact h3
      rw [abs_of_neg h0, abs_of_neg (by linarith)]
      linarith

/-- The transpose for a connected, finite input `v`, in terms of the
single-precision product `y = f32 (v * 12)`: an integer nearest to `y` (the one
farther from zero at a tie) while `|y| < 48.5`, and 48 above and -48 below as
far as the range of `int` goes. -/
theorem xposeSemis_spec (I : Inputs) (v : ℚ) (hx : I.xpose = some v) :
    (-(97 / 2) < f32 (v * 12) → f32 (v * 12) < 97 / 2 →
      xposeSemis I = roundHalfAway (f32 (v * 12))) ∧
    (97 / 2 ≤ f32 (v * 12) → v * 12 ≤ 2 ^ 31 - 128 → xposeSemis I = 48) ∧
    (f32 (v * 12) ≤ -(97 / 2) → -2 ^ 31 ≤ v * 12 → xposeSemis I = -48) := by
  have hdef : xposeSemis I = clamp (floatToInt (roundHalfAway (f32 (v * 12)))) (-48) 48 := by
    unfold xposeSemis; rw [hx]
  obtain ⟨r1, -⟩ := roundHalfAway_spec (f32 (v * 12))
  rw [abs_le] at r1
  refine ⟨fun h0 h1 => ?_, fun h0 h1 => ?_, fun h0 h1 => ?_⟩
  · have hlo : (-49 : ℚ) < (roundHalfAway (f32 (v * 12)) : ℚ) := by linarith [r1.2]
    have hhi : (roundHalfAway (f32 (v * 12)) : ℚ) < 49 := by linarith [r1.1]
    have hlo2 : -49 < roundHalfAway (f32 (v * 12)) := by exact_mod_cast hlo
    have hhi2 : roundHalfAway (f32 (v * 12)) < 49 := by exact_mod_cast hhi
    rw [hdef]
    unfold floatToInt clamp
    rw [if_pos ⟨by omega, by omega⟩]
    omega
  · have hy : f32 (v * 12) ≤ 2 ^ 31 - 128 := by
      refine f32_le_of_le h1 ?_
      have := f32_grid (2 ^ 24 - 1) 7 (by norm_num) (by omega)
      have e : (((2 ^ 24 - 1 : Int) : ℚ)) * pow2 7 = 2 ^ 31 - 128 := by
        rw [show pow2 7 = 128 from by decide!]
        norm_num
      rwa [e] at this
    have hlo : (48 : ℚ) ≤ (roundHalfAway (f32 (v * 12)) : ℚ) := by linarith [r1.2]
    have hhi : (roundHalfAway (f32 (v * 12)) : ℚ) < 2 ^ 31 := by linarith [r1.1]
    have hlo2 : 48 ≤ roundHalfAway (f32 (v * 12)) := by exact_mod_cast hlo
    have hhi2 : roundHalfAway (f32 (v * 12)) < 2 ^ 31 := by exact_mod_cast hhi
    rw [hdef]
    unfold floatToInt clamp
    rw [if_pos ⟨by omega, hhi2⟩]
    omega
  · have hy : -2 ^ 31 ≤ f32 (v * 12) := by
      refine f32_ge_of_ge h1 ?_
      have := f32_grid (-1) 31 (by norm_num) (by omega)
      have e : (((-1 : Int) : ℚ)) * pow2 31 = -2 ^ 31 := by
        rw [show pow2 31 = 2 ^ 31 from by decide!]
        norm_num
      rwa [e] at this
    have hhi : (roundHalfAway (f32 (v * 12)) : ℚ) ≤ -48 := by linarith [r1.1]
    have hlo : (-2 ^ 31 - 1 : ℚ) < (roundHalfAway (f32 (v * 12)) : ℚ) := by linarith [r1.2]
    have hhi2 : roundHalfAway (f32 (v * 12)) ≤ -48 := by exact_mod_cast hhi
    have hlo2 : -2 ^ 31 - 1 < roundHalfAway (f32 (v * 12)) := by exact_mod_cast hlo
    rw [hdef]
    unfold floatToInt clamp
    rw [if_pos ⟨by omega, by omega⟩]
    omega

/-- The three roundings of the pitch target stay within `2 ^ (-18)` V of
`s / 12 + o` for `|s| ≤ 64` semitones and `|o| ≤ 16` octaves. -/
theorem pitch_rounding (s o : ℚ) (hs : |s| ≤ 64) (ho : |o| ≤ 16) :
    |f32 (f32 (f32 s / 12) + o) - (s / 12 + o)| ≤ 1 / 2 ^ 18 := by
  obtain ⟨s0, s1⟩ := abs_le.mp hs
  obtain ⟨o0, o1⟩ := abs_le.mp ho
  obtain ⟨a0, a1⟩ := abs_le.mp (f32_err s 64 hs)
  have ha : |f32 s / 12| ≤ 65 / 12 := by
    rw [abs_le]
    constructor
    · rw [le_div_iff₀ (by norm_num)]; norm_num at a0 ⊢; linarith
    · rw [div_le_iff₀ (by norm_num)]; norm_num at a1 ⊢; linarith
  obtain ⟨b0, b1⟩ := abs_le.mp (f32_err (f32 s / 12) (65 / 12) ha)
  obtain ⟨ha0, ha1⟩ := abs_le.mp ha
  have hb : |f32 (f32 s / 12) + o| ≤ 22 := by
    rw [abs_le]
    norm_num at b0 b1 ⊢
    constructor <;> linarith
  obtain ⟨c0, c1⟩ := abs_le.mp (f32_err (f32 (f32 s / 12) + o) 22 hb)
  rw [abs_le]
  norm_num at a0 a1 b0 b1 c0 c1 ⊢
  constructor <;> linarith

/-- C25 (amended): the pitch target is `(pitch class + transpose) / 12 + octave` of
the current step computed in single precision (sum, quotient and sum each
rounded), which is within `2 ^ (-18)` V of the exact value for
`|pitch class + transpose| ≤ 64` and `|octave| ≤ 16`.  The transpose is 0 when
the input is disconnected or non-finite.  For a connected, finite input `V` it
is obtained from the single-precision product `y` of `V` and 12, which is within
a relative `2 ^ (-24)` of `12 * V`: while `|y| < 48.5` it is an integer nearest
to `y`, the one farther from zero when two are equally near; it is 48 for
`y ≥ 48.5` and -48 for `y ≤ -48.5`, as long as `12 * V` is within the range of
`int` (`-2 ^ 31 ≤ 12 * V ≤ 2 ^ 31 - 128`).  In every case the transpose is
within ±48 semitones and contributes at most 4 V either way.  The current step
is the one held after the window fold.  When the glide time is at most `1e-6`
the pitch output equals the target exactly, and so it does on a sample that
starts with `pitchInit` cleared, for any smoothing coefficient; either way
`pitchInit` is set afterwards. -/
theorem pitch_target (s : State) (P : Params) (I : Inputs) :
    (∀ st : Int, pitchTarget P I st
      = f32 (f32 (f32 (P.pitch st + (xposeSemis I : ℚ)) / 12) + (P.oct st : ℚ))) ∧
    (∀ st : Int, |P.pitch st + (xposeSemis I : ℚ)| ≤ 64 → |(P.oct st : ℚ)| ≤ 16 →
      |pitchTarget P I st - ((P.pitch st + (xposeSemis I : ℚ)) / 12 + (P.oct st : ℚ))|
        ≤ 1 / 2 ^ 18) ∧
    (I.xpose = none → xposeSemis I = 0) ∧
    (∀ v : ℚ, I.xpose = some v →
      (1 / 2 ^ 126 ≤ |v * 12| → |f32 (v * 12) - v * 12| ≤ |v * 12| / 2 ^ 24) ∧
      (-(97 / 2) < f32 (v * 12) → f32 (v * 12) < 97 / 2 →
        |(xposeSemis I : ℚ) - f32 (v * 12)| ≤ 1 / 2 ∧
        (|(xposeSemis I : ℚ) - f32 (v * 12)| = 1 / 2 →
          |f32 (v * 12)| < |(xposeSemis I : ℚ)|)) ∧
      (97 / 2 ≤ f32 (v * 12) → v * 12 ≤ 2 ^ 31 - 128 → xposeSemis I = 48) ∧
      (f32 (v * 12) ≤ -(97 / 2) → -2 ^ 31 ≤ v * 12 → xposeSemis I = -48)) ∧
    (-48 ≤ xposeSemis I ∧ xposeSemis I ≤ 48) ∧
    (-4 ≤ (xposeSemis I : ℚ) / 12 ∧ (xposeSemis I : ℚ) / 12 ≤ 4) ∧
    (P.slew ≤ 1e-6 →
      (process s P I).out.pitch
        = pitchTarget P I (foldStep s.step (windowStart P) (windowSteps P))) ∧
    (s.pitchInit = false →
      (process s P I).out.pitch
        = pitchTarget P I (foldStep s.step (windowStart P) (windowSteps P))) ∧
    (process s P I).state.pitchInit = true ∧
    (process s P I).state.pitchOut = (process s P I).out.pitch := by
  obtain ⟨x0, x1⟩ := xposeSemis_range I
  obtain ⟨p1, p2, p3⟩ := process_pitch s P I
  have hq0 : (-48 : ℚ) ≤ (xposeSemis I : ℚ) := by exact_mod_cast x0
  have hq1 : (xposeSemis I : ℚ) ≤ 48 := by exact_mod_cast x1
  refine ⟨fun st => rfl, fun st hs ho => pitch_rounding _ _ hs ho, fun h => ?_, fun v h => ?_,
    ⟨x0, x1⟩, ⟨by linarith, by linarith⟩, fun h => ?_, fun h => ?_, p2, p1.symm⟩
  · unfold xposeSemis; rw [h]
  · obtain ⟨c1, c2, c3⟩ := xposeSemis_spec I v h
    refine ⟨fun hn => f32_rel_abs _ hn, fun h0 h1 => ?_, c2, c3⟩
    rw [c1 h0 h1]
    exact roundHalfAway_spec _
  · rw [p1, p3, if_pos h, preClock_step]
  · rw [p1, p3, preClock_step]
    have hfix : f32 (pitchTarget P I (foldStep s.step (windowStart P) (windowSteps P)))
        = pitchTarget P I (foldStep s.step (windowStart P) (windowSteps P)) := f32_idem _
    simp only [h, eq_self_iff_true, if_true]
    split_ifs
    · rfl
    all_goals rw [sub_self, f32_zero, zero_mul, f32_zero, add_zero, hfix]

/-- The `anyPlayable` scan finds a non-Skip slot of the window if there is one. -/
theorem anyPlayable_of_nonskip (mode : Int → Int) (start : Int) (n : Nat) :
    ∀ k : Int, (∃ j, k ≤ j ∧ j < k + n ∧ mode (wrap16 (start + j)) ≠ 2) →
      anyPlayable mode start n k = true := by
  induction n with
  | zero =>
    intro k h
    obtain ⟨j, h1, h2, -⟩ := h
    simp only [Nat.cast_zero, add_zero] at h2
    omega
  | succ n ih =>
    intro k h
    obtain ⟨j, h1, h2, h3⟩ := h
    unfold anyPlayable
    by_cases hk : mode (wrap16 (start + k)) ≠ 2
    · rw [if_pos hk]
    · rw [if_neg hk]
      have hjk : j ≠ k := by
        intro he
        rw [he] at h3
        exact hk h3
      exact ih (k + 1) ⟨j, by omega, by push_cast at h2 ⊢; omega, h3⟩

/-- A tick that selects a Play step is never muted globally: the selected step
lies in the window, so the window is not all-Skip. -/
theorem mute_of_play (s : State) (P : Params) (I : Inputs) (start steps : Int)
    (hs : 0 ≤ start ∧ start ≤ 15) (hl : 1 ≤ steps ∧ steps ≤ 16)
    (hstep : 0 ≤ s.step ∧ s.step ≤ 15) (hwin : relOf s.step start < steps)
    (hm : P.stepMode (tickNav s P I start steps).nextStep = 0) :
    muteGlobal P start steps (tickNav s P I start steps) = false := by
  have hrel0 : 0 ≤ relOf s.step start := (wrap16_range _).1
  obtain ⟨w1, w2⟩ := tickNav_window s P I start steps hs hl hwin
  obtain ⟨w3, w4⟩ := w2 hstep
  have hany : anyPlayable P.stepMode start steps.toNat 0 = true := by
    refine anyPlayable_of_nonskip P.stepMode start steps.toNat 0
      ⟨relOf (tickNav s P I start steps).nextStep start, (wrap16_range _).1, ?_, ?_⟩
    · have := Int.toNat_of_nonneg (show 0 ≤ steps by omega)
      omega
    · rw [wrap16_relOf _ start w3 w4, hm]
      decide
  unfold muteGlobal
  by_cases hd : clamp P.dirMode 0 4 = 0 ∨ clamp P.dirMode 0 4 = 1
  · rw [if_pos hd]
    -- Forward / Backward: the flag of the lookup, or of the replayed step
    have hflag : ∀ dir : Int,
        (findNextPlayable P.stepMode start steps dir (relOf s.step start)).2 = true →
        P.stepMode (findNextPlayable P.stepMode start steps dir (relOf s.step start)).1 = 2 := by
      intro dir hf
      obtain ⟨f1, f2, -, -⟩ := findNextPlayable_scan P.stepMode start steps dir
        (relOf s.step start) hs hl ⟨hrel0, hwin⟩
      have hall : ∀ j, 0 ≤ j → j < steps → P.stepMode (wrap16 (start + j)) = 2 := by
        intro j h0 h1
        by_contra hj
        have := (f1 ⟨j, h0, h1, hj⟩).1
        rw [hf] at this
        exact Bool.noConfusion this
      rw [(f2 hall).2]
      obtain ⟨r0, r1⟩ := scanOffset_range (dir == 0) (relOf s.step start) steps 1 (by omega)
      exact hall _ r0 r1
    cases hp : s.playCurrentOnNextTick
    · have hnav : tickNav s P I start steps
          = navigate s P.stepMode start steps (clamp P.dirMode 0 4) I.uniform := by
        unfold tickNav
        rw [hp]
        rfl
      rw [hnav] at hm ⊢
      rcases hd with h | h
      · rw [h] at hm ⊢
        simp only [navigate, true_or, if_true] at hm ⊢
        cases hf : (findNextPlayable P.stepMode start steps 0 (relOf s.step start)).2
        · rfl
        · have := hflag 0 hf
          rw [hm] at this
          exact absurd this (by decide)
      · rw [h] at hm ⊢
        simp only [navigate, one_ne_zero, or_true, if_true, if_false] at hm ⊢
        cases hf : (findNextPlayable P.stepMode start steps 1 (relOf s.step start)).2
        · rfl
        · have := hflag 1 hf
          rw [hm] at this
          exact absurd this (by decide)
    · have hnav : tickNav s P I start steps
          = { nextStep := s.step, wrapped := false, allSkip := P.stepMode s.step == 2,
              pingDir := s.pingDir, drunkDir := s.drunkDir } := by
        unfold tickNav
        rw [hp]
        rfl
      rw [hnav] at hm ⊢
      dsimp only at hm ⊢
      rw [hm]
      decide
  · rw [if_neg hd, hany]
    rfl

/-- C26: the global mute flag is redundant.  On every step-advance, in every
direction mode and both on normal and on replay ticks, with the current step a
slot index inside the window: if the step selected by the tick is in Play mode
the aggregate pulse and the per-step pulse at the step's window offset are
triggered with the gate length of that step; in every other case the aggregate
pulse is reset and no pulse is triggered. -/
theorem mute_flag_redundant (s : State) (P : Params) (I : Inputs) (start steps : Int)
    (ratio : ℚ) (hs : 0 ≤ start ∧ start ≤ 15) (hl : 1 ≤ steps ∧ steps ≤ 16)
    (hstep : 0 ≤ s.step ∧ s.step ≤ 15) (hwin : relOf s.step start < steps) :
    (P.stepMode (tickNav s P I start steps).nextStep = 0 →
      (advance s P I start steps ratio).2.fired
        = some (relOf (tickNav s P I start steps).nextStep start,
            gateLength P.gateMode (P.dur (tickNav s P I start steps).nextStep) ratio
              s.virtPeriod I.sampleTime) ∧
      (advance s P I start steps ratio).1.gatePulse
        = pulseTrigger s.gatePulse
            (gateLength P.gateMode (P.dur (tickNav s P I start steps).nextStep) ratio
              s.virtPeriod I.sampleTime) ∧
      (advance s P I start steps ratio).1.stepGateTrig
          (relOf (tickNav s P I start steps).nextStep start)
        = pulseTrigger (s.stepGateTrig (relOf (tickNav s P I start steps).nextStep start))
            (gateLength P.gateMode (P.dur (tickNav s P I start steps).nextStep) ratio
              s.virtPeriod I.sampleTime)) ∧
    (P.stepMode (tickNav s P I start steps).nextStep ≠ 0 →
      (advance s P I start steps ratio).2.fired = none ∧
      (advance s P I start steps ratio).1.gatePulse = 0 ∧
      (advance s P I start steps ratio).1.stepGateTrig = s.stepGateTrig) ∧
    ((∃ kg, (advance s P I start steps ratio).2.fired = some kg) ↔
      P.stepMode (tickNav s P I start steps).nextStep = 0) := by
  have hplay : P.stepMode (tickNav s P I start steps).nextStep = 0 →
      (advance s P I start steps ratio).2.fired
        = some (relOf (tickNav s P I start steps).nextStep start,
            gateLength P.gateMode (P.dur (tickNav s P I start steps).nextStep) ratio
              s.virtPeriod I.sampleTime) := by
    intro hm
    have hmute := mute_of_play s P I start steps hs hl hstep hwin hm
    have hstp : (applyNav s (tickNav s P I start steps)).step
        = (tickNav s P I start steps).nextStep := rfl
    simp only [advance, fireGate, hmute, hstp, hm, Bool.not_false, Bool.true_and, beq_self_eq_true,
      if_true]
    rfl
  have hcut : P.stepMode (tickNav s P I start steps).nextStep ≠ 0 →
      (advance s P I start steps ratio).2.fired = none ∧
      (advance s P I start steps ratio).1.gatePulse = 0 ∧
      (advance s P I start steps ratio).1.stepGateTrig = s.stepGateTrig := by
    intro hm
    obtain ⟨c1, c2, c3⟩ := fireGate_pulses_cut (applyNav s (tickNav s P I start steps)) P I start
      ratio (muteGlobal P start steps (tickNav s P I start steps)) hm
    unfold advance
    dsimp only
    refine ⟨c1, ?_, ?_⟩
    · split_ifs
      · exact c2
      · exact c2
    · split_ifs
      · exact c3
      · exact c3
  refine ⟨fun hm => ?_, hcut, ?_⟩
  · have hf := hplay hm
    obtain ⟨-, -, -, a4, a5⟩ := advance_fired_length s P I start steps ratio _ _ hf
    exact ⟨hf, a4, a5⟩
  · constructor
    · rintro ⟨kg, hkg⟩
      by_contra hm
      rw [(hcut hm).1] at hkg
      exact Option.noConfusion hkg
    · intro hm
      exact ⟨_, hplay hm⟩

/-- A sample reports a tick trace exactly when a step-advance fired: the clock
is connected, `clockNow` is set, and the trace is that of the step-advance on
the state left by the swing scheduler. -/
theorem process_tick (s : State) (P : Params) (I : Inputs) (T : TickTrace)
    (ht : (process s P I).tick = some T) :
    I.clkConnected = true ∧ (process s P I).clockNow = true ∧
    (swingScheduler (preSwing s P I) P I.sampleTime).2 = true ∧
    T = (advance (swingScheduler (preSwing s P I) P I.sampleTime).1 P I (windowStart P)
          (windowSteps P) (ratioOf P)).2 ∧
    tickAndReset (swingScheduler (preSwing s P I) P I.sampleTime) P I
      = ((advance (swingScheduler (preSwing s P I) P I.sampleTime).1 P I (windowStart P)
          (windowSteps P) (ratioOf P)).1, some T) := by
  cases hc : I.clkConnected
  · rw [process_disconnected s P I hc] at ht
    exact absurd ht (by simp [noClock])
  · rw [process_connected s P I hc] at ht ⊢
    obtain ⟨-, -, -, -, -, c6, c7⟩ := withClock_ctl s (preClock s P I) P I
    rw [c7] at ht
    rw [c6]
    cases h2 : (swingScheduler (preSwing s P I) P I.sampleTime).2
    · exfalso
      unfold tickAndReset at ht
      rw [if_neg (by rw [h2]; decide)] at ht
      split_ifs at ht
    · have htr := tickAndReset_tick (swingScheduler (preSwing s P I) P I.sampleTime) P I h2
      rw [htr] at ht
      simp only [Option.some.injEq] at ht
      refine ⟨rfl, rfl, rfl, ht.symm, ?_⟩
      rw [htr, ht]

/-- The state that enters the step-advance holds the folded step, which lies in
the window. -/
theorem tick_state_window (s : State) (P : Params) (I : Inputs) :
    (swingScheduler (preSwing s P I) P I.sampleTime).1.step
      = foldStep s.step (windowStart P) (windowSteps P) ∧
    relOf (swingScheduler (preSwing s P I) P I.sampleTime).1.step (windowStart P)
      < windowSteps P := by
  have h := (swing_ctl s P I).1
  rw [preClock_step] at h
  refine ⟨h, ?_⟩
  rw [h]
  exact (foldStep_window s.step _ _ (windowSteps_range P)).1

/-- A triggered pulse is high when sampled. -/
theorem pulseTrigger_high (remaining g dt : ℚ) (hg : 0 < g) :
    (pulseProcess (pulseTrigger remaining g) dt).2 = true := by
  have hpos : 0 < pulseTrigger remaining g := by
    unfold pulseTrigger
    split_ifs with h
    · exact hg
    · exact lt_of_lt_of_le hg (not_lt.mp h)
  unfold pulseProcess
  rw [if_pos hpos]

/-- The channels emitted on the per-step output: one per window offset, high
while the generator at that offset has time remaining. -/
theorem emitPulses_channels (s : State) (steps : Int) (dt : ℚ) :
    (emitPulses s steps dt).2.2.1
      = (List.range steps.toNat).map fun ch : Nat =>
          if (pulseProcess (s.stepGateTrig (ch : Int)) dt).2 then (10 : ℚ) else 0 := by
  have h : ∀ (f : Int → ℚ) (l : List Nat),
      List.map f (l.flatMap fun a => [(a : Int)]) = l.map fun ch : Nat => f (ch : Int) := by
    intro f l
    induction l with
    | nil => rfl
    | cons a t ih => simp [List.flatMap_cons, ih]
  unfold emitPulses
  simp only [Function.comp_def]
  exact h _ _

/-- C27: per-step pulse indexing.  Whenever a sample triggers a per-step pulse,
its index `k` is the window offset of the step selected by the tick, it
satisfies `0 ≤ k < length` (and `k < 16`, so the access to the 16 generators is
in bounds), the per-step output of that sample has `length` channels, and
channel `k` is one of them and is high (10 V). -/
theorem per_step_pulse_index (s : State) (P : Params) (I : Inputs) (T : TickTrace) (k : Int)
    (g : ℚ) (ht : (process s P I).tick = some T) (hf : T.fired = some (k, g)) :
    k = relOf (tickNav (swingScheduler (preSwing s P I) P I.sampleTime).1 P I (windowStart P)
          (windowSteps P)).nextStep (windowStart P) ∧
    (0 ≤ k ∧ k < windowSteps P ∧ k < 16) ∧
    (process s P I).out.stepGates.length = (windowSteps P).toNat ∧
    k.toNat < (process s P I).out.stepGates.length ∧
    (process s P I).out.stepGates.getD k.toNat 0 = 10 := by
  obtain ⟨hc, -, -, hT, htr⟩ := process_tick s P I T ht
  rw [hT] at hf
  obtain ⟨a1, -, a3, -, a5⟩ := advance_fired_length _ P I _ _ _ k g hf
  obtain ⟨-, hwin⟩ := tick_state_window s P I
  obtain ⟨w1, -⟩ := tickNav_window (swingScheduler (preSwing s P I) P I.sampleTime).1 P I
    (windowStart P) (windowSteps P) (windowStart_range P) (windowSteps_range P) hwin
  have hl := windowSteps_range P
  have hk0 : 0 ≤ k := by rw [a1]; exact (wrap16_range _).1
  have hk1 : k < windowSteps P := by rw [a1]; exact w1
  have hgpos : 0 < g := by rw [a3]; exact gateLength_pos _ _ _ _ _
  obtain ⟨-, -, -, -, w5, -⟩ := withClock_pulses s (preClock s P I) P I
  have hout : (process s P I).out.stepGates
      = (List.range (windowSteps P).toNat).map fun ch : Nat =>
          if (pulseProcess
            ((advance (swingScheduler (preSwing s P I) P I.sampleTime).1 P I (windowStart P)
              (windowSteps P) (ratioOf P)).1.stepGateTrig (ch : Int)) I.sampleTime).2
          then (10 : ℚ) else 0 := by
    rw [process_connected s P I hc, w5, htr]
    exact emitPulses_channels _ _ _
  have hlen : (process s P I).out.stepGates.length = (windowSteps P).toNat := by
    rw [hout]
    simp
  have hkn : k.toNat < (windowSteps P).toNat := by omega
  refine ⟨a1, ⟨hk0, hk1, by omega⟩, hlen, by rw [hlen]; exact hkn, ?_⟩
  have hmax : max k 0 = k := max_eq_left hk0
  have hhigh : (pulseProcess
      ((advance (swingScheduler (preSwing s P I) P I.sampleTime).1 P I (windowStart P)
        (windowSteps P) (ratioOf P)).1.stepGateTrig k) I.sampleTime).2 = true := by
    rw [a5]
    exact pulseTrigger_high _ g _ hgpos
  rw [hout]
  simp [List.getD_eq_getElem?_getD, List.getElem?_range hkn, hmax, hhigh]

/-- A sample leaves the range selectors of the modulation outputs alone. -/
theorem process_ranges (s : State) (P : Params) (I : Inputs) :
    (process s P I).state.m1Range = s.m1Range ∧ (process s P I).state.m2Range = s.m2Range := by
  cases hc : I.clkConnected
  · rw [process_disconnected s P I hc]
    obtain ⟨-, -, q3, q4⟩ := preClock_pitch s P I
    rw [← q3, ← q4]
    unfold noClock hardStop slew
    dsimp only
    split_ifs <;> exact ⟨rfl, rfl⟩
  · rw [process_connected s P I hc]
    obtain ⟨-, -, r3, r4⟩ := preSlew_pitch s P I
    rw [← r3, ← r4]
    unfold withClock slew emitPulses
    dsimp only
    split_ifs <;> exact ⟨rfl, rfl⟩

/-- C28 (amended): output ordering.  In a sample with a step-advance, let `a` be
the step held after the window fold and `b` the step selected by the tick.  The
modulation outputs and the pitch target of that sample are those of `a`, while
the gate fired in that sample has `b`'s window offset, mode and duration.  If no
reset request is pending at the tick, the navigator is left on `b`, and in the
following sample (same window) the modulation outputs and the pitch target are
those of `b`.  If a reset request is pending, the navigator is moved to the
reset target after the gate has fired; on a replay tick `b` is `a`. -/
theorem output_ordering (s : State) (P : Params) (I : Inputs) (m : State) (a b : Int)
    (hq : (process s P I).clockNow = true)
    (hm : m = (swingScheduler (preSwing s P I) P I.sampleTime).1)
    (ha : a = foldStep s.step (windowStart P) (windowSteps P))
    (hb : b = (tickNav m P I (windowStart P) (windowSteps P)).nextStep) :
    m.step = a ∧
    ((process s P I).out.m1 = mapMod0_10ToRange (P.m1 a) s.m1Range ∧
      (process s P I).out.m2 = mapMod0_10ToRange (P.m2 a) s.m2Range ∧
      (P.slew ≤ 1e-6 → (process s P I).out.pitch = pitchTarget P I a)) ∧
    (∃ T : TickTrace, (process s P I).tick = some T ∧
      ∀ (k : Int) (g : ℚ), T.fired = some (k, g) →
        k = relOf b (windowStart P) ∧ P.stepMode b = 0 ∧
        g = gateLength P.gateMode (P.dur b) (ratioOf P) m.virtPeriod I.sampleTime) ∧
    (m.resetPending = false →
      (process s P I).state.step = b ∧
      ∀ (P2 : Params) (I2 : Inputs), windowStart P2 = windowStart P →
        windowSteps P2 = windowSteps P →
        (process (process s P I).state P2 I2).out.m1 = mapMod0_10ToRange (P2.m1 b) s.m1Range ∧
        (process (process s P I).state P2 I2).out.m2 = mapMod0_10ToRange (P2.m2 b) s.m2Range ∧
        (P2.slew ≤ 1e-6 →
          (process (process s P I).state P2 I2).out.pitch = pitchTarget P2 I2 b)) ∧
    (m.resetPending = true → (process s P I).state.step = m.resetTargetStep) ∧
    (m.playCurrentOnNextTick = true → b = a) := by
  have hc : I.clkConnected = true := by
    cases hc : I.clkConnected
    · rw [process_disconnected s P I hc] at hq
      exact absurd hq (by rw [(noClock_ctl _ P I).2.2.2.2]; decide)
    · rfl
  obtain ⟨t1, t2⟩ := tick_state_window s P I
  rw [← hm] at t1 t2
  obtain ⟨c1, -, -, -, -, c6, c7⟩ := withClock_ctl s (preClock s P I) P I
  have hsw : (swingScheduler (preSwing s P I) P I.sampleTime).2 = true := by
    rw [process_connected s P I hc, c6] at hq
    exact hq
  have htr := tickAndReset_tick (swingScheduler (preSwing s P I) P I.sampleTime) P I hsw
  rw [← hm] at htr
  obtain ⟨o1, o2⟩ := process_mod s P I
  obtain ⟨p1, -, p3⟩ := process_pitch s P I
  obtain ⟨n1, -⟩ := advance_nav m P I (windowStart P) (windowSteps P) (ratioOf P)
  have hstep : (process s P I).state.step
      = (advance m P I (windowStart P) (windowSteps P) (ratioOf P)).1.step := by
    rw [process_connected s P I hc, c1, htr]
  have hfold : (preClock s P I).step = a := by rw [preClock_step, ha]
  refine ⟨by rw [t1, ha], ⟨by rw [o1, hfold], by rw [o2, hfold], fun h => ?_⟩,
    ⟨_, by rw [process_connected s P I hc, c7, htr], fun k g hf => ?_⟩,
    fun hrp => ⟨?_, fun P2 I2 h1 h2 => ?_⟩, fun hrp => ?_, fun hp => ?_⟩
  · rw [p1, p3, if_pos h, hfold]
  · obtain ⟨a1, a2, a3, -⟩ := advance_fired_length m P I _ _ _ k g hf
    rw [← hb] at a1 a2 a3
    exact ⟨a1, a2, a3⟩
  · rw [hstep, n1, hrp, hb]
    rfl
  · have hst : (process s P I).state.step = b := by
      rw [hstep, n1, hrp, hb]
      rfl
    obtain ⟨w1, -⟩ := tickNav_window m P I (windowStart P) (windowSteps P) (windowStart_range P)
      (windowSteps_range P) t2
    rw [← hb] at w1
    have hkeep : (preClock (process s P I).state P2 I2).step = b := by
      rw [preClock_step, hst, h1, h2]
      exact (foldStep_window b _ _ (windowSteps_range P)).2.1 w1
    obtain ⟨o3, o4⟩ := process_mod (process s P I).state P2 I2
    obtain ⟨p4, -, p6⟩ := process_pitch (process s P I).state P2 I2
    obtain ⟨g1, g2⟩ := process_ranges s P I
    refine ⟨by rw [o3, hkeep, g1], by rw [o4, hkeep, g2], fun h => ?_⟩
    rw [p4, p6, if_pos h, hkeep]
  · rw [hstep, n1, hrp]
    rfl
  · rw [hb, ha, ← t1]
    unfold tickNav
    rw [hp]
    rfl

/-- C29: the two skip-aware lookups are the same function.  For every start,
length, current offset and step-mode assignment, `findNeighborPlayable` with
sign `dirSign` returns the same slot and the same `allSkip` flag as
`findNextPlayable` with direction `dir`, whenever `dirSign > 0` is equivalent to
`dir = 0`. -/
theorem lookups_agree (mode : Int → Int) (start len currentRel dir dirSign : Int)
    (h : dirSign > 0 ↔ dir = 0) :
    findNeighborPlayable mode start len currentRel dirSign
      = findNextPlayable mode start len dir currentRel := by
  have hb : decide (dirSign > 0) = (dir == 0) := by
    by_cases hd : dir = 0
    · simp [hd, h.mpr hd]
    · have : ¬ dirSign > 0 := fun hs => hd (h.mp hs)
      simp [hd, this]
  unfold findNeighborPlayable findNextPlayable
  rw [hb]

/-- The two outcomes of the timeout block. -/
theorem phaseTimeout_cases (m : State) :
    ((m.havePhase = true ∧
        m.sinceLastEdge > (if m.lastPeriod > 1e-4 then clamp (m.lastPeriod * 2) (f32 0.1) 1.0 else 0.5)) →
      phaseTimeout m = { m with havePhase := false, virtTimer := 0 }) ∧
    (¬ (m.havePhase = true ∧
        m.sinceLastEdge > (if m.lastPeriod > 1e-4 then clamp (m.lastPeriod * 2) (f32 0.1) 1.0 else 0.5)) →
      phaseTimeout m = m) := by
  constructor
  · intro h
    unfold phaseTimeout
    dsimp only
    rw [if_pos h]
  · intro h
    unfold phaseTimeout
    dsimp only
    rw [if_neg h]

/-- The timeout in force for a recorded period of more than half a second is the
cap, 1.0 s. -/
theorem timeout_capped (T : ℚ) (hT : 1 < T) :
    (if T > 1e-4 then clamp (T * 2) (f32 0.1) 1.0 else 0.5) = (1 : ℚ) := by
  rw [if_pos (lt_trans (by norm_num) hT)]
  unfold clamp
  rw [min_eq_right (by linarith), max_eq_left (by rw [f32_tenth]; norm_num)]
  norm_num

/-- Without a locked phase the oscillator block does nothing. -/
theorem virtualOscillator_off (m : State) (dt : ℚ) (h : m.havePhase = false) :
    virtualOscillator m dt = m := by
  unfold virtualOscillator
  rw [if_neg (by rw [h]; simp)]

/-- Every reading of a sample-time accumulator is a binary32 value. -/
theorem timerAfter_fix (dt : ℚ) (n : Nat) : f32 (timerAfter dt n) = timerAfter dt n := by
  cases n with
  | zero => exact f32_zero
  | succ n => exact f32_idem _

/-- The readings of a sample-time accumulator do not decrease. -/
theorem timerAfter_mono (dt : ℚ) (hdt : 0 ≤ dt) {a b : Nat} (h : a ≤ b) :
    timerAfter dt a ≤ timerAfter dt b := by
  induction b with
  | zero =>
    have : a = 0 := by omega
    rw [this]
  | succ b ih =>
    rcases Nat.lt_or_ge a (b + 1) with hlt | hge
    · refine le_trans (ih (by omega)) ?_
      show timerAfter dt b ≤ f32 (timerAfter dt b + dt)
      exact f32_ge_of_ge (by linarith) (timerAfter_fix dt b)
    · have : a = b + 1 := by omega
      rw [this]

theorem timerAfter_nonneg (dt : ℚ) (hdt : 0 ≤ dt) (n : Nat) : 0 ≤ timerAfter dt n :=
  timerAfter_mono dt hdt (Nat.zero_le n)

/-- Every divisor of the ratio table is at most 3/4. -/
theorem ratioOf_divisor (P : Params) (h : ratioOf P < 1) : ratioOf P ≤ 3 / 4 := by
  unfold ratioOf at h ⊢
  have hn : (clamp P.ratioIdx 0 (NUM_RATIOS - 1)).toNat < 29 := by
    have : NUM_RATIOS = 29 := by decide
    rw [this]; unfold clamp; omega
  generalize (clamp P.ratioIdx 0 (NUM_RATIOS - 1)).toNat = n at h hn
  rw [ratio_table_values] at h ⊢
  interval_cases n <;> first | decide! | exact absurd h (by decide!)

/-- The oscillator period of a divided clock is longer than the measured period
of more than a second. -/
theorem divided_period_longer (T ratio : ℚ) (hT : 1 < T) (hr0 : 0 < ratio)
    (hr : ratio ≤ 3 / 4) : T < f32 (T / ratio) := by
  have hq : 4 / 3 * T ≤ T / ratio := by
    rw [le_div_iff₀ hr0]
    nlinarith
  have h1 : (1 : ℚ) / 2 ^ 126 ≤ 4 / 3 * T := by
    have : (1 : ℚ) / 2 ^ 126 ≤ 1 := by norm_num
    linarith
  have h2 := (f32_rel (4 / 3 * T) h1).1
  have h3 : f32 (4 / 3 * T) ≤ f32 (T / ratio) := f32_mono hq
  have h4 : T < 4 / 3 * T * (1 - 1 / 2 ^ 24) := by
    have : (1 : ℚ) < 4 / 3 * (1 - 1 / 2 ^ 24) := by norm_num
    nlinarith
  linarith

/-- One sample of a slow divided clock: the steady state is kept and no
step-advance fires. -/
theorem slow_step (s : State) (P : Params) (T vp dt : ℚ) (period j : Nat)
    (hTN : T = timerAfter dt period) (hr : ratioOf P < 1)
    (hvpe : f32 (T / ratioOf P) = vp) (hdt : 0 ≤ dt) (hslow : 1 < timerAfter dt (period - 1))
    (hS : SlowClock s T vp dt period j) :
    SlowClock (process s P (clockSample P dt period 0 (j + 1)).2).state T vp dt period (j + 1) ∧
    (process s P (clockSample P dt period 0 (j + 1)).2).clockNow = false ∧
    (process s P (clockSample P dt period 0 (j + 1)).2).state.step
      = foldStep s.step (windowStart P) (windowSteps P) := by
  obtain ⟨s1, s2, s3, s4, s5, s6, s7, s8, s9⟩ := hS
  have hr0 : (0 : ℚ) < ratioOf P := lt_of_lt_of_le (by norm_num) (ratioOf_ge P)
  have hN2 : 2 ≤ period := by
    by_contra hc
    have h0 : period - 1 = 0 := by omega
    rw [h0] at hslow
    exact absurd hslow (by simp [timerAfter])
  have hN : 0 < period := by omega
  have hT1 : 1 < T := by
    rw [hTN]
    exact lt_of_lt_of_le hslow (timerAfter_mono dt hdt (by omega))
  have hTvp : T < vp := by
    rw [← hvpe]
    exact divided_period_longer T (ratioOf P) hT1 hr0 (ratioOf_divisor P hr)
  have hvp : 0 < vp := by linarith
  have hI1 : (clockSample P dt period 0 (j + 1)).2.clkConnected = true := rfl
  have hI2 : (clockSample P dt period 0 (j + 1)).2.rstEdge = false := rfl
  have hI3 : (clockSample P dt period 0 (j + 1)).2.sampleTime = dt := rfl
  have hI4 : (clockSample P dt period 0 (j + 1)).2.clkEdge = ((j + 1) % period == 0) := rfl
  obtain ⟨q1, q2, q3, q4, q5, q6, -, q8, q9, -⟩ :=
    preClock_quiet s P (clockSample P dt period 0 (j + 1)).2 hI1 hI2
  rw [hI3] at q5 q6
  have hacc : f32 (s.timeSinceClk + dt) = timerAfter dt (j % period + 1) := by
    rw [s7]; rfl
  -- the state before the swing scheduler
  have hpre : (preSwing s P (clockSample P dt period 0 (j + 1)).2).lastPeriod = T ∧
      (preSwing s P (clockSample P dt period 0 (j + 1)).2).virtPeriod = vp ∧
      (preSwing s P (clockSample P dt period 0 (j + 1)).2).queuedBaseTicks = 0 ∧
      (preSwing s P (clockSample P dt period 0 (j + 1)).2).tickPending = false ∧
      (preSwing s P (clockSample P dt period 0 (j + 1)).2).sinceLastEdge
        = (preSwing s P (clockSample P dt period 0 (j + 1)).2).timeSinceClk ∧
      (preSwing s P (clockSample P dt period 0 (j + 1)).2).timeSinceClk
        = timerAfter dt ((j + 1) % period) ∧
      ((preSwing s P (clockSample P dt period 0 (j + 1)).2).sinceLastEdge ≤ 1 →
        (preSwing s P (clockSample P dt period 0 (j + 1)).2).havePhase = true ∧
        0 ≤ (preSwing s P (clockSample P dt period 0 (j + 1)).2).virtTimer ∧
        (preSwing s P (clockSample P dt period 0 (j + 1)).2).virtTimer
          ≤ timerAfter dt ((j + 1) % period + 1)) ∧
      (1 < (preSwing s P (clockSample P dt period 0 (j + 1)).2).sinceLastEdge →
        (preSwing s P (clockSample P dt period 0 (j + 1)).2).havePhase = false ∧
        (preSwing s P (clockSample P dt period 0 (j + 1)).2).virtTimer = 0) := by
    rcases succ_mod_cases j period hN with ⟨h0, h1⟩ | ⟨h0, h1⟩
    · -- the edge sample
      have hk : j % period = period - 1 := by omega
      have hsle : 1 < s.sinceLastEdge := by
        rw [s6, s7, hk]; exact hslow
      obtain ⟨z1, z2⟩ := s9 hsle
      have hmeas : (preClock s P (clockSample P dt period 0 (j + 1)).2).timeSinceClk = T := by
        rw [q5, hacc, h1, hTN]
      obtain ⟨e1, e2, e3, e4, e5, e6, -, e8, e9⟩ :=
        clockEdge_divisor (preClock s P (clockSample P dt period 0 (j + 1)).2) (ratioOf P) hr
          (ratioOf_ge P) (by rw [hmeas]; exact lt_trans (by norm_num) hT1)
      have hps : preSwing s P (clockSample P dt period 0 (j + 1)).2
          = virtualOscillator
              (clockEdge (preClock s P (clockSample P dt period 0 (j + 1)).2) (ratioOf P)) dt := by
        unfold preSwing
        dsimp only
        rw [hI4, h0, hI3]
        simp only [beq_self_eq_true, if_true]
        rw [phaseTimeout_after_edge _ e6]
      have hvt0 : (clockEdge (preClock s P (clockSample P dt period 0 (j + 1)).2)
          (ratioOf P)).virtTimer = 0 := by rw [e4, q4, z2]
      have hone : f32 ((0 : ℚ) + dt) = timerAfter dt 1 := rfl
      have hone_le : timerAfter dt 1 ≤ T := by
        rw [hTN]; exact timerAfter_mono dt hdt (by omega)
      rw [hps, virtualOscillator_run _ dt vp e1 (by rw [e3, hmeas, hvpe]) hvp
        (by rw [hvt0, hone]; linarith)]
      dsimp only
      rw [hvt0, e2, e3, e5, e6, e8, e9, q8, q9, hmeas, hvpe, s3, s4, h0, e1, hone]
      refine ⟨rfl, rfl, rfl, rfl, rfl, rfl, fun _ => ⟨rfl, timerAfter_nonneg dt hdt 1, le_refl _⟩,
        fun h => absurd h (by norm_num)⟩
    · -- a sample without edge
      have hne : ¬ (j + 1) % period = 0 := by omega
      have hps : preSwing s P (clockSample P dt period 0 (j + 1)).2
          = virtualOscillator
              (phaseTimeout (preClock s P (clockSample P dt period 0 (j + 1)).2)) dt := by
        unfold preSwing
        dsimp only
        rw [hI4, hI3]
        simp [hne]
      have hto : (if (preClock s P (clockSample P dt period 0 (j + 1)).2).lastPeriod > 1e-4 then
            clamp ((preClock s P (clockSample P dt period 0 (j + 1)).2).lastPeriod * 2)
              (f32 0.1) 1.0
          else 0.5) = (1 : ℚ) := by
        rw [q2, s1]; exact timeout_capped T hT1
      obtain ⟨c1, c2⟩ := phaseTimeout_cases (preClock s P (clockSample P dt period 0 (j + 1)).2)
      rw [hto] at c1 c2
      have htsc : (preClock s P (clockSample P dt period 0 (j + 1)).2).timeSinceClk
          = timerAfter dt ((j + 1) % period) := by
        rw [q5, hacc, h0]
      have hsle : (preClock s P (clockSample P dt period 0 (j + 1)).2).sinceLastEdge
          = (preClock s P (clockSample P dt period 0 (j + 1)).2).timeSinceClk := by
        rw [q6, q5, s6]
      have hnew : f32 (s.sinceLastEdge + dt) = timerAfter dt ((j + 1) % period) := by
        rw [s6, hacc, h0]
      have hstep : s.sinceLastEdge ≤ f32 (s.sinceLastEdge + dt) := by
        rw [s6, hacc, s7]; exact timerAfter_mono dt hdt (by omega)
      by_cases hle : f32 (s.sinceLastEdge + dt) ≤ 1
      · -- still within the timeout: the oscillator runs without wrapping
        obtain ⟨z1, z2, z3⟩ := s8 (le_trans hstep hle)
        have hno : phaseTimeout (preClock s P (clockSample P dt period 0 (j + 1)).2)
            = preClock s P (clockSample P dt period 0 (j + 1)).2 :=
          c2 (fun h => absurd h.2 (by rw [q6]; exact not_lt.mpr hle))
        have hk2 : j % period + 2 ≤ period - 1 := by
          by_contra hc
          have hk : j % period + 1 = period - 1 := by omega
          rw [hnew, h0, hk] at hle
          exact absurd hslow (not_lt.mpr hle)
        have hvt : f32 (s.virtTimer + dt) ≤ timerAfter dt (j % period + 2) := by
          show f32 (s.virtTimer + dt) ≤ f32 (timerAfter dt (j % period + 1) + dt)
          exact f32_mono (by linarith)
        have hvtT : f32 (s.virtTimer + dt) < vp := by
          refine lt_of_le_of_lt (le_trans hvt ?_) hTvp
          rw [hTN]; exact timerAfter_mono dt hdt (by omega)
        rw [hps, hno, virtualOscillator_run _ dt vp (by rw [q1, z1]) (by rw [q3, s2]) hvp
          (by rw [q4]; exact hvtT)]
        dsimp only
        rw [q1, q2, q3, q4, q8, q9, hsle, htsc, s1, s2, s3, s4, z1]
        refine ⟨rfl, rfl, rfl, rfl, rfl, rfl,
          fun _ => ⟨rfl, f32_nonneg (by linarith), ?_⟩, fun h => ?_⟩
        · rw [h0]; exact hvt
        · rw [← hnew] at h
          exact absurd h (not_lt.mpr hle)
      · -- past the timeout: the phase is lost and the timer zero
        have hgt : 1 < f32 (s.sinceLastEdge + dt) := not_le.mp hle
        cases hp : s.havePhase
        · have hold : 1 < s.sinceLastEdge := by
            by_contra hc
            have := (s8 (not_lt.mp hc)).1
            rw [hp] at this
            exact Bool.noConfusion this
          obtain ⟨-, z2⟩ := s9 hold
          have hno : phaseTimeout (preClock s P (clockSample P dt period 0 (j + 1)).2)
              = preClock s P (clockSample P dt period 0 (j + 1)).2 :=
            c2 (fun h => by rw [q1, hp] at h; exact Bool.noConfusion h.1)
          rw [hps, hno, virtualOscillator_off _ dt (by rw [q1, hp])]
          rw [q1, q2, q3, q4, q8, q9, hsle, htsc, s1, s2, s3, s4, hp, z2]
          refine ⟨rfl, rfl, rfl, rfl, rfl, rfl, fun h => ?_, fun _ => ⟨rfl, rfl⟩⟩
          rw [← hnew] at h
          exact absurd h (not_le.mpr hgt)
        · have hyes : phaseTimeout (preClock s P (clockSample P dt period 0 (j + 1)).2)
              = { preClock s P (clockSample P dt period 0 (j + 1)).2 with
                  havePhase := false, virtTimer := 0 } :=
            c1 ⟨by rw [q1, hp], by rw [q6]; exact hgt⟩
          rw [hps, hyes, virtualOscillator_off _ dt rfl]
          dsimp only
          rw [q2, q3, q8, q9, hsle, htsc, s1, s2, s3, s4]
          refine ⟨rfl, rfl, rfl, rfl, rfl, rfl, fun h => ?_, fun _ => ⟨rfl, rfl⟩⟩
          rw [← hnew] at h
          exact absurd h (not_le.mpr hgt)
  obtain ⟨m1, m2, m3, m4, m5, m6, m7, m8⟩ := hpre
  obtain ⟨w1, w2, w3, w4, w5, w6, w7, w8, -, w10, w11⟩ :=
    withClock_summary s P (clockSample P dt period 0 (j + 1)).2 hI1
  have hsch := swingScheduler_empty (preSwing s P (clockSample P dt period 0 (j + 1)).2) P
    (clockSample P dt period 0 (j + 1)).2.sampleTime m4 m3
  rw [hsch] at w1 w8 w10
  have hquiet : (process s P (clockSample P dt period 0 (j + 1)).2).clockNow = false := w1
  refine ⟨⟨by rw [w3, m1], by rw [w4, m2], by rw [w8, m3], by rw [w10, m4], w11,
    by rw [w7, w6, m5], by rw [w6, m6], ?_, ?_⟩, hquiet, ?_⟩
  · rw [w7, w2, w5]; exact m7
  · rw [w7, w2, w5]; exact m8
  · exact (idle_sample s P _ hI1 hI2 s5 hquiet).1

/-- A run of a slow divided clock keeps the steady state and fires no
step-advance. -/
theorem slow_run (P : Params) (T vp dt : ℚ) (period : Nat)
    (hTN : T = timerAfter dt period) (hr : ratioOf P < 1)
    (hvpe : f32 (T / ratioOf P) = vp) (hdt : 0 ≤ dt) (hslow : 1 < timerAfter dt (period - 1))
    (n : Nat) :
    ∀ (s : State) (j : Nat), SlowClock s T vp dt period j →
      SlowClock (run s (steadyTrain P dt period (j + 1) n)) T vp dt period (j + n) ∧
      tickCount s (steadyTrain P dt period (j + 1) n) = 0 := by
  induction n with
  | zero => intro s j hS; exact ⟨hS, by simp [tickCount, steadyTrain]⟩
  | succ n ih =>
    intro s j hS
    obtain ⟨h1, h2, -⟩ := slow_step s P T vp dt period j hTN hr hvpe hdt hslow hS
    obtain ⟨i1, i2⟩ := ih _ (j + 1) h1
    have hidx : j + 1 + n = j + (n + 1) := by omega
    have hP : (clockSample P dt period 0 (j + 1)).1 = P := rfl
    simp only [steadyTrain, run, tickCount, hP]
    rw [hidx] at i1
    refine ⟨i1, ?_⟩
    rw [h2, i2]
    rfl

/-- C30 (amended): a slow clock with division never ticks.  Steady external
clock with an edge every `period` samples of length `dt`, any divisor ratio
(below 1), and an edge timer that reads more than 1 s in the last sample before
an edge: the timer is the single-precision sum of the sample times, and the
hypothesis is on its reading `timerAfter dt (period - 1)` after `period - 1`
samples (which is `(period - 1) * dt` when the sample times add up without
rounding).  From the steady state in which the measured period
`T = timerAfter dt period` is recorded, the queue is empty and no tick is
deferred, over any number of further samples no step-advance fires, no base tick
is left in the queue, `virtTimer` stays below `virtPeriod`, which is the
single-precision quotient of `T` and the ratio, and in the sample before every
edge the phase timeout has cleared `havePhase` and zeroed `virtTimer`. -/
theorem slow_clock_never_ticks (s : State) (P : Params) (T vp dt : ℚ) (period j : Nat)
    (hTN : T = timerAfter dt period) (hr : ratioOf P < 1)
    (hvpe : f32 (T / ratioOf P) = vp) (hdt : 0 ≤ dt) (hslow : 1 < timerAfter dt (period - 1))
    (hS : SlowClock s T vp dt period j) (n : Nat) :
    tickCount s (steadyTrain P dt period (j + 1) n) = 0 ∧
    (run s (steadyTrain P dt period (j + 1) n)).queuedBaseTicks = 0 ∧
    (run s (steadyTrain P dt period (j + 1) n)).virtTimer < vp ∧
    (run s (steadyTrain P dt period (j + 1) n)).virtPeriod = f32 (T / ratioOf P) ∧
    ((j + n) % period + 1 = period →
      (run s (steadyTrain P dt period (j + 1) n)).havePhase = false ∧
      (run s (steadyTrain P dt period (j + 1) n)).virtTimer = 0) ∧
    SlowClock (run s (steadyTrain P dt period (j + 1) n)) T vp dt period (j + n) ∧
    (∀ M : Nat, GridExact dt M → period ≤ M →
      timerAfter dt (period - 1) = ((period - 1 : Nat) : ℚ) * dt ∧
      T = (period : ℚ) * dt) := by
  obtain ⟨hrun, hcnt⟩ := slow_run P T vp dt period hTN hr hvpe hdt hslow n s j hS
  have hr0 : (0 : ℚ) < ratioOf P := lt_of_lt_of_le (by norm_num) (ratioOf_ge P)
  have hN2 : 2 ≤ period := by
    by_contra hc
    have h0 : period - 1 = 0 := by omega
    rw [h0] at hslow
    exact absurd hslow (by simp [timerAfter])
  have hT1 : 1 < T := by
    rw [hTN]
    exact lt_of_lt_of_le hslow (timerAfter_mono dt hdt (by omega))
  have hTvp : T < vp := by
    rw [← hvpe]
    exact divided_period_longer T (ratioOf P) hT1 hr0 (ratioOf_divisor P hr)
  have hkeep := hrun
  obtain ⟨s1, s2, s3, -, -, s6, s7, s8, s9⟩ := hrun
  refine ⟨hcnt, s3, ?_, by rw [s2, hvpe], fun hlast => ?_, hkeep, fun M hx hM => ?_⟩
  · by_cases hle : (run s (steadyTrain P dt period (j + 1) n)).sinceLastEdge ≤ 1
    · obtain ⟨-, -, z3⟩ := s8 hle
      have hk : (j + n) % period + 1 ≤ period := Nat.mod_lt _ (by omega)
      have := timerAfter_mono dt hdt hk
      rw [← hTN] at this
      linarith
    · rw [(s9 (not_le.mp hle)).2]
      linarith
  · have hk : (j + n) % period = period - 1 := by omega
    have hsle : 1 < (run s (steadyTrain P dt period (j + 1) n)).sinceLastEdge := by
      rw [s6, s7, hk]; exact hslow
    exact s9 hsle
  · exact ⟨timerAfter_exact dt M hx (period - 1) (by omega),
      by rw [hTN]; exact timerAfter_exact dt M hx period hM⟩

/-- C21 counterexample: a gate-mode read of -1.  The step-advance fires a gate of
`trigLen` (0.010 s, the Trigger behaviour), whereas with the read clamped to
`[0, 1]`, which is 0 (Gate), it fires a gate of the step duration 0.100 s. -/
theorem negative_gate_mode_is_trigger :
    (process powerOn { defaultParams with gateMode := -1 } (edgeInputs (1 / 48000))).tick
      = some { wrapped := false, fired := some (1, 0.010) } ∧
    clamp (-1 : Int) 0 1 = 0 ∧
    (process powerOn { defaultParams with gateMode := clamp (-1) 0 1 }
      (edgeInputs (1 / 48000))).tick
      = some { wrapped := false, fired := some (1, 0.100) } := by
  decide!

/-- Instance of C26 at power-on with 16 Play steps, Forward: the step-advance
selects step 1, which is in Play mode, and fires its gate. -/
theorem mute_flag_redundant_witness :
    (advance powerOn defaultParams (idleInputs (1 / 48000)) 0 16 2).2.fired
      = some (relOf (tickNav powerOn defaultParams (idleInputs (1 / 48000)) 0 16).nextStep 0,
          gateLength defaultParams.gateMode
            (defaultParams.dur (tickNav powerOn defaultParams (idleInputs (1 / 48000)) 0 16).nextStep)
            2 powerOn.virtPeriod (idleInputs (1 / 48000)).sampleTime) :=
  ((mute_flag_redundant powerOn defaultParams (idleInputs (1 / 48000)) 0 16 2 (by decide)
    (by decide) (by decide) (by decide)).1 (by decide)).1

/-- Instance of C27: at power-on a clock edge fires step 1; the per-step pulse
has index 1, below the 16 channels emitted, and channel 1 is at 10 V. -/
theorem per_step_pulse_index_witness :
    (0 ≤ (1 : Int) ∧ (1 : Int) < windowSteps defaultParams ∧ (1 : Int) < 16) ∧
    (process powerOn defaultParams (edgeInputs (1 / 48000))).out.stepGates.length
      = (windowSteps defaultParams).toNat ∧
    (1 : Int).toNat < (process powerOn defaultParams (edgeInputs (1 / 48000))).out.stepGates.length ∧
    (process powerOn defaultParams (edgeInputs (1 / 48000))).out.stepGates.getD (1 : Int).toNat 0
      = 10 :=
  (per_step_pulse_index powerOn defaultParams (edgeInputs (1 / 48000))
    { wrapped := false, fired := some (1, 0.100) } 1 0.100 (by decide!) rfl).2

/-- C28 counterexample: ratio ×1, the navigator on step 7 (duration 50 ms, the
other steps 100 ms), a reset edge and a clock edge detected in the same sample.
The step-advance of that sample leaves the navigator on step 0, but the gate it
fired is the replayed step 7's: pulse index 7 and length 0.05 s, not step 0's
index 0 and length 0.1 s. -/
theorem replayed_gate_before_reset_move :
    (process atStep7 shortStepSeven { resetInputs (1 / 1000) with clkEdge := true }).state.step
      = 0 ∧
    (process atStep7 shortStepSeven { resetInputs (1 / 1000) with clkEdge := true }).tick
      = some { wrapped := false, fired := some (7, 0.05) } ∧
    shortStepSeven.dur 0 = 0.1 := by
  decide!

/-- Instance of C28: at power-on a clock edge moves the navigator from step 0 to
step 1 (no reset pending); the navigator is left on the selected step. -/
theorem output_ordering_witness :
    (process powerOn defaultParams (edgeInputs (1 / 48000))).state.step
      = (tickNav (swingScheduler (preSwing powerOn defaultParams (edgeInputs (1 / 48000)))
          defaultParams (edgeInputs (1 / 48000)).sampleTime).1 defaultParams
          (edgeInputs (1 / 48000)) (windowStart defaultParams)
          (windowSteps defaultParams)).nextStep ∧
    (process powerOn defaultParams (edgeInputs (1 / 48000))).state.step = 1 :=
  ⟨((output_ordering powerOn defaultParams (edgeInputs (1 / 48000)) _ _ _ (by decide!) rfl rfl
      rfl).2.2.2.1 (by decide!)).1, by decide!⟩

/-- Instance of C29: a four-slot window with slot 1 in Skip mode; the neighbour
lookup upwards from offset 0 and the Forward lookup return the same result. -/
theorem lookups_agree_witness :
    findNeighborPlayable (fun i => if i = 1 then 2 else 0) 0 4 0 1
      = findNextPlayable (fun i => if i = 1 then 2 else 0) 0 4 0 0 :=
  lookups_agree (fun i => if i = 1 then 2 else 0) 0 4 0 0 1 (by decide)

/-- C23 counterexample: (i) swing at its maximum `0.6f`, odd parity and an
oscillator period of 1 s: the delay is the single-precision product
`6710887 / 33554432`, above 0.2 of the period and different from
`(clamp(swing, 0, 0.6) / 3) * virtPeriod`.  (ii) The same in a run from power-on:
ratio ×2, swing `0.6f`, a clock edge every 8 samples of 125 ms (period 1 s,
oscillator period 0.5 s); after 11 samples the second step-advance is deferred
with a delay above 0.2 × 0.5 s.  (iii) With the parity counter at `2 ^ 31 - 1`
a fired step-advance leaves it at `-2 ^ 31`, not one higher. -/
theorem swing_delay_exceeds_fifth :
    (swingDelay oddParity fullSwing = 6710887 / 33554432 ∧
      ¬ swingDelay oddParity fullSwing ≤ 0.2 * 1 ∧
      swingDelay oddParity fullSwing ≠ clamp (f32 0.6) 0 0.6 / 3 * 1) ∧
    ((run powerOn (clockTrain fullSwing (1 / 8) 8 7 11)).virtPeriod = 1 / 2 ∧
      (run powerOn (clockTrain fullSwing (1 / 8) 8 7 11)).tickPending = true ∧
      (run powerOn (clockTrain fullSwing (1 / 8) 8 7 11)).pendingDelay = 6710887 / 67108864 ∧
      ¬ (run powerOn (clockTrain fullSwing (1 / 8) 8 7 11)).pendingDelay ≤ 0.2 * (1 / 2)) ∧
    ((swingScheduler parityAtMax defaultParams (1 / 8)).2 = true ∧
      (swingScheduler parityAtMax defaultParams (1 / 8)).1.swingPhase = -2 ^ 31) := by
  decide!

/-- C25 counterexample: (i) a transpose input of `13981013 / 67108864` V, the
binary32 value next below `5/24` V.  Twelve times that voltage is below 2.5 and
rounds to 2, but the single-precision product is exactly 2.5 and the transpose
read is 3 semitones.  (ii) A transpose input of `10 ^ 10` V, a binary32 value:
`clamp(round(12 * V), -48, 48)` is 48, the transpose read is -48.  (iii) Pitch
class 1, no transpose, octave 0: the target is the binary32 value of `1/12`,
not `1/12` V. -/
theorem transpose_rounds_in_single_precision :
    (f32 (13981013 / 67108864) = 13981013 / 67108864 ∧
      (13981013 / 67108864 : ℚ) * 12 < 5 / 2 ∧
      clamp (roundHalfAway (13981013 / 67108864 * 12)) (-48) 48 = 2 ∧
      f32 (13981013 / 67108864 * 12) = 5 / 2 ∧
      xposeSemis { idleInputs (1 / 48000) with xpose := some (13981013 / 67108864) } = 3) ∧
    (f32 (10 ^ 10) = 10 ^ 10 ∧
      clamp (roundHalfAway (10 ^ 10 * 12)) (-48) 48 = 48 ∧
      xposeSemis { idleInputs (1 / 48000) with xpose := some (10 ^ 10) } = -48) ∧
    (pitchTarget { defaultParams with pitch := fun _ => 1 } (idleInputs (1 / 48000)) 0
        = 11184811 / 134217728 ∧
      pitchTarget { defaultParams with pitch := fun _ => 1 } (idleInputs (1 / 48000)) 0
        ≠ (1 + 0) / 12 + 0) := by
  decide!

/-- C30 counterexample: divide by 2 (index 12).  (i) Sample time 0.375 s, a clock
edge every 3 samples, so `T = 1.125 s > 1 s`: the time since the last edge never
exceeds 0.75 s before the next edge resets it, the phase timeout never strikes
and the divided clock runs, a step-advance firing every 6 samples.  (ii) Sample
time the binary32 value of `1/3` s, a clock edge every 4 samples: the last
sample before an edge lies `3 * dt > 1 s` after the previous edge, but the edge
timer, a single-precision sum, reads exactly 1 there; the timeout does not
strike and a step-advance fires every 8 samples. -/
theorem slow_clock_still_ticks :
    tickTimes powerOn 0 (clockTrain { defaultParams with ratioIdx := 12 } (3 / 8) 3 2 26)
      = [7, 13, 19, 25] ∧
    (1 < 3 * f32 (1 / 3) ∧ f32 (1 / 3) < 1 / 2 ∧ timerAfter (f32 (1 / 3)) 3 = 1 ∧
      tickTimes powerOn 0 (clockTrain { defaultParams with ratioIdx := 12 } (f32 (1 / 3)) 4 3 28)
        = [11, 19, 27]) := by
  decide!

/-- Instance of C30: divide by 2, sample time 0.375 s, a clock edge every 5
samples (`T = 1.875 s`, the timer reads 1.5 s in the sample before an edge),
from the state reached from power-on at the second edge: no step-advance in the
next 40 samples (8 clock periods). -/
theorem slow_clock_never_ticks_witness :
    tickCount (run powerOn (clockTrain { defaultParams with ratioIdx := 12 } (3 / 8) 5 4 10))
      (steadyTrain { defaultParams with ratioIdx := 12 } (3 / 8) 5 (0 + 1) 40) = 0 :=
  (slow_clock_never_ticks
    (run powerOn (clockTrain { defaultParams with ratioIdx := 12 } (3 / 8) 5 4 10))
    { defaultParams with ratioIdx := 12 } (15 / 8) (15 / 4) (3 / 8) 5 0 (by decide!) (by decide!)
    (by decide!) (by norm_num) (by decide!) (by decide!) 40).1

end UZZ
